import Mathlib

/-!
# esh interpreter: object table, values, interpreter loop and expression compiler

A shallow embedding of `src/esh_object.c`, of the value, string, integer, object-literal and
iterator functions, the call and return functions and the interpreter loop of `src/esh.c`,
and of the expression compiler of `src/esh_c.c`, followed by the properties proved about
them.

Conventions of the embedding
* `size_t`, `uintptr_t` and `long long` are 64 bits wide, `char` is signed and the machine is
  little endian (x86-64 System V; `BIG_ENDIAN` is not defined).  Unsigned arithmetic is `Nat`
  arithmetic reduced modulo `2 ^ 64`; signed arithmetic is `Int` arithmetic, and a signed
  result that leaves the `long long` range wraps around (`wrap64`).
* A byte is a `Nat` below 256; a byte string (pointer plus length) is a `List Nat`.
* `esh_val` is the pointer word itself: `0` is `ESH_NULL`, an odd word is an inline short
  string, an even non-zero word is the address of a heap object.  The heap is a map from
  addresses to objects.
* An array with its length (`entries`/`cap`, the value stack/`stack_len`, the instruction
  buffer) is a list.
* The allocator is an input: a Boolean (memory or NULL) where only success matters, the
  returned address where the block is used.  `esh_alloc` is the call of the `realloc`
  callback; the garbage-collection step it may trigger, the list links and the colour tag of
  the object header do not influence the result of these functions and are left out of them.
  The collector, and the allocation functions together with its steps, have sections of
  their own.  In the
  interpreter loop these answers, the native functions and the `next` hooks are collected in
  a record `world`, one for every pass of the loop.
* An assertion failure (or the NULL dereference that replaces it under `NDEBUG`) is the
  `none` of an `Option` result.
* `esh_err_printf` stores its message; the numbers it formats into some messages are left
  out of the text.
* A loop or a recursion whose end is not a bound known beforehand (the interpreter loop, the
  recursive descent of the compiler) runs on fuel, and a result is stated for every
  sufficient amount of fuel.
* The expression compiler is embedded from the token stream on; the lexer, the scopes and
  the statement compiler have sections of their own.
-/

namespace Esh

/-! ## Object table (`esh_object.c`) -/

/-- The pointer word `void *`. -/
abbrev esh_val := Nat

/-- The null value `ESH_NULL`. -/
abbrev ESH_NULL : esh_val := 0

/-- Width mask of `size_t`. -/
abbrev SIZE_MOD : Nat := 2 ^ 64

/-- One slot of the table: `key == NULL` is `none`, otherwise the owned copy of
the key bytes (`keylen` is the length of that list). -/
structure esh_object_entry where
  key : Option (List Nat)
  val : esh_val
  deleted : Bool
  deriving DecidableEq, Repr

/-- The table part of `struct esh_object`: `entries` is the array of `cap`
slots, so `cap` is the length of the list. -/
structure esh_object where
  is_const : Bool
  len : Nat
  entries : List esh_object_entry
  deriving DecidableEq, Repr

/-- The field `cap`. -/
def esh_object.cap (obj : esh_object) : Nat := obj.entries.length

/-- Conversion of a (signed) `char` holding byte `c` to `size_t`. -/
def char_to_size_t (c : Nat) : Nat :=
  if c < 128 then c else (SIZE_MOD - 256 + c) % SIZE_MOD

/-- The loop body of `strhash`, folded over the bytes of the key. -/
def strhash_from : Nat → List Nat → Nat
  | hash, [] => hash
  | hash, c :: rest =>
    let h1 := (hash * 76934959338) % SIZE_MOD
    let h2 := (h1 + char_to_size_t c) % SIZE_MOD
    let h3 := Nat.xor h2 ((char_to_size_t c * 2525329532587438) % SIZE_MOD)
    strhash_from h3 rest

/-- The hash `strhash(str, len)`. -/
def strhash (key : List Nat) : Nat := strhash_from 0 key

/-- The test of `object_find` on one entry:
`entry.key == NULL || (entry.keylen == keylen && memcmp(entry.key, key, keylen) == 0)`. -/
def key_hit (e : esh_object_entry) (key : List Nat) : Bool :=
  match e.key with
  | none => true
  | some k => decide (k = key)

/-- The test of `object_find` on slot `i` of the array. -/
def slot_hit (entries : List esh_object_entry) (key : List Nat) (i : Nat) : Bool :=
  match entries[i]? with
  | none => false
  | some e => key_hit e key

/-- The loop `for(i = lo; i < lo + n; i++) if(hit(i)) return i;`. -/
def scan (hit : Nat → Bool) : Nat → Nat → Option Nat
  | _, 0 => none
  | lo, n + 1 => if hit lo then some lo else scan hit (lo + 1) n

/-- The two probe loops of `object_find` started at `index`. -/
def probe (hit : Nat → Bool) (cap index : Nat) : Option Nat :=
  match scan hit index (cap - index) with
  | some i => some i
  | none => scan hit 0 index

/-- The function `object_find`: the index of the slot returned, `none` for
NULL.  Its `assert(cap != 0)` is checked by the callers that can reach it
with an empty table. -/
def object_find (entries : List esh_object_entry) (key : List Nat) : Option Nat :=
  probe (slot_hit entries key) entries.length (strhash key % entries.length)

/-- An entry read at an index known to be in range. -/
def entry_at (entries : List esh_object_entry) (i : Nat) : esh_object_entry :=
  entries.getD i ⟨none, 0, false⟩

/-- The function `esh_object_get`: outer `none` is the failed assertion of
`object_find`, `some none` a miss, `some (some v)` a hit. -/
def esh_object_get (obj : esh_object) (key : List Nat) : Option (Option esh_val) :=
  if obj.len = 0 then some none
  else if obj.cap = 0 then none
  else
    match object_find obj.entries key with
    | none => some none
    | some i =>
      let entry := entry_at obj.entries i
      if entry.key = none ∨ entry.deleted = true then some none
      else some (some entry.val)

/-- The function `esh_object_delete_entry`: the returned flag and the object
afterwards. -/
def esh_object_delete_entry (obj : esh_object) (key : List Nat) : Bool × esh_object :=
  if obj.cap = 0 then (false, obj)
  else
    match object_find obj.entries key with
    | none => (false, obj)
    | some i =>
      let entry := entry_at obj.entries i
      if entry.key ≠ none ∧ entry.deleted = false then
        (true, { obj with
          entries := obj.entries.set i { entry with deleted := true },
          len := obj.len - 1 })
      else (false, obj)

/-- The macro `GROW_FACTOR`. -/
def GROW_FACTOR (x : Nat) : Nat := x * 2 + 1

/-- The macro `GROW_THRESHOLD`. -/
def GROW_THRESHOLD (x : Nat) : Nat := x / 3 * 2

/-- The fresh array of `esh_object_set`: every key NULL, nothing deleted. -/
def new_entries (new_cap : Nat) : List esh_object_entry :=
  List.replicate new_cap ⟨none, 0, false⟩

/-- The rehash loop of `esh_object_set` over the old slots: empty slots and
tombstones are skipped, a live entry is copied to the slot `object_find`
returns in the new array.  `none` is the dereference of a NULL result. -/
def rehash : List esh_object_entry → List esh_object_entry → Option (List esh_object_entry)
  | [], fresh => some fresh
  | entry :: rest, fresh =>
    match entry.key with
    | none => rehash rest fresh
    | some k =>
      if entry.deleted then rehash rest fresh
      else
        match object_find fresh k with
        | none => none
        | some i => rehash rest (fresh.set i entry)

/-- What a call of `esh_object_set` leaves behind: the return code, the message
given to `esh_err_printf` (if any) and the object. -/
structure set_result where
  ret : Nat
  err : Option String
  obj : esh_object
  deriving DecidableEq, Repr

/-- The part of `esh_object_set` after the grow check. -/
def set_slot (alloc_key : Bool) (obj : esh_object) (key : List Nat) (val : esh_val) :
    Option set_result :=
  if ¬ obj.len < obj.cap then none
  else
    match object_find obj.entries key with
    | none => none
    | some i =>
      let entry := entry_at obj.entries i
      if entry.key ≠ none then
        some ⟨0, none, { obj with
          entries := obj.entries.set i { entry with val := val, deleted := false },
          len := if entry.deleted then obj.len + 1 else obj.len }⟩
      else if alloc_key = false then some ⟨1, none, obj⟩
      else
        some ⟨0, none, { obj with
          entries := obj.entries.set i { entry with key := some key, val := val },
          len := obj.len + 1 }⟩

/-- The function `esh_object_set`.  `alloc_entries` and `alloc_key` say whether
the two `esh_alloc` calls (new array, key copy) return memory; outer `none` is
a failed assertion. -/
def esh_object_set (alloc_entries alloc_key : Bool) (obj : esh_object) (key : List Nat)
    (val : esh_val) : Option set_result :=
  if obj.is_const then some ⟨1, some "Attempting to mutate constant object", obj⟩
  else if val = ESH_NULL then some ⟨0, none, (esh_object_delete_entry obj key).2⟩
  else if obj.len ≥ GROW_THRESHOLD obj.cap then
    if alloc_entries = false then some ⟨1, none, obj⟩
    else
      match rehash obj.entries (new_entries (GROW_FACTOR obj.cap)) with
      | none => none
      | some grown => set_slot alloc_key { obj with entries := grown } key val
  else set_slot alloc_key obj key val

/-- The function `esh_object_init_entries`. -/
def esh_object_init_entries : esh_object := ⟨false, 0, []⟩

/-- Slot `m` is visited strictly before slot `i` by a probe started at `h`. -/
def before (cap h i m : Nat) : Prop :=
  (h ≤ i ∧ h ≤ m ∧ m < i) ∨ (i < h ∧ ((h ≤ m ∧ m < cap) ∨ m < i))

/-! ## Representation invariant of the table -/

/-- A slot that holds a key and is not a tombstone. -/
def is_live (e : esh_object_entry) : Bool := e.key.isSome && !e.deleted

/-- Number of live entries of the array. -/
def live_count (entries : List esh_object_entry) : Nat := entries.countP is_live

/-- Slot `i` is consistent: an occupied slot is the one `object_find` returns
for its own key, a never-used slot is not marked deleted. -/
def slot_ok (entries : List esh_object_entry) (i : Nat) : Bool :=
  match entries[i]? with
  | none => true
  | some e =>
    match e.key with
    | some k => object_find entries k == some i
    | none => !e.deleted

/-- Every slot of the array is consistent. -/
def slots_ok (entries : List esh_object_entry) : Prop :=
  ∀ i, i < entries.length → slot_ok entries i = true

/-- The representation invariant of an object's table: `len` counts the live
entries and every slot is consistent. -/
def wf (obj : esh_object) : Prop :=
  obj.len = live_count obj.entries ∧ slots_ok obj.entries

/-- Some slot holds key `k` with value `v` and is not a tombstone. -/
def live_at (entries : List esh_object_entry) (k : List Nat) (v : esh_val) : Prop :=
  ∃ i : Nat, entries[i]? = some (esh_object_entry.mk (some k) v false)

instance (entries : List esh_object_entry) : Decidable (slots_ok entries) := by
  unfold slots_ok; infer_instance

instance (obj : esh_object) : Decidable (wf obj) := by
  unfold wf; infer_instance

/-- The tables the code can build: the empty table of `esh_object_init_entries`, and what
`esh_object_set`, `esh_object_delete_entry` and setting `is_const` make of such a table. -/
inductive reachable : esh_object → Prop
  | init : reachable esh_object_init_entries
  | set (obj : esh_object) (ae ak : Bool) (k : List Nat) (v : esh_val) (r : set_result) :
      reachable obj → esh_object_set ae ak obj k v = some r → reachable r.obj
  | delete (obj : esh_object) (k : List Nat) :
      reachable obj → reachable (esh_object_delete_entry obj k).2
  | make_const (obj : esh_object) :
      reachable obj → reachable { obj with is_const := true }

/-! ## Values, strings and integers (`esh.c`) -/

/-- The addresses of the type descriptors an object header can point to. -/
inductive esh_type_ptr where
  | string_type
  | function_type
  | closure_type
  | env_type
  | co_thread_type
  | host (addr : Nat)
  deriving DecidableEq, Repr

/-- A heap object: the header fields `type` (NULL is `none`) and table, and, for an
`esh_string`, the field `len` and the character array `str`. -/
structure heap_object where
  type : Option esh_type_ptr
  obj : esh_object
  str_len : Nat
  str : List Nat
  deriving DecidableEq, Repr

/-- The part of `esh_state` and of its current thread that the embedded functions use:
the first `stack_len` slots of the value stack (top last), `stack_cap`, the base of the
current frame, the heap by address, and the last message of `esh_err_printf`. -/
structure esh_state where
  stack : List esh_val
  stack_cap : Nat
  stack_base : Nat
  heap : Nat → Option heap_object
  err : Option String

/-- The field `stack_len`. -/
def esh_state.stack_len (esh : esh_state) : Nat := esh.stack.length

/-- The function `esh_err_printf` with an already formatted message. -/
def esh_err_printf (esh : esh_state) (msg : String) : esh_state :=
  { esh with err := some msg }

/-- The store `heap[p] = o`. -/
def heap_store (heap : Nat → Option heap_object) (p : Nat) (o : heap_object) :
    Nat → Option heap_object :=
  fun a => if a = p then some o else heap a

/-- The eight bytes of a pointer word in memory order (little endian). -/
def bytes_of_word (w : Nat) : List Nat :=
  [w % 256, w / 256 % 256, w / 65536 % 256, w / 16777216 % 256, w / 4294967296 % 256,
    w / 1099511627776 % 256, w / 281474976710656 % 256, w / 72057594037927936 % 256]

/-- The word whose bytes in memory order are the given ones. -/
def word_of_bytes : List Nat → Nat
  | [] => 0
  | b :: rest => b + 256 * word_of_bytes rest

/-- The call `memcpy(mem + off, src, len)` on a byte array. -/
def memcpy_at (mem : List Nat) : Nat → List Nat → List Nat
  | _, [] => mem
  | off, b :: rest => memcpy_at (mem.set off b) (off + 1) rest

/-- The call `strlen(s)` on the bytes that start at `s`. -/
def c_strlen : List Nat → Nat
  | [] => 0
  | c :: rest => if c = 0 then 0 else c_strlen rest + 1

/-- The function `stack_size`. -/
def stack_size (esh : esh_state) : Nat := esh.stack_len - esh.stack_base

/-- The function `stack_push`. -/
def stack_push (esh : esh_state) (val : esh_val) : Nat × esh_state :=
  if esh.stack_len = esh.stack_cap then (1, esh_err_printf esh "Stack overflow")
  else (0, { esh with stack := esh.stack ++ [val] })

/-- The function `esh_pop`. -/
def esh_pop (esh : esh_state) (n : Nat) : esh_state :=
  if esh.stack_len ≥ esh.stack_base + n then
    { esh with stack := esh.stack.take (esh.stack_len - n) }
  else { esh with stack := esh.stack.take esh.stack_base }

/-- The function `stack_offset`: the index on success, `none` with the message set on
failure.  `items_in_frame` is the unsigned difference `stack_len - stack_base`. -/
def stack_offset (esh : esh_state) (offset : Int) : Option Nat × esh_state :=
  let items_in_frame :=
    if esh.stack_base ≤ esh.stack_len then esh.stack_len - esh.stack_base
    else esh.stack_len + SIZE_MOD - esh.stack_base
  if offset < 0 then
    if (-offset).toNat > items_in_frame then
      (none, esh_err_printf esh "Invalid stack offset")
    else (some (esh.stack_len - (-offset).toNat), esh)
  else
    if offset.toNat ≥ items_in_frame then
      (none, esh_err_printf esh "Invalid stack offset")
    else (some (esh.stack_base + offset.toNat), esh)

/-- The stack slot `stack[index]` for an index in range. -/
def stack_at (esh : esh_state) (index : Nat) : esh_val := esh.stack.getD index ESH_NULL

/-- The function `val_as_object`: the object a value points to, `none` for NULL.  A word
that is not the address of a heap object is not an object. -/
def val_as_object (heap : Nat → Option heap_object) (val : esh_val)
    (type : Option esh_type_ptr) : Option heap_object :=
  if val = ESH_NULL then none
  else if val % 2 = 1 then none
  else
    match heap val with
    | none => none
    | some obj => if type ≠ none ∧ obj.type ≠ type then none else some obj

/-- The function `val_as_string`: the bytes that start at the returned pointer and the
length written to `opt_out_len`; `none` for NULL.  For an inline string the pointer is the
second byte of the value word itself. -/
def val_as_string (heap : Nat → Option heap_object) (val : esh_val) :
    Option (List Nat × Nat) :=
  if val % 2 = 1 then
    let s := (bytes_of_word val).drop 1
    some (s, c_strlen s)
  else
    match val_as_object heap val (some esh_type_ptr.string_type) with
    | none => none
    | some str => some (str.str, str.str_len)

/-- The function `esh_as_string`. -/
def esh_as_string (esh : esh_state) (offset : Int) : Option (List Nat × Nat) × esh_state :=
  match stack_offset esh offset with
  | (none, esh1) => (none, esh1)
  | (some index, _) =>
    match val_as_string esh.heap (stack_at esh index) with
    | none => (none, esh_err_printf esh "Unable to implicitly convert object to string")
    | some str => (some str, esh)

/-- Wrap-around of a `long long` result to the two's-complement range. -/
def wrap64 (i : Int) : Int :=
  (i + 9223372036854775808) % 18446744073709551616 - 9223372036854775808

/-- The digit loop of `val_as_int` over the bytes at `str`, with `*out_int` as accumulator. -/
def parse_digits : List Nat → Int → Int
  | [], acc => acc
  | c :: rest, acc =>
    if 48 ≤ c ∧ c ≤ 57 then
      parse_digits rest (wrap64 (wrap64 (acc * 10) + ((c : Int) - 48)))
    else acc

/-- The function `val_as_int`: `none` is the return code 1, `some i` the return code 0 with
`*out_int = i`. -/
def val_as_int (heap : Nat → Option heap_object) (val : esh_val) : Option Int :=
  match val_as_string heap val with
  | none => none
  | some (str, _) =>
    let negative := decide (str.head? = some 45)
    let str1 := if negative then str.drop 1 else str
    let out_int := parse_digits str1 0
    some (if negative then wrap64 (out_int * -1) else out_int)

/-- The function `esh_as_int`. -/
def esh_as_int (esh : esh_state) (offset : Int) : Option Int × esh_state :=
  match stack_offset esh offset with
  | (none, esh1) => (none, esh1)
  | (some index, _) =>
    match val_as_int esh.heap (stack_at esh index) with
    | none => (none, esh_err_printf esh "Unable to implicitly convert value to integer")
    | some i => (some i, esh)

/-- The conversion of an `int` result to the `char` stored in the buffer. -/
def char_of_int (i : Int) : Nat := (i % 256).toNat

/-- The digit loop of `int_to_str`: `fuel` is `MAX_DIGITS - l`, `acc` the bytes from `s`
to the end of the buffer. -/
def int_to_str_loop : Nat → Int → List Nat → List Nat
  | 0, _, acc => acc
  | fuel + 1, i, acc =>
    if i = 0 then acc
    else int_to_str_loop fuel (i.tdiv 10) (char_of_int (48 + i.tmod 10) :: acc)

/-- The function `int_to_str`: the `*out_len` bytes at the returned pointer. -/
def int_to_str (i : Int) : List Nat :=
  if i = 0 then [48]
  else
    let negative := decide (i < 0)
    let i1 := if negative then wrap64 (-i) else i
    let digits := int_to_str_loop 20 i1 []
    if negative then 45 :: digits else digits

/-- The function `alloc_object`; `p` is the pointer `esh_alloc` returns (0 for NULL). -/
def alloc_object (p : Nat) (esh : esh_state) (type : Option esh_type_ptr) :
    Option heap_object × esh_state :=
  if p = 0 then
    let esh1 := esh_err_printf esh "Unable to create object (ouf of memory?)"
    (none, { esh1 with stack := esh1.stack.take (esh1.stack_len - 1) })
  else
    let obj : heap_object := ⟨type, esh_object_init_entries, 0, []⟩
    (some obj, { esh with heap := heap_store esh.heap p obj })

/-- The function `esh_new_object`: the new object (at address `p`) or `none` for NULL. -/
def esh_new_object (p : Nat) (esh : esh_state) (type : Option esh_type_ptr) :
    Option heap_object × esh_state :=
  match stack_push esh ESH_NULL with
  | (0, esh1) =>
    match alloc_object p esh1 type with
    | (none, esh2) => (none, esh2)
    | (some obj, esh2) =>
      (some obj, { esh2 with stack := esh2.stack.set (esh2.stack_len - 1) p })
  | (_, esh1) => (none, esh1)

/-- The function `esh_new_string`; `p` is the pointer the allocator returns if the heap
representation is chosen. -/
def esh_new_string (p : Nat) (esh : esh_state) (str : List Nat) : Nat × esh_state :=
  let len := str.length
  if len < 8 - 2 then
    let short_str := bytes_of_word 1
    let s := (memcpy_at short_str 1 str).set (1 + len) 0
    stack_push esh (word_of_bytes s)
  else
    match esh_new_object p esh (some esh_type_ptr.string_type) with
    | (none, esh1) => (1, esh1)
    | (some obj, esh1) =>
      let chars := (memcpy_at (List.replicate (len + 1) 0) 0 str).set len 0
      let string : heap_object :=
        { obj with obj := { obj.obj with is_const := true }, str_len := len, str := chars }
      (0, { esh1 with heap := heap_store esh1.heap p string })

/-- The function `esh_push_int`. -/
def esh_push_int (p : Nat) (esh : esh_state) (i : Int) : Nat × esh_state :=
  esh_new_string p esh (int_to_str i)

/-! ### The decimal reading named by the specification -/

/-- A decimal digit `'0'..'9'`. -/
def is_digit (c : Nat) : Bool := decide (48 ≤ c) && decide (c ≤ 57)

/-- The number a string of decimal digits denotes (0 for the empty string). -/
def decimal_value (ds : List Nat) : Nat := ds.foldl (fun a c => 10 * a + (c - 48)) 0

/-- The integer denoted by the longest prefix of `s` of the form optional `'-'` followed by
decimal digits, 0 when there are no digits (the reading the specification gives for
`read_int`). -/
def denoted_int (s : List Nat) : Int :=
  if s.head? = some 45 then - (decimal_value ((s.drop 1).takeWhile is_digit) : Int)
  else (decimal_value (s.takeWhile is_digit) : Int)

/-! ## Object literals and iteration (`esh.c`) -/

/-- The loop of `esh_object_of` from iteration `i` on (`fuel` is `n - i`); `p` is the
address of the new object and `alloc i` the answers of the allocator during iteration `i`.
The result is `none` for a failed assertion, otherwise the return code (0 when the loop ran
to its end) and the state. -/
def object_of_loop (alloc : Nat → Bool × Bool) (p n : Nat) :
    Nat → Nat → esh_state → Option (Nat × esh_state)
  | 0, _, esh => some (0, esh)
  | fuel + 1, i, esh =>
    let index := esh.stack_len - (n - i) * 2 - 1
    match val_as_string esh.heap (stack_at esh index) with
    | none => some (1, esh_err_printf esh "Key value is not string")
    | some (key, keylen) =>
      let val := stack_at esh (index + 1)
      match esh.heap p with
      | none => none
      | some obj =>
        match esh_object_set (alloc i).1 (alloc i).2 obj.obj (key.take keylen) val with
        | none => none
        | some r =>
          let esh1 : esh_state :=
            { esh with
              heap := heap_store esh.heap p { obj with obj := r.obj },
              err := if r.err.isSome then r.err else esh.err }
          if r.ret ≠ 0 then
            some (1, esh_err_printf esh1
              "Unable to add entry to object literal (out of memory?)")
          else object_of_loop alloc p n fuel (i + 1) esh1

/-- The end of `esh_object_of`: after a loop that ran to its end the `2 n` slots of the
pairs are dropped and the object, which lies on top, is stored in the slot that is now on
top; an error return or a failed assertion of the loop is passed on. -/
def object_of_finish (n : Nat) : Option (Nat × esh_state) → Option (Nat × esh_state)
  | none => none
  | some (0, esh2) =>
    let obj_val := stack_at esh2 (esh2.stack_len - 1)
    let stack1 := esh2.stack.take (esh2.stack_len - n * 2)
    some (0, { esh2 with stack := stack1.set (stack1.length - 1) obj_val })
  | some (code, esh2) => some (code, esh2)

/-- The function `esh_object_of`; `p` is the pointer the allocator returns for the new
object (0 for NULL).  `none` is a failed assertion. -/
def esh_object_of (alloc : Nat → Bool × Bool) (p : Nat) (esh : esh_state) (n : Nat) :
    Option (Nat × esh_state) :=
  if esh.stack_len < esh.stack_base then none
  else if stack_size esh < n * 2 then
    some (1, esh_err_printf esh "Not enough items on stack for object creation")
  else
    match esh_new_object p esh none with
    | (none, esh1) => some (1, esh1)
    | (some _, esh1) => object_of_finish n (object_of_loop alloc p n n 0 esh1)

/-- The successive table writes of the loop of `esh_object_of`, on the object alone. -/
def set_pairs (alloc : Nat → Bool × Bool) :
    Nat → esh_object → List (List Nat × esh_val) → Option (Nat × esh_object)
  | _, obj, [] => some (0, obj)
  | i, obj, (k, v) :: rest =>
    match esh_object_set (alloc i).1 (alloc i).2 obj k v with
    | none => none
    | some r => if r.ret ≠ 0 then some (1, r.obj) else set_pairs alloc (i + 1) r.obj rest

/-- The value of the last pair with key `k` in a list of key/value pairs. -/
def last_value : List (List Nat × esh_val) → List Nat → Option esh_val
  | [], _ => none
  | (k0, v0) :: rest, k =>
    match last_value rest k with
    | some v => some v
    | none => if k0 = k then some v0 else none

/-- What an object built from the pairs holds for key `k`: the value of the last pair with
that key, unless there is none or it is NULL. -/
def literal_entry (pairs : List (List Nat × esh_val)) (k : List Nat) : Option esh_val :=
  match last_value pairs k with
  | none => none
  | some v => if v = ESH_NULL then none else some v

/-- The key/value slots of `n` pairs as they lie on the stack, lowest pair first. -/
def flat_pairs : List (esh_val × esh_val) → List esh_val
  | [] => []
  | (k, v) :: rest => k :: v :: flat_pairs rest

/-- The keys and values of the pairs as `esh_object_of` reads them: each key through
`val_as_string` (`none` if some key is not a string). -/
def read_pairs (heap : Nat → Option heap_object) :
    List (esh_val × esh_val) → Option (List (List Nat × esh_val))
  | [] => some []
  | (k, v) :: rest =>
    match val_as_string heap k, read_pairs heap rest with
    | some (mem, len), some kvs => some ((mem.take len, v) :: kvs)
    | _, _ => none

/-- The cursor `esh_iterator`. -/
structure esh_iterator where
  done : Bool
  step : Int
  index : Nat
  deriving DecidableEq, Repr

/-- The function `esh_iter_begin`. -/
def esh_iter_begin : esh_iterator := ⟨false, -1, 0⟩

/-- The function `esh_iter_next`: return code, state and cursor afterwards; `p` is the
pointer the allocator returns if the key needs a heap string.  The `while` loop over the
slots from `iter->index` is `scan` with the test `key != NULL && !deleted`. -/
def esh_iter_next (p : Nat) (esh : esh_state) (offset : Int) (iter : esh_iterator) :
    Nat × esh_state × esh_iterator :=
  if iter.done then
    (1, esh_err_printf esh "Attempting to iterate past end of object", iter)
  else
    let iter1 := { iter with step := iter.step + 1 }
    match stack_offset esh offset with
    | (none, esh1) => (1, esh1, iter1)
    | (some index, _) =>
      match val_as_object esh.heap (stack_at esh index) none with
      | none => (0, esh, { iter1 with done := true })
      | some obj =>
        match scan (fun i => is_live (entry_at obj.obj.entries i)) iter1.index
            (obj.obj.cap - iter1.index) with
        | some i =>
          let entry := entry_at obj.obj.entries i
          match esh_new_string p esh (entry.key.getD []) with
          | (0, esh1) =>
            match stack_push esh1 entry.val with
            | (0, esh2) => (0, esh2, { iter1 with index := i + 1 })
            | (_, esh2) => (1, esh2, { iter1 with index := i })
          | (_, esh1) => (1, esh1, { iter1 with index := i })
        | none =>
          (0, esh, { iter1 with index := max iter1.index obj.obj.cap, done := true })

/-- The loop of a caller that walks an object (as `union_fn` or `val_to_json` do): call
`esh_iter_next`, stop when the cursor is done, otherwise read the key at offset `-2` with
`esh_as_string` and the value on top, pop both and go on.  The result is the list of pairs
read, with the final state and cursor; `none` when a call fails or `fuel` runs out.
`alloc n` is the pointer the allocator returns during call `n`. -/
def iterate (alloc : Nat → Nat) (offset : Int) :
    Nat → Nat → esh_state → esh_iterator → List (List Nat × esh_val) →
      Option (List (List Nat × esh_val) × esh_state × esh_iterator)
  | 0, _, _, _, _ => none
  | fuel + 1, n, esh, iter, acc =>
    match esh_iter_next (alloc n) esh offset iter with
    | (0, esh1, iter1) =>
      if iter1.done then some (acc, esh1, iter1)
      else
        match esh_as_string esh1 (-2) with
        | (some (mem, len), _) =>
          iterate alloc offset fuel (n + 1) (esh_pop esh1 2) iter1
            (acc ++ [(mem.take len, stack_at esh1 (esh1.stack_len - 1))])
        | (none, _) => none
    | (_, _, _) => none

/-- The bytes that `esh_as_string` reports for the value `esh_new_string` pushes for `s`:
all of `s` for a heap string, `s` up to its first NUL for an inline string. -/
def string_read_back (s : List Nat) : List Nat :=
  if s.length < 6 then s.take (c_strlen s) else s

/-! ## Sample inputs -/

/-- The table reached from the empty object by setting key `[1]` to 5 and key `[2]` to 6: three
slots, two of them live, so the next insertion of a new key grows the table. -/
def two_entry_object : esh_object :=
  ⟨false, 2, [⟨none, 0, false⟩, ⟨some [2], 6, false⟩, ⟨some [1], 5, false⟩]⟩

/-- A state with an empty stack of capacity 64 and an empty heap, as `esh_open` leaves the
value stack. -/
def empty_state : esh_state := ⟨[], 64, 0, fun _ => none, none⟩

/-- A heap holding the string `"-42abc"` at address 16. -/
def sample_string_heap : Nat → Option heap_object :=
  heap_store (fun _ => none) 16
    ⟨some esh_type_ptr.string_type, ⟨true, 0, []⟩, 6, [45, 52, 50, 97, 98, 99, 0]⟩

/-- A stack holding the one pair `"a"`, NULL (the key as inline string), with room for more
and an empty heap. -/
def null_pair_state : esh_state := ⟨[24833, 0], 64, 0, fun _ => none, none⟩

/-- A stack holding, above one other slot, the pairs `"a", 3`, `"b", 4`, `"a", 9` (keys as
inline strings), with room for more and an empty heap. -/
def three_pair_state : esh_state :=
  ⟨[5, 24833, 3, 25089, 4, 24833, 9], 64, 1, fun _ => none, none⟩

/-- A state whose stack holds the address 32 of a heap object with the table
`two_entry_object`, with room for more. -/
def object_state : esh_state :=
  ⟨[32], 64, 0, heap_store (fun _ => none) 32 ⟨none, two_entry_object, 0, []⟩, none⟩

/-! ## Operand stack, arithmetic and unpacking (`esh.c`) -/

/-- The function `opt_req_stack`: the return code, `none` for its failed assertion
`stack_len >= stack_base`. -/
def opt_req_stack (esh : esh_state) (n : Nat) : Option Nat :=
  if esh.stack_len < esh.stack_base then none
  else if esh.stack_len - esh.stack_base < n then some 1
  else some 0

/-- The function `esh_req_stack`; `ok` says whether the `realloc` of the stack returns
memory.  The difference `stack_cap - stack_len` is unsigned. -/
def esh_req_stack (ok : Bool) (esh : esh_state) (n : Nat) : Nat × esh_state :=
  let free :=
    if esh.stack_len ≤ esh.stack_cap then esh.stack_cap - esh.stack_len
    else esh.stack_cap + SIZE_MOD - esh.stack_len
  if free < n then
    let new_cap := esh.stack_cap * 3 / 2 + n
    if ok = false then (1, esh_err_printf esh "Unable to grow stack (out of memory?)")
    else (0, { esh with stack_cap := new_cap })
  else (0, esh)

/-- The function `stack_resv`: `n` NULL slots are appended. -/
def stack_resv (ok : Bool) (esh : esh_state) (n : Nat) : Nat × esh_state :=
  match esh_req_stack ok esh n with
  | (0, esh1) => (0, { esh1 with stack := esh1.stack ++ List.replicate n ESH_NULL })
  | (_, esh1) => (1, esh1)

/-- The function `stack_pop`: the value returned (the lowest of the `n` popped slots) and
the state; `none` is the failed assertion `stack_len > stack_base` or a `stack_len` that
would drop below zero. -/
def stack_pop (esh : esh_state) (n : Nat) : Option (esh_val × esh_state) :=
  if n = 0 then some (ESH_NULL, esh)
  else if ¬ esh.stack_len > esh.stack_base then none
  else if esh.stack_len < n then none
  else
    some (stack_at esh (esh.stack_len - n),
      { esh with stack := esh.stack.take (esh.stack_len - n) })

/-- The function `val_as_bool`. -/
def val_as_bool (val : esh_val) : Bool := decide (val ≠ ESH_NULL)

/-- The function `esh_push_null`. -/
def esh_push_null (esh : esh_state) : Nat × esh_state :=
  match stack_push esh ESH_NULL with
  | (0, esh1) => (0, esh1)
  | (_, esh1) => (1, esh1)

/-- The function `esh_push_bool`.  The four bytes of `"true"` take the inline
representation, so the allocator is not called and its answer is given as NULL. -/
def esh_push_bool (esh : esh_state) (b : Bool) : Nat × esh_state :=
  if b then esh_new_string 0 esh [116, 114, 117, 101]
  else esh_push_null esh

/-- The function `vals_equal`. -/
def vals_equal (heap : Nat → Option heap_object) (a b : esh_val) : Bool :=
  if a = b then true
  else
    match val_as_string heap a with
    | none => false
    | some (astr, alen) =>
      match val_as_string heap b with
      | none => false
      | some (bstr, blen) =>
        if alen ≠ blen then false
        else decide (astr.take alen = bstr.take alen)

/-- The function `int_binop`: `some (x, y)` with the two operands popped is the return
code 0, `none` inside is the return code 1; the outer `none` is a failed assertion. -/
def int_binop (esh : esh_state) (opname : String) :
    Option (Option (Int × Int) × esh_state) :=
  match opt_req_stack esh 2 with
  | none => none
  | some 0 =>
    match val_as_int esh.heap (stack_at esh (esh.stack_len - 2)) with
    | none =>
      some (none, esh_err_printf esh
        ("Unable to implicitly convert left value to integer for " ++ opname ++ " operation"))
    | some x =>
      match val_as_int esh.heap (stack_at esh (esh.stack_len - 1)) with
      | none =>
        some (none, esh_err_printf esh
          ("Unable to implicitly convert right value to integer for " ++ opname ++
            " operation"))
      | some y => some (some (x, y), { esh with stack := esh.stack.take (esh.stack_len - 2) })
  | some _ =>
    some (none, esh_err_printf esh ("Not enough values on stack for " ++ opname ++ " operation"))

/-- The loop of `unpack_obj` from iteration `i` on (`fuel` is `n - i`) over the slots of
the stack: slot `stack_len - n - 1 + i` receives the entry under the key `int_to_str(i)` if
there is one.  `none` is the failed assertion of `esh_object_get`. -/
def unpack_loop (obj : esh_object) (stack_len n : Nat) :
    Nat → Nat → List esh_val → Option (List esh_val)
  | 0, _, stack => some stack
  | fuel + 1, i, stack =>
    match esh_object_get obj (int_to_str (wrap64 i)) with
    | none => none
    | some none => unpack_loop obj stack_len n fuel (i + 1) stack
    | some (some val) =>
      unpack_loop obj stack_len n fuel (i + 1) (stack.set (stack_len - n - 1 + i) val)

/-- The function `unpack_obj`; `ok` says whether a needed growth of the stack succeeds. -/
def unpack_obj (ok : Bool) (esh : esh_state) (n : Nat) : Option (Nat × esh_state) :=
  match opt_req_stack esh 1 with
  | none => none
  | some 0 =>
    let obj_index := esh.stack_len - 1
    if stack_at esh obj_index = ESH_NULL then
      some (1, esh_err_printf esh "Cannot unpack null value")
    else
      match stack_resv ok esh n with
      | (0, esh1) =>
        let obj_val := stack_at esh1 obj_index
        let stack1 := esh1.stack.set obj_index (stack_at esh1 (esh1.stack_len - 1))
        let stack2 := stack1.set (esh1.stack_len - 1) obj_val
        let unpacked :=
          match val_as_object esh1.heap obj_val none with
          | none => some stack2
          | some obj => unpack_loop obj.obj esh1.stack_len n n 0 stack2
        match unpacked with
        | none => none
        | some stack3 => some (0, { esh1 with stack := stack3.take (esh1.stack_len - 1) })
      | (_, esh1) => some (1, esh1)
  | some _ => some (1, esh_err_printf esh "Missing value on stack for unpack")

/-- The loop of `esh_new_array` from iteration `i` on (`fuel` is `n - i`); `p` is the
address of the new object and `alloc i` the answers of the allocator during iteration `i`.
`none` is a failed assertion. -/
def new_array_loop (alloc : Nat → Bool × Bool) (p n : Nat) :
    Nat → Nat → esh_state → Option (Nat × esh_state)
  | 0, _, esh => some (0, esh)
  | fuel + 1, i, esh =>
    let key := int_to_str (wrap64 i)
    let val := stack_at esh (esh.stack_len - n - 1 + i)
    match esh.heap p with
    | none => none
    | some obj =>
      match esh_object_set (alloc i).1 (alloc i).2 obj.obj key val with
      | none => none
      | some r =>
        let esh1 : esh_state :=
          { esh with
            heap := heap_store esh.heap p { obj with obj := r.obj },
            err := if r.err.isSome then r.err else esh.err }
        if r.ret ≠ 0 then
          let esh2 := esh_err_printf esh1 "Unable to set array entry (out of memory?)"
          some (1, { esh2 with stack := esh2.stack.take (esh2.stack_len - 1) })
        else new_array_loop alloc p n fuel (i + 1) esh1

/-- The end of `esh_new_array`: after a loop that ran to its end the `n` slots of the
values are dropped and the object, which lies on top, is stored in the slot that is now on
top. -/
def new_array_finish (n : Nat) : Option (Nat × esh_state) → Option (Nat × esh_state)
  | none => none
  | some (0, esh2) =>
    let obj_val := stack_at esh2 (esh2.stack_len - 1)
    let stack1 := esh2.stack.take (esh2.stack_len - n)
    some (0, { esh2 with stack := stack1.set (stack1.length - 1) obj_val })
  | some (code, esh2) => some (code, esh2)

/-- The function `esh_new_array`; `p` is the pointer the allocator returns for the new
object (0 for NULL).  `none` is a failed assertion. -/
def esh_new_array (alloc : Nat → Bool × Bool) (p : Nat) (esh : esh_state) (n : Nat) :
    Option (Nat × esh_state) :=
  if esh.stack_len < esh.stack_base then none
  else if stack_size esh < n then
    some (1, esh_err_printf esh "Not enough items on stack to create array")
  else
    match esh_new_object p esh none with
    | (none, esh1) => some (1, esh1)
    | (some _, esh1) => new_array_finish n (new_array_loop alloc p n n 0 esh1)

/-! ## Functions, closures, frames and threads (`esh.h`, `esh.c`) -/

/-- The opcodes `ESH_INSTR_...` in the order of `ESH_OPCODES`. -/
inductive esh_opcode where
  | NULL | POP | LOAD | STORE | LOAD_G | STORE_G | JMP | JMP_IFN | JMP_IF | IMM | PUSH_NULL
  | CALL | RET | CLOSURE | CMD | ADD | SUB | MUL | DIV | LESS | GREATER | LESS_EQ
  | GREATER_EQ | EQ | NEQ | NOT | DUP | SWAP | NEW_OBJ | MAKE_CONST | INDEX | SET_INDEX
  | UNPACK | PROP | CONCAT
  deriving DecidableEq, Repr

/-- The enumerators by number. -/
def esh_opcode.all : List esh_opcode :=
  [.NULL, .POP, .LOAD, .STORE, .LOAD_G, .STORE_G, .JMP, .JMP_IFN, .JMP_IF, .IMM, .PUSH_NULL,
    .CALL, .RET, .CLOSURE, .CMD, .ADD, .SUB, .MUL, .DIV, .LESS, .GREATER, .LESS_EQ,
    .GREATER_EQ, .EQ, .NEQ, .NOT, .DUP, .SWAP, .NEW_OBJ, .MAKE_CONST, .INDEX, .SET_INDEX,
    .UNPACK, .PROP, .CONCAT]

/-- The enumerator whose number is the byte `b`, if there is one. -/
def esh_opcode.of_byte (b : Nat) : Option esh_opcode := esh_opcode.all[b]?

/-- The number of an enumerator. -/
def esh_opcode.to_byte (op : esh_opcode) : Nat := esh_opcode.all.indexOf op

/-- The struct `instr_regs`; `op` is the byte read, not yet matched with an opcode. -/
structure instr_regs where
  op : Nat
  arg : Nat
  l : Nat
  deriving DecidableEq, Repr

/-- The constant `INSTR_SIZE`. -/
def INSTR_SIZE : Nat := 4

/-- The function `decode_instr` on the record that starts at byte `at_byte` of the
instruction buffer. -/
def decode_instr (instr : List Nat) (at_byte : Nat) : instr_regs :=
  { op := instr.getD at_byte 0,
    arg := (instr.getD (at_byte + 1) 0 ||| (instr.getD (at_byte + 2) 0 <<< 8)) % 65536,
    l := instr.getD (at_byte + 3) 0 }

/-- The function `encode_instr`: the four bytes written, `none` with a message for an
argument out of range. -/
def encode_instr (op arg l : Nat) : Except String (List Nat) :=
  if arg > 65535 then
    .error "Instruction argument out of range (too many locals, globals, immediates, branches etc?)"
  else if l > 255 then
    .error "Instruction l-argument out of range (attempting to access local variable from deeply nested scope or closure?)"
  else .ok [op % 256, arg % 256, arg / 256 % 256, l % 256]

/-- The fields of `struct esh_function` the interpreter and the compiler use.  The arrays
`imms`, `jmps` and `instr` are lists (`instr` a list of bytes, `INSTR_SIZE` per
instruction); `c_fn` is the address of the native function, 0 for NULL. -/
structure esh_function where
  imms : List esh_val
  jmps : List Nat
  n_args : Nat
  opt_args : Nat
  n_locals : Nat
  variadic : Bool
  instr : List Nat
  upval_locals : Bool
  c_fn : Nat
  deriving DecidableEq, Repr

/-- The field `instr_len`. -/
def esh_function.instr_len (f : esh_function) : Nat := f.instr.length / INSTR_SIZE

/-- The fields of `struct esh_closure` behind the object header: `fn` and `env` are
addresses (0 for NULL). -/
structure esh_closure where
  is_coroutine : Bool
  fn : Nat
  env : Nat
  deriving DecidableEq, Repr

/-- The fields of `struct esh_env` behind the object header; `n_locals` is the length of
`locals`. -/
structure esh_env where
  parent : Nat
  locals : List esh_val
  deriving DecidableEq, Repr

/-- The struct `esh_stack_frame`; `fn`, `env`, `c_locals` and `c_locals_free` are
addresses (0 for NULL). -/
structure esh_stack_frame where
  stack_base : Nat
  fn : Nat
  env : Nat
  instr_index : Nat
  n_args : Nat
  expected_returns : Nat
  c_locals : Nat
  c_locals_free : Nat
  catch_panic : Bool
  deriving DecidableEq, Repr

/-- The fields of `struct esh_co_thread` behind the object header; the frame stack and the
value stack are lists (top last) with their capacities. -/
structure esh_co_thread where
  current_frame : esh_stack_frame
  stack_frames : List esh_stack_frame
  stack_frames_cap : Nat
  stack : List esh_val
  stack_cap : Nat
  is_done : Bool
  deriving DecidableEq, Repr

/-- The field `stack_frames_len`. -/
def esh_co_thread.stack_frames_len (t : esh_co_thread) : Nat := t.stack_frames.length

/-- The struct `esh_fn_result` a native function returns. -/
structure esh_fn_result where
  type : Int
  n_args : Nat
  n_res : Nat
  deriving DecidableEq, Repr

/-- The interpreter state `struct esh_state` with its threads.  `thread` is the record of
the running thread `*current_thread`; `co_threads` holds the records of the other coroutine
objects by address, and a thread switch writes the one back and loads the other.
`functions`, `closures` and `envs` give the fields behind the header of the objects of
these types by address, `heap` the headers (and strings).  `threads` is the parent stack
(top last), `globals` the address of the globals object.  `stack_trace` is the trace as the
list of (function, instruction index) pairs it is printed from, `freed_locals` the calls
`c_locals_free(esh, c_locals)` made so far (hook and block, latest last), and `str_buff`
the string buffer. -/
structure esh_vm where
  thread : esh_co_thread
  current_thread : Nat
  co_threads : Nat → Option esh_co_thread
  threads : List Nat
  threads_cap : Nat
  heap : Nat → Option heap_object
  functions : Nat → Option esh_function
  closures : Nat → Option esh_closure
  envs : Nat → Option esh_env
  globals : Nat
  cmd : esh_val
  err : Option String
  stack_trace : Option (List (Nat × Nat))
  panic_caught : Bool
  str_buff : List Nat
  str_buff_cap : Nat
  freed_locals : List (Nat × Nat)

/-- The part of the state the functions on `esh_state` work on: the stack of the running
thread, the base of its current frame, the heap and the error message. -/
def esh_vm.esh (vm : esh_vm) : esh_state :=
  { stack := vm.thread.stack,
    stack_cap := vm.thread.stack_cap,
    stack_base := vm.thread.current_frame.stack_base,
    heap := vm.heap,
    err := vm.err }

/-- The state after a function on `esh_state` has run: its result is written back. -/
def esh_vm.put (vm : esh_vm) (esh : esh_state) : esh_vm :=
  { vm with
    thread := { vm.thread with
      stack := esh.stack,
      stack_cap := esh.stack_cap,
      current_frame := { vm.thread.current_frame with stack_base := esh.stack_base } },
    heap := esh.heap,
    err := esh.err }

/-- The call `esh_err_printf` on the whole state. -/
def esh_vm.printf (vm : esh_vm) (msg : String) : esh_vm := { vm with err := some msg }

/-- The field `current_thread->stack_len`. -/
def esh_vm.stack_len (vm : esh_vm) : Nat := vm.thread.stack.length

/-- The store `map[p] = x` in one of the maps by address. -/
def store {α : Type} (map : Nat → Option α) (p : Nat) (x : α) : Nat → Option α :=
  fun a => if a = p then some x else map a

/-- The assignment `stack_len = n`, which never raises `stack_len` in the code embedded
here; `none` stands for a value of `n` above `stack_len`, which would expose slots that
hold no value. -/
def set_stack_len (stack : List esh_val) (n : Nat) : Option (List esh_val) :=
  if n ≤ stack.length then some (stack.take n) else none

/-- The answers of the environment during one pass of the interpreter loop (or one call of
an API function): `obj` and `obj2` are the addresses `esh_alloc` returns for the first and
second object allocated (0 for NULL); the flags say whether the `realloc` of the value
stack, of the frame stack, of the parent stack, of the string buffer and the allocations
for a coroutine's stack and for the stack trace return memory; `set i` are the two answers
for the table write of iteration `i` of a loop; `c_fn f` is the native function at address
`f`, and `next t` the `next` hook of the type descriptor at address `t` (`none` for
NULL). -/
structure world where
  obj : Nat
  obj2 : Nat
  stack_ok : Bool
  frames_ok : Bool
  threads_ok : Bool
  buff_ok : Bool
  co_stack_ok : Bool
  trace_ok : Bool
  set : Nat → Bool × Bool
  c_fn : Nat → esh_vm → Nat → Nat → esh_fn_result × esh_vm
  next : Nat → Option (esh_vm → Nat → Nat → Nat × esh_vm)

/-- The constant `ESH_FN_DEFAULT_STACK_CAP`. -/
def ESH_FN_DEFAULT_STACK_CAP : Nat := 64

/-- The constant `C_FN_DEFAULT_STACK_CAP`. -/
def C_FN_DEFAULT_STACK_CAP : Nat := 16

/-- The function `free_stack_frame`: the destructor hook, if set, is recorded as called
on the block, and both fields are cleared.  The frame is returned with the new log. -/
def free_stack_frame (log : List (Nat × Nat)) (frame : esh_stack_frame) :
    List (Nat × Nat) × esh_stack_frame :=
  (if frame.c_locals_free ≠ 0 then log ++ [(frame.c_locals_free, frame.c_locals)] else log,
    { frame with c_locals := 0, c_locals_free := 0 })

/-- The function `new_env_object`: the address of the new environment, `none` for NULL.
The field `parent` is set by the callers. -/
def new_env_object (p : Nat) (vm : esh_vm) (n_locals : Nat) : Option Nat × esh_vm :=
  match esh_new_object p vm.esh (some esh_type_ptr.env_type) with
  | (none, esh1) => (none, vm.put esh1)
  | (some _, esh1) =>
    (some p, { vm.put (esh_pop esh1 1) with
      envs := store vm.envs p ⟨0, List.replicate n_locals ESH_NULL⟩ })

/-! ## Calls and returns (`esh.c`) -/

/-- The stack of a new coroutine in `create_coroutine` when its locals live on the stack:
the arguments, then NULL up to `n_locals`, cut at the new `stack_len`.  `none` stands for
arguments written past the allocated `required_stack_space` slots. -/
def coroutine_stack (args : List esh_val) (n_locals stack_len required_stack_space : Nat) :
    Option (List esh_val) :=
  if args.length > required_stack_space then none
  else some ((args ++ List.replicate (n_locals - args.length) ESH_NULL).take stack_len)

/-- The end of `create_coroutine`: the coroutine is left in place of the callee and its
arguments, and the slots for the expected results are adjusted. -/
def coroutine_finish (w : world) (vm : esh_vm) (n_args expected_returns : Nat) :
    Option (Nat × esh_vm) :=
  match stack_pop vm.esh 1 with
  | none => none
  | some (tmp, esh1) =>
    match stack_pop esh1 ((n_args + 1) % SIZE_MOD) with
    | none => none
    | some (_, esh2) =>
      let esh3 := (stack_push esh2 tmp).2
      if expected_returns = 0 then
        match stack_pop esh3 1 with
        | none => none
        | some (_, esh4) => some (0, vm.put esh4)
      else if expected_returns ≠ 1 then
        match stack_resv w.stack_ok esh3 (expected_returns - 1) with
        | (0, esh4) => some (0, vm.put esh4)
        | (_, esh4) => some (1, vm.put esh4)
      else some (0, vm.put esh3)

/-- The function `create_coroutine` for the closure `cl` with template `f`.  `none` is a
failed assertion or a write outside an array. -/
def create_coroutine (w : world) (vm : esh_vm) (n_args expected_returns : Nat)
    (cl : esh_closure) (f : esh_function) : Option (Nat × esh_vm) :=
  if cl.is_coroutine = false then none
  else
    let args := (List.range n_args).map (fun i => stack_at vm.esh (vm.stack_len - n_args + i))
    let is_c_fn := decide (f.c_fn ≠ 0)
    let required_stack_space :=
      if is_c_fn = false then
        if f.upval_locals then ESH_FN_DEFAULT_STACK_CAP
        else ESH_FN_DEFAULT_STACK_CAP + f.n_locals
      else C_FN_DEFAULT_STACK_CAP + n_args
    match esh_new_object w.obj vm.esh (some esh_type_ptr.co_thread_type) with
    | (none, esh1) => some (1, vm.put esh1)
    | (some _, esh1) =>
      let vm1 := vm.put esh1
      let coroutine : esh_co_thread :=
        { current_frame :=
            { stack_base := 0, fn := cl.fn, env := 0, instr_index := 0, n_args := n_args,
              expected_returns := 1, c_locals := 0, c_locals_free := 0, catch_panic := false },
          stack_frames := [], stack_frames_cap := 0, stack := [], stack_cap := 0,
          is_done := false }
      if w.co_stack_ok = false then
        some (1, { vm1 with
          co_threads := store vm1.co_threads w.obj coroutine,
          err := some "Unable to allocate coroutine's stack, out of memory?" })
      else
        let coroutine1 := { coroutine with stack_cap := required_stack_space }
        if is_c_fn = false ∧ f.upval_locals = true then
          match new_env_object w.obj2 vm1 f.n_locals with
          | (none, vm2) =>
            some (1, { vm2 with co_threads := store vm2.co_threads w.obj coroutine1 })
          | (some env, vm2) =>
            if n_args > f.n_locals then none
            else
              let locals := args ++ List.replicate (f.n_locals - n_args) ESH_NULL
              let coroutine2 :=
                { coroutine1 with current_frame := { coroutine1.current_frame with env := env } }
              coroutine_finish w
                { vm2 with
                  co_threads := store vm2.co_threads w.obj coroutine2,
                  envs := store vm2.envs env ⟨cl.env, locals⟩ }
                n_args expected_returns
        else
          let stack_len := if is_c_fn then n_args else f.n_locals
          match coroutine_stack args f.n_locals stack_len required_stack_space with
          | none => none
          | some stack =>
            coroutine_finish w
              { vm1 with
                co_threads := store vm1.co_threads w.obj { coroutine1 with stack := stack } }
              n_args expected_returns

/-- The end of `enter_fn`: the current frame is pushed on the frame stack with the
expected-return count and the catch flag of the call, and the frame of the callee becomes
current. -/
def push_frame (vm : esh_vm) (new_stack_base new_env fn n_args expected_returns : Nat)
    (catch_panic : Bool) : esh_vm :=
  let saved : esh_stack_frame :=
    { vm.thread.current_frame with
      expected_returns := expected_returns, catch_panic := catch_panic }
  { vm with thread := { vm.thread with
      stack_frames := vm.thread.stack_frames ++ [saved],
      current_frame :=
        { stack_base := new_stack_base, fn := fn, env := new_env, instr_index := 0,
          n_args := n_args, expected_returns := 0, c_locals := 0, c_locals_free := 0,
          catch_panic := false } } }

/-- The part of `enter_fn` after the arity check for a closure `cl` that is no coroutine,
with template `f`. -/
def enter_frame (w : world) (vm : esh_vm) (n_args expected_returns : Nat)
    (cl : esh_closure) (f : esh_function) (catch_panic : Bool) : Option (Nat × esh_vm) :=
  if vm.thread.stack_frames_len = vm.thread.stack_frames_cap ∧ w.frames_ok = false then
    some (1, vm.printf "Unable to push stack frame (out of memory?)")
  else
    let vm1 : esh_vm :=
      if vm.thread.stack_frames_len = vm.thread.stack_frames_cap then
        { vm with thread := { vm.thread with
            stack_frames_cap := vm.thread.stack_frames_cap * 3 / 2 + 1 } }
      else vm
    let new_stack_base := vm1.stack_len - n_args
    if f.c_fn = 0 then
      if f.upval_locals then
        match esh_req_stack w.stack_ok vm1.esh (n_args + ESH_FN_DEFAULT_STACK_CAP) with
        | (0, esh1) =>
          match new_env_object w.obj (vm1.put esh1) f.n_locals with
          | (none, vm2) => some (1, vm2)
          | (some new_env, vm2) =>
            if n_args > f.n_locals then none
            else
              let args :=
                (List.range n_args).map (fun i => stack_at vm2.esh (vm2.stack_len - n_args + i))
              let locals := args ++ List.replicate (f.n_locals - n_args) ESH_NULL
              let vm3 : esh_vm :=
                { vm2 with
                  envs := store vm2.envs new_env ⟨cl.env, locals⟩,
                  thread := { vm2.thread with
                    stack := vm2.thread.stack.take (vm2.stack_len - n_args) } }
              some (0, push_frame vm3 vm3.stack_len new_env cl.fn n_args expected_returns
                catch_panic)
        | (_, esh1) => some (1, vm1.put esh1)
      else
        match esh_req_stack w.stack_ok vm1.esh (f.n_locals + ESH_FN_DEFAULT_STACK_CAP) with
        | (0, esh1) =>
          if ¬ f.n_locals ≥ n_args then none
          else
            let esh2 := (stack_resv w.stack_ok esh1 (f.n_locals - n_args)).2
            some (0, push_frame (vm1.put esh2) new_stack_base cl.env cl.fn n_args
              expected_returns catch_panic)
        | (_, esh1) => some (1, vm1.put esh1)
    else
      match esh_req_stack w.stack_ok vm1.esh (n_args + C_FN_DEFAULT_STACK_CAP) with
      | (0, esh1) =>
        some (0, push_frame (vm1.put esh1) new_stack_base 0 cl.fn n_args expected_returns
          catch_panic)
      | (_, esh1) => some (1, vm1.put esh1)

/-- The function `enter_fn`; `opt_fn` is the value `*opt_fn`, `none` for a NULL pointer.
The result `none` is a failed assertion, a dereference that finds no object of the
expected type, or the count of `2 ^ 64 - 1` arguments, with which the callee is read from
above the stack. -/
def enter_fn (w : world) (vm : esh_vm) (n_args expected_returns : Nat)
    (opt_fn : Option esh_val) (catch_panic : Bool) : Option (Nat × esh_vm) :=
  if ¬ n_args + 1 < SIZE_MOD then none
  else
    match opt_req_stack vm.esh (n_args + 1) with
    | none => none
    | some 0 =>
      let callee :=
        match opt_fn with
        | some val => val
        | none => stack_at vm.esh (vm.stack_len - n_args - 1)
      match val_as_object vm.heap callee (some esh_type_ptr.closure_type) with
      | none => some (1, vm.printf "Attempting to call non-function value")
      | some _ =>
        match vm.closures callee with
        | none => none
        | some cl =>
          match vm.functions cl.fn with
          | none => none
          | some f =>
            if n_args < f.n_args then
              some (1, vm.printf "Not enough arguments provided to function")
            else if f.variadic = false ∧ n_args > (f.n_args + f.opt_args) % SIZE_MOD then
              some (1, vm.printf "Too many arguments provided to function")
            else if cl.is_coroutine then create_coroutine w vm n_args expected_returns cl f
            else enter_frame w vm n_args expected_returns cl f catch_panic
    | some _ => some (1, vm.printf "Not enough items on stack for call")

/-- The copy loop of `leave_fn` from iteration `i` on (`fuel` is `expected_returns - i`)
over the slots of the stack: slot `stack_len` receives slot `ret_vals_begin + i`.  The
result is the final `stack_len` and the slots; `none` is a failed assertion. -/
def leave_copy (stack_cap ret_vals_begin : Nat) :
    Nat → Nat → Nat → List esh_val → Option (Nat × List esh_val)
  | 0, _, stack_len, stack => some (stack_len, stack)
  | fuel + 1, i, stack_len, stack =>
    if ¬ stack_len < stack_cap then none
    else if ¬ ret_vals_begin + i < stack_cap then none
    else
      leave_copy stack_cap ret_vals_begin fuel (i + 1) (stack_len + 1)
        (stack.set stack_len (stack.getD (ret_vals_begin + i) ESH_NULL))

/-- The reconciliation of `leave_fn`: the return code, `ret_vals` and the state after the
`n` returned values have been packed, unpacked or padded for a caller that expects
`expected_returns` values. -/
def leave_adjust (w : world) (esh : esh_state) (n expected_returns : Nat) :
    Option (Nat × Nat × esh_state) :=
  if expected_returns = 1 ∧ n ≠ 1 then
    match esh_new_array w.set w.obj esh n with
    | none => none
    | some (code, esh1) => some (code, 1, esh1)
  else if n = 1 ∧ expected_returns > 1 then
    match unpack_obj w.stack_ok esh expected_returns with
    | none => none
    | some (code, esh1) => some (code, expected_returns, esh1)
  else if expected_returns > n then
    match stack_resv w.stack_ok esh (expected_returns - n) with
    | (code, esh1) => some (code, expected_returns, esh1)
  else some (0, n, esh)

/-- The function `leave_fn`.  `none` is a failed assertion, a thread record that is
missing, or a callee frame with base 0 (the callee slot would lie below the stack). -/
def leave_fn (w : world) (vm : esh_vm) (n : Nat) : Option (Nat × esh_vm) :=
  match vm.thread.stack_frames.getLast? with
  | none =>
    match vm.threads.getLast? with
    | none => none
    | some parent =>
      let co_threads1 :=
        store vm.co_threads vm.current_thread { vm.thread with is_done := true }
      match co_threads1 parent with
      | none => none
      | some thread =>
        let vm1 : esh_vm :=
          { vm with
            thread := thread, current_thread := parent, co_threads := co_threads1,
            threads := vm.threads.dropLast }
        match stack_resv w.stack_ok vm1.esh thread.current_frame.expected_returns with
        | (0, esh1) => some (0, vm1.put esh1)
        | (_, esh1) => some (1, vm1.put esh1)
  | some prev_frame =>
    match opt_req_stack vm.esh n with
    | none => none
    | some 0 =>
      match leave_adjust w vm.esh n prev_frame.expected_returns with
      | none => none
      | some (0, ret_vals, esh1) =>
        if ¬ ret_vals ≥ prev_frame.expected_returns then none
        else if vm.thread.current_frame.stack_base = 0 then none
        else
          let ret_vals_begin := esh1.stack_len - ret_vals
          match leave_copy esh1.stack_cap ret_vals_begin prev_frame.expected_returns 0
              (vm.thread.current_frame.stack_base - 1) esh1.stack with
          | none => none
          | some (stack_len, stack) =>
            let vm1 := vm.put { esh1 with stack := stack.take stack_len }
            some (0, { vm1 with
              thread := { vm1.thread with
                current_frame := prev_frame,
                stack_frames := vm1.thread.stack_frames.dropLast },
              freed_locals :=
                (free_stack_frame vm1.freed_locals vm1.thread.current_frame).1 })
      | some (_, _, esh1) => some (1, vm.put esh1)
    | some _ =>
      some (1, vm.printf "Unable to execute return; not enough values on stack")

/-! ## The instructions of the interpreter loop (`run_vm` in `esh.c`) -/

/-- Where the loop of `run_vm` goes after an instruction: `brk` is the `break` out of the
`switch` (the instruction index is incremented), `cont` the `continue`, `PANIC` the jump
to the label of that name and `ret` a `return` with the given code. -/
inductive vm_signal where
  | brk (vm : esh_vm)
  | cont (vm : esh_vm)
  | PANIC (vm : esh_vm)
  | ret (code : Nat) (vm : esh_vm)

/-- The pattern `if(call) goto PANIC; continue;` around a call of `enter_fn` or `leave_fn`
whose result is given. -/
def call_signal : Option (Nat × esh_vm) → Option vm_signal
  | none => none
  | some (0, vm) => some (.cont vm)
  | some (_, vm) => some (.PANIC vm)

/-- The slot a pointer returned by `index_local_var` points to: a slot of the value stack
or a local of an environment. -/
inductive local_ref where
  | stack_slot (index : Nat)
  | env_local (env : Nat) (index : Nat)
  deriving DecidableEq, Repr

/-- The walk of `index_local_var` up `uplevel` environments from `env`: `some none` is the
out-of-bounds error, the outer `none` an environment that is missing. -/
def env_up (envs : Nat → Option esh_env) : Nat → Nat → Option (Option Nat)
  | 0, env => some (some env)
  | uplevel + 1, env =>
    if env = 0 then some none
    else
      match envs env with
      | none => none
      | some e => if e.parent = 0 then some none else env_up envs uplevel e.parent

/-- The function `index_local_var` in a frame whose template is `f`: the slot, or `none`
for NULL with the message set.  The outer `none` is a failed assertion or a missing
environment. -/
def index_local_var (vm : esh_vm) (f : esh_function) (index uplevel : Nat) :
    Option (Option local_ref × esh_vm) :=
  if f.upval_locals = false ∧ uplevel = 0 then
    match opt_req_stack vm.esh (index + 1) with
    | none => none
    | some 0 => some (some (.stack_slot (vm.thread.current_frame.stack_base + index)), vm)
    | some _ => some (none, vm.printf "Local stack variable out of bounds")
  else
    let uplevel1 := if f.upval_locals = false then uplevel - 1 else uplevel
    match env_up vm.envs uplevel1 vm.thread.current_frame.env with
    | none => none
    | some none => some (none, vm.printf "Variable uplevel out of bounds")
    | some (some env) =>
      if env = 0 then none
      else
        match vm.envs env with
        | none => none
        | some e =>
          if index ≥ e.locals.length then some (none, vm.printf "Local variable out of bounds")
          else some (some (.env_local env index), vm)

/-- The read `*local`. -/
def local_read (vm : esh_vm) : local_ref → esh_val
  | .stack_slot index => stack_at vm.esh index
  | .env_local env index =>
    match vm.envs env with
    | none => ESH_NULL
    | some e => e.locals.getD index ESH_NULL

/-- The write `*local = val`. -/
def local_write (vm : esh_vm) (val : esh_val) : local_ref → esh_vm
  | .stack_slot index =>
    { vm with thread := { vm.thread with stack := vm.thread.stack.set index val } }
  | .env_local env index =>
    match vm.envs env with
    | none => vm
    | some e => { vm with envs := store vm.envs env { e with locals := e.locals.set index val } }

/-- The function `branch_instr` in a frame whose template is `f`. -/
def branch_instr (vm : esh_vm) (f : esh_function) (jmp_index : Nat) : Nat × esh_vm :=
  if jmp_index ≥ f.jmps.length then (1, vm.printf "Jump label index out of range")
  else
    let dest := f.jmps.getD jmp_index 0
    if dest ≥ f.instr_len then (1, vm.printf "Jump label address out of range")
    else
      (0, { vm with thread := { vm.thread with
        current_frame := { vm.thread.current_frame with instr_index := dest } } })

/-- The assignment `current_frame.instr_index++`. -/
def esh_vm.incr (vm : esh_vm) : esh_vm :=
  { vm with thread := { vm.thread with
    current_frame := { vm.thread.current_frame with
      instr_index := vm.thread.current_frame.instr_index + 1 } } }

/-- The function `fold_next_unpack_instr` in a frame whose template is `f`: the value of
`*out_n` and the state. -/
def fold_next_unpack_instr (vm : esh_vm) (f : esh_function) : Nat × esh_vm :=
  if vm.thread.current_frame.instr_index < f.instr_len then
    let instr := decode_instr f.instr (vm.thread.current_frame.instr_index * INSTR_SIZE)
    if esh_opcode.of_byte instr.op = some esh_opcode.UNPACK then (instr.arg, vm.incr)
    else (1, vm)
  else (1, vm)

/-- The call `esh_object_set(esh, obj, key, keylen, val)` for the object at address `a`:
the return code and the state; `none` is a failed assertion or a missing object. -/
def object_set_at (alloc : Bool × Bool) (esh : esh_state) (a : Nat) (key : List Nat)
    (val : esh_val) : Option (Nat × esh_state) :=
  match esh.heap a with
  | none => none
  | some obj =>
    match esh_object_set alloc.1 alloc.2 obj.obj key val with
    | none => none
    | some r =>
      some (r.ret, { esh with
        heap := heap_store esh.heap a { obj with obj := r.obj },
        err := if r.err.isSome then r.err else esh.err })

/-- The loop of `CONCAT` from operand `i` on (`fuel` is `arg - i`): the return code (1 for
the jump to `PANIC`), the message and the buffer with its capacity.  `ok` says whether a
growth of the buffer succeeds. -/
def concat_loop (ok : Bool) (esh : esh_state) (arg : Nat) :
    Nat → Nat → List Nat → Nat → Nat × Option String × List Nat × Nat
  | 0, _, buff, cap => (0, none, buff, cap)
  | fuel + 1, i, buff, cap =>
    match val_as_string esh.heap (stack_at esh (esh.stack_len - arg + i)) with
    | none => (1, some "Attempting to concatenate non-string value", buff, cap)
    | some (str, len) =>
      if len = 0 then concat_loop ok esh arg fuel (i + 1) buff cap
      else if buff.length + len > cap then
        if ok = false then (1, some "Unable to grow string buffer (out of memory?)", buff, cap)
        else concat_loop ok esh arg fuel (i + 1) (buff ++ str.take len) (cap * 3 / 2 + len)
      else concat_loop ok esh arg fuel (i + 1) (buff ++ str.take len) cap

/-- The arithmetic instructions `ADD`, `SUB`, `MUL` and `DIV`: `int_binop`, the operation
on `long long`, and `esh_push_int`; `p` is the answer of the allocator. -/
def arith_instr (p : Nat) (vm : esh_vm) (opname : String) (op : Int → Int → Int) :
    Option vm_signal :=
  match int_binop vm.esh opname with
  | none => none
  | some (none, esh1) => some (.PANIC (vm.put esh1))
  | some (some (x, y), esh1) =>
    match esh_push_int p esh1 (op x y) with
    | (0, esh2) => some (.brk (vm.put esh2))
    | (_, esh2) => some (.PANIC (vm.put esh2))

/-- The comparison instructions `LESS` and `GREATER`: `int_binop`, the comparison, and
`esh_push_bool`. -/
def compare_instr (vm : esh_vm) (opname : String) (op : Int → Int → Bool) :
    Option vm_signal :=
  match int_binop vm.esh opname with
  | none => none
  | some (none, esh1) => some (.PANIC (vm.put esh1))
  | some (some (x, y), esh1) =>
    match esh_push_bool esh1 (op x y) with
    | (0, esh2) => some (.brk (vm.put esh2))
    | (_, esh2) => some (.PANIC (vm.put esh2))

/-- The instructions `EQ` (`negate` false) and `NEQ` (`negate` true). -/
def equal_instr (vm : esh_vm) (negate : Bool) : Option vm_signal :=
  match opt_req_stack vm.esh 2 with
  | none => none
  | some 0 =>
    let esh := vm.esh
    let equal :=
      vals_equal esh.heap (stack_at esh (esh.stack_len - 1)) (stack_at esh (esh.stack_len - 2))
    let esh1 : esh_state := { esh with stack := esh.stack.take (esh.stack_len - 2) }
    match esh_push_bool esh1 (if negate then !equal else equal) with
    | (0, esh2) => some (.brk (vm.put esh2))
    | (_, esh2) => some (.PANIC (vm.put esh2))
  | some _ => some (.PANIC (vm.printf "Missing values on stack for equality comparison"))

/-- The case `ESH_INSTR_CMD` of `run_vm` in a frame whose template is `f`. -/
def cmd_instr (w : world) (vm : esh_vm) (f : esh_function) (instr : instr_regs) :
    Option vm_signal :=
  let (expected_returns, vm1) := fold_next_unpack_instr vm.incr f
  let esh := vm1.esh
  let stack_items :=
    if esh.stack_base ≤ esh.stack_len then esh.stack_len - esh.stack_base
    else esh.stack_len + SIZE_MOD - esh.stack_base
  if stack_items < instr.arg + 1 then
    some (.PANIC (vm1.printf "Not enough arguments on stack to invoke command"))
  else
    let name := stack_at esh (esh.stack_len - instr.arg - 1)
    match val_as_string esh.heap name with
    | none => some (.PANIC (vm1.printf "Expected string as command"))
    | some (cmd, cmdlen) =>
      match vm1.heap vm1.globals with
      | none => none
      | some globals =>
        match esh_object_get globals.obj (cmd.take cmdlen) with
        | none => none
        | some (some global) =>
          call_signal (enter_fn w vm1 instr.arg expected_returns (some global) false)
        | some none =>
          if vm1.cmd = ESH_NULL then
            some (.PANIC (vm1.printf "Unknown command (no command handler set)"))
          else
            let capture_output := decide (instr.l &&& 1 ≠ 0)
            let pipe_in := decide (instr.l &&& 2 ≠ 0)
            match stack_push esh name with
            | (0, esh1) =>
              match esh_push_bool esh1 pipe_in with
              | (0, esh2) =>
                match esh_push_bool esh2 capture_output with
                | (0, esh3) =>
                  call_signal (enter_fn w (vm1.put esh3) (instr.arg + 3) expected_returns
                    (some vm1.cmd) false)
                | (_, esh3) => some (.PANIC (vm1.put esh3))
              | (_, esh2) => some (.PANIC (vm1.put esh2))
            | (_, esh1) => some (.PANIC (vm1.put esh1))

/-- The `switch` of `run_vm` on the decoded instruction `instr`, in a frame whose template
is `f`.  `none` is a failed assertion, a missing object, or a read of a slot below the
stack array. -/
def exec_instr (w : world) (vm : esh_vm) (f : esh_function) (instr : instr_regs) :
    Option vm_signal :=
  let esh := vm.esh
  match esh_opcode.of_byte instr.op with
  | some .POP =>
    match opt_req_stack esh 1 with
    | none => none
    | some 0 => some (.brk (vm.put { esh with stack := esh.stack.take (esh.stack_len - 1) }))
    | some _ => some (.PANIC (vm.printf "Missing value on stack for pop operation"))
  | some .DUP =>
    if esh.stack_len < esh.stack_base then none
    else if stack_size esh = 0 then
      some (.PANIC (vm.printf "Missing value on stack for dup operation"))
    else
      match stack_push esh (stack_at esh (esh.stack_len - 1)) with
      | (0, esh1) => some (.brk (vm.put esh1))
      | (_, esh1) => some (.PANIC (vm.put esh1))
  | some .SWAP =>
    match opt_req_stack esh 2 with
    | none => none
    | some 0 =>
      let tmp := stack_at esh (esh.stack_len - 1)
      let stack1 := esh.stack.set (esh.stack_len - 1) (stack_at esh (esh.stack_len - 2))
      some (.brk (vm.put { esh with stack := stack1.set (esh.stack_len - 2) tmp }))
    | some _ => some (.PANIC (vm.printf "Missing values on stack for swap operation"))
  | some .IMM =>
    if instr.arg ≥ f.imms.length then
      some (.PANIC (vm.printf "Immediate index out of bounds"))
    else
      match stack_push esh (f.imms.getD instr.arg ESH_NULL) with
      | (0, esh1) => some (.brk (vm.put esh1))
      | (_, esh1) => some (.PANIC (vm.put esh1))
  | some .PUSH_NULL =>
    match stack_push esh ESH_NULL with
    | (0, esh1) => some (.brk (vm.put esh1))
    | (_, esh1) => some (.PANIC (vm.put esh1))
  | some .STORE_G =>
    if instr.arg ≥ f.imms.length then
      some (.PANIC (vm.printf "Immediate index for global store out of bounds"))
    else
      match val_as_string esh.heap (f.imms.getD instr.arg ESH_NULL) with
      | none => some (.PANIC (vm.printf "Global variable name not a string"))
      | some (name, len) =>
        if esh.stack_len = esh.stack_base then
          some (.PANIC (vm.printf "Missing value on stack for global store"))
        else
          let val := stack_at esh (esh.stack_len - 1)
          match object_set_at (w.set 0) esh vm.globals (name.take len) val with
          | none => none
          | some (0, esh1) =>
            some (.brk (vm.put { esh1 with stack := esh1.stack.take (esh1.stack_len - 1) }))
          | some (_, esh1) =>
            some (.PANIC (vm.put (esh_err_printf esh1 "Unable to set global (out of memory?)")))
  | some .LOAD_G =>
    if instr.arg ≥ f.imms.length then
      some (.PANIC (vm.printf "Immediate index for global load out of bounds"))
    else
      match val_as_string esh.heap (f.imms.getD instr.arg ESH_NULL) with
      | none => some (.PANIC (vm.printf "Global variable name not a string"))
      | some (name, len) =>
        match esh.heap vm.globals with
        | none => none
        | some globals =>
          match esh_object_get globals.obj (name.take len) with
          | none => none
          | some none => some (.PANIC (vm.printf "Unknown global variable"))
          | some (some val) =>
            match stack_push esh val with
            | (0, esh1) => some (.brk (vm.put esh1))
            | (_, esh1) => some (.PANIC (vm.put esh1))
  | some .LOAD =>
    match index_local_var vm f instr.arg instr.l with
    | none => none
    | some (none, vm1) => some (.PANIC vm1)
    | some (some loc, vm1) =>
      match stack_push vm1.esh (local_read vm1 loc) with
      | (0, esh1) => some (.brk (vm1.put esh1))
      | (_, esh1) => some (.PANIC (vm1.put esh1))
  | some .STORE =>
    match opt_req_stack esh 1 with
    | none => none
    | some 0 =>
      match index_local_var vm f instr.arg instr.l with
      | none => none
      | some (none, vm1) => some (.PANIC vm1)
      | some (some loc, vm1) =>
        let esh1 := vm1.esh
        let val := stack_at esh1 (esh1.stack_len - 1)
        some (.brk (local_write
          (vm1.put { esh1 with stack := esh1.stack.take (esh1.stack_len - 1) }) val loc))
    | some _ => some (.PANIC (vm.printf "Missing value on stack for local store"))
  | some .CMD => cmd_instr w vm f instr
  | some .CALL =>
    let (expected_returns, vm1) := fold_next_unpack_instr vm.incr f
    call_signal (enter_fn w vm1 instr.arg expected_returns none false)
  | some .PROP =>
    match opt_req_stack esh 1 with
    | none => none
    | some 0 =>
      if stack_at esh (esh.stack_len - 1) = ESH_NULL then
        if vm.thread.stack_frames_len = 0 then some (.ret 0 vm)
        else call_signal (leave_fn w vm 1)
      else some (.brk vm)
    | some _ => some (.PANIC (vm.printf "Missing value on stack for prop operation"))
  | some .RET =>
    let n := instr.arg
    if vm.thread.stack_frames_len = 0 ∧ vm.threads.length = 0 then
      match opt_req_stack esh n with
      | none => none
      | some 0 =>
        let freed := free_stack_frame vm.freed_locals vm.thread.current_frame
        let vm1 : esh_vm :=
          { vm with
            thread := { vm.thread with current_frame := freed.2 }, freed_locals := freed.1 }
        if n ≠ 1 then
          match esh_new_array w.set w.obj vm1.esh n with
          | none => none
          | some (0, esh1) => some (.ret 0 (vm1.put esh1))
          | some (_, esh1) => some (.PANIC (vm1.put esh1))
        else some (.ret 0 vm1)
      | some _ =>
        some (.PANIC (vm.printf "Unable to execute return; not enough values on stack"))
    else call_signal (leave_fn w vm instr.arg)
  | some .CLOSURE =>
    if instr.arg ≥ f.imms.length then
      some (.PANIC (vm.printf "Immediate index for closure function out of bounds"))
    else
      let fn := f.imms.getD instr.arg ESH_NULL
      match val_as_object esh.heap fn (some esh_type_ptr.function_type) with
      | none =>
        some (.PANIC (vm.printf "Attempting to create closure from non-function object"))
      | some _ =>
        match esh_new_object w.obj esh (some esh_type_ptr.closure_type) with
        | (none, esh1) => some (.PANIC (vm.put esh1))
        | (some obj, esh1) =>
          let vm1 := vm.put { esh1 with
            heap := heap_store esh1.heap w.obj { obj with obj := { obj.obj with is_const := true } } }
          some (.brk { vm1 with
            closures := store vm1.closures w.obj ⟨false, fn, vm.thread.current_frame.env⟩ })
  | some .JMP_IF =>
    match opt_req_stack esh 1 with
    | none => none
    | some 0 =>
      let vm1 := vm.put { esh with stack := esh.stack.take (esh.stack_len - 1) }
      if vm1.stack_len = 0 then none
      else if val_as_bool (stack_at vm1.esh (vm1.stack_len - 1)) then
        match branch_instr vm1 f instr.arg with
        | (0, vm2) => some (.cont vm2)
        | (_, vm2) => some (.PANIC vm2)
      else some (.brk vm1)
    | some _ => some (.PANIC (vm.printf "Missing value on stack for conditional jump"))
  | some .JMP_IFN =>
    match opt_req_stack esh 1 with
    | none => none
    | some 0 =>
      let vm1 := vm.put { esh with stack := esh.stack.take (esh.stack_len - 1) }
      if ¬ val_as_bool (stack_at esh (esh.stack_len - 1)) then
        match branch_instr vm1 f instr.arg with
        | (0, vm2) => some (.cont vm2)
        | (_, vm2) => some (.PANIC vm2)
      else some (.brk vm1)
    | some _ => some (.PANIC (vm.printf "Missing value on stack for conditional jump"))
  | some .JMP =>
    match branch_instr vm f instr.arg with
    | (0, vm1) => some (.cont vm1)
    | (_, vm1) => some (.PANIC vm1)
  | some .ADD => arith_instr w.obj vm "add" (fun x y => wrap64 (x + y))
  | some .SUB => arith_instr w.obj vm "sub" (fun x y => wrap64 (x - y))
  | some .MUL => arith_instr w.obj vm "mul" (fun x y => wrap64 (x * y))
  | some .DIV => arith_instr w.obj vm "div" (fun x y => if y = 0 then 0 else wrap64 (x.tdiv y))
  | some .EQ => equal_instr vm false
  | some .NEQ => equal_instr vm true
  | some .LESS => compare_instr vm "less" (fun x y => decide (x < y))
  | some .GREATER => compare_instr vm "greater" (fun x y => decide (x > y))
  | some .NOT =>
    match opt_req_stack esh 1 with
    | none => none
    | some 0 =>
      let b := val_as_bool (stack_at esh (esh.stack_len - 1))
      match esh_push_bool { esh with stack := esh.stack.take (esh.stack_len - 1) } (!b) with
      | (0, esh1) => some (.brk (vm.put esh1))
      | (_, esh1) => some (.PANIC (vm.put esh1))
    | some _ => some (.PANIC (vm.printf "Missing value on stack for not operation"))
  | some .NEW_OBJ =>
    match esh_object_of w.set w.obj esh instr.arg with
    | none => none
    | some (0, esh1) => some (.brk (vm.put esh1))
    | some (_, esh1) => some (.PANIC (vm.put esh1))
  | some .MAKE_CONST =>
    match opt_req_stack esh 1 with
    | none => none
    | some 0 =>
      let top := stack_at esh (esh.stack_len - 1)
      match val_as_object esh.heap top none with
      | none => some (.brk vm)
      | some obj =>
        some (.brk (vm.put { esh with
          heap := heap_store esh.heap top { obj with obj := { obj.obj with is_const := true } } }))
    | some _ => some (.PANIC (vm.printf "Missing value on stack for 'make const' operation"))
  | some .INDEX =>
    match opt_req_stack esh 2 with
    | none => none
    | some 0 =>
      match val_as_string esh.heap (stack_at esh (esh.stack_len - 1)) with
      | none => some (.PANIC (vm.printf "Attempting to index object using non-key value"))
      | some (key, keylen) =>
        let looked_up : Option esh_val :=
          match val_as_object esh.heap (stack_at esh (esh.stack_len - 2)) none with
          | none => some ESH_NULL
          | some obj =>
            match esh_object_get obj.obj (key.take keylen) with
            | none => none
            | some none => some ESH_NULL
            | some (some val) => some val
        match looked_up with
        | none => none
        | some res =>
          let stack1 := esh.stack.take (esh.stack_len - 1)
          some (.brk (vm.put { esh with stack := stack1.set (stack1.length - 1) res }))
    | some _ =>
      some (.PANIC (vm.printf "Not enough items on stack for object index operation"))
  | some .SET_INDEX =>
    match opt_req_stack esh 3 with
    | none => none
    | some 0 =>
      match val_as_string esh.heap (stack_at esh (esh.stack_len - 2)) with
      | none => some (.PANIC (vm.printf "Attempting to index object using non-key value"))
      | some (key, keylen) =>
        let target := stack_at esh (esh.stack_len - 3)
        match val_as_object esh.heap target none with
        | none => some (.PANIC (vm.printf "Attempting to mutate immutable object"))
        | some _ =>
          let val := stack_at esh (esh.stack_len - 1)
          match object_set_at (w.set 0) esh target (key.take keylen) val with
          | none => none
          | some (0, esh1) =>
            some (.brk (vm.put { esh1 with stack := esh1.stack.take (esh1.stack_len - 3) }))
          | some (_, esh1) => some (.PANIC (vm.put esh1))
    | some _ =>
      some (.PANIC (vm.printf "Not enough items on stack for object index operation"))
  | some .UNPACK =>
    match unpack_obj w.stack_ok esh instr.arg with
    | none => none
    | some (0, esh1) => some (.brk (vm.put esh1))
    | some (_, esh1) => some (.PANIC (vm.put esh1))
  | some .CONCAT =>
    match opt_req_stack esh instr.arg with
    | none => none
    | some 0 =>
      match concat_loop w.buff_ok esh instr.arg instr.arg 0 [] vm.str_buff_cap with
      | (0, _, buff, cap) =>
        let esh1 : esh_state := { esh with stack := esh.stack.take (esh.stack_len - instr.arg) }
        match esh_new_string w.obj esh1 buff with
        | (0, esh2) => some (.brk { vm.put esh2 with str_buff := buff, str_buff_cap := cap })
        | (_, esh2) => some (.PANIC { vm.put esh2 with str_buff := buff, str_buff_cap := cap })
      | (_, msg, buff, cap) =>
        some (.PANIC { vm with err := msg, str_buff := buff, str_buff_cap := cap })
    | some _ => some (.PANIC (vm.printf "Not enough items on stack for concat operation"))
  | _ => some (.PANIC (vm.printf "Unknown instruction"))

/-! ## The interpreter loop and `esh_exec_fn` (`esh.c`) -/

/-- What one pass of the loop of `run_vm` leaves: the loop goes on with a state, or
`run_vm` has returned a code. -/
inductive vm_status where
  | running (vm : esh_vm)
  | returned (code : Nat) (vm : esh_vm)

/-- The search loop at the label `PANIC`: the value of `rewind_to` for the first frame
from index `i - 1` downwards that has `catch_panic` set, `none` if there is none. -/
def find_catch (frames : List esh_stack_frame) : Nat → Option Nat
  | 0 => none
  | i + 1 =>
    match frames[i]? with
    | some frame => if frame.catch_panic then some (i + 1) else find_catch frames i
    | none => find_catch frames i

/-- The function `generate_stack_trace`: the entries for the current frame and then for
the frames of the frame stack from the top down; `ok` says whether the buffer could be
allocated.  `none` is a failed assertion (a trace is already there, or a frame without
function). -/
def generate_stack_trace (ok : Bool) (vm : esh_vm) : Option esh_vm :=
  if vm.stack_trace ≠ none then none
  else
    let entries :=
      (vm.thread.current_frame :: vm.thread.stack_frames.reverse).map
        (fun frame => (frame.fn, frame.instr_index))
    if entries.any (fun entry => entry.1 = 0) then none
    else some { vm with stack_trace := if ok then some entries else none }

/-- The code at the label `PANIC` of `run_vm`: the loop goes on with the catching frame
current, or `run_vm` returns 1.  `none` is a failed assertion. -/
def panic_unwind (w : world) (vm : esh_vm) : Option vm_status :=
  let freed := free_stack_frame vm.freed_locals vm.thread.current_frame
  let vm1 : esh_vm :=
    { vm with thread := { vm.thread with current_frame := freed.2 }, freed_locals := freed.1 }
  let frames := vm1.thread.stack_frames
  let found := find_catch frames frames.length
  let rewind_to := found.getD 0
  let traced := if found.isNone then generate_stack_trace w.trace_ok vm1 else some vm1
  match traced with
  | none => none
  | some vm2 =>
    let log := (frames.drop rewind_to).foldl (fun log frame => (free_stack_frame log frame).1)
      vm2.freed_locals
    let new_len :=
      if rewind_to = frames.length then vm2.thread.current_frame.stack_base
      else (frames.getD rewind_to vm2.thread.current_frame).stack_base
    match set_stack_len vm2.thread.stack new_len with
    | none => none
    | some stack =>
      let vm3 : esh_vm :=
        { vm2 with
          thread := { vm2.thread with stack := stack, stack_frames := frames.take rewind_to },
          freed_locals := log }
      if found.isSome then
        match vm3.thread.stack_frames.getLast? with
        | none => none
        | some frame =>
          some (.running { vm3 with
            panic_caught := true,
            thread := { vm3.thread with
              current_frame := frame,
              stack_frames := vm3.thread.stack_frames.dropLast } })
      else some (.returned 1 vm3)

/-- The record of the thread object at address `a`. -/
def esh_vm.thread_at (vm : esh_vm) (a : Nat) : Option esh_co_thread :=
  if a = vm.current_thread then some vm.thread else vm.co_threads a

/-- The assignment `esh->current_thread = a`: the record of the running thread is written
back and that of `a` loaded. -/
def switch_thread (vm : esh_vm) (a : Nat) : Option esh_vm :=
  match vm.thread_at a with
  | none => none
  | some thread =>
    some { vm with
      co_threads := store vm.co_threads vm.current_thread vm.thread,
      thread := thread, current_thread := a }

/-- The `next` hook of a type descriptor: NULL for the types of the interpreter. -/
def type_next (w : world) : esh_type_ptr → Option (esh_vm → Nat → Nat → Nat × esh_vm)
  | .host addr => w.next addr
  | _ => none

/-- The directives `Yield` and `YieldLast` (`res.type` 3 and 7) in `run_vm`. -/
def yield_directive (vm : esh_vm) (res : esh_fn_result) : Option vm_signal :=
  let vm1 := vm.incr
  if res.n_res ≠ 0 ∨ res.n_args ≠ 1 then none
  else if vm1.threads.length = 0 then
    some (.PANIC (vm1.printf "Attempting to yield from top function"))
  else if vm1.esh.stack_len < vm1.esh.stack_base then none
  else if stack_size vm1.esh < res.n_args then
    some (.PANIC (vm1.printf "Not enough items on stack for yield"))
  else
    match stack_pop vm1.esh 1 with
    | none => none
    | some (yield_val, esh1) =>
      let vm2 := vm1.put esh1
      let vm3 : esh_vm :=
        if res.type = 7 then { vm2 with thread := { vm2.thread with is_done := true } } else vm2
      match vm3.threads.getLast? with
      | none => none
      | some parent =>
        match switch_thread { vm3 with threads := vm3.threads.dropLast } parent with
        | none => none
        | some vm4 =>
          match stack_push vm4.esh yield_val with
          | (0, esh2) => some (.cont (vm4.put esh2))
          | (_, esh2) => some (.PANIC (vm4.put esh2))

/-- The directives `Next` and `NextS` (`res.type` 4 and 6) in `run_vm`. -/
def next_directive (w : world) (vm : esh_vm) (res : esh_fn_result) : Option vm_signal :=
  let vm1 := vm.incr
  if res.n_args ≠ 0 ∨ res.n_res ≠ 1 then none
  else if vm1.esh.stack_len < vm1.esh.stack_base then none
  else if stack_size vm1.esh < 1 + res.n_args then
    some (.PANIC (vm1.printf "Not enough items on stack for coroutine invocation"))
  else if vm1.threads.length = vm1.threads_cap ∧ w.threads_ok = false then
    some (.PANIC (vm1.printf "Unable to grow coroutine stack (out of memory?)"))
  else
    let vm2 : esh_vm :=
      { vm1 with
        threads_cap :=
          if vm1.threads.length = vm1.threads_cap then vm1.threads_cap * 3 / 2 + 1
          else vm1.threads_cap,
        thread := { vm1.thread with
          current_frame := { vm1.thread.current_frame with expected_returns := res.n_res } } }
    match stack_pop vm2.esh 1 with
    | none => none
    | some (val, esh1) =>
      let vm3 := vm2.put esh1
      let not_coroutine :=
        some (vm_signal.PANIC (vm3.printf "Attempting to invoke non-coroutine object as coroutine"))
      match val_as_object vm3.heap val none with
      | none => not_coroutine
      | some obj =>
        match obj.type with
        | none => not_coroutine
        | some type =>
          match type_next w type with
          | some next =>
            match next vm3 val (if res.type = 4 then 1 else 512) with
            | (0, vm4) => some (.cont vm4)
            | (_, vm4) => some (.PANIC vm4)
          | none =>
            if type ≠ esh_type_ptr.co_thread_type then not_coroutine
            else
              match vm3.thread_at val with
              | none => none
              | some co =>
                if co.is_done then
                  match stack_push vm3.esh ESH_NULL with
                  | (0, esh2) => some (.cont (vm3.put esh2))
                  | (_, esh2) => some (.PANIC (vm3.put esh2))
                else
                  match switch_thread { vm3 with threads := vm3.threads ++ [vm3.current_thread] }
                      val with
                  | none => none
                  | some vm4 => some (.cont vm4)

/-- The branch of `run_vm` for a frame whose template `f` is a native function. -/
def c_fn_step (w : world) (vm : esh_vm) (f : esh_function) : Option vm_signal :=
  match w.c_fn f.c_fn vm vm.thread.current_frame.n_args vm.thread.current_frame.instr_index with
  | (res, vm1) =>
    if res.type = -1 then some (.PANIC vm1)
    else if res.type = 0 then call_signal (leave_fn w vm1 res.n_args)
    else if res.type = 1 ∨ res.type = 2 then
      call_signal (enter_fn w { vm1 with panic_caught := false }.incr res.n_args res.n_res none
        (decide (res.type = 2)))
    else if res.type = 3 ∨ res.type = 7 then yield_directive vm1 res
    else if res.type = 4 ∨ res.type = 6 then next_directive w vm1 res
    else if res.type = 5 then some (.cont vm1.incr)
    else some (.cont vm1)

/-- One pass of the `while` loop of `run_vm` up to the `continue`, the jump to `PANIC` or
the `return`. -/
def vm_pass (w : world) (vm : esh_vm) : Option vm_signal :=
  match vm.functions vm.thread.current_frame.fn with
  | none => none
  | some f =>
    if f.c_fn ≠ 0 then c_fn_step w vm f
    else if vm.thread.current_frame.instr_index ≥ f.instr_len then
      some (.PANIC (vm.printf "Instruction index out of bounds"))
    else
      exec_instr w vm f
        (decode_instr f.instr (vm.thread.current_frame.instr_index * INSTR_SIZE))

/-- One full pass of the `while` loop of `run_vm`, the code at `PANIC` included. -/
def vm_step (w : world) (vm : esh_vm) : Option vm_status :=
  match vm_pass w vm with
  | none => none
  | some (.brk vm1) => some (.running vm1.incr)
  | some (.cont vm1) => some (.running vm1)
  | some (.ret code vm1) => some (.returned code vm1)
  | some (.PANIC vm1) => panic_unwind w vm1

/-- The `while` loop of `run_vm` for at most `fuel` passes; pass number `t` gets the
answers `w t`.  `none` is a failed assertion or the end of the fuel. -/
def vm_loop (w : Nat → world) : Nat → Nat → esh_vm → Option (Nat × esh_vm)
  | 0, _, _ => none
  | fuel + 1, t, vm =>
    match vm_step (w t) vm with
    | none => none
    | some (.returned code vm1) => some (code, vm1)
    | some (.running vm1) => vm_loop w fuel (t + 1) vm1

/-- The first `n` passes of the loop of `run_vm` from pass number `t` on: the state the
loop has reached, or the return before that. -/
def vm_steps (w : Nat → world) : Nat → Nat → esh_vm → Option vm_status
  | 0, _, vm => some (.running vm)
  | n + 1, t, vm =>
    match vm_step (w t) vm with
    | none => none
    | some (.returned code vm1) => some (.returned code vm1)
    | some (.running vm1) => vm_steps w n (t + 1) vm1

/-- The state with the value stack and the instruction index of the current frame
replaced. -/
def esh_vm.moved (vm : esh_vm) (stack : List esh_val) (instr_index : Nat) : esh_vm :=
  { vm with thread := { vm.thread with
    stack := stack,
    current_frame := { vm.thread.current_frame with instr_index := instr_index } } }

/-- The function `run_vm` for the closure at address `entrypoint`, with at most `fuel`
passes of its loop.  The code before the loop gets the answers `w 0`. -/
def run_vm (w : Nat → world) (fuel : Nat) (vm : esh_vm) (entrypoint : Nat) :
    Option (Nat × esh_vm) :=
  if vm.thread.current_frame.env ≠ 0 then none
  else
    match vm.closures entrypoint with
    | none => none
    | some cl =>
      match vm.functions cl.fn with
      | none => none
      | some f =>
        match esh_req_stack (w 0).stack_ok vm.esh 64 with
        | (0, esh1) =>
          let vm1 := vm.put esh1
          let start (new_env : Nat) (vm2 : esh_vm) : Option (Nat × esh_vm) :=
            let vm3 : esh_vm :=
              { vm2 with thread := { vm2.thread with
                current_frame :=
                  { stack_base := vm2.stack_len, fn := cl.fn, env := new_env, instr_index := 0,
                    n_args := 0, expected_returns := 0, c_locals := 0, c_locals_free := 0,
                    catch_panic := false } } }
            if f.upval_locals = false then
              match stack_resv (w 0).stack_ok vm3.esh f.n_locals with
              | (0, esh2) => vm_loop w fuel 1 (vm3.put esh2)
              | (_, esh2) => some (1, vm3.put esh2)
            else vm_loop w fuel 1 vm3
          if f.upval_locals = true ∧ (f.n_locals ≠ 0 ∨ cl.env ≠ 0) then
            match new_env_object (w 0).obj vm1 f.n_locals with
            | (none, vm2) => some (1, vm2)
            | (some new_env, vm2) =>
              start new_env { vm2 with
                envs := store vm2.envs new_env ⟨cl.env, List.replicate f.n_locals ESH_NULL⟩ }
          else start 0 vm1
        | (_, esh1) => some (1, vm.put esh1)

/-- The function `esh_exec_fn` with at most `fuel` passes of the interpreter loop.
`none` is a failed assertion, the end of the fuel, or a saved `stack_len` above the
`stack_len` at the return of `run_vm`. -/
def esh_exec_fn (w : Nat → world) (fuel : Nat) (vm : esh_vm) : Option (Nat × esh_vm) :=
  let vm0 : esh_vm := { vm with stack_trace := none }
  let drop_top (vm : esh_vm) : esh_vm :=
    if vm.stack_len > 0 then
      { vm with thread := { vm.thread with stack := vm.thread.stack.take (vm.stack_len - 1) } }
    else vm
  if vm0.thread.current_frame.fn ≠ 0 then
    some (1, drop_top (vm0.printf "Attempting to exec from inside interpreted code"))
  else if vm0.thread.current_frame.env ≠ 0 ∨ vm0.thread.current_frame.stack_base ≠ 0 ∨
      vm0.thread.current_frame.c_locals ≠ 0 then none
  else
    let fn : Option Nat :=
      match stack_offset vm0.esh (-1) with
      | (none, _) => none
      | (some index, _) =>
        match val_as_object vm0.heap (stack_at vm0.esh index)
            (some esh_type_ptr.closure_type) with
        | none => none
        | some _ => some (stack_at vm0.esh index)
    match fn with
    | none => some (1, drop_top (vm0.printf "Attempting to execute non-function object"))
    | some entrypoint =>
      let prev_frame := vm0.thread.current_frame
      let saved_stack_len := vm0.stack_len
      match run_vm w fuel vm0 entrypoint with
      | none => none
      | some (rerr, vm1) =>
        if vm1.thread.stack_frames_len ≠ 0 ∨ vm1.thread.current_frame.c_locals ≠ 0 ∨
            vm1.thread.current_frame.c_locals_free ≠ 0 then none
        else if rerr = 0 ∧ ¬ (vm1.esh.stack_base ≤ vm1.esh.stack_len ∧ stack_size vm1.esh > 0) then
          none
        else
          let rval := stack_at vm1.esh (vm1.stack_len - 1)
          match set_stack_len vm1.thread.stack saved_stack_len with
          | none => none
          | some stack =>
            if ¬ stack.length > 0 then none
            else
              let vm2 : esh_vm :=
                { vm1 with thread := { vm1.thread with current_frame := prev_frame, stack := stack } }
              if rerr = 0 then
                some (0, { vm2 with thread := { vm2.thread with
                  stack := stack.set (stack.length - 1) rval } })
              else some (2, drop_top vm2)

/-! ## Readings named by the specification -/

/-- The decimal string of an integer (the `str(i)` of the specification): the digits, most
significant first and without leading zeros, `"0"` for zero, after a `'-'` for a negative
number. -/
def decimal_string (i : Int) : List Nat :=
  if i = 0 then [48]
  else if i < 0 then 45 :: (Nat.digits 10 i.natAbs).reverse.map (fun d => d + 48)
  else (Nat.digits 10 i.natAbs).reverse.map (fun d => d + 48)

/-- The value `obj[key]` of the specification: the value of the entry if `obj` is an object
with an entry under `key`, NULL otherwise. -/
def index_value (heap : Nat → Option heap_object) (obj : esh_val) (key : List Nat) :
    esh_val :=
  match val_as_object heap obj none with
  | none => ESH_NULL
  | some o =>
    match esh_object_get o.obj key with
    | some (some val) => val
    | _ => ESH_NULL

/-- What `enter_fn` leaves after a successful call of a closure that is no coroutine: the
frame of the caller on the frame stack, marked with the call's expected-return count and
catch flag, and a fresh current frame for the template. -/
def frame_pushed (vm vm1 : esh_vm) (cl : esh_closure) (k er : Nat) (cp : Bool) : Prop :=
  vm1.thread.stack_frames = vm.thread.stack_frames ++
    [{ vm.thread.current_frame with expected_returns := er, catch_panic := cp }] ∧
  vm1.thread.current_frame.fn = cl.fn ∧ vm1.thread.current_frame.n_args = k ∧
  vm1.thread.current_frame.instr_index = 0 ∧ vm1.thread.current_frame.catch_panic = false

/-- The value that stands for true: the inline string `"true"` that `esh_push_bool`
creates. -/
def true_value : esh_val := word_of_bytes [1, 116, 114, 117, 101, 0, 0, 0]

/-! ## Sample states of the interpreter -/

/-- The header of an object of the given type with an empty table. -/
def sample_header (type : Option esh_type_ptr) (is_const : Bool) : heap_object :=
  ⟨type, ⟨is_const, 0, []⟩, 0, []⟩

/-- Answers of an environment in which every allocation succeeds (objects at the addresses
1024 and 2048) and no native function is installed. -/
def sample_world : world :=
  { obj := 1024, obj2 := 2048, stack_ok := true, frames_ok := true, threads_ok := true,
    buff_ok := true, co_stack_ok := true, trace_ok := true, set := fun _ => (true, true),
    c_fn := fun _ vm _ _ => (⟨-1, 0, 0⟩, vm), next := fun _ => none }

/-- The instruction bytes of a list of (opcode, arg, l) triples. -/
def sample_code (instr : List (esh_opcode × Nat × Nat)) : List Nat :=
  instr.flatMap (fun i => [i.1.to_byte, i.2.1 % 256, i.2.1 / 256 % 256, i.2.2 % 256])

/-- A template with the given immediates, labels and instructions and no parameters. -/
def sample_function (imms : List esh_val) (jmps : List Nat)
    (instr : List (esh_opcode × Nat × Nat)) : esh_function :=
  { imms := imms, jmps := jmps, n_args := 0, opt_args := 0, n_locals := 0, variadic := false,
    instr := sample_code instr, upval_locals := false, c_fn := 0 }

/-- A heap with a closure at 16 for the template at 32, the globals object at 48 and, at
64, an object whose only entry is `"0"` with the value 7. -/
def sample_heap : Nat → Option heap_object :=
  fun a =>
    if a = 16 then some (sample_header (some esh_type_ptr.closure_type) true)
    else if a = 32 then some (sample_header (some esh_type_ptr.function_type) false)
    else if a = 48 then some (sample_header none false)
    else if a = 64 then some ⟨none, ⟨false, 1, [⟨some [48], 7, false⟩]⟩, 0, []⟩
    else none

/-- A state outside any call (as `esh_open` leaves it) with the given stack, in which the
closure at 16 has the template `f` at 32. -/
def sample_vm (f : esh_function) (stack : List esh_val) : esh_vm :=
  { thread :=
      { current_frame :=
          { stack_base := 0, fn := 0, env := 0, instr_index := 0, n_args := 0,
            expected_returns := 0, c_locals := 0, c_locals_free := 0, catch_panic := false },
        stack_frames := [],
        stack_frames_cap := 0, stack := stack, stack_cap := 64, is_done := false },
    current_thread := 8, co_threads := fun _ => none, threads := [], threads_cap := 0,
    heap := sample_heap,
    functions := fun a => if a = 32 then some f else none,
    closures := fun a => if a = 16 then some ⟨false, 32, 0⟩ else none,
    envs := fun _ => none, globals := 48, cmd := 0, err := none, stack_trace := none,
    panic_caught := false, str_buff := [], str_buff_cap := 0, freed_locals := [] }

/-- The state `sample_vm f stack` inside a run of the template: the frame of the template
is current, at instruction `index`. -/
def sample_running (f : esh_function) (stack : List esh_val) (index : Nat) : esh_vm :=
  { sample_vm f stack with
    thread := { (sample_vm f stack).thread with
      current_frame :=
        { (sample_vm f stack).thread.current_frame with fn := 32, instr_index := index } } }

/-- The heap `sample_heap` with the closure at 16 bound to the name `f` in the globals
object. -/
def sample_heap_bound : Nat → Option heap_object :=
  fun a =>
    if a = 48 then some ⟨none, ⟨false, 1, [⟨some [102], 16, false⟩]⟩, 0, []⟩
    else sample_heap a

/-- A native template with address 7 for its function that takes any number of
arguments. -/
def sample_native : esh_function :=
  { imms := [], jmps := [], n_args := 0, opt_args := 0, n_locals := 0, variadic := true,
    instr := [], upval_locals := false, c_fn := 7 }

/-- The inline string `"f"`. -/
def sample_name : esh_val := word_of_bytes [1, 102, 0, 0, 0, 0, 0, 0]

/-! ## Readings and samples for the arithmetic instructions -/

/-- The bytes of a string value: the memory `val_as_string` returns, cut at the length it
reports; `none` for a value that `val_as_string` does not read. -/
def string_value (heap : Nat → Option heap_object) (val : esh_val) : Option (List Nat) :=
  (val_as_string heap val).map (fun r => r.1.take r.2)

/-- The stack an instruction leaves when it goes on to the next instruction, every value
read as a string; `none` for every other outcome. -/
def strings_left : Option vm_signal → Option (List (Option (List Nat)))
  | some (.brk vm) => some (vm.thread.stack.map (string_value vm.heap))
  | _ => none

/-- The running state `sample_running` with the strings `a` and `b` pushed by
`esh_new_string` on an empty stack, `a` first; a heap string is placed at 80 for `a` and at
96 for `b`. -/
def sample_operands (a b : List Nat) : esh_vm :=
  (sample_running (sample_function [] [] []) [] 0).put
    (esh_new_string 96
      (esh_new_string 80 (sample_running (sample_function [] [] []) [] 0).esh a).2 b).2

/-- What `leave_fn` leaves after a return to a caller frame `prev` above the frames
`frames`: the stack is `lower`, the part below the callee value, followed by the values
`out`, the caller's frame is current again and is removed from the frame stack. -/
def frame_left (vm1 : esh_vm) (frames : List esh_stack_frame) (prev : esh_stack_frame)
    (lower out : List esh_val) : Prop :=
  vm1.thread.stack = lower ++ out ∧ vm1.thread.current_frame = prev ∧
  vm1.thread.stack_frames = frames

/-- The state of the table of the array that `esh_new_array` builds from the values `vals`
after `i` iterations of its loop: a well-formed table that is not constant and has no
tombstone, whose live entries are the non-NULL values among the first `i`, each under the
key `int_to_str` gives for its position. -/
def array_inv (vals : List esh_val) (i : Nat) (obj : esh_object) : Prop :=
  wf obj ∧ obj.is_const = false ∧ (∀ e ∈ obj.entries, e.deleted = false) ∧
  ∀ k v, live_at obj.entries k v ↔
    ∃ j, j < i ∧ k = int_to_str (wrap64 j) ∧ vals[j]? = some v ∧ v ≠ ESH_NULL

/-- A state inside a call of the closure at 16, which lies in slot 0 of the stack `stack`
below the callee's frame (base 1); the caller's frame, on the frame stack, expects `e`
values. -/
def sample_callee (e : Nat) (stack : List esh_val) : esh_vm :=
  { sample_running (sample_function [] [] []) stack 0 with
    thread := { (sample_running (sample_function [] [] []) stack 0).thread with
      current_frame :=
        { (sample_running (sample_function [] [] []) stack 0).thread.current_frame with
          stack_base := 1 },
      stack_frames :=
        [{ (sample_vm (sample_function [] [] []) stack).thread.current_frame with
          expected_returns := e }] } }

/-! ## The expression compiler (`esh_c.c`)

The expression compiler is embedded from the token stream on: the tokens the lexer
(`next_token`) delivers are given as a list.  The function under construction,
which the compiler keeps on top of the stack of the interpreter and finds there through
`esh_as_type`, is a field of the compiler state; that it is found on the stack is not
modelled.  Recursion and loops run on fuel. -/

/-- The enumeration `token_type`. -/
inductive token_type where
  | TOK_NULL | TOK_EOF | TOK_WORD | TOK_SIGIL | TOK_ASSIGN | TOK_WITH | TOK_DO | TOK_END
  | TOK_LOCAL | TOK_CONST | TOK_IF | TOK_ELSE | TOK_THEN | TOK_RETURN | TOK_FUNCTION
  | TOK_ADD | TOK_SUB | TOK_MUL | TOK_DIV | TOK_LESS | TOK_GREATER | TOK_EQUALS
  | TOK_NEQUALS | TOK_OPEN_BRACKET | TOK_CLOSE_BRACKET | TOK_OPEN_CURL | TOK_CLOSE_CURL
  | TOK_COMMA | TOK_COLON | TOK_PIPE | TOK_EXCL | TOK_OPT | TOK_AND | TOK_OR | TOK_NOT
  | TOK_STR_INTERP | TOK_NULL_LITERAL
  deriving DecidableEq, Repr

/-- The struct `lex_token` without the pointers `start` and `end` into the source text,
which only error messages use; `str` holds the `strlen` bytes at `str`. -/
structure lex_token where
  type : token_type
  str : List Nat
  newline : Bool
  line : Nat
  deriving DecidableEq, Repr

/-- The struct `fn_scope`. -/
structure fn_scope where
  block_scopes_base : Nat
  n_locals : Nat
  upval_locals : Bool
  deriving DecidableEq, Repr

/-- The struct `block_scope`. -/
structure block_scope where
  locals_base : Nat
  deriving DecidableEq, Repr

/-- The struct `local_var`; `name` holds the `name_len` bytes at `name`. -/
structure local_var where
  name : List Nat
  index : Nat
  is_const : Bool
  deriving DecidableEq, Repr

/-- Why a run of the compiler stops without a result: `thrown` is `throw_err` (the
`longjmp` to the handler in `esh_compile_src`), `assertion` a failed assertion,
`not_embedded` a branch of the source that this model does not have, `fuel` the end of the
fuel. -/
inductive compile_stop where
  | thrown | assertion | not_embedded | fuel
  deriving DecidableEq, Repr

/-- The state of a compilation: the fields of `struct compile_ctx` that the expression
compiler uses, and the part of the interpreter state it works on.

* `input` is the token stream from `ctx->next_token` on; after its last token the lexer
  delivers `TOK_EOF`.  `pushed_token` is `none` for the type `TOK_NULL`.
* `fn` is the function object under construction, with the capacities of its arrays and
  its line directives (pairs of `instr_index` and `line`) beside it.
* `esh` is the value stack and the heap; `new_ptr k` is the pointer the allocator returns
  for a heap string that is created when the function has `k` immediates, and `grow` says
  whether `esh_realloc` returns memory when an array has to grow. -/
structure compile_ctx where
  input : List lex_token
  pushed_token : Option lex_token
  fn_scopes : List fn_scope
  block_scopes : List block_scope
  locals : List local_var
  str_buff : List Nat
  str_buff_cap : Nat
  fn : esh_function
  instr_cap : Nat
  imms_cap : Nat
  jmps_cap : Nat
  line_dirs : List (Nat × Nat)
  line_dirs_cap : Nat
  esh : esh_state
  new_ptr : Nat → Nat
  grow : Bool

/-- The token the lexer delivers at the end of the input. -/
def eof_token : lex_token := ⟨.TOK_EOF, [], false, 0⟩

/-- The function `peek_token`. -/
def peek_token (ctx : compile_ctx) : lex_token :=
  match ctx.pushed_token with
  | some tok => tok
  | none => ctx.input.headD eof_token

/-- The function `pop_token`: the token and the state after it. -/
def pop_token (ctx : compile_ctx) : lex_token × compile_ctx :=
  match ctx.pushed_token with
  | some tok => (tok, { ctx with pushed_token := none })
  | none => (ctx.input.headD eof_token, { ctx with input := ctx.input.tail })

/-- The function `expect_token`. -/
def expect_token (ctx : compile_ctx) (type : token_type) :
    Except compile_stop (lex_token × compile_ctx) :=
  if (pop_token ctx).1.type ≠ type then .error .thrown else .ok (pop_token ctx)

/-- The function `accept_token`: `none` is the result `false`, `some` the result `true`
with the token written to `opt_tok`. -/
def accept_token (ctx : compile_ctx) (type : token_type) : Option (lex_token × compile_ctx) :=
  if (peek_token ctx).type = type then some (pop_token ctx) else none

/-- A condition `accept_token(.., t1, &op) || accept_token(.., t2, &op) || ..` as the loops
of the binary operators have it: the first type of the list that is accepted. -/
def accept_first (ctx : compile_ctx) : List token_type → Option (lex_token × compile_ctx)
  | [] => none
  | type :: rest =>
    match accept_token ctx type with
    | some r => some r
    | none => accept_first ctx rest

/-- The function `next_is_newline`. -/
def next_is_newline (ctx : compile_ctx) : Bool := (peek_token ctx).newline

/-- The function `is_start_of_term`. -/
def is_start_of_term (tok : token_type) : Bool :=
  match tok with
  | .TOK_WORD | .TOK_SIGIL | .TOK_WITH | .TOK_OPEN_BRACKET | .TOK_CONST | .TOK_OPEN_CURL
  | .TOK_STR_INTERP | .TOK_NULL_LITERAL => true
  | _ => false

/-! ### Scopes -/

/-- The innermost loop of `index_local`: the first local with the name among the slots
`base .. top - 1`. -/
def index_local_scan (locals : List local_var) (name : List Nat) (base top : Nat) :
    Option local_var :=
  ((locals.take top).drop base).find? (fun l => decide (l.name = name))

/-- How the loop over the blocks of one function scope in `index_local` ends: with the
local found, with `return false` (for `current_block_only`), or at its end with the new
value of `locals_top`. -/
inductive block_scan where
  | found (l : local_var)
  | not_found
  | next (locals_top : Nat)
  deriving DecidableEq, Repr

/-- The loop over the blocks in `index_local`, `j` running down to `block_scopes_base`
(`fuel` is `j - block_scopes_base`). -/
def index_local_blocks (ctx : compile_ctx) (name : List Nat) (current_block_only : Bool) :
    Nat → Nat → Nat → block_scan
  | 0, _, locals_top => .next locals_top
  | fuel + 1, j, locals_top =>
    let block := ctx.block_scopes.getD (j - 1) ⟨0⟩
    match index_local_scan ctx.locals name block.locals_base locals_top with
    | some l => .found l
    | none =>
      if current_block_only then .not_found
      else index_local_blocks ctx name current_block_only fuel (j - 1) block.locals_base

/-- The loop over the function scopes in `index_local`, `i` running down to 0: the local
and `*out_uplevel`. -/
def index_local_fns (ctx : compile_ctx) (name : List Nat) (current_block_only : Bool) :
    Nat → Nat → Nat → Nat → Option (local_var × Nat)
  | 0, _, _, _ => none
  | i + 1, locals_top, blocks_top, uplevel =>
    let fn := ctx.fn_scopes.getD i ⟨0, 0, false⟩
    match index_local_blocks ctx name current_block_only (blocks_top - fn.block_scopes_base)
        blocks_top locals_top with
    | .found l => some (l, uplevel)
    | .not_found => none
    | .next locals_top1 =>
      index_local_fns ctx name current_block_only i locals_top1 fn.block_scopes_base
        (uplevel + 1)

/-- The function `index_local`: `none` is the result `false`. -/
def index_local (ctx : compile_ctx) (name : List Nat) (current_block_only : Bool) :
    Option (local_var × Nat) :=
  index_local_fns ctx name current_block_only ctx.fn_scopes.length ctx.locals.length
    ctx.block_scopes.length 0

/-- The function `find_local`. -/
def find_local (ctx : compile_ctx) (word : lex_token) :
    Except compile_stop (Option (local_var × Nat)) :=
  if word.type ≠ .TOK_WORD then .error .assertion
  else .ok (index_local ctx word.str false)

/-- The function `upval_locals`. -/
def upval_locals (ctx : compile_ctx) (n : Nat) : Except compile_stop compile_ctx :=
  if ¬ n + 1 ≤ ctx.fn_scopes.length then .error .assertion
  else
    .ok { ctx with
      fn_scopes := (List.range n).foldl
        (fun scopes i =>
          scopes.set (ctx.fn_scopes.length - 2 - i)
            { scopes.getD (ctx.fn_scopes.length - 2 - i) ⟨0, 0, false⟩ with
              upval_locals := true })
        ctx.fn_scopes }

/-! ### The function under construction (`esh.c`) -/

/-- The function `esh_fn_append_instr` followed by `throw_err` if it fails. -/
def esh_fn_append_instr (ctx : compile_ctx) (op : esh_opcode) (arg l : Nat) :
    Except compile_stop compile_ctx :=
  if ctx.fn.instr_len = ctx.instr_cap ∧ ctx.grow = false then .error .thrown
  else
    match encode_instr op.to_byte arg l with
    | .error _ => .error .thrown
    | .ok bytes =>
      .ok { ctx with
        fn := { ctx.fn with instr := ctx.fn.instr ++ bytes },
        instr_cap :=
          if ctx.fn.instr_len = ctx.instr_cap then ctx.instr_cap * 3 / 2 + 1
          else ctx.instr_cap }

/-- The function `esh_fn_add_imm` followed by `throw_err` if it fails: the reference
written to `out_ref` and the state. -/
def esh_fn_add_imm (ctx : compile_ctx) : Except compile_stop (Nat × compile_ctx) :=
  if ¬ ctx.esh.stack_len ≥ 2 then .error .assertion
  else if ctx.fn.imms.length = ctx.imms_cap ∧ ctx.grow = false then .error .thrown
  else
    .ok (ctx.fn.imms.length, { ctx with
      fn := { ctx.fn with imms := ctx.fn.imms ++ [stack_at ctx.esh (ctx.esh.stack_len - 1)] },
      imms_cap :=
        if ctx.fn.imms.length = ctx.imms_cap then ctx.imms_cap * 3 / 2 + 1 else ctx.imms_cap,
      esh := esh_pop ctx.esh 1 })

/-- The function `esh_fn_new_label` followed by `throw_err` if it fails: the reference
written to `out_ref` and the state. -/
def esh_fn_new_label (ctx : compile_ctx) : Except compile_stop (Nat × compile_ctx) :=
  if ctx.fn.jmps.length = ctx.jmps_cap ∧ ctx.grow = false then .error .thrown
  else
    .ok (ctx.fn.jmps.length, { ctx with
      fn := { ctx.fn with jmps := ctx.fn.jmps ++ [ctx.fn.instr_len] },
      jmps_cap :=
        if ctx.fn.jmps.length = ctx.jmps_cap then ctx.jmps_cap * 3 / 2 + 1 else ctx.jmps_cap })

/-- The function `esh_fn_put_label` followed by `throw_err` if it fails. -/
def esh_fn_put_label (ctx : compile_ctx) (label : Nat) : Except compile_stop compile_ctx :=
  if label ≥ ctx.fn.jmps.length then .error .thrown
  else .ok { ctx with fn := { ctx.fn with jmps := ctx.fn.jmps.set label ctx.fn.instr_len } }

/-- The function `esh_fn_line_directive` followed by `throw_err` if it fails. -/
def esh_fn_line_directive (ctx : compile_ctx) (line : Nat) : Except compile_stop compile_ctx :=
  if ctx.line_dirs.length ≠ 0 ∧ (ctx.line_dirs.getLastD (0, 0)).2 = line then .ok ctx
  else if ctx.line_dirs.length = ctx.line_dirs_cap ∧ ctx.grow = false then .error .thrown
  else
    .ok { ctx with
      line_dirs := ctx.line_dirs ++ [(ctx.fn.instr_len, line)],
      line_dirs_cap :=
        if ctx.line_dirs.length = ctx.line_dirs_cap then ctx.line_dirs_cap * 3 / 2 + 1
        else ctx.line_dirs_cap }

/-! ### Words and variables -/

/-- The function `str_buff_append`. -/
def str_buff_append (ctx : compile_ctx) (c : Nat) : Except compile_stop compile_ctx :=
  if ctx.str_buff.length = ctx.str_buff_cap ∧ ctx.grow = false then .error .thrown
  else
    .ok { ctx with
      str_buff := ctx.str_buff ++ [c],
      str_buff_cap :=
        if ctx.str_buff.length = ctx.str_buff_cap then ctx.str_buff_cap * 3 / 2 + 1
        else ctx.str_buff_cap }

/-- The loop of `add_str_imm` over the bytes of the word that are left. -/
def add_str_imm_loop (prev_was_escape : Bool) (ctx : compile_ctx) :
    List Nat → Except compile_stop compile_ctx
  | [] => .ok ctx
  | c :: rest =>
    if prev_was_escape then
      if c = 110 then (str_buff_append ctx 10).bind (fun ctx1 => add_str_imm_loop false ctx1 rest)
      else if c = 114 then
        (str_buff_append ctx 13).bind (fun ctx1 => add_str_imm_loop false ctx1 rest)
      else if c = 116 then
        (str_buff_append ctx 9).bind (fun ctx1 => add_str_imm_loop false ctx1 rest)
      else if c = 48 then
        (str_buff_append ctx 0).bind (fun ctx1 => add_str_imm_loop false ctx1 rest)
      else if c = 39 ∨ c = 34 ∨ c = 92 ∨ c = 36 then
        (str_buff_append ctx c).bind (fun ctx1 => add_str_imm_loop false ctx1 rest)
      else .error .thrown
    else if c = 92 then add_str_imm_loop true ctx rest
    else (str_buff_append ctx c).bind (fun ctx1 => add_str_imm_loop false ctx1 rest)

/-- The function `add_str_imm`: the reference of the new immediate and the state. -/
def add_str_imm (ctx : compile_ctx) (word : lex_token) :
    Except compile_stop (Nat × compile_ctx) :=
  if ¬ (word.type = .TOK_WORD ∨ word.type = .TOK_STR_INTERP) then .error .assertion
  else
    match add_str_imm_loop false { ctx with str_buff := [] } word.str with
    | .error e => .error e
    | .ok ctx1 =>
      match esh_new_string (ctx1.new_ptr ctx1.fn.imms.length) ctx1.esh ctx1.str_buff with
      | (0, esh1) => esh_fn_add_imm { ctx1 with esh := esh1 }
      | (_, _) => .error .thrown

/-- The function `compile_word`. -/
def compile_word (ctx : compile_ctx) (word : lex_token) : Except compile_stop compile_ctx :=
  match add_str_imm ctx word with
  | .error e => .error e
  | .ok (ref, ctx1) => esh_fn_append_instr ctx1 .IMM ref 0

/-- The function `compile_local_var_load`: the result and the state. -/
def compile_local_var_load (ctx : compile_ctx) (word : lex_token) :
    Except compile_stop (Bool × compile_ctx) :=
  match find_local ctx word with
  | .error e => .error e
  | .ok none => .ok (false, ctx)
  | .ok (some (local_var, local_uplevel)) =>
    match upval_locals ctx local_uplevel with
    | .error e => .error e
    | .ok ctx1 =>
      match esh_fn_append_instr ctx1 .LOAD local_var.index local_uplevel with
      | .error e => .error e
      | .ok ctx2 => .ok (true, ctx2)

/-- The function `compile_var_load`. -/
def compile_var_load (ctx : compile_ctx) (word : lex_token) :
    Except compile_stop compile_ctx :=
  match compile_local_var_load ctx word with
  | .error e => .error e
  | .ok (true, ctx1) => .ok ctx1
  | .ok (false, ctx1) =>
    match add_str_imm ctx1 word with
    | .error e => .error e
    | .ok (imm, ctx2) => esh_fn_append_instr ctx2 .LOAD_G imm 0

/-- The opcode that `compile_cmp_expression` selects for the operator token. -/
def cmp_opcode (type : token_type) : Except compile_stop esh_opcode :=
  match type with
  | .TOK_EQUALS => .ok .EQ
  | .TOK_NEQUALS => .ok .NEQ
  | .TOK_LESS => .ok .LESS
  | .TOK_GREATER => .ok .GREATER
  | _ => .error .assertion

/-! ### Terms and expressions

Of `compile_s_term` the cases of a variable (`TOK_SIGIL`), a bracketed expression and
`null` are embedded; string interpolation, function literals and object literals end the
run with `not_embedded`. -/

mutual

/-- The function `compile_s_term`. -/
def compile_s_term : Nat → compile_ctx → Except compile_stop compile_ctx
  | 0, _ => .error .fuel
  | fuel + 1, ctx =>
    match esh_fn_line_directive (pop_token ctx).2 (pop_token ctx).1.line with
    | .error e => .error e
    | .ok ctx1 =>
      match (pop_token ctx).1.type with
      | .TOK_SIGIL =>
        match expect_token ctx1 .TOK_WORD with
        | .error e => .error e
        | .ok (word, ctx2) => compile_var_load ctx2 word
      | .TOK_STR_INTERP => .error .not_embedded
      | .TOK_WITH => .error .not_embedded
      | .TOK_OPEN_BRACKET =>
        match compile_expression fuel ctx1 with
        | .error e => .error e
        | .ok ctx2 =>
          match expect_token ctx2 .TOK_CLOSE_BRACKET with
          | .error e => .error e
          | .ok (_, ctx3) => .ok ctx3
      | .TOK_CONST => .error .not_embedded
      | .TOK_OPEN_CURL => .error .not_embedded
      | .TOK_NULL_LITERAL => esh_fn_append_instr ctx1 .PUSH_NULL 0 0
      | _ => .error .thrown

/-- The loop `while(accept_token(esh, ctx, TOK_COLON, NULL))` of `compile_term`. -/
def compile_term_loop : Nat → compile_ctx → Except compile_stop compile_ctx
  | 0, _ => .error .fuel
  | fuel + 1, ctx =>
    match accept_token ctx .TOK_COLON with
    | none => .ok ctx
    | some (_, ctx1) =>
      let key :=
        match accept_token ctx1 .TOK_WORD with
        | some (word, ctx2) => compile_word ctx2 word
        | none => compile_s_term fuel ctx1
      match key with
      | .error e => .error e
      | .ok ctx3 =>
        match esh_fn_append_instr ctx3 .INDEX 0 0 with
        | .error e => .error e
        | .ok ctx4 => compile_term_loop fuel ctx4

/-- The function `compile_term`. -/
def compile_term : Nat → compile_ctx → Except compile_stop compile_ctx
  | 0, _ => .error .fuel
  | fuel + 1, ctx =>
    match accept_token ctx .TOK_WORD with
    | some (word, ctx1) =>
      match esh_fn_line_directive ctx1 word.line with
      | .error e => .error e
      | .ok ctx2 => compile_word ctx2 word
    | none =>
      match compile_s_term fuel ctx with
      | .error e => .error e
      | .ok ctx1 => compile_term_loop fuel ctx1

/-- The function `compile_arg_list` from the count `n_args` on: the number of arguments
and the state. -/
def compile_arg_list : Nat → Nat → compile_ctx → Except compile_stop (Nat × compile_ctx)
  | 0, _, _ => .error .fuel
  | fuel + 1, n_args, ctx =>
    if is_start_of_term (peek_token ctx).type && !next_is_newline ctx then
      match compile_term fuel ctx with
      | .error e => .error e
      | .ok ctx1 => compile_arg_list fuel (n_args + 1) ctx1
    else .ok (n_args, ctx)

/-- The loop `while(accept_token(esh, ctx, TOK_PIPE, NULL))` of
`compile_call_expression`. -/
def compile_call_pipes : Nat → Bool → compile_ctx → Except compile_stop compile_ctx
  | 0, _, _ => .error .fuel
  | fuel + 1, is_statement, ctx =>
    match accept_token ctx .TOK_PIPE with
    | none => .ok ctx
    | some (_, ctx1) =>
      let stage : Except compile_stop compile_ctx :=
        match accept_token ctx1 .TOK_WORD with
        | some (word, ctx2) =>
          match compile_local_var_load ctx2 word with
          | .error e => .error e
          | .ok (is_local, ctx3) =>
            match (if is_local then .ok ctx3 else compile_word ctx3 word) with
            | .error e => .error e
            | .ok ctx4 =>
              match esh_fn_append_instr ctx4 .SWAP 0 0 with
              | .error e => .error e
              | .ok ctx5 =>
                match compile_arg_list fuel 0 ctx5 with
                | .error e => .error e
                | .ok (n, ctx6) =>
                  let ctx7 :=
                    match accept_token ctx6 .TOK_EXCL with
                    | some (_, c) => c
                    | none => ctx6
                  let next_is_pipe := decide ((peek_token ctx7).type = .TOK_PIPE)
                  if is_local then esh_fn_append_instr ctx7 .CALL n 0
                  else
                    esh_fn_append_instr ctx7 .CMD (n + 1)
                      (if is_statement && !next_is_pipe then 2 else 3)
        | none =>
          match compile_term fuel ctx1 with
          | .error e => .error e
          | .ok ctx2 =>
            match esh_fn_append_instr ctx2 .SWAP 0 0 with
            | .error e => .error e
            | .ok ctx3 =>
              match compile_arg_list fuel 0 ctx3 with
              | .error e => .error e
              | .ok (n, ctx4) =>
                let ctx5 :=
                  match accept_token ctx4 .TOK_EXCL with
                  | some (_, c) => c
                  | none => ctx4
                esh_fn_append_instr ctx5 .CALL (n + 1) 0
      match stage with
      | .error e => .error e
      | .ok ctx8 =>
        let prop :=
          match accept_token ctx8 .TOK_OPT with
          | some (_, ctx9) => esh_fn_append_instr ctx9 .PROP 0 0
          | none => .ok ctx8
        match prop with
        | .error e => .error e
        | .ok ctx10 => compile_call_pipes fuel is_statement ctx10

/-- The function `compile_call_expression`. -/
def compile_call_expression : Nat → Bool → compile_ctx → Except compile_stop compile_ctx
  | 0, _, _ => .error .fuel
  | fuel + 1, is_statement, ctx =>
    let call : Except compile_stop compile_ctx :=
      match accept_token ctx .TOK_WORD with
      | some (word, ctx1) =>
        match compile_local_var_load ctx1 word with
        | .error e => .error e
        | .ok (is_local, ctx2) =>
          match (if is_local then .ok ctx2 else compile_word ctx2 word) with
          | .error e => .error e
          | .ok ctx3 =>
            match compile_arg_list fuel 0 ctx3 with
            | .error e => .error e
            | .ok (n, ctx4) =>
              let excl := (accept_token ctx4 .TOK_EXCL).isSome
              let ctx5 :=
                match accept_token ctx4 .TOK_EXCL with
                | some (_, c) => c
                | none => ctx4
              let next_is_pipe := decide ((peek_token ctx5).type = .TOK_PIPE)
              if excl || decide (n ≠ 0) || is_statement then
                if is_local then esh_fn_append_instr ctx5 .CALL n 0
                else
                  esh_fn_append_instr ctx5 .CMD n
                    (if is_statement && !next_is_pipe then 0 else 1)
              else .ok ctx5
      | none =>
        match compile_term fuel ctx with
        | .error e => .error e
        | .ok ctx1 =>
          match compile_arg_list fuel 0 ctx1 with
          | .error e => .error e
          | .ok (n, ctx2) =>
            match accept_token ctx2 .TOK_EXCL with
            | some (_, ctx3) => esh_fn_append_instr ctx3 .CALL n 0
            | none => if n ≠ 0 then esh_fn_append_instr ctx2 .CALL n 0 else .ok ctx2
    match call with
    | .error e => .error e
    | .ok ctx6 =>
      let prop :=
        match accept_token ctx6 .TOK_OPT with
        | some (_, ctx7) => esh_fn_append_instr ctx7 .PROP 0 0
        | none => .ok ctx6
      match prop with
      | .error e => .error e
      | .ok ctx8 => compile_call_pipes fuel is_statement ctx8

/-- The function `compile_unary_expression`. -/
def compile_unary_expression : Nat → compile_ctx → Except compile_stop compile_ctx
  | 0, _ => .error .fuel
  | fuel + 1, ctx =>
    match accept_token ctx .TOK_NOT with
    | some (_, ctx1) =>
      match compile_call_expression fuel false ctx1 with
      | .error e => .error e
      | .ok ctx2 => esh_fn_append_instr ctx2 .NOT 0 0
    | none => compile_call_expression fuel false ctx

/-- The loop of `compile_mul_expression`. -/
def compile_mul_loop : Nat → compile_ctx → Except compile_stop compile_ctx
  | 0, _ => .error .fuel
  | fuel + 1, ctx =>
    match accept_first ctx [.TOK_MUL, .TOK_DIV] with
    | none => .ok ctx
    | some (op, ctx1) =>
      match esh_fn_line_directive ctx1 op.line with
      | .error e => .error e
      | .ok ctx2 =>
        match compile_unary_expression fuel ctx2 with
        | .error e => .error e
        | .ok ctx3 =>
          match esh_fn_append_instr ctx3 (if op.type = .TOK_MUL then .MUL else .DIV) 0 0 with
          | .error e => .error e
          | .ok ctx4 => compile_mul_loop fuel ctx4

/-- The function `compile_mul_expression`. -/
def compile_mul_expression : Nat → compile_ctx → Except compile_stop compile_ctx
  | 0, _ => .error .fuel
  | fuel + 1, ctx =>
    match compile_unary_expression fuel ctx with
    | .error e => .error e
    | .ok ctx1 => compile_mul_loop fuel ctx1

/-- The loop of `compile_add_expression`. -/
def compile_add_loop : Nat → compile_ctx → Except compile_stop compile_ctx
  | 0, _ => .error .fuel
  | fuel + 1, ctx =>
    match accept_first ctx [.TOK_ADD, .TOK_SUB] with
    | none => .ok ctx
    | some (op, ctx1) =>
      match esh_fn_line_directive ctx1 op.line with
      | .error e => .error e
      | .ok ctx2 =>
        match compile_mul_expression fuel ctx2 with
        | .error e => .error e
        | .ok ctx3 =>
          match esh_fn_append_instr ctx3 (if op.type = .TOK_ADD then .ADD else .SUB) 0 0 with
          | .error e => .error e
          | .ok ctx4 => compile_add_loop fuel ctx4

/-- The function `compile_add_expression`. -/
def compile_add_expression : Nat → compile_ctx → Except compile_stop compile_ctx
  | 0, _ => .error .fuel
  | fuel + 1, ctx =>
    match compile_mul_expression fuel ctx with
    | .error e => .error e
    | .ok ctx1 => compile_add_loop fuel ctx1

/-- The loop of `compile_cmp_expression`. -/
def compile_cmp_loop : Nat → compile_ctx → Except compile_stop compile_ctx
  | 0, _ => .error .fuel
  | fuel + 1, ctx =>
    match accept_first ctx [.TOK_EQUALS, .TOK_NEQUALS, .TOK_LESS, .TOK_GREATER] with
    | none => .ok ctx
    | some (op, ctx1) =>
      match esh_fn_line_directive ctx1 op.line with
      | .error e => .error e
      | .ok ctx2 =>
        match compile_add_expression fuel ctx2 with
        | .error e => .error e
        | .ok ctx3 =>
          match cmp_opcode op.type with
          | .error e => .error e
          | .ok opcode =>
            match esh_fn_append_instr ctx3 opcode 0 0 with
            | .error e => .error e
            | .ok ctx4 => compile_cmp_loop fuel ctx4

/-- The function `compile_cmp_expression`. -/
def compile_cmp_expression : Nat → compile_ctx → Except compile_stop compile_ctx
  | 0, _ => .error .fuel
  | fuel + 1, ctx =>
    match compile_add_expression fuel ctx with
    | .error e => .error e
    | .ok ctx1 => compile_cmp_loop fuel ctx1

/-- The loop of `compile_and_expression`. -/
def compile_and_loop : Nat → compile_ctx → Except compile_stop compile_ctx
  | 0, _ => .error .fuel
  | fuel + 1, ctx =>
    match accept_first ctx [.TOK_AND, .TOK_OR] with
    | none => .ok ctx
    | some (op, ctx1) =>
      match esh_fn_line_directive ctx1 op.line with
      | .error e => .error e
      | .ok ctx2 =>
        match esh_fn_new_label ctx2 with
        | .error e => .error e
        | .ok (label, ctx3) =>
          match esh_fn_append_instr ctx3 .DUP 0 0 with
          | .error e => .error e
          | .ok ctx4 =>
            match esh_fn_append_instr ctx4
                (if op.type = .TOK_AND then .JMP_IFN else .JMP_IF) label 0 with
            | .error e => .error e
            | .ok ctx5 =>
              match esh_fn_append_instr ctx5 .POP 0 0 with
              | .error e => .error e
              | .ok ctx6 =>
                match compile_cmp_expression fuel ctx6 with
                | .error e => .error e
                | .ok ctx7 =>
                  match esh_fn_put_label ctx7 label with
                  | .error e => .error e
                  | .ok ctx8 => compile_and_loop fuel ctx8

/-- The function `compile_and_expression`. -/
def compile_and_expression : Nat → compile_ctx → Except compile_stop compile_ctx
  | 0, _ => .error .fuel
  | fuel + 1, ctx =>
    match compile_cmp_expression fuel ctx with
    | .error e => .error e
    | .ok ctx1 => compile_and_loop fuel ctx1

/-- The function `compile_expression`. -/
def compile_expression : Nat → compile_ctx → Except compile_stop compile_ctx
  | 0, _ => .error .fuel
  | fuel + 1, ctx => compile_and_expression fuel ctx

end

/-! ## Expression trees: the reading of the operator levels -/

/-- The binary operators of expressions. -/
inductive binop where
  | or | and | eq | neq | less | greater | add | sub | mul | div
  deriving DecidableEq, Repr

/-- An expression as a tree: a word, `null`, a variable `$word`, a bracketed expression, or
a binary operator with its two operands.  Every node carries the tokens it is written
with, of which the text, the newline flag and the line are used (the type is given by the
node). -/
inductive expr where
  | word (tok : lex_token)
  | null (tok : lex_token)
  | var (sigil tok : lex_token)
  | bracket (opening closing : lex_token) (e : expr)
  | binary (op : binop) (tok : lex_token) (a b : expr)
  deriving Repr

/-- The instructions of a binary operator that precede the code of its right operand, with
the label they use: none but the line directive for an arithmetic operator or a
comparison, `DUP; JMP_IFN label; POP` for `and` and `DUP; JMP_IF label; POP` for `or`. -/
def operator_begin (op : binop) (tok : lex_token) (ctx : compile_ctx) :
    Except compile_stop (Nat × compile_ctx) :=
  match esh_fn_line_directive ctx tok.line with
  | .error e => .error e
  | .ok ctx1 =>
    if op = .and ∨ op = .or then
      match esh_fn_new_label ctx1 with
      | .error e => .error e
      | .ok (label, ctx2) =>
        match esh_fn_append_instr ctx2 .DUP 0 0 with
        | .error e => .error e
        | .ok ctx3 =>
          match esh_fn_append_instr ctx3 (if op = .and then .JMP_IFN else .JMP_IF) label 0 with
          | .error e => .error e
          | .ok ctx4 =>
            match esh_fn_append_instr ctx4 .POP 0 0 with
            | .error e => .error e
            | .ok ctx5 => .ok (label, ctx5)
    else .ok (0, ctx1)

/-- What follows the code of the right operand of a binary operator: the instruction of an
arithmetic operator or a comparison, the label of `and` and `or`. -/
def operator_end (op : binop) (label : Nat) (ctx : compile_ctx) :
    Except compile_stop compile_ctx :=
  match op with
  | .or => esh_fn_put_label ctx label
  | .and => esh_fn_put_label ctx label
  | .eq => esh_fn_append_instr ctx .EQ 0 0
  | .neq => esh_fn_append_instr ctx .NEQ 0 0
  | .less => esh_fn_append_instr ctx .LESS 0 0
  | .greater => esh_fn_append_instr ctx .GREATER 0 0
  | .add => esh_fn_append_instr ctx .ADD 0 0
  | .sub => esh_fn_append_instr ctx .SUB 0 0
  | .mul => esh_fn_append_instr ctx .MUL 0 0
  | .div => esh_fn_append_instr ctx .DIV 0 0

/-- The code of an expression tree, appended to the function under construction: the code
of an operand is what the compiler emits for that operand alone, and the code of a binary
expression is the code of the left operand, the code of the right operand and the
operator, so that both operands are evaluated before the operator is applied. -/
def emit : expr → compile_ctx → Except compile_stop compile_ctx
  | .word tok, ctx =>
    match compile_local_var_load ctx { tok with type := .TOK_WORD } with
    | .error e => .error e
    | .ok (true, ctx1) => .ok ctx1
    | .ok (false, ctx1) => compile_word ctx1 { tok with type := .TOK_WORD }
  | .null tok, ctx =>
    match esh_fn_line_directive ctx tok.line with
    | .error e => .error e
    | .ok ctx1 => esh_fn_append_instr ctx1 .PUSH_NULL 0 0
  | .var sigil tok, ctx =>
    match esh_fn_line_directive ctx sigil.line with
    | .error e => .error e
    | .ok ctx1 => compile_var_load ctx1 { tok with type := .TOK_WORD }
  | .bracket opening _ e, ctx =>
    match esh_fn_line_directive ctx opening.line with
    | .error e => .error e
    | .ok ctx1 => emit e ctx1
  | .binary op tok a b, ctx =>
    match emit a ctx with
    | .error e => .error e
    | .ok ctx1 =>
      match operator_begin op tok ctx1 with
      | .error e => .error e
      | .ok (label, ctx2) =>
        match emit b ctx2 with
        | .error e => .error e
        | .ok ctx3 => operator_end op label ctx3

/-- A token of the given type and text on line 1. -/
def sample_token (type : token_type) (str : List Nat) : lex_token := ⟨type, str, false, 1⟩

/-- The state in which `compile_program` starts the compilation of the tokens `input`: one
function scope with its block, an empty function object at 32 on top of the stack, and
an allocator that grants every request. -/
def sample_ctx (input : List lex_token) : compile_ctx :=
  { input := input, pushed_token := none, fn_scopes := [⟨0, 0, false⟩],
    block_scopes := [⟨0⟩], locals := [], str_buff := [], str_buff_cap := 0,
    fn := sample_function [] [] [], instr_cap := 0, imms_cap := 0, jmps_cap := 0,
    line_dirs := [], line_dirs_cap := 0, esh := ⟨[32], 64, 0, sample_heap, none⟩,
    new_ptr := fun k => 4096 + 16 * k, grow := true }

/-! ## Sample expressions -/

/-- The native function `next_fn` of `esh_stdlib.c`; its assertions on `n_args` and `i` are
left out. -/
def next_fn (vm : esh_vm) (_n_args i : Nat) : esh_fn_result × esh_vm :=
  if i = 0 then (⟨4, 0, 1⟩, vm) else (⟨0, 1, 0⟩, vm)

/-- The native function `yield_fn` of `esh_stdlib.c`; its assertions are left out. -/
def yield_fn (vm : esh_vm) (_n_args i : Nat) : esh_fn_result × esh_vm :=
  if i = 0 then (⟨3, 1, 0⟩, vm)
  else
    match esh_push_null vm.esh with
    | (0, esh1) => (⟨0, 1, 0⟩, vm.put esh1)
    | (_, esh1) => (⟨-1, 0, 0⟩, vm.put esh1)

/-- The bytes of the message `esh_get_err` returns (the empty string if none was set). -/
def esh_get_err (vm : esh_vm) : List Nat := ((vm.err.getD "").toList.map Char.toNat)

/-- The native function `try_fn` of `esh_stdlib.c`; `p` is the address the allocator
returns for the message string.  Its assertions are left out. -/
def try_fn (p : Nat) (vm : esh_vm) (n_args i : Nat) : esh_fn_result × esh_vm :=
  if i = 0 then (⟨2, n_args - 1, 1⟩, vm)
  else if vm.panic_caught then
    match esh_push_null vm.esh with
    | (0, esh1) =>
      match esh_new_string p esh1 (esh_get_err vm) with
      | (0, esh2) => (⟨0, 2, 0⟩, vm.put esh2)
      | (_, esh2) => (⟨-1, 0, 0⟩, vm.put esh2)
    | (_, esh1) => (⟨-1, 0, 0⟩, vm.put esh1)
  else
    match esh_push_null vm.esh with
    | (0, esh1) => (⟨0, 2, 0⟩, vm.put esh1)
    | (_, esh1) => (⟨-1, 0, 0⟩, vm.put esh1)

/-- Answers of an environment for pass `t` of the loop in which every allocation succeeds,
with fresh addresses in every pass, and the native functions at the addresses 1, 2 and 3
are `next_fn`, `yield_fn` and `try_fn`. -/
def stdlib_world (t : Nat) : world :=
  { sample_world with
    obj := 1024 + 64 * t,
    obj2 := 1040 + 64 * t,
    c_fn := fun f vm n_args i =>
      if f = 1 then next_fn vm n_args i
      else if f = 2 then yield_fn vm n_args i
      else if f = 3 then try_fn (1056 + 64 * t) vm n_args i
      else (⟨-1, 0, 0⟩, vm) }

/-- A native template for the function at address `c_fn` that takes any number of
arguments. -/
def native_function (c_fn : Nat) : esh_function :=
  { imms := [], jmps := [], n_args := 0, opt_args := 0, n_locals := 0, variadic := true,
    instr := [], upval_locals := false, c_fn := c_fn }

/-- The addresses of the closures of `next_fn`, `yield_fn` and `try_fn` in the sample
states, of two further closures of bytecode templates, and of a coroutine thread. -/
def next_closure : esh_val := 80

/-- See `next_closure`. -/
def yield_closure : esh_val := 96

/-- See `next_closure`. -/
def try_closure : esh_val := 112

/-- See `next_closure`. -/
def inner_closure : esh_val := 128

/-- See `next_closure`. -/
def failing_closure : esh_val := 144

/-- See `next_closure`. -/
def sample_coroutine : esh_val := 160

/-- The heap of the sample states with natives: the closures of `sample_heap` and those
named above, their templates, and the coroutine thread object. -/
def stdlib_heap : Nat → Option heap_object :=
  fun a =>
    if a = 80 ∨ a = 96 ∨ a = 112 ∨ a = 128 ∨ a = 144 then
      some (sample_header (some esh_type_ptr.closure_type) true)
    else if a = 160 then some (sample_header (some esh_type_ptr.co_thread_type) false)
    else if a = 208 ∨ a = 224 ∨ a = 240 ∨ a = 256 ∨ a = 272 ∨ a = 288 then
      some (sample_header (some esh_type_ptr.function_type) false)
    else sample_heap a

/-- A suspended coroutine thread that has not run yet, as `create_coroutine` leaves it for
a bytecode template at 288 without parameters and locals. -/
def fresh_coroutine : esh_co_thread :=
  { current_frame :=
      { stack_base := 0, fn := 288, env := 0, instr_index := 0, n_args := 0,
        expected_returns := 1, c_locals := 0, c_locals_free := 0, catch_panic := false },
    stack_frames := [], stack_frames_cap := 0, stack := [], stack_cap := 64,
    is_done := false }

/-- A state outside any call with the closure at 16 on the stack, in which the closure at
16 has the template `main`, the closures at 128 and 144 the templates `inner` and
`failing`, and the coroutine at 160 runs the template `body`. -/
def stdlib_vm (main inner failing body : esh_function) : esh_vm :=
  { sample_vm main [16] with
    heap := stdlib_heap,
    co_threads := fun a => if a = 160 then some fresh_coroutine else none,
    functions := fun a =>
      if a = 32 then some main
      else if a = 208 then some (native_function 1)
      else if a = 224 then some (native_function 2)
      else if a = 240 then some (native_function 3)
      else if a = 256 then some inner
      else if a = 272 then some failing
      else if a = 288 then some body
      else none,
    closures := fun a =>
      if a = 16 then some ⟨false, 32, 0⟩
      else if a = 80 then some ⟨false, 208, 0⟩
      else if a = 96 then some ⟨false, 224, 0⟩
      else if a = 112 then some ⟨false, 240, 0⟩
      else if a = 128 then some ⟨false, 256, 0⟩
      else if a = 144 then some ⟨false, 272, 0⟩
      else none }

/-- The template of a function that reads a global variable that is not set, and so
panics with "Unknown global variable". -/
def failing_function : esh_function :=
  sample_function [word_of_bytes [1, 120, 0, 0, 0, 0, 0, 0]] [] [(.LOAD_G, 0, 0), (.RET, 1, 0)]

/-- The state `vm` after the code of `run_vm` before its loop, for a template without
locals at 32: the frame of the template is current, its base the top of the stack. -/
def started (vm : esh_vm) : esh_vm :=
  { vm with thread := { vm.thread with
    current_frame := { vm.thread.current_frame with stack_base := vm.stack_len, fn := 32 } } }

/-- What the loop has reached, for comparison: the return code (`none` while it runs), the
template and the instruction index of the current frame, the flag `panic_caught` and the
value stack. -/
def status_summary (s : Option vm_status) :
    Option (Option Nat × Nat × Nat × Bool × List esh_val) :=
  s.map (fun s =>
    match s with
    | .running vm =>
      (none, vm.thread.current_frame.fn, vm.thread.current_frame.instr_index,
        vm.panic_caught, vm.thread.stack)
    | .returned code vm =>
      (some code, vm.thread.current_frame.fn, vm.thread.current_frame.instr_index,
        vm.panic_caught, vm.thread.stack))

/-- The state the loop has reached while it runs, as the result of a run with code 0. -/
def running_state (s : Option vm_status) : Option (Nat × esh_vm) :=
  match s with
  | some (.running vm) => some (0, vm)
  | _ => none

/-- What a run leaves of the thread at address `a`, for comparison: the code of the run,
the address of the running thread, and the value stack and the `catch_panic` flags of the
frame stack of the thread at `a`. -/
def thread_summary (r : Option (Nat × esh_vm)) (a : Nat) :
    Option (Nat × Nat × List esh_val × List Bool) :=
  r.map (fun r =>
    (r.1, r.2.current_thread,
      match r.2.thread_at a with
      | some t => (t.stack, t.stack_frames.map (fun frame => frame.catch_panic))
      | none => ([], [])))

/-- What the loop has reached as seen from the resumer of the coroutine at address `a`:
the return code (`none` while the loop runs), the running thread, its value stack, and
the flag `is_done` of the coroutine. -/
def coroutine_summary (s : Option vm_status) (a : Nat) :
    Option (Option Nat × Nat × List esh_val × Bool) :=
  s.map (fun s =>
    match s with
    | .running vm =>
      (none, vm.current_thread, vm.thread.stack,
        match vm.thread_at a with
        | some t => t.is_done
        | none => false)
    | .returned code vm =>
      (some code, vm.current_thread, vm.thread.stack,
        match vm.thread_at a with
        | some t => t.is_done
        | none => false))

/-- The inline string `"a"`. -/
def sample_a : esh_val := word_of_bytes [1, 97, 0, 0, 0, 0, 0, 0]

/-- The inline string `"ok"`. -/
def sample_ok : esh_val := word_of_bytes [1, 111, 107, 0, 0, 0, 0, 0]

/-- A template that calls `try_fn` on the closure at `callee` and returns what `try_fn`
returns (as one array). -/
def try_caller (callee : esh_val) : esh_function :=
  sample_function [try_closure, callee] []
    [(.IMM, 0, 0), (.IMM, 1, 0), (.CALL, 1, 0), (.RET, 1, 0)]

/-- A template that calls `try_fn` on the failing closure, drops what `try_fn` returns and
returns the string `"ok"`. -/
def recovering_function : esh_function :=
  sample_function [try_closure, failing_closure, sample_ok] []
    [(.IMM, 0, 0), (.IMM, 1, 0), (.CALL, 1, 0), (.POP, 0, 0), (.IMM, 2, 0), (.RET, 1, 0)]

/-- A template that returns the string `"ok"`. -/
def ok_function : esh_function :=
  sample_function [sample_ok] [] [(.IMM, 0, 0), (.RET, 1, 0)]

/-- A template that calls `try_fn` on `next_fn` and the sample coroutine. -/
def try_resume : esh_function :=
  sample_function [try_closure, next_closure, sample_coroutine] []
    [(.IMM, 0, 0), (.IMM, 1, 0), (.IMM, 2, 0), (.CALL, 2, 0), (.RET, 1, 0)]

/-- A template that resumes the sample coroutine three times with `next_fn`, drops the
first two values and returns the third. -/
def resume_thrice : esh_function :=
  sample_function [next_closure, sample_coroutine] []
    [(.IMM, 0, 0), (.IMM, 1, 0), (.CALL, 1, 0), (.POP, 0, 0),
      (.IMM, 0, 0), (.IMM, 1, 0), (.CALL, 1, 0), (.POP, 0, 0),
      (.IMM, 0, 0), (.IMM, 1, 0), (.CALL, 1, 0), (.RET, 1, 0)]

/-- A coroutine body that yields `"a"` with `yield_fn`, drops the value `yield_fn` returns
and then returns NULL with `RET`. -/
def body_yield_return : esh_function :=
  sample_function [yield_closure, sample_a] []
    [(.IMM, 0, 0), (.IMM, 1, 0), (.CALL, 1, 0), (.POP, 0, 0), (.PUSH_NULL, 0, 0), (.RET, 1, 0)]

/-- A coroutine body that yields `"a"` with `yield_fn`, drops the value `yield_fn` returns
and then leaves through `PROP` on a NULL value. -/
def body_yield_prop : esh_function :=
  sample_function [yield_closure, sample_a] []
    [(.IMM, 0, 0), (.IMM, 1, 0), (.CALL, 1, 0), (.POP, 0, 0), (.PUSH_NULL, 0, 0), (.PROP, 0, 0),
      (.RET, 1, 0)]

/-- How the pass with the answers `w` leaves the loop from the state `s` has reached:
through `break`, `continue`, the jump to `PANIC`, or `return`. -/
def pass_summary (w : world) (s : Option vm_status) : Option String :=
  match s with
  | some (.running vm) =>
    match vm_pass w vm with
    | some (.brk _) => some "break"
    | some (.cont _) => some "continue"
    | some (.PANIC _) => some "PANIC"
    | some (.ret _ _) => some "return"
    | none => none
  | _ => none

/-- What `esh_exec_fn` leaves when the result on top of the stack is an array of two
values: the code, the flag `panic_caught`, and the entries `"0"` and `"1"` of the array
read as strings (`none` for NULL). -/
def result_pair (r : Option (Nat × esh_vm)) :
    Option (Nat × Bool × Option (List Nat) × Option (List Nat)) :=
  r.map (fun r =>
    (r.1, r.2.panic_caught,
      string_value r.2.heap (index_value r.2.heap (r.2.thread.stack.getLast?.getD ESH_NULL) [48]),
      string_value r.2.heap (index_value r.2.heap (r.2.thread.stack.getLast?.getD ESH_NULL) [49])))

/-- What a run leaves, for comparison: the code, the address of the running thread, the
flag `panic_caught`, the message, and the value stack of the running thread. -/
def run_summary (r : Option (Nat × esh_vm)) :
    Option (Nat × Nat × Bool × Option String × List esh_val) :=
  r.map (fun r => (r.1, r.2.current_thread, r.2.panic_caught, r.2.err, r.2.thread.stack))

/-! ## The array view (`esh_is_array`, `esh.c`) -/

/-- The loop of `esh_is_array` from the counter `i` on, for `fuel` more iterations: `none`
is the failed assertion of `object_find`. -/
def is_array_loop (obj : esh_object) : Nat → Nat → Option Bool
  | 0, _ => some true
  | fuel + 1, i =>
    match esh_object_get obj (int_to_str (wrap64 i)) with
    | none => none
    | some none => some false
    | some (some _) => is_array_loop obj fuel (i + 1)

/-- The function `esh_is_array`; the message that `stack_offset` leaves for an invalid
offset is not part of the result.  `none` is the failed assertion of `object_find`. -/
def esh_is_array (esh : esh_state) (offset : Int) : Option Bool :=
  match stack_offset esh offset with
  | (none, _) => some false
  | (some index, _) =>
    match val_as_object esh.heap (stack_at esh index) none with
    | none => some false
    | some obj =>
      if obj.obj.len = 0 then some false
      else is_array_loop obj.obj obj.obj.len 0

/-- The array view of the specification: the object is an array of length `n` when its
size is `n` and it has an entry under each of the decimal keys `"0"` to `"n-1"`. -/
def array_of_length (obj : esh_object) (n : Nat) : Prop :=
  obj.len = n ∧ ∀ i, i < n → ∃ v, live_at obj.entries (decimal_string i) v

/-- A state whose stack holds the object at 64 of `sample_heap` (one entry, `"0"`), the
empty object at 48, and the inline string `"f"`. -/
def sample_array_state : esh_state :=
  { stack := [64, 48, sample_name], stack_cap := 8, stack_base := 0, heap := sample_heap,
    err := none }

/-! ## The lexer (`esh_c.c`) -/

/-- The fields of `struct compile_ctx` the lexer works on: the source text from `src` to
`end` as a list of bytes, the pointer `at` as the index `pos` into it, `line_counter` and
`lex_next_as_string`. -/
structure lexer where
  src : List Nat
  pos : Nat
  line_counter : Nat
  lex_next_as_string : Bool
  deriving DecidableEq, Repr

/-- The function `peekc`. -/
def peekc (lx : lexer) : Nat :=
  if lx.pos = lx.src.length then 0 else lx.src.getD lx.pos 0

/-- The function `popc`: the character and the state after it. -/
def popc (lx : lexer) : Nat × lexer :=
  if lx.pos = lx.src.length then (0, lx)
  else
    let c := lx.src.getD lx.pos 0
    (c, { lx with
      pos := lx.pos + 1,
      line_counter := if c = 10 then lx.line_counter + 1 else lx.line_counter })

/-- The loop of `skip_whitespace` for at most `fuel` iterations, with the current values of
`comment` and `*newline`: the state at the `break` and `*newline`.  `none` is the end of
the fuel. -/
def skip_whitespace_loop : Nat → lexer → Bool → Bool → Option (lexer × Bool)
  | 0, _, _, _ => none
  | fuel + 1, lx, comment, newline =>
    let c := peekc lx
    if c = 32 ∨ c = 9 ∨ c = 13 ∨ c = 10 then
      if c = 10 then skip_whitespace_loop fuel (popc lx).2 false true
      else skip_whitespace_loop fuel (popc lx).2 comment newline
    else if c = 35 then skip_whitespace_loop fuel (popc lx).2 (!comment) newline
    else if !comment then some (lx, newline)
    else skip_whitespace_loop fuel (popc lx).2 comment newline

/-- The function `skip_whitespace` with at most `fuel` iterations of its loop. -/
def skip_whitespace (fuel : Nat) (lx : lexer) : Option (lexer × Bool) :=
  skip_whitespace_loop fuel lx false false

/-- The function `isalnum` in the C locale, for a byte below 128; other bytes are taken as
not alphanumeric. -/
def isalnum (c : Nat) : Bool :=
  (48 ≤ c ∧ c ≤ 57) ∨ (65 ≤ c ∧ c ≤ 90) ∨ (97 ≤ c ∧ c ≤ 122)

/-- The function `is_word_char`. -/
def is_word_char (c : Nat) : Bool :=
  if c = 47 ∨ c = 46 ∨ c = 95 ∨ c = 43 ∨ c = 45 ∨ c = 42 ∨ c = 61 then true
  else isalnum c

/-- The function `match_keyword` on the `len` bytes at `s`. -/
def match_keyword (s : List Nat) : token_type :=
  if s = [61] then .TOK_ASSIGN
  else if s = [43] then .TOK_ADD
  else if s = [45] then .TOK_SUB
  else if s = [42] then .TOK_MUL
  else if s = [47] then .TOK_DIV
  else if s = [100, 111] then .TOK_DO
  else if s = [105, 102] then .TOK_IF
  else if s = [111, 114] then .TOK_OR
  else if s = [61, 61] then .TOK_EQUALS
  else if s = [101, 110, 100] then .TOK_END
  else if s = [97, 110, 100] then .TOK_AND
  else if s = [110, 111, 116] then .TOK_NOT
  else if s = [119, 105, 116, 104] then .TOK_WITH
  else if s = [101, 108, 115, 101] then .TOK_ELSE
  else if s = [116, 104, 101, 110] then .TOK_THEN
  else if s = [110, 117, 108, 108] then .TOK_NULL_LITERAL
  else if s = [108, 111, 99, 97, 108] then .TOK_LOCAL
  else if s = [99, 111, 110, 115, 116] then .TOK_CONST
  else if s = [114, 101, 116, 117, 114, 110] then .TOK_RETURN
  else if s = [102, 117, 110, 99, 116, 105, 111, 110] then .TOK_FUNCTION
  else .TOK_NULL

/-- The function `match_char_tok`. -/
def match_char_tok (c : Nat) : token_type :=
  if c = 36 then .TOK_SIGIL
  else if c = 40 then .TOK_OPEN_BRACKET
  else if c = 41 then .TOK_CLOSE_BRACKET
  else if c = 123 then .TOK_OPEN_CURL
  else if c = 125 then .TOK_CLOSE_CURL
  else if c = 44 then .TOK_COMMA
  else if c = 58 then .TOK_COLON
  else if c = 63 then .TOK_OPT
  else if c = 124 then .TOK_PIPE
  else .TOK_NULL

/-- The loop of `lex_str` for at most `fuel` iterations: the state after the closing
character and `interp`. -/
def lex_str_loop (terminator : Nat) (allow_interp : Bool) :
    Nat → lexer → Bool → Except compile_stop (lexer × Bool)
  | 0, _, _ => .error .fuel
  | fuel + 1, lx, prev_was_escape =>
    let c := (popc lx).1
    let lx1 := (popc lx).2
    if c = 0 then .error .thrown
    else if prev_was_escape then lex_str_loop terminator allow_interp fuel lx1 false
    else if c = 92 then lex_str_loop terminator allow_interp fuel lx1 true
    else if c = terminator then .ok (lx1, false)
    else if allow_interp ∧ c = 36 then .ok (lx1, true)
    else lex_str_loop terminator allow_interp fuel lx1 false

/-- The bytes of the source text from index `from_pos` up to index `to_pos`. -/
def lexer.text (lx : lexer) (from_pos to_pos : Nat) : List Nat :=
  (lx.src.drop from_pos).take (to_pos - from_pos)

/-- The function `lex_str`: the token written to `ctx->next_token` and the state. -/
def lex_str (fuel : Nat) (lx : lexer) (terminator : Nat) (newline allow_interp : Bool) :
    Except compile_stop (lex_token × lexer) :=
  match lex_str_loop terminator allow_interp fuel lx false with
  | .error stop => .error stop
  | .ok (lx1, interp) =>
    .ok (⟨if interp then .TOK_STR_INTERP else .TOK_WORD, lx.text lx.pos (lx1.pos - 1), newline,
      lx1.line_counter⟩, lx1)

/-- The loop `while(is_word_char(peekc(ctx))) popc(ctx)` of `next_token` for at most `fuel`
iterations. -/
def word_loop : Nat → lexer → Option lexer
  | 0, _ => none
  | fuel + 1, lx => if is_word_char (peekc lx) then word_loop fuel (popc lx).2 else some lx

/-- The part of `next_token` after `skip_whitespace`. -/
def token_at (fuel : Nat) (lx : lexer) (newline : Bool) :
    Except compile_stop (lex_token × lexer) :=
  let c := (popc lx).1
  let lx1 := (popc lx).2
  if c = 0 then .ok (⟨.TOK_EOF, [], newline, lx1.line_counter⟩, lx1)
  else
    let char_tok : token_type × lexer :=
      if c = 33 then
        if peekc lx1 = 61 then (.TOK_NEQUALS, (popc lx1).2) else (.TOK_EXCL, lx1)
      else if c = 60 then (.TOK_LESS, lx1)
      else if c = 62 then (.TOK_GREATER, lx1)
      else (match_char_tok c, lx1)
    if char_tok.1 ≠ .TOK_NULL then
      .ok (⟨char_tok.1, [], newline, char_tok.2.line_counter⟩, char_tok.2)
    else if c = 34 ∨ c = 39 then lex_str fuel lx1 c newline (decide (c = 34))
    else if is_word_char c = false then .error .thrown
    else
      match word_loop fuel lx1 with
      | none => .error .fuel
      | some lx2 =>
        let word := lx.text lx.pos lx2.pos
        let type := match_keyword word
        .ok (⟨if type = .TOK_NULL then .TOK_WORD else type, word, newline, lx2.line_counter⟩,
          lx2)

/-- The function `next_token` with at most `fuel` iterations of each of its loops: the
token written to `ctx->next_token` and the state. -/
def next_token (fuel : Nat) (lx : lexer) : Except compile_stop (lex_token × lexer) :=
  if lx.lex_next_as_string then
    lex_str fuel { lx with lex_next_as_string := false } 34 false true
  else
    match skip_whitespace fuel lx with
    | none => .error .fuel
    | some (lx1, newline) => token_at fuel lx1 newline

/-- The token and the state a call of the lexer leaves, `none` if it does not return a
token. -/
def lexed (r : Except compile_stop (lex_token × lexer)) : Option (lex_token × lexer) :=
  match r with
  | .ok x => some x
  | .error _ => none

/-- The lexer at the start of the source text `src`, as `esh_compile_src` sets it up. -/
def lexer_start (src : List Nat) : lexer :=
  { src := src, pos := 0, line_counter := 1, lex_next_as_string := false }

/-- The source text `# a # b` followed by a newline. -/
def sample_comment_line : List Nat := [35, 32, 97, 32, 35, 32, 98, 10]

/-! ## Scopes and statements of the compiler (`esh_c.c`)

The capacities of the arrays `block_scopes`, `fn_scopes`, `locals` and `token_stack` are
not part of the state: with `grow` false a push on one of them is taken to fail as if the
array were full.  The token stack is the list of the variable tokens of the statement at
hand.  Of `compile_statement` the case `TOK_FUNCTION` (which needs `compile_function`)
ends the run with `not_embedded`. -/

/-- The function `new_block_scope`. -/
def new_block_scope (ctx : compile_ctx) : Except compile_stop compile_ctx :=
  if ctx.grow = false then .error .thrown
  else .ok { ctx with block_scopes := ctx.block_scopes ++ [⟨ctx.locals.length⟩] }

/-- The function `new_fn_scope`. -/
def new_fn_scope (ctx : compile_ctx) : Except compile_stop compile_ctx :=
  if ctx.grow = false then .error .thrown
  else
    new_block_scope { ctx with
      fn_scopes := ctx.fn_scopes ++ [⟨ctx.block_scopes.length, 0, false⟩] }

/-- The function `new_local`: the index of the new local and the state. -/
def new_local (ctx : compile_ctx) (word : lex_token) (is_const : Bool) :
    Except compile_stop (Nat × compile_ctx) :=
  if word.type ≠ .TOK_WORD then .error .assertion
  else if (index_local ctx word.str true).isSome then .error .thrown
  else if ctx.fn_scopes.length = 0 then .error .assertion
  else if ctx.grow = false then .error .thrown
  else
    let scope := ctx.fn_scopes.getD (ctx.fn_scopes.length - 1) ⟨0, 0, false⟩
    let index := scope.n_locals
    .ok (index, { ctx with
      fn_scopes :=
        ctx.fn_scopes.set (ctx.fn_scopes.length - 1) { scope with n_locals := scope.n_locals + 1 },
      locals := ctx.locals ++ [⟨word.str, index, is_const⟩] })

/-- The function `leave_fn_scope`: `*n_locals`, `*upval_locals` and the state.  The result
`assertion` also stands for a `locals_base` above `locals_len`, with which the assignment
to `locals_len` would expose slots that hold no local. -/
def leave_fn_scope (ctx : compile_ctx) : Except compile_stop (Nat × Bool × compile_ctx) :=
  if ctx.fn_scopes.length = 0 ∨ ctx.block_scopes.length = 0 then .error .assertion
  else
    let scope := ctx.fn_scopes.getD (ctx.fn_scopes.length - 1) ⟨0, 0, false⟩
    if ¬ scope.block_scopes_base < ctx.block_scopes.length then .error .assertion
    else
      let base_block := ctx.block_scopes.getD scope.block_scopes_base ⟨0⟩
      if ¬ base_block.locals_base ≤ ctx.locals.length then .error .assertion
      else
        .ok (scope.n_locals, scope.upval_locals, { ctx with
          fn_scopes := ctx.fn_scopes.dropLast,
          block_scopes := ctx.block_scopes.take scope.block_scopes_base,
          locals := ctx.locals.take base_block.locals_base })

/-- The function `leave_block_scope`. -/
def leave_block_scope (ctx : compile_ctx) : Except compile_stop compile_ctx :=
  if ctx.fn_scopes.length = 0 ∨ ctx.block_scopes.length = 0 then .error .assertion
  else
    let scope := ctx.fn_scopes.getD (ctx.fn_scopes.length - 1) ⟨0, 0, false⟩
    if ¬ ctx.block_scopes.length > scope.block_scopes_base + 1 then .error .assertion
    else .ok { ctx with block_scopes := ctx.block_scopes.dropLast }

/-- The function `push_token`. -/
def push_token (ctx : compile_ctx) (tok : lex_token) : Except compile_stop compile_ctx :=
  if ctx.pushed_token ≠ none then .error .assertion
  else .ok { ctx with pushed_token := some tok }

/-- The loops `while(accept_token(esh, ctx, TOK_COMMA, NULL))` of `compile_statement` that
read a list of variable names: the tokens pushed on the token stack and the state. -/
def word_list_loop : Nat → compile_ctx → List lex_token →
    Except compile_stop (List lex_token × compile_ctx)
  | 0, _, _ => .error .fuel
  | fuel + 1, ctx, vars =>
    match accept_token ctx .TOK_COMMA with
    | none => .ok (vars, ctx)
    | some (_, ctx1) =>
      match expect_token ctx1 .TOK_WORD with
      | .error e => .error e
      | .ok (word, ctx2) =>
        if ctx2.grow = false then .error .thrown
        else word_list_loop fuel ctx2 (vars ++ [word])

/-- The loop of an assignment in `compile_statement` over the variables that are left,
last first: a store to the local the name resolves to, or to the global of that name. -/
def assign_stores (ctx : compile_ctx) : List lex_token → Except compile_stop compile_ctx
  | [] => .ok ctx
  | var :: rest =>
    match find_local ctx var with
    | .error e => .error e
    | .ok (some (local_var, local_uplevel)) =>
      if local_var.is_const then .error .thrown
      else
        match upval_locals ctx local_uplevel with
        | .error e => .error e
        | .ok ctx1 =>
          match esh_fn_append_instr ctx1 .STORE local_var.index local_uplevel with
          | .error e => .error e
          | .ok ctx2 => assign_stores ctx2 rest
    | .ok none =>
      match add_str_imm ctx var with
      | .error e => .error e
      | .ok (ref, ctx1) =>
        match esh_fn_append_instr ctx1 .STORE_G ref 0 with
        | .error e => .error e
        | .ok ctx2 => assign_stores ctx2 rest

/-- The loop of a `local` declaration in `compile_statement` over the variables that are
left, last first: the local is declared and the value stored. -/
def local_stores (is_const : Bool) (ctx : compile_ctx) :
    List lex_token → Except compile_stop compile_ctx
  | [] => .ok ctx
  | var :: rest =>
    match new_local ctx var is_const with
    | .error e => .error e
    | .ok (index, ctx1) =>
      match esh_fn_append_instr ctx1 .STORE index 0 with
      | .error e => .error e
      | .ok ctx2 => local_stores is_const ctx2 rest

/-- The loop `while(accept_token(esh, ctx, TOK_COLON, NULL))` of an indexed assignment in
`compile_statement`. -/
def index_assign_loop : Nat → Bool → compile_ctx → Except compile_stop compile_ctx
  | 0, _, _ => .error .fuel
  | fuel + 1, first, ctx =>
    match accept_token ctx .TOK_COLON with
    | none => .ok ctx
    | some (_, ctx1) =>
      match (if first then .ok ctx1 else esh_fn_append_instr ctx1 .INDEX 0 0) with
      | .error e => .error e
      | .ok ctx2 =>
        let key :=
          match accept_token ctx2 .TOK_WORD with
          | some (word, ctx3) => compile_word ctx3 word
          | none => compile_s_term fuel ctx2
        match key with
        | .error e => .error e
        | .ok ctx4 => index_assign_loop fuel false ctx4

/-- The loop `do { compile_expression(esh, ctx); n++; } while(accept_token(.., TOK_COMMA,
..))` of a `return` statement from the count `n` on. -/
def return_list_loop : Nat → Nat → compile_ctx → Except compile_stop (Nat × compile_ctx)
  | 0, _, _ => .error .fuel
  | fuel + 1, n, ctx =>
    match compile_expression fuel ctx with
    | .error e => .error e
    | .ok ctx1 =>
      match accept_token ctx1 .TOK_COMMA with
      | some (_, ctx2) => return_list_loop fuel (n + 1) ctx2
      | none => .ok (n + 1, ctx1)

/-- The part of the loop of the `if` statement that handles an `else`: the state, the new
`next_label` and the new `next_must_be_end`. -/
def else_section (fuel : Nat) (ctx : compile_ctx) (end_label next_label : Nat)
    (next_must_be_end : Bool) : Except compile_stop (compile_ctx × Nat × Bool) :=
  match accept_token ctx .TOK_ELSE with
  | none => .ok (ctx, next_label, next_must_be_end)
  | some (_, ctx1) =>
    match leave_block_scope ctx1 with
    | .error e => .error e
    | .ok ctx2 =>
      match esh_fn_append_instr ctx2 .JMP end_label 0 with
      | .error e => .error e
      | .ok ctx3 =>
        if next_must_be_end then .error .thrown
        else
          match esh_fn_put_label ctx3 next_label with
          | .error e => .error e
          | .ok ctx4 =>
            match esh_fn_new_label ctx4 with
            | .error e => .error e
            | .ok (next_label1, ctx5) =>
              let else_if :=
                if next_is_newline ctx5 then none else accept_token ctx5 .TOK_IF
              match else_if with
              | some (_, ctx6) =>
                match compile_expression fuel ctx6 with
                | .error e => .error e
                | .ok ctx7 =>
                  match expect_token ctx7 .TOK_THEN with
                  | .error e => .error e
                  | .ok (_, ctx8) =>
                    match new_block_scope ctx8 with
                    | .error e => .error e
                    | .ok ctx9 =>
                      match esh_fn_append_instr ctx9 .JMP_IFN next_label1 0 with
                      | .error e => .error e
                      | .ok ctx10 => .ok (ctx10, next_label1, false)
              | none =>
                match new_block_scope ctx5 with
                | .error e => .error e
                | .ok ctx6 => .ok (ctx6, next_label1, true)

mutual

/-- The function `compile_statement`: whether the statement leaves a value on the stack,
and the state. -/
def compile_statement : Nat → Bool → compile_ctx → Except compile_stop (Bool × compile_ctx)
  | 0, _, _ => .error .fuel
  | fuel + 1, top_level, ctx =>
    let tok := peek_token ctx
    match esh_fn_line_directive ctx tok.line with
    | .error e => .error e
    | .ok ctx0 =>
      match tok.type with
      | .TOK_WORD =>
        let ctx1 := (pop_token ctx0).2
        if (peek_token ctx1).type = .TOK_COLON then
          match compile_var_load ctx1 tok with
          | .error e => .error e
          | .ok ctx2 =>
            match index_assign_loop fuel true ctx2 with
            | .error e => .error e
            | .ok ctx3 =>
              match expect_token ctx3 .TOK_ASSIGN with
              | .error e => .error e
              | .ok (_, ctx4) =>
                match compile_expression fuel ctx4 with
                | .error e => .error e
                | .ok ctx5 =>
                  match esh_fn_append_instr ctx5 .SET_INDEX 0 0 with
                  | .error e => .error e
                  | .ok ctx6 => .ok (false, ctx6)
        else if (peek_token ctx1).type = .TOK_ASSIGN ∨ (peek_token ctx1).type = .TOK_COMMA then
          if ctx1.grow = false then .error .thrown
          else
            match word_list_loop fuel ctx1 [tok] with
            | .error e => .error e
            | .ok (vars, ctx2) =>
              match expect_token ctx2 .TOK_ASSIGN with
              | .error e => .error e
              | .ok (_, ctx3) =>
                match compile_expression fuel ctx3 with
                | .error e => .error e
                | .ok ctx4 =>
                  match (if vars.length ≠ 1 then esh_fn_append_instr ctx4 .UNPACK vars.length 0
                    else .ok ctx4) with
                  | .error e => .error e
                  | .ok ctx5 =>
                    match assign_stores ctx5 vars.reverse with
                    | .error e => .error e
                    | .ok ctx6 => .ok (false, ctx6)
        else
          match push_token ctx1 tok with
          | .error e => .error e
          | .ok ctx2 =>
            match compile_call_expression fuel true ctx2 with
            | .error e => .error e
            | .ok ctx3 => .ok (true, ctx3)
      | .TOK_LOCAL =>
        let ctx1 := (pop_token ctx0).2
        if top_level then .error .thrown
        else
          let is_const := (accept_token ctx1 .TOK_CONST).isSome
          let ctx2 :=
            match accept_token ctx1 .TOK_CONST with
            | some (_, c) => c
            | none => ctx1
          match expect_token ctx2 .TOK_WORD with
          | .error e => .error e
          | .ok (word, ctx3) =>
            if ctx3.grow = false then .error .thrown
            else
              match word_list_loop fuel ctx3 [word] with
              | .error e => .error e
              | .ok (vars, ctx4) =>
                match expect_token ctx4 .TOK_ASSIGN with
                | .error e => .error e
                | .ok (_, ctx5) =>
                  match compile_expression fuel ctx5 with
                  | .error e => .error e
                  | .ok ctx6 =>
                    match (if vars.length ≠ 1 then
                      esh_fn_append_instr ctx6 .UNPACK vars.length 0 else .ok ctx6) with
                    | .error e => .error e
                    | .ok ctx7 =>
                      match local_stores is_const ctx7 vars.reverse with
                      | .error e => .error e
                      | .ok ctx8 => .ok (false, ctx8)
      | .TOK_FUNCTION => .error .not_embedded
      | .TOK_IF =>
        let ctx1 := (pop_token ctx0).2
        match compile_expression fuel ctx1 with
        | .error e => .error e
        | .ok ctx2 =>
          match expect_token ctx2 .TOK_THEN with
          | .error e => .error e
          | .ok (_, ctx3) =>
            match esh_fn_new_label ctx3 with
            | .error e => .error e
            | .ok (end_label, ctx4) =>
              match esh_fn_new_label ctx4 with
              | .error e => .error e
              | .ok (next_label, ctx5) =>
                match esh_fn_append_instr ctx5 .JMP_IFN next_label 0 with
                | .error e => .error e
                | .ok ctx6 =>
                  match new_block_scope ctx6 with
                  | .error e => .error e
                  | .ok ctx7 =>
                    match compile_if_loop fuel top_level ctx7 end_label next_label false with
                    | .error e => .error e
                    | .ok ctx8 =>
                      match esh_fn_put_label ctx8 end_label with
                      | .error e => .error e
                      | .ok ctx9 => .ok (false, ctx9)
      | .TOK_RETURN =>
        let ctx1 := (pop_token ctx0).2
        match return_list_loop fuel 0 ctx1 with
        | .error e => .error e
        | .ok (n, ctx2) =>
          match esh_fn_append_instr ctx2 .RET n 0 with
          | .error e => .error e
          | .ok ctx3 => .ok (false, ctx3)
      | _ =>
        match compile_call_expression fuel true ctx0 with
        | .error e => .error e
        | .ok ctx1 => .ok (true, ctx1)

/-- The loop `while(true)` of the `if` statement in `compile_statement`. -/
def compile_if_loop : Nat → Bool → compile_ctx → Nat → Nat → Bool →
    Except compile_stop compile_ctx
  | 0, _, _, _, _, _ => .error .fuel
  | fuel + 1, top_level, ctx, end_label, next_label, next_must_be_end =>
    match accept_token ctx .TOK_END with
    | some (_, ctx1) =>
      match leave_block_scope ctx1 with
      | .error e => .error e
      | .ok ctx2 => esh_fn_put_label ctx2 next_label
    | none =>
      match else_section fuel ctx end_label next_label next_must_be_end with
      | .error e => .error e
      | .ok (ctx1, next_label1, next_must_be_end1) =>
        match compile_statement fuel top_level ctx1 with
        | .error e => .error e
        | .ok (value, ctx2) =>
          match (if value then esh_fn_append_instr ctx2 .POP 0 0 else .ok ctx2) with
          | .error e => .error e
          | .ok ctx3 =>
            compile_if_loop fuel top_level ctx3 end_label next_label1 next_must_be_end1

end

/-- The loop `while(!accept_token(esh, ctx, TOK_END, NULL))` of `compile_function` over
the statements of a function body. -/
def compile_body : Nat → compile_ctx → Except compile_stop compile_ctx
  | 0, _ => .error .fuel
  | fuel + 1, ctx =>
    match accept_token ctx .TOK_END with
    | some (_, ctx1) => .ok ctx1
    | none =>
      match compile_statement fuel false ctx with
      | .error e => .error e
      | .ok (value, ctx1) =>
        match (if value then esh_fn_append_instr ctx1 .POP 0 0 else .ok ctx1) with
        | .error e => .error e
        | .ok ctx2 => compile_body fuel ctx2

/-- The tokens the lexer delivers from the state `lx` on, up to and without `TOK_EOF`;
`none` if the lexer stops with an error or the fuel ends. -/
def lex_all : Nat → lexer → Option (List lex_token)
  | 0, _ => none
  | fuel + 1, lx =>
    match next_token (fuel + 1) lx with
    | .error _ => none
    | .ok (tok, lx1) =>
      if tok.type = .TOK_EOF then some []
      else (lex_all fuel lx1).map (fun rest => tok :: rest)

/-- The bytes of a source text given as a string of ASCII characters. -/
def source_text (s : String) : List Nat := s.toList.map Char.toNat

/-- The state in which `compile_function` starts the body of a function without
parameters that is declared in the program, for the tokens of the source text `body`
(which ends with the `end` of the function). -/
def body_ctx (body : String) : Except compile_stop compile_ctx :=
  match lex_all 200 (lexer_start (source_text body)) with
  | none => .error .thrown
  | some input => new_fn_scope (sample_ctx input)

/-- What the compilation of a function body has produced: the instructions as (opcode,
arg, l) triples, `none` if the compilation stopped. -/
def body_code (body : String) : Option (List (Option esh_opcode × Nat × Nat)) :=
  match (body_ctx body).bind (compile_body 200) with
  | .error _ => none
  | .ok ctx =>
    some ((List.range ctx.fn.instr_len).map (fun i =>
      let instr := decode_instr ctx.fn.instr (i * INSTR_SIZE)
      (esh_opcode.of_byte instr.op, instr.arg, instr.l)))

/-- The end of `compile_function` after the body of a function without parameters: the
implicit `return NULL`, `leave_fn_scope`, and the fields `esh_fn_finalize` sets.  The
result is the finished function object. -/
def compile_function_end (ctx : compile_ctx) : Except compile_stop esh_function :=
  match esh_fn_append_instr ctx .PUSH_NULL 0 0 with
  | .error e => .error e
  | .ok ctx1 =>
    match esh_fn_append_instr ctx1 .RET 1 0 with
    | .error e => .error e
    | .ok ctx2 =>
      match leave_fn_scope ctx2 with
      | .error e => .error e
      | .ok (n_locals, upval_locals, ctx3) =>
        .ok { ctx3.fn with
          n_args := 0, opt_args := 0, n_locals := n_locals, upval_locals := upval_locals }

/-- The value of the global variable `name` after the function with the body `body` has
been compiled and called once by `esh_exec_fn` on a state whose globals object is empty:
its string, `none` inside for a variable that is not set or not a string, `none` outside
if the compilation or the call fails. -/
def global_after (body : String) (name : List Nat) : Option (Option (List Nat)) :=
  match (body_ctx body).bind (compile_body 200) with
  | .error _ => none
  | .ok ctx =>
    match compile_function_end ctx with
    | .error _ => none
    | .ok f =>
      match esh_exec_fn (fun _ => sample_world) 200
          { sample_vm f [16] with heap := ctx.esh.heap } with
      | some (0, vm) => some (string_value vm.heap (index_value vm.heap vm.globals name))
      | _ => none

/-- Why the compilation of a function body stopped, `none` if it did not. -/
def body_stop (body : String) : Option compile_stop :=
  match (body_ctx body).bind (compile_body 200) with
  | .error e => some e
  | .ok _ => none

/-- The body of the function of `test_block_scopes` (tests/esh.c). -/
def block_scopes_body : String :=
  "local x = 1\nif true then\nr1 = $x\nx = 2\nr2 = $x\nlocal x = 3\nr3 = $x\nx = 4\nr4 = $x\nelse if false then\nlocal x = foo\nelse\nlocal x = bar\nend\nr5 = $x\nx = 5\nr6 = $x\nend"

/-- A function body in which `x` is declared in the body, then in a block nested two deep,
and read in the block between the two after the inner block has ended. -/
def nested_read_body : String :=
  "local x = 1\nif true then\nif true then\nlocal x = 3\nend\nr = $x\nend\nend"

/-- The body of the function of `test_local_var_blocks` (tests/esh_c.c) without its
parameters. -/
def local_var_blocks_body : String :=
  "local w = 0\nif true then\nlocal w = 0\nelse if false then\nlocal w = 0\nelse\nlocal w = 0\nend\nend"

/-- The body of the function of `test_var_redeclaration` (tests/esh_c.c). -/
def var_redeclaration_body : String := "local w = 0\nlocal w = 1\nend"

/-- A function body in which `w` is declared in the body, then in a block nested two deep,
and then in the block between the two after the inner block has ended. -/
def nested_declaration_body : String :=
  "local w = 0\nif true then\nif true then\nlocal w = 1\nend\nlocal w = 2\nend\nend"

/-- The body `nested_declaration_body` without the inner block. -/
def plain_declaration_body : String := "local w = 0\nif true then\nlocal w = 2\nend\nend"

/-- The state of the scopes in `nested_declaration_body` before its last declaration: in a
function scope `w` is declared, a block is entered, an inner block is entered, `w` is
declared there, and the inner block is left. -/
def nested_declaration_scopes : Except compile_stop compile_ctx :=
  (new_fn_scope (sample_ctx [])).bind (fun c0 =>
    (new_local c0 (sample_token .TOK_WORD [119]) false).bind (fun r1 =>
      (new_block_scope r1.2).bind (fun c2 =>
        (new_block_scope c2).bind (fun c3 =>
          (new_local c3 (sample_token .TOK_WORD [119]) false).bind (fun r4 =>
            leave_block_scope r4.2)))))

/-- The block scopes and the locals of a state of the compiler, for comparison. -/
def scopes_of (r : Except compile_stop compile_ctx) :
    Option (List block_scope × List local_var) :=
  match r with
  | .ok ctx => some (ctx.block_scopes, ctx.locals)
  | .error _ => none

/-! ## Pattern matching (`stdlib/pattern.c`)

The static variable `rec` is the parameter `rec` of the calls, `n_captures` and the used
part of `captures` the list `captures`.  The pattern from `pattern` to `pattern_end` is
the list of the bytes that are left.  The functions of `ctype.h` are those of the C locale
on bytes below 128; other bytes belong to no class. -/

/-- The constant `RECURSION_LIMIT`. -/
def RECURSION_LIMIT : Nat := 16

/-- The constant `MAX_CAPTURES`. -/
def MAX_CAPTURES : Nat := 16

/-- The function `is_modifier`. -/
def is_modifier (c : Nat) : Bool := c = 42 ∨ c = 63 ∨ c = 43 ∨ c = 33

/-- The function `modifier_ranges`: `*min` and `*max`; `none` is the failed assertion. -/
def modifier_ranges (c : Nat) : Option (Nat × Nat) :=
  if c = 42 then some (0, SIZE_MOD - 1)
  else if c = 63 then some (0, 1)
  else if c = 43 then some (1, SIZE_MOD - 1)
  else if c = 33 then some (1, 1)
  else none

/-- The function `isspace`. -/
def isspace (c : Nat) : Bool := (9 ≤ c ∧ c ≤ 13) ∨ c = 32

/-- The function `isupper`. -/
def isupper (c : Nat) : Bool := 65 ≤ c ∧ c ≤ 90

/-- The function `islower`. -/
def islower (c : Nat) : Bool := 97 ≤ c ∧ c ≤ 122

/-- The function `isalpha`. -/
def isalpha (c : Nat) : Bool := isupper c || islower c

/-- The function `isdigit`. -/
def isdigit (c : Nat) : Bool := 48 ≤ c ∧ c ≤ 57

/-- The function `isxdigit`. -/
def isxdigit (c : Nat) : Bool := isdigit c || decide (65 ≤ c ∧ c ≤ 70) || decide (97 ≤ c ∧ c ≤ 102)

/-- The function `match_char_class`. -/
def match_char_class (cls c : Nat) : Bool :=
  if cls = 0 then true
  else if cls = 115 then isspace c
  else if cls = 119 then !isspace c
  else if cls = 117 then isupper c
  else if cls = 108 then islower c
  else if cls = 97 then isalpha c
  else if cls = 99 then isalpha c || decide (c = 95)
  else if cls = 104 then isxdigit c
  else if cls = 100 then isdigit c
  else decide (c = cls)

/-- The first loop of a repetition in `pattern_match`: the value of `i` at its end, for
the bytes of the string from `at + i` on. -/
def class_run (cls max : Nat) : List Nat → Nat → Nat
  | [], i => i
  | c :: rest, i =>
    if i < max ∧ match_char_class cls c = true then class_run cls max rest (i + 1) else i

/-- The second loop of a repetition in `pattern_match` over the values of `i` that are
left: `rest i` is the recursive call for the length `i`, `saved` the captures at the start
of the loop.  The result is the return value of `pattern_match` and the captures. -/
def try_lengths (rest : Nat → Option (Int × List Nat)) (saved : List Nat) :
    List Nat → Option (Int × List Nat)
  | [] => some (0, saved)
  | i :: more =>
    match rest i with
    | none => none
    | some (res, captures) =>
      if res = -1 then some (-1, captures)
      else if res ≠ 0 then some (1, captures)
      else try_lengths rest saved more

/-- The values of `i` in the second loop of a repetition, from the length `run` of the
first loop down to `min`. -/
def lengths_down (run min : Nat) : List Nat :=
  if run < min then [] else (List.range (run - min + 1)).map (fun k => run - k)

mutual

/-- The function `pattern_match` for the string `str` at index `pos` (the parameter `at`)
and the pattern bytes `pattern`: the return value and the captures.  `none` is a failed
assertion or the end of the fuel. -/
def pattern_match : Nat → Nat → List Nat → List Nat → Nat → List Nat → Bool →
    Option (Int × List Nat)
  | 0, _, _, _, _, _, _ => none
  | fuel + 1, rec, captures, str, pos, pattern, match_entire =>
    if ¬ pos ≤ str.length then none
    else if rec = RECURSION_LIMIT then some (-1, captures)
    else pattern_loop fuel (rec + 1) captures str pos pattern match_entire

/-- The loop `while(true)` of `pattern_match` from the current values of `at` and
`pattern` on; `rec` is the value after `rec++`. -/
def pattern_loop : Nat → Nat → List Nat → List Nat → Nat → List Nat → Bool →
    Option (Int × List Nat)
  | 0, _, _, _, _, _, _ => none
  | fuel + 1, rec, captures, str, pos, pattern, match_entire =>
    match pattern with
    | [] => if !match_entire || decide (pos = str.length) then some (1, captures)
      else some (0, captures)
    | c :: pattern1 =>
      if is_modifier c || decide (c = 37) then
        let modifier := if is_modifier c then c else 43
        let cls := if is_modifier c then 0 else c
        let escaped : Nat × Nat × List Nat :=
          if cls = 37 then
            match pattern1 with
            | [] => (cls, modifier, pattern1)
            | c1 :: pattern2 =>
              match pattern2 with
              | [] => (c1, modifier, pattern2)
              | n :: pattern3 =>
                if is_modifier n then (c1, n, pattern3) else (c1, modifier, pattern2)
          else (cls, modifier, pattern1)
        match modifier_ranges escaped.2.1 with
        | none => none
        | some (min, max) =>
          let run := class_run escaped.1 max (str.drop pos) 0
          try_lengths
            (fun i => pattern_match fuel rec captures str (pos + i) escaped.2.2 match_entire)
            captures (lengths_down run min)
      else if c = 40 then
        if captures.length % 2 = 0 then
          if captures.length = MAX_CAPTURES then some (-1, captures)
          else pattern_loop fuel rec (captures ++ [pos]) str pos pattern1 match_entire
        else pattern_loop fuel rec captures str pos pattern1 match_entire
      else if c = 41 then
        if captures.length % 2 = 1 then
          if captures.length = MAX_CAPTURES then some (-1, captures)
          else pattern_loop fuel rec (captures ++ [pos]) str pos pattern1 match_entire
        else pattern_loop fuel rec captures str pos pattern1 match_entire
      else if pos = str.length then some (0, captures)
      else if str.getD pos 0 ≠ c then some (0, captures)
      else pattern_loop fuel rec captures str (pos + 1) pattern1 match_entire

end

/-- The function `esh_pattern_match` with fuel for the recursion: the return value and the
captures; the stack of the interpreter, which it saves and restores, is left out. -/
def esh_pattern_match (fuel : Nat) (str pattern : List Nat) (match_entire : Bool) :
    Option (Int × List Nat) :=
  pattern_match fuel 0 [] str 0 pattern match_entire

/-! ### The reading of the specification -/

/-- The items of a pattern: a literal character, a repetition of `min` to `max` bytes of a
class (`none` for arbitrary bytes), and the two capture marks. -/
inductive pattern_item where
  | literal (c : Nat)
  | repetition (cls : Option Nat) (min max : Nat)
  | capture_open
  | capture_close
  deriving DecidableEq, Repr

/-- The counts a modifier stands for: `*` zero or more, `?` zero or one, `+` one or more,
`!` exactly one. -/
def modifier_counts (c : Nat) : Nat × Nat :=
  if c = 42 then (0, SIZE_MOD - 1)
  else if c = 63 then (0, 1)
  else if c = 33 then (1, 1)
  else (1, SIZE_MOD - 1)

/-- The items of a pattern text, read with `fuel` steps: a bare modifier is a repetition of
arbitrary bytes, `%c` with an optional modifier (default `+`) a repetition of the class
`c`, a bracket a capture mark, every other character a literal.  `none` for a pattern that
ends in a single `%` (or for too little fuel). -/
def pattern_items_from : Nat → List Nat → Option (List pattern_item)
  | _, [] => some []
  | 0, _ :: _ => none
  | fuel + 1, c :: rest =>
    if is_modifier c then
      (pattern_items_from fuel rest).map
        (fun items => .repetition none (modifier_counts c).1 (modifier_counts c).2 :: items)
    else if c = 37 then
      match rest with
      | [] => none
      | cls :: rest1 =>
        match rest1 with
        | [] => some [.repetition (some cls) 1 (SIZE_MOD - 1)]
        | m :: rest2 =>
          if is_modifier m then
            (pattern_items_from fuel rest2).map (fun items =>
              .repetition (some cls) (modifier_counts m).1 (modifier_counts m).2 :: items)
          else
            (pattern_items_from fuel rest1).map (fun items =>
              .repetition (some cls) 1 (SIZE_MOD - 1) :: items)
    else if c = 40 then (pattern_items_from fuel rest).map (fun items => .capture_open :: items)
    else if c = 41 then
      (pattern_items_from fuel rest).map (fun items => .capture_close :: items)
    else (pattern_items_from fuel rest).map (fun items => .literal c :: items)

/-- The items of a pattern text. -/
def pattern_items (pattern : List Nat) : Option (List pattern_item) :=
  pattern_items_from pattern.length pattern

/-- Whether a byte belongs to the class of a repetition. -/
def in_class (cls : Option Nat) (c : Nat) : Bool :=
  match cls with
  | none => true
  | some k => match_char_class k c

/-- Whether the whole string can be consumed by the items: a literal consumes the same
byte, a repetition between `min` and `max` bytes of its class, a capture mark nothing. -/
def consumes : List pattern_item → List Nat → Bool
  | [], s => s.isEmpty
  | .literal c :: items, s =>
    match s with
    | [] => false
    | b :: rest => decide (b = c) && consumes items rest
  | .repetition cls min max :: items, s =>
    (List.range (s.length + 1)).any (fun i =>
      decide (min ≤ i) && decide (i ≤ max) && (s.take i).all (in_class cls) &&
        consumes items (s.drop i))
  | .capture_open :: items, s => consumes items s
  | .capture_close :: items, s => consumes items s

/-- The number of repetitions among the items. -/
def repetitions (items : List pattern_item) : Nat :=
  items.countP (fun item =>
    match item with
    | .repetition _ _ _ => true
    | _ => false)

/-- The number of capture marks among the items. -/
def capture_marks (items : List pattern_item) : Nat :=
  items.countP (fun item =>
    match item with
    | .capture_open => true
    | .capture_close => true
    | _ => false)

/-! ## The garbage collector (`esh.c`)

The lists `objects`, `to_visit` and `visited` of the state are lists of addresses (head
first) and the field `gc_tag` of the objects a map by address.  `free_object` removes the
object from the heap. -/

/-- The three object lists of `struct esh_state` and the field `gc_tag` of the objects. -/
structure gc_state where
  objects : List Nat
  to_visit : List Nat
  visited : List Nat
  gc_tag : Nat → Nat

/-- The function `gc_mark_to_visit`.  `none` is the failed assertion of `obj_list_pop` for
an object that is not on the list `objects`. -/
def gc_mark_to_visit (heap : Nat → Option heap_object) (g : gc_state) (val : esh_val) :
    Option gc_state :=
  match val_as_object heap val none with
  | none => some g
  | some _ =>
    if g.gc_tag val = 2 ∨ g.gc_tag val = 1 then some g
    else if val ∈ g.objects then
      some { g with
        objects := g.objects.erase val,
        to_visit := val :: g.to_visit,
        gc_tag := fun a => if a = val then 1 else g.gc_tag a }
    else none

/-- Calls of `gc_mark_to_visit` for the values of a list, in order. -/
def gc_mark_all (heap : Nat → Option heap_object) : gc_state → List esh_val → Option gc_state
  | g, [] => some g
  | g, val :: rest =>
    match gc_mark_to_visit heap g val with
    | none => none
    | some g1 => gc_mark_all heap g1 rest

/-- The values `gc_mark_stack_frame` marks for a frame. -/
def frame_values (frame : esh_stack_frame) : List esh_val := [frame.fn, frame.env]

/-- The values for which `gc_trace_obj` calls `gc_mark_to_visit` for the object at `a`, in
order: the values of the live entries of its table, and the fields of a function, a
closure, an environment or a thread. -/
def gc_children (vm : esh_vm) (a : Nat) : List esh_val :=
  match vm.heap a with
  | none => []
  | some obj =>
    ((obj.obj.entries.filter (fun e => decide (e.key ≠ none) && !e.deleted)).map
        (fun e => e.val)) ++
      (match obj.type with
      | some .function_type =>
        match vm.functions a with
        | some fn => fn.imms
        | none => []
      | some .closure_type =>
        match vm.closures a with
        | some cl => [cl.fn, cl.env]
        | none => []
      | some .env_type =>
        match vm.envs a with
        | some env => env.locals ++ [env.parent]
        | none => []
      | some .co_thread_type =>
        match vm.thread_at a with
        | some co =>
          co.stack ++ co.stack_frames.flatMap frame_values ++ frame_values co.current_frame
        | none => []
      | _ => [])

/-- The function `gc_trace_obj`.  `none` is a failed assertion. -/
def gc_trace_obj (vm : esh_vm) (g : gc_state) (a : Nat) : Option gc_state :=
  if g.gc_tag a ≠ 1 then none else gc_mark_all vm.heap g (gc_children vm a)

/-- The roots `esh_gc` scans, in order: the stack and the frames of the running thread,
the globals object, the command dispatcher, the running thread itself and the threads of
the parent stack. -/
def gc_roots (vm : esh_vm) : List esh_val :=
  vm.thread.stack ++ vm.thread.stack_frames.flatMap frame_values ++
    frame_values vm.thread.current_frame ++ [vm.globals, vm.cmd, vm.current_thread] ++
    vm.threads

/-- The loop `while(esh->to_visit)` of `esh_gc` for at most `fuel` iterations: the lists
at its end, and whether `esh_gc` returns from inside the loop (`n` used up).  `none` is a
failed assertion or the end of the fuel. -/
def gc_visit_loop (vm : esh_vm) (do_full_sweep : Bool) :
    Nat → gc_state → Nat → Option (gc_state × Bool)
  | 0, _, _ => none
  | fuel + 1, g, n =>
    match g.to_visit with
    | [] => some (g, false)
    | obj :: rest =>
      if do_full_sweep = false ∧ n = 0 then some (g, true)
      else
        match gc_trace_obj vm { g with to_visit := rest } obj with
        | none => none
        | some g1 =>
          gc_visit_loop vm do_full_sweep fuel
            { g1 with
              gc_tag := fun a => if a = obj then 2 else g1.gc_tag a,
              visited := obj :: g1.visited }
            (if do_full_sweep then n else n - 1)

/-- The function `free_object` for all objects of a list: they leave the heap. -/
def free_objects (vm : esh_vm) (freed : List Nat) : esh_vm :=
  { vm with heap := fun a => if a ∈ freed then none else vm.heap a }

/-- The function `esh_gc` with at most `fuel` iterations of its loop: the state, the lists
and the objects freed, in the order of the calls of `free_object`. -/
def esh_gc (fuel : Nat) (vm : esh_vm) (g : gc_state) (n : Nat) :
    Option (esh_vm × gc_state × List Nat) :=
  match gc_mark_all vm.heap g (gc_roots vm) with
  | none => none
  | some g1 =>
    match gc_visit_loop vm (decide (n = 0)) fuel g1 n with
    | none => none
    | some (g2, true) => some (vm, g2, [])
    | some (g2, false) =>
      some (free_objects vm g2.objects,
        { objects := g2.visited, to_visit := g2.to_visit, visited := [],
          gc_tag := fun a => if a ∈ g2.visited then 0 else g2.gc_tag a },
        g2.objects)

/-- Whether a value points to a heap object. -/
def is_object (vm : esh_vm) (val : esh_val) : Bool := (val_as_object vm.heap val none).isSome

/-- The objects that can be reached from the roots of `esh_gc` through the values
`gc_trace_obj` follows. -/
inductive gc_reachable (vm : esh_vm) : Nat → Prop where
  | root (v : esh_val) : v ∈ gc_roots vm → is_object vm v = true → gc_reachable vm v
  | child (a : Nat) (v : esh_val) : gc_reachable vm a → v ∈ gc_children vm a →
      is_object vm v = true → gc_reachable vm v

/-- No collection is in progress: every heap object is on the list `objects`, once, with
tag 0, and the lists `to_visit` and `visited` are empty. -/
def gc_idle (vm : esh_vm) (g : gc_state) : Prop :=
  g.to_visit = [] ∧ g.visited = [] ∧ g.objects.Nodup ∧ (∀ a ∈ g.objects, g.gc_tag a = 0) ∧
    ∀ v, is_object vm v = true → v ∈ g.objects

/-- The lists of a state in which no collection is in progress, for the four objects of
`sample_heap`. -/
def sample_gc : gc_state :=
  { objects := [64, 48, 32, 16], to_visit := [], visited := [], gc_tag := fun _ => 0 }

/-- The state `sample_vm` for an empty template, with the given stack. -/
def sample_gc_vm (stack : List esh_val) : esh_vm := sample_vm (sample_function [] [] []) stack

/-- What a collection leaves, for comparison: the lists `objects`, `to_visit` and `visited`
and the objects freed. -/
def gc_summary (r : Option (esh_vm × gc_state × List Nat)) :
    Option (List Nat × List Nat × List Nat × List Nat) :=
  r.map (fun r => (r.2.1.objects, r.2.1.to_visit, r.2.1.visited, r.2.2))

/-- The invariant of a collection over the objects `all` that were on the list `objects`
at its start; `pending` is the object that the loop has taken from `to_visit` and not yet
put on `visited`.  The lists sort the objects by tag, every heap object is among `all`,
every marked object is reachable, and the values an object on `visited` points to are
marked. -/
def gc_inv (vm : esh_vm) (all : List Nat) (g : gc_state) (pending : Option Nat) : Prop :=
  g.objects.Nodup ∧
  (∀ a, a ∈ g.objects ↔ a ∈ all ∧ g.gc_tag a = 0) ∧
  (∀ a, a ∈ g.to_visit → a ∈ all ∧ g.gc_tag a = 1) ∧
  (∀ a, a ∈ all → g.gc_tag a = 1 → a ∈ g.to_visit ∨ pending = some a) ∧
  (∀ a, a ∈ g.visited ↔ a ∈ all ∧ g.gc_tag a = 2) ∧
  (∀ a, a ∈ all → g.gc_tag a ≤ 2) ∧
  (∀ v, is_object vm v = true → v ∈ all) ∧
  (∀ a, a ∈ all → g.gc_tag a ≠ 0 → gc_reachable vm a) ∧
  (∀ a, a ∈ g.visited → ∀ v, v ∈ gc_children vm a → is_object vm v = true → g.gc_tag v ≠ 0) ∧
  g.to_visit.Nodup ∧
  (∀ a, pending = some a → a ∉ g.to_visit ∧ g.gc_tag a = 1)

/-! ## Stack offsets, conditional jumps and table calls: conversions and samples -/

/-- The conversion `(size_t) i` of a `long long`. -/
def size_t_of (i : Int) : Nat := (i % (SIZE_MOD : Int)).toNat

/-- A state whose current frame starts at slot 1 and holds three values. -/
def offset_state : esh_state := ⟨[16, 3, 5, 7], 64, 1, fun _ => none, none⟩

/-- A template whose first instruction is `JMP_IF` to the third instruction. -/
def jmp_if_function : esh_function :=
  sample_function [] [2] [(.JMP_IF, 0, 0), (.PUSH_NULL, 0, 0), (.PUSH_NULL, 0, 0)]

/-- A template whose first instruction is `JMP_IFN` to the third instruction. -/
def jmp_ifn_function : esh_function :=
  sample_function [] [2] [(.JMP_IFN, 0, 0), (.PUSH_NULL, 0, 0), (.PUSH_NULL, 0, 0)]

/-- A call of the table interface: `esh_object_set` with a non-NULL value (both
allocations return memory) or `esh_object_delete_entry`. -/
inductive table_call where
  | set (key : List Nat) (val : esh_val)
  | delete (key : List Nat)
  deriving DecidableEq, Repr

/-- A sequence of calls on a table, one after the other; `none` as soon as a call of
`esh_object_set` fails an assertion or reports an error. -/
def run_calls : List table_call → esh_object → Option esh_object
  | [], obj => some obj
  | .set key val :: rest, obj =>
    match esh_object_set true true obj key val with
    | some r => if r.ret = 0 then run_calls rest r.obj else none
    | none => none
  | .delete key :: rest, obj => run_calls rest (esh_object_delete_entry obj key).2

/-- The fields `len` and `cap` of a table. -/
def table_size (obj : Option esh_object) : Option (Nat × Nat) :=
  obj.map (fun o => (o.len, o.cap))

/-- The calls `set a; set b; set c; set d` with the value 7. -/
def four_sets : List table_call :=
  [.set [97] 7, .set [98] 7, .set [99] 7, .set [100] 7]

/-- The calls `set a; set b; delete b; set c; delete c` with the value 7. -/
def tombstone_calls : List table_call :=
  [.set [97] 7, .set [98] 7, .delete [98], .set [99] 7, .delete [99]]

/-- The table the calls `tombstone_calls` leave of the empty table: three slots, all with a
key, two of them tombstones. -/
def tombstone_table : esh_object :=
  ⟨false, 1, [⟨some [99], 7, true⟩, ⟨some [98], 7, true⟩, ⟨some [97], 7, false⟩]⟩

/-- A function body that reads `y` after the block that declares it has ended. -/
def closed_block_read_body : String := "if true then\nlocal y = 1\nend\nr = $y\nend"

/-- The body `closed_block_read_body` without the block. -/
def plain_read_body : String := "r = $y\nend"

/-- A function body that declares `w` after a block that declares `w` has ended. -/
def closed_block_declaration_body : String :=
  "if true then\nlocal w = 1\nend\nlocal w = 2\nend"

/-- The body `closed_block_declaration_body` without the block. -/
def single_declaration_body : String := "local w = 2\nend"

/-! ## Folded `UNPACK`, caught panics and resumed threads: readings and samples -/

/-- The instruction after the current one, as `fold_next_unpack_instr` decodes it once the
instruction index has been incremented. -/
def following_instr (vm : esh_vm) (f : esh_function) : instr_regs :=
  decode_instr f.instr ((vm.thread.current_frame.instr_index + 1) * INSTR_SIZE)

/-- Whether the current instruction is followed by an instruction and that instruction is
`UNPACK`. -/
def unpack_follows (vm : esh_vm) (f : esh_function) : Bool :=
  decide (vm.thread.current_frame.instr_index + 1 < f.instr_len) &&
    decide (esh_opcode.of_byte (following_instr vm f).op = some esh_opcode.UNPACK)

/-- A template that calls the value on top of the stack and unpacks two results. -/
def call_unpack_function : esh_function :=
  sample_function [] [] [(.CALL, 0, 0), (.UNPACK, 2, 0), (.RET, 2, 0)]

/-- A template that calls the value on top of the stack and returns the result. -/
def call_plain_function : esh_function :=
  sample_function [] [] [(.CALL, 0, 0), (.RET, 1, 0)]

/-- The frames a call has pushed, for comparison: the instruction index and the
expected-return count of every frame of the frame stack, and the instruction index of the
current frame; `none` unless the instruction ends in `continue`. -/
def frames_summary (s : Option vm_signal) : Option (List (Nat × Nat) × Nat) :=
  match s with
  | some (.cont vm) =>
    some (vm.thread.stack_frames.map (fun frame => (frame.instr_index, frame.expected_returns)),
      vm.thread.current_frame.instr_index)
  | _ => none

/-- The frames from the one directly above a frame of the frame stack up to the current
frame: `upper` are the frames of the frame stack above it. -/
def frames_above (upper : List esh_stack_frame) (current : esh_stack_frame) :
    List esh_stack_frame := upper ++ [current]

/-- The base of the frame directly above a frame of the frame stack. -/
def base_above (upper : List esh_stack_frame) (current : esh_stack_frame) : Nat :=
  ((frames_above upper current).headD current).stack_base

/-- What the loop has reached while it runs, for comparison: the template and the base of
the current frame, the flag `panic_caught` and the value stack. -/
def frame_summary (s : Option vm_status) : Option (Nat × Nat × Bool × List esh_val) :=
  match s with
  | some (.running vm) =>
    some (vm.thread.current_frame.fn, vm.thread.current_frame.stack_base, vm.panic_caught,
      vm.thread.stack)
  | _ => none

/-- The log of the destructor calls and the bases of the frames of the frame stack in the
state the loop has reached while it runs. -/
def unwound_summary (s : Option vm_status) : Option (List (Nat × Nat) × List Nat) :=
  match s with
  | some (.running vm) =>
    some (vm.freed_locals, vm.thread.stack_frames.map (fun frame => frame.stack_base))
  | _ => none

/-- A frame of the template at `fn` with the given base, destructor hook and block and
catch flag. -/
def sample_frame (fn stack_base c_locals_free c_locals : Nat) (catch_panic : Bool) :
    esh_stack_frame :=
  { stack_base := stack_base, fn := fn, env := 0, instr_index := 1, n_args := 0,
    expected_returns := 1, c_locals := c_locals, c_locals_free := c_locals_free,
    catch_panic := catch_panic }

/-- A state at the jump to `PANIC` in which the frame stack holds a frame that does not
catch, a frame with base 2 that catches, and above it a frame with base 3 that owns native
locals; the panicking frame with base 5 owns native locals too. -/
def catch_state : esh_vm :=
  { sample_vm failing_function [16, 112, 144, 7, 7, 7] with
    thread :=
      { current_frame := sample_frame 32 5 9 800 false,
        stack_frames :=
          [sample_frame 32 1 0 0 false, sample_frame 32 2 0 0 true,
            sample_frame 32 3 9 900 false],
        stack_frames_cap := 4, stack := [16, 112, 144, 7, 7, 7], stack_cap := 64,
        is_done := false } }

/-- A coroutine body that resumes the coroutine it runs in with `next_fn`. -/
def self_resume_body : esh_function :=
  sample_function [next_closure, sample_coroutine] []
    [(.IMM, 0, 0), (.IMM, 1, 0), (.CALL, 1, 0), (.RET, 1, 0)]

/-- What the loop has reached, for comparison: the return code (`none` while it runs), the
running thread, the parent stack, and the template and instruction index of the current
frame. -/
def parents_summary (s : Option vm_status) : Option (Option Nat × Nat × List Nat × Nat × Nat) :=
  s.map (fun s =>
    match s with
    | .running vm =>
      (none, vm.current_thread, vm.threads, vm.thread.current_frame.fn,
        vm.thread.current_frame.instr_index)
    | .returned code vm =>
      (some code, vm.current_thread, vm.threads, vm.thread.current_frame.fn,
        vm.thread.current_frame.instr_index))

/-! ## The string buffer and `replace` (`esh.c`, `esh_stdlib.c`)

The buffer `str_buff` of the state holds the `str_buff_len` bytes written so far.  The
strings `s`, `a` and `b` are the bytes at the pointers `esh_as_string` returns, cut at the
lengths it reports. -/

/-- The function `esh_dup`. -/
def esh_dup (esh : esh_state) (offset : Int) : Nat × esh_state :=
  match stack_offset esh offset with
  | (none, esh1) => (1, esh1)
  | (some index, _) => stack_push esh (stack_at esh index)

/-- The function `esh_swap`. -/
def esh_swap (esh : esh_state) (a b : Int) : Nat × esh_state :=
  match stack_offset esh a with
  | (none, esh1) => (1, esh1)
  | (some index_a, _) =>
    match stack_offset esh b with
    | (none, esh1) => (1, esh1)
    | (some index_b, _) =>
      let tmp := stack_at esh index_a
      (0, { esh with stack := (esh.stack.set index_a (stack_at esh index_b)).set index_b tmp })

/-- The function `esh_str_buff_begin`. -/
def esh_str_buff_begin (vm : esh_vm) : esh_vm := { vm with str_buff := [] }

/-- The function `str_buff_resv`; `ok` says whether a growth of the buffer succeeds. -/
def str_buff_resv (ok : Bool) (vm : esh_vm) (n : Nat) : Nat × esh_vm :=
  if vm.str_buff.length + n > vm.str_buff_cap then
    if ok = false then (1, vm.printf "Unable to grow string buffer (out of memory?)")
    else (0, { vm with str_buff_cap := vm.str_buff_cap * 3 / 2 + n })
  else (0, vm)

/-- The function `esh_str_buff_appends` for the `len` bytes `str`. -/
def esh_str_buff_appends (ok : Bool) (vm : esh_vm) (str : List Nat) : Nat × esh_vm :=
  if str.length = 0 then (0, vm)
  else
    match str_buff_resv ok vm str.length with
    | (0, vm1) => (0, { vm1 with str_buff := vm1.str_buff ++ str })
    | (_, vm1) => (1, vm1)

/-- The function `esh_str_buff_appendc`. -/
def esh_str_buff_appendc (ok : Bool) (vm : esh_vm) (c : Nat) : Nat × esh_vm :=
  match str_buff_resv ok vm 1 with
  | (0, vm1) => (0, { vm1 with str_buff := vm1.str_buff ++ [c] })
  | (_, vm1) => (1, vm1)

/-- The inner loop of `replace`: whether `s[i + j] == a[j]` for every `j` below the length
of `a`. -/
def replace_match (s a : List Nat) (i : Nat) : Bool :=
  (List.range a.length).all (fun j => decide (s.getD (i + j) 0 = a.getD j 0))

/-- The outer loop of `replace` from the counter `i` on, for at most `fuel` iterations: 0
and the state at its end, or 1 when an append fails (the function returns `ESH_FN_ERR`).
`none` is the end of the fuel. -/
def replace_loop (ok : Bool) (s a b : List Nat) : Nat → Nat → esh_vm → Option (Nat × esh_vm)
  | 0, i, vm => if i < s.length - a.length + 1 then none else some (0, vm)
  | fuel + 1, i, vm =>
    if i < s.length - a.length + 1 then
      if replace_match s a i then
        match esh_str_buff_appends ok vm b with
        | (0, vm1) => replace_loop ok s a b fuel (i + (a.length - 1) + 1) vm1
        | (_, vm1) => some (1, vm1)
      else
        match esh_str_buff_appendc ok vm (s.getD i 0) with
        | (0, vm1) => replace_loop ok s a b fuel (i + 1) vm1
        | (_, vm1) => some (1, vm1)
    else some (0, vm)

/-- The end of `replace`: the bytes of the buffer are handed to `esh_new_string`; `p` is
the address the allocator returns. -/
def replace_finish (p : Nat) (vm : esh_vm) : esh_fn_result × esh_vm :=
  match esh_new_string p vm.esh vm.str_buff with
  | (0, esh3) => (⟨0, 1, 0⟩, vm.put esh3)
  | (_, esh3) => (⟨-1, 0, 0⟩, vm.put esh3)

/-- The native function `replace` of `esh_stdlib.c`; `p` is the address the allocator
returns for the result and `ok` says whether a growth of the string buffer succeeds.
`none` is a failed assertion, or the read of the length of `a` that was never written: the
check after the second `esh_as_string` tests `s` again, so a second argument that is no
string is not rejected. -/
def replace (p : Nat) (ok : Bool) (vm : esh_vm) (n_args i : Nat) :
    Option (esh_fn_result × esh_vm) :=
  if n_args ≠ 3 ∨ i ≠ 0 then none
  else
    match esh_as_string vm.esh 0 with
    | (none, esh1) => some (⟨-1, 0, 0⟩, vm.put esh1)
    | (some (s_mem, sl), _) =>
      match esh_as_string vm.esh 1 with
      | (none, _) => none
      | (some (a_mem, al), _) =>
        match esh_as_string vm.esh 2 with
        | (none, esh1) => some (⟨-1, 0, 0⟩, vm.put esh1)
        | (some (b_mem, bl), _) =>
          if al > sl ∨ al = 0 then
            match esh_dup vm.esh 0 with
            | (0, esh1) => some (⟨0, 1, 0⟩, vm.put esh1)
            | (_, esh1) => some (⟨-1, 0, 0⟩, vm.put esh1)
          else
            let s := s_mem.take sl
            match replace_loop ok s (a_mem.take al) (b_mem.take bl) (sl + 1) 0
                (esh_str_buff_begin vm) with
            | none => none
            | some (0, vm1) =>
              match esh_str_buff_appends ok vm1 ((s.drop (sl - al + 1)).take (al - 1)) with
              | (0, vm2) => some (replace_finish p vm2)
              | (_, vm2) => some (⟨-1, 0, 0⟩, vm2)
            | some (_, vm1) => some (⟨-1, 0, 0⟩, vm1)

/-! ### The reading of the doc comment -/

/-- The string `s` with every occurrence of `a`, found from left to right without
overlap, replaced by `b` (`fuel` bounds the number of steps). -/
def replace_all (a b : List Nat) : Nat → List Nat → List Nat
  | 0, s => s
  | _ + 1, [] => []
  | fuel + 1, c :: rest =>
    if a ≠ [] ∧ (c :: rest).take a.length = a then
      b ++ replace_all a b fuel ((c :: rest).drop a.length)
    else c :: replace_all a b fuel rest

/-- The result the doc comment of `replace` describes. -/
def replaced (s a b : List Nat) : List Nat := replace_all a b s.length s

/-- The bytes the outer loop of `replace` appends from the counter `i` on and the value of
the counter at its end (`fuel` bounds the number of iterations). -/
def replace_scan (s a b : List Nat) : Nat → Nat → List Nat × Nat
  | 0, i => ([], i)
  | fuel + 1, i =>
    if i < s.length - a.length + 1 then
      if replace_match s a i then
        (b ++ (replace_scan s a b fuel (i + (a.length - 1) + 1)).1,
          (replace_scan s a b fuel (i + (a.length - 1) + 1)).2)
      else
        (s.getD i 0 :: (replace_scan s a b fuel (i + 1)).1,
          (replace_scan s a b fuel (i + 1)).2)
    else ([], i)

/-! ### Sample calls -/

/-- The frame of a call of `replace`: the arguments `s`, `a` and `b`, pushed by
`esh_new_string` on an empty stack (heap strings at 80, 96 and 112). -/
def replace_call (s a b : List Nat) : esh_vm :=
  (sample_running (sample_function [] [] []) [] 0).put
    (esh_new_string 112
      (esh_new_string 96
        (esh_new_string 80 (sample_running (sample_function [] [] []) [] 0).esh s).2 a).2
      b).2

/-- What a call of `replace` returns, for comparison: the type and the count of the
directive and the bytes of the string on top of the stack. -/
def replace_result (r : Option (esh_fn_result × esh_vm)) :
    Option (Int × Nat × Option (List Nat)) :=
  r.map (fun r =>
    (r.1.type, r.1.n_args,
      string_value r.2.heap (r.2.thread.stack.getLast?.getD ESH_NULL)))

/-! ## Allocation with collection steps and the write barrier (`esh.c`)

The functions of this section carry the lists of the collector along.  `esh_alloc` and
`esh_realloc` call `inc_gc`, which runs a collection step every `gc_freq` allocations;
the pointer the `realloc` callback returns is an input as before. -/

/-- The interpreter state with the lists of the collector and the fields `gc_freq`,
`gc_step_size` and `alloc_step` of `struct esh_state`. -/
structure gc_vm where
  vm : esh_vm
  g : gc_state
  gc_freq : Int
  gc_step_size : Nat
  alloc_step : Nat

/-- The function `gc_obj_write_barrier` for the object at address `a`. -/
def gc_obj_write_barrier (g : gc_state) (a : Nat) : gc_state :=
  if g.gc_tag a = 2 then
    { g with
      gc_tag := fun x => if x = a then 1 else g.gc_tag x,
      visited := g.visited.erase a,
      to_visit := a :: g.to_visit }
  else g

/-- The function `inc_gc`, with at most `fuel` iterations of the loop of `esh_gc`. -/
def inc_gc (fuel : Nat) (s : gc_vm) : Option gc_vm :=
  if s.gc_freq > 0 then
    if s.alloc_step + 1 ≥ s.gc_freq.toNat then
      match esh_gc fuel s.vm s.g s.gc_step_size with
      | none => none
      | some (vm1, g1, _) => some { s with vm := vm1, g := g1, alloc_step := 0 }
    else some { s with alloc_step := s.alloc_step + 1 }
  else some s

/-- The function `alloc_object` with its call of `esh_alloc`: the collection step comes
first, then the object at the address `p` the callback returns (0 for NULL) is put at the
head of the list `objects` with tag 0. -/
def alloc_object_gc (fuel p : Nat) (s : gc_vm) (type : Option esh_type_ptr) :
    Option (Option Nat × gc_vm) :=
  match inc_gc fuel s with
  | none => none
  | some s1 =>
    match alloc_object p s1.vm.esh type with
    | (none, esh1) => some (none, { s1 with vm := s1.vm.put esh1 })
    | (some _, esh1) =>
      some (some p, { s1 with
        vm := s1.vm.put esh1,
        g := { s1.g with
          objects := p :: s1.g.objects,
          gc_tag := fun a => if a = p then 0 else s1.g.gc_tag a } })

/-- The function `esh_new_object` with the collection step of its allocation. -/
def esh_new_object_gc (fuel p : Nat) (s : gc_vm) (type : Option esh_type_ptr) :
    Option (Option Nat × gc_vm) :=
  match stack_push s.vm.esh ESH_NULL with
  | (0, esh1) =>
    match alloc_object_gc fuel p { s with vm := s.vm.put esh1 } type with
    | none => none
    | some (none, s1) => some (none, s1)
    | some (some obj, s1) =>
      some (some obj, { s1 with
        vm := s1.vm.put { s1.vm.esh with
          stack := s1.vm.esh.stack.set (s1.vm.esh.stack_len - 1) obj } })
  | (_, esh1) => some (none, { s with vm := s.vm.put esh1 })

/-- The template `esh_new_fn` initialises. -/
def empty_function : esh_function :=
  { imms := [], jmps := [], n_args := 0, opt_args := 0, n_locals := 0, variadic := false,
    instr := [], upval_locals := false, c_fn := 0 }

/-- The function `esh_new_fn` for a name that is not NULL; `p` is the address of the
template and `name_ok` says whether the allocation of the name returns memory. -/
def esh_new_fn_gc (fuel p : Nat) (name_ok : Bool) (s : gc_vm) : Option (Nat × gc_vm) :=
  match esh_new_object_gc fuel p s (some esh_type_ptr.function_type) with
  | none => none
  | some (none, s1) => some (1, s1)
  | some (some fn, s1) =>
    let s2 : gc_vm :=
      { s1 with vm := { s1.vm with functions := store s1.vm.functions fn empty_function } }
    match inc_gc fuel s2 with
    | none => none
    | some s3 =>
      if name_ok = false then
        let vm4 := s3.vm.printf "Unable to allocate buffer for function name (out of memory?)"
        some (1, { s3 with vm := vm4 })
      else some (0, s3)

/-- The function `esh_new_c_fn` for the native function at address `f`; `pcl` and `pfn`
are the addresses of the closure and of the template.  `none` is a failed assertion or a
template that `esh_as_type` does not find on top of the stack. -/
def esh_new_c_fn_gc (fuel pcl pfn : Nat) (name_ok : Bool) (s : gc_vm)
    (f n_args opt_args : Nat) (variadic : Bool) : Option (Nat × gc_vm) :=
  match esh_new_object_gc fuel pcl s (some esh_type_ptr.closure_type) with
  | none => none
  | some (none, s1) => some (1, s1)
  | some (some cl, s1) =>
    let const_heap : Nat → Option heap_object :=
      match s1.vm.heap cl with
      | some obj => heap_store s1.vm.heap cl { obj with obj := { obj.obj with is_const := true } }
      | none => s1.vm.heap
    let s2 : gc_vm :=
      { s1 with vm := { s1.vm with
        closures := store s1.vm.closures cl ⟨false, 0, 0⟩, heap := const_heap } }
    match esh_new_fn_gc fuel pfn name_ok s2 with
    | none => none
    | some (0, s3) =>
      match stack_offset s3.vm.esh (-1) with
      | (none, _) => none
      | (some index, _) =>
        let fn := stack_at s3.vm.esh index
        match val_as_object s3.vm.heap fn (some esh_type_ptr.function_type),
            s3.vm.functions fn with
        | some _, some template =>
          let vm4 : esh_vm :=
            { s3.vm with
              functions := store s3.vm.functions fn
                { template with
                  n_args := n_args, opt_args := opt_args, c_fn := f, variadic := variadic },
              closures := store s3.vm.closures cl ⟨false, fn, 0⟩ }
          some (0, { s3 with vm := vm4.put (esh_pop vm4.esh 1) })
        | _, _ => none
    | some (_, s3) => some (1, { s3 with vm := s3.vm.put (esh_pop s3.vm.esh 1) })

/-- The store of the table `obj` into the object at address `a`; `none` is a write to
memory that has been freed. -/
def write_table (s : gc_vm) (a : Nat) (obj : esh_object) : Option gc_vm :=
  match s.vm.heap a with
  | none => none
  | some h => some { s with vm := { s.vm with heap := heap_store s.vm.heap a { h with obj := obj } } }

/-- The part of `esh_object_set` after the grow check, on the object at address `a`, with
the collection step of the allocation of the key copy. -/
def set_slot_gc (fuel : Nat) (alloc_key : Bool) (s : gc_vm) (a : Nat) (key : List Nat)
    (val : esh_val) : Option (Nat × gc_vm) :=
  match s.vm.heap a with
  | none => none
  | some h =>
    let obj := h.obj
    if ¬ obj.len < obj.cap then none
    else
      match object_find obj.entries key with
      | none => none
      | some i =>
        let entry := entry_at obj.entries i
        if entry.key ≠ none then
          (write_table s a { obj with
            entries := obj.entries.set i { entry with val := val, deleted := false },
            len := if entry.deleted then obj.len + 1 else obj.len }).map (fun s1 => (0, s1))
        else
          match inc_gc fuel s with
          | none => none
          | some s1 =>
            if alloc_key = false then some (1, s1)
            else
              (write_table s1 a { obj with
                entries := obj.entries.set i { entry with key := some key, val := val },
                len := obj.len + 1 }).map (fun s2 => (0, s2))

/-- The function `esh_object_set` on the object at address `a`, with the collection steps
of its two allocations.  `alloc_entries` and `alloc_key` say whether the allocations return
memory; `none` is a failed assertion. -/
def esh_object_set_gc (fuel : Nat) (alloc_entries alloc_key : Bool) (s : gc_vm) (a : Nat)
    (key : List Nat) (val : esh_val) : Option (Nat × gc_vm) :=
  match s.vm.heap a with
  | none => none
  | some h =>
    if h.obj.is_const then
      some (1, { s with vm := s.vm.printf "Attempting to mutate constant object" })
    else if val = ESH_NULL then
      (write_table s a (esh_object_delete_entry h.obj key).2).map (fun s1 => (0, s1))
    else if h.obj.len ≥ GROW_THRESHOLD h.obj.cap then
      match inc_gc fuel s with
      | none => none
      | some s1 =>
        if alloc_entries = false then some (1, s1)
        else
          match rehash h.obj.entries (new_entries (GROW_FACTOR h.obj.cap)) with
          | none => none
          | some grown =>
            match write_table s1 a { h.obj with entries := grown } with
            | none => none
            | some s2 => set_slot_gc fuel alloc_key s2 a key val
    else set_slot_gc fuel alloc_key s a key val

/-- The loop of `esh_new_array` from iteration `i` on (`count` is `n - i`), with the call
of `gc_obj_write_barrier` for the globals object before each write; `p` is the address of
the new object. -/
def new_array_loop_gc (fuel : Nat) (alloc : Nat → Bool × Bool) (p n : Nat) :
    Nat → Nat → gc_vm → Option (Nat × gc_vm)
  | 0, _, s => some (0, s)
  | count + 1, i, s =>
    let key := int_to_str (wrap64 i)
    let s1 : gc_vm := { s with g := gc_obj_write_barrier s.g s.vm.globals }
    let val := stack_at s1.vm.esh (s1.vm.esh.stack_len - n - 1 + i)
    match esh_object_set_gc fuel (alloc i).1 (alloc i).2 s1 p key val with
    | none => none
    | some (0, s2) => new_array_loop_gc fuel alloc p n count (i + 1) s2
    | some (_, s2) =>
      let esh3 := esh_err_printf s2.vm.esh "Unable to set array entry (out of memory?)"
      some (1, { s2 with
        vm := s2.vm.put { esh3 with stack := esh3.stack.take (esh3.stack_len - 1) } })

/-- The function `esh_new_array` with the collection steps of its allocations and its
calls of the write barrier. -/
def esh_new_array_gc (fuel : Nat) (alloc : Nat → Bool × Bool) (p : Nat) (s : gc_vm)
    (n : Nat) : Option (Nat × gc_vm) :=
  if s.vm.esh.stack_len < s.vm.esh.stack_base then none
  else if stack_size s.vm.esh < n then
    some (1, { s with vm := s.vm.printf "Not enough items on stack to create array" })
  else
    match esh_new_object_gc fuel p s none with
    | none => none
    | some (none, s1) => some (1, s1)
    | some (some _, s1) =>
      match new_array_loop_gc fuel alloc p n n 0 s1 with
      | none => none
      | some (code, s2) =>
        (new_array_finish n (some (code, s2.vm.esh))).map
          (fun r => (r.1, { s2 with vm := s2.vm.put r.2 }))

/-- No object on the list `visited` points to a heap object with tag 0 (the tri-colour
invariant between collection steps). -/
def tri_color (vm : esh_vm) (g : gc_state) : Prop :=
  ∀ a ∈ g.visited, ∀ v ∈ gc_children vm a, is_object vm v = true → g.gc_tag v ≠ 0

instance (vm : esh_vm) (g : gc_state) : Decidable (tri_color vm g) := by
  unfold tri_color; infer_instance

/-- An object that is still on the heap points to an address whose object has been
freed. -/
def dangling (vm : esh_vm) (a : Nat) : Prop :=
  vm.heap a ≠ none ∧ ∃ v ∈ gc_children vm a, v ≠ ESH_NULL ∧ v % 2 = 0 ∧ vm.heap v = none

instance (vm : esh_vm) (a : Nat) : Decidable (dangling vm a) := by
  unfold dangling; infer_instance

/-! ### Sample states -/

/-- A heap as `esh_open` and two calls of `esh_object_of` leave it: the thread object at
8, the globals object at 48 and two empty objects at 64 and 80. -/
def open_heap : Nat → Option heap_object :=
  fun a =>
    if a = 8 then some (sample_header (some esh_type_ptr.co_thread_type) false)
    else if a = 48 ∨ a = 64 ∨ a = 80 then some (sample_header none false)
    else none

/-- The state outside any call with the two objects on the stack, no collection in
progress, and the collector set by `esh_gc_conf`. -/
def open_state (gc_freq : Int) (gc_step_size : Nat) : gc_vm :=
  { vm :=
      { sample_vm empty_function [64, 80] with
        heap := open_heap, functions := fun _ => none, closures := fun _ => none },
    g := { objects := [80, 64, 48, 8], to_visit := [], visited := [], gc_tag := fun _ => 0 },
    gc_freq := gc_freq, gc_step_size := gc_step_size, alloc_step := 0 }

/-- What a call leaves, for comparison: the return code, the value stack and the lists
`objects`, `to_visit` and `visited`. -/
def lists_summary (r : Option (Nat × gc_vm)) :
    Option (Nat × List esh_val × List Nat × List Nat × List Nat) :=
  r.map (fun r => (r.1, r.2.vm.thread.stack, r.2.g.objects, r.2.g.to_visit, r.2.g.visited))

/-- The state a call leaves. -/
def state_of (r : Option (Nat × gc_vm)) : Option gc_vm := r.map (fun r => r.2)

/-- The full collection `esh_gc(0)` in the state a call leaves. -/
def then_full_gc (fuel : Nat) (s : Option gc_vm) : Option (esh_vm × gc_state × List Nat) :=
  s.bind (fun s => esh_gc fuel s.vm s.g 0)

/-! ## Keys with a NUL byte: samples -/

/-- Two writes, as `esh_set_s` passes them on with an explicit key length: the keys are the
three bytes `a`, NUL, `b` and the three bytes `a`, NUL, `c`. -/
def nul_key_calls : List table_call := [.set [97, 0, 98] 5, .set [97, 0, 99] 7]

/-- The table the calls `nul_key_calls` leave of the empty table. -/
def nul_key_object : esh_object :=
  ⟨false, 2, [⟨none, 0, false⟩, ⟨some [97, 0, 99], 7, false⟩, ⟨some [97, 0, 98], 5, false⟩]⟩

/-- A state whose stack holds the object `nul_key_object` at address 32. -/
def nul_key_state : esh_state :=
  ⟨[32], 64, 0, heap_store (fun _ => none) 32 ⟨none, nul_key_object, 0, []⟩, none⟩

/-- The pairs a caller's loop has read, `none` if it did not come to its end. -/
def pairs_read (r : Option (List (List Nat × esh_val) × esh_state × esh_iterator)) :
    Option (List (List Nat × esh_val)) :=
  r.map (fun r => r.1)

/-! ## The start of `run_vm` (`esh.c`) -/

/-- The code of `run_vm` before its loop, with the answers `w0`: the state in which the
loop is entered, `none` if `run_vm` returns or fails before that. -/
def loop_entry (w0 : world) (vm : esh_vm) (entrypoint : Nat) : Option esh_vm :=
  if vm.thread.current_frame.env ≠ 0 then none
  else
    match vm.closures entrypoint with
    | none => none
    | some cl =>
      match vm.functions cl.fn with
      | none => none
      | some f =>
        match esh_req_stack w0.stack_ok vm.esh 64 with
        | (0, esh1) =>
          let vm1 := vm.put esh1
          let start (new_env : Nat) (vm2 : esh_vm) : Option esh_vm :=
            let vm3 : esh_vm :=
              { vm2 with thread := { vm2.thread with
                current_frame :=
                  { stack_base := vm2.stack_len, fn := cl.fn, env := new_env, instr_index := 0,
                    n_args := 0, expected_returns := 0, c_locals := 0, c_locals_free := 0,
                    catch_panic := false } } }
            if f.upval_locals = false then
              match stack_resv w0.stack_ok vm3.esh f.n_locals with
              | (0, esh2) => some (vm3.put esh2)
              | (_, _) => none
            else some vm3
          if f.upval_locals = true ∧ (f.n_locals ≠ 0 ∨ cl.env ≠ 0) then
            match new_env_object w0.obj vm1 f.n_locals with
            | (none, _) => none
            | (some new_env, vm2) =>
              start new_env { vm2 with
                envs := store vm2.envs new_env ⟨cl.env, List.replicate f.n_locals ESH_NULL⟩ }
          else start 0 vm1
        | (_, _) => none

/-! ## The dispatcher call of `CMD`: readings and samples -/

/-- The three values `CMD` pushes after the command arguments before it calls the
dispatcher: the command name, the pipe-in flag (bit 1 of `l`) and the capture flag (bit 0
of `l`), each flag `"true"` or NULL. -/
def dispatcher_flags (name : esh_val) (l : Nat) : List esh_val :=
  [name, if l.testBit 1 then true_value else ESH_NULL,
    if l.testBit 0 then true_value else ESH_NULL]

/-- A template with four parameters and five locals, kept on the stack or, with
`upval_locals`, in the environment. -/
def sample_dispatcher (upval_locals : Bool) : esh_function :=
  { imms := [], jmps := [], n_args := 4, opt_args := 0, n_locals := 5, variadic := false,
    instr := sample_code [(.RET, 0, 0)], upval_locals := upval_locals, c_fn := 0 }

/-- The state `sample_vm d [name, 5]` with the closure at 16 registered as dispatcher. -/
def dispatcher_state (d : esh_function) : esh_vm :=
  { sample_vm d [sample_name, 5] with cmd := 16 }

/-! ## Growth of the function under construction: readings -/

theorem scan_eq_some (hit : Nat → Bool) (lo n i : Nat) :
    scan hit lo n = some i ↔
      lo ≤ i ∧ i < lo + n ∧ hit i = true ∧ ∀ m, lo ≤ m → m < i → hit m = false := by
  induction n generalizing lo with
  | zero =>
    simp only [scan]
    constructor
    · intro h; cases h
    · rintro ⟨h1, h2, _⟩; omega
  | succ n ih =>
    simp only [scan]
    by_cases hlo : hit lo = true
    · simp only [hlo, if_true, Option.some.injEq]
      constructor
      · rintro rfl
        exact ⟨le_refl _, by omega, hlo, fun m h1 h2 => by omega⟩
      · rintro ⟨h1, _, _, h4⟩
        by_contra hne
        have := h4 lo (le_refl _) (by omega)
        rw [hlo] at this; cases this
    · simp only [hlo, if_false, Bool.false_eq_true]
      rw [ih]
      have hlo' : hit lo = false := by simpa using hlo
      constructor
      · rintro ⟨h1, h2, h3, h4⟩
        refine ⟨by omega, by omega, h3, fun m hm1 hm2 => ?_⟩
        by_cases hm : m = lo
        · rw [hm]; exact hlo'
        · exact h4 m (by omega) hm2
      · rintro ⟨h1, h2, h3, h4⟩
        have : lo ≠ i := by rintro rfl; rw [h3] at hlo'; cases hlo'
        exact ⟨by omega, by omega, h3, fun m hm1 hm2 => h4 m (by omega) hm2⟩

theorem scan_eq_none (hit : Nat → Bool) (lo n : Nat) :
    scan hit lo n = none ↔ ∀ m, lo ≤ m → m < lo + n → hit m = false := by
  induction n generalizing lo with
  | zero =>
    simp only [scan, true_iff]
    intro m h1 h2; omega
  | succ n ih =>
    simp only [scan]
    by_cases hlo : hit lo = true
    · simp only [hlo, if_true]
      constructor
      · intro h; cases h
      · intro h
        have := h lo (le_refl _) (by omega)
        rw [hlo] at this; cases this
    · simp only [hlo, if_false, Bool.false_eq_true]
      rw [ih]
      have hlo' : hit lo = false := by simpa using hlo
      constructor
      · intro h m hm1 hm2
        by_cases hm : m = lo
        · rw [hm]; exact hlo'
        · exact h m (by omega) (by omega)
      · intro h m hm1 hm2
        exact h m (by omega) (by omega)

theorem probe_eq_some (hit : Nat → Bool) (cap h i : Nat) (hh : h ≤ cap) :
    probe hit cap h = some i ↔
      i < cap ∧ hit i = true ∧ ∀ m, before cap h i m → hit m = false := by
  unfold probe
  cases hs : scan hit h (cap - h) with
  | some j =>
    rw [scan_eq_some] at hs
    obtain ⟨j1, j2, j3, j4⟩ := hs
    simp only [Option.some.injEq]
    constructor
    · rintro rfl
      refine ⟨by omega, j3, fun m hm => ?_⟩
      rcases hm with ⟨_, h2, h3⟩ | ⟨h1, _⟩
      · exact j4 m h2 h3
      · omega
    · rintro ⟨i1, i2, i3⟩
      by_cases hi : h ≤ i
      · rcases Nat.lt_trichotomy j i with hlt | heq | hgt
        · have := i3 j (Or.inl ⟨hi, j1, hlt⟩)
          rw [j3] at this; cases this
        · exact heq
        · have := j4 i hi hgt
          rw [i2] at this; cases this
      · have := i3 j (Or.inr ⟨by omega, Or.inl ⟨j1, by omega⟩⟩)
        rw [j3] at this; cases this
  | none =>
    rw [scan_eq_none] at hs
    simp only
    rw [scan_eq_some]
    constructor
    · rintro ⟨_, h2, h3, h4⟩
      refine ⟨by omega, h3, fun m hm => ?_⟩
      rcases hm with ⟨h1, _, _⟩ | ⟨_, ⟨h5, h6⟩ | h5⟩
      · omega
      · exact hs m h5 (by omega)
      · exact h4 m (Nat.zero_le _) h5
    · rintro ⟨i1, i2, i3⟩
      have hi : i < h := by
        by_contra hge
        have := hs i (by omega) (by omega)
        rw [i2] at this; cases this
      exact ⟨Nat.zero_le _, by omega, i2, fun m _ hm => i3 m (Or.inr ⟨hi, Or.inr hm⟩)⟩

theorem probe_eq_none (hit : Nat → Bool) (cap h : Nat) (hh : h ≤ cap) :
    probe hit cap h = none ↔ ∀ m, m < cap → hit m = false := by
  unfold probe
  cases hs : scan hit h (cap - h) with
  | some j =>
    rw [scan_eq_some] at hs
    obtain ⟨j1, j2, j3, j4⟩ := hs
    constructor
    · intro h0; cases h0
    · intro hall
      have := hall j (by omega)
      rw [j3] at this; cases this
  | none =>
    rw [scan_eq_none] at hs
    simp only
    rw [scan_eq_none]
    constructor
    · intro h0 m hm
      by_cases hmh : m < h
      · exact h0 m (Nat.zero_le _) (by omega)
      · exact hs m (by omega) (by omega)
    · intro hall m _ hm
      exact hall m (by omega)

theorem entry_at_of_getElem? {entries : List esh_object_entry} {i : Nat} {e : esh_object_entry}
    (h : entries[i]? = some e) : entry_at entries i = e := by
  simp [entry_at, h]

theorem getElem?_entry_at {entries : List esh_object_entry} {i : Nat} (h : i < entries.length) :
    entries[i]? = some (entry_at entries i) := by
  simp [entry_at, List.getElem?_eq_getElem h]

theorem slots_ok_key {entries : List esh_object_entry} (h : slots_ok entries) {i : Nat}
    {e : esh_object_entry} {k : List Nat} (he : entries[i]? = some e) (hk : e.key = some k) :
    object_find entries k = some i := by
  have hi : i < entries.length := by
    by_contra hn
    rw [List.getElem?_eq_none (by omega)] at he; cases he
  have := h i hi
  simp only [slot_ok, he, hk] at this
  simpa using this

theorem slots_ok_empty {entries : List esh_object_entry} (h : slots_ok entries) {i : Nat}
    {e : esh_object_entry} (he : entries[i]? = some e) (hk : e.key = none) :
    e.deleted = false := by
  have hi : i < entries.length := by
    by_contra hn
    rw [List.getElem?_eq_none (by omega)] at he; cases he
  have := h i hi
  simp only [slot_ok, he, hk] at this
  simpa using this

theorem slots_ok_intro {entries : List esh_object_entry}
    (h1 : ∀ i e k, entries[i]? = some e → e.key = some k → object_find entries k = some i)
    (h2 : ∀ (i : Nat) (e : esh_object_entry), entries[i]? = some e → e.key = none →
      e.deleted = false) :
    slots_ok entries := by
  intro i hi
  have he := getElem?_entry_at hi
  simp only [slot_ok, he]
  cases hk : (entry_at entries i).key with
  | none => simp [h2 i _ he hk]
  | some k => simp [h1 i _ k he hk]

theorem hash_le (entries : List esh_object_entry) (key : List Nat) (h : entries.length ≠ 0) :
    strhash key % entries.length ≤ entries.length :=
  Nat.le_of_lt (Nat.mod_lt _ (Nat.pos_of_ne_zero h))

theorem object_find_nil (key : List Nat) : object_find [] key = none := by
  unfold object_find probe
  have h1 : ∀ lo n, scan (slot_hit [] key) lo n = none := by
    intro lo n
    rw [scan_eq_none]
    intro m _ _
    simp [slot_hit]
  simp [h1]

theorem object_find_eq_some {entries : List esh_object_entry} {key : List Nat} {i : Nat} :
    object_find entries key = some i ↔
      i < entries.length ∧ slot_hit entries key i = true ∧
        ∀ m, before entries.length (strhash key % entries.length) i m →
          slot_hit entries key m = false := by
  by_cases h0 : entries.length = 0
  · have : entries = [] := List.length_eq_zero.mp h0
    subst this
    rw [object_find_nil]
    constructor
    · intro h; cases h
    · rintro ⟨h, _⟩; simp at h
  · unfold object_find
    exact probe_eq_some _ _ _ _ (hash_le entries key h0)

theorem object_find_eq_none {entries : List esh_object_entry} {key : List Nat} :
    object_find entries key = none ↔ ∀ m, m < entries.length → slot_hit entries key m = false := by
  by_cases h0 : entries.length = 0
  · have : entries = [] := List.length_eq_zero.mp h0
    subst this
    rw [object_find_nil]
    simp
  · unfold object_find
    exact probe_eq_none _ _ _ (hash_le entries key h0)

theorem slot_hit_of_key {entries : List esh_object_entry} {i : Nat} {e : esh_object_entry}
    (he : entries[i]? = some e) (key : List Nat) :
    slot_hit entries key i = key_hit e key := by
  simp [slot_hit, he]

/-- Replacing slot `j` by an entry changes the test of `object_find` at `j` only. -/
theorem slot_hit_set_ne (entries : List esh_object_entry) (j : Nat) (e : esh_object_entry)
    (key : List Nat) {m : Nat} (h : j ≠ m) :
    slot_hit (entries.set j e) key m = slot_hit entries key m := by
  simp [slot_hit, List.getElem?_set_ne h]

theorem slot_hit_set_self (entries : List esh_object_entry) (j : Nat) (e : esh_object_entry)
    (key : List Nat) (h : j < entries.length) :
    slot_hit (entries.set j e) key j = key_hit e key := by
  simp [slot_hit, List.getElem?_set, h]

/-- Replacing an entry by one with the same key leaves `object_find` unchanged. -/
theorem object_find_set_same_key (entries : List esh_object_entry) (j : Nat)
    (e : esh_object_entry) (key : List Nat) (hj : j < entries.length)
    (hk : e.key = (entry_at entries j).key) :
    object_find (entries.set j e) key = object_find entries key := by
  have hhit : ∀ m, slot_hit (entries.set j e) key m = slot_hit entries key m := by
    intro m
    by_cases hm : j = m
    · subst hm
      rw [slot_hit_set_self _ _ _ _ hj, slot_hit_of_key (getElem?_entry_at hj)]
      simp [key_hit, hk]
    · exact slot_hit_set_ne _ _ _ _ hm
  unfold object_find
  rw [List.length_set]
  congr 1
  funext m
  exact hhit m

theorem getElem?_lt {entries : List esh_object_entry} {i : Nat} {e : esh_object_entry}
    (he : entries[i]? = some e) : i < entries.length := by
  by_contra hn
  rw [List.getElem?_eq_none (by omega)] at he; cases he

theorem before_ne {cap h i m : Nat} (hb : before cap h i m) : m ≠ i := by
  rcases hb with ⟨_, _, h3⟩ | ⟨h1, ⟨h2, _⟩ | h2⟩ <;> omega

theorem key_hit_of_none {e : esh_object_entry} (h : e.key = none) (key : List Nat) :
    key_hit e key = true := by
  simp [key_hit, h]

theorem key_hit_of_some {e : esh_object_entry} {k : List Nat} (h : e.key = some k)
    (key : List Nat) : key_hit e key = decide (k = key) := by
  simp [key_hit, h]

/-- Writing an entry with key `k` into the empty slot that `object_find` returns for `k`
keeps every slot consistent. -/
theorem slots_ok_insert {entries : List esh_object_entry} (h : slots_ok entries)
    {k : List Nat} {j : Nat} (hf : object_find entries k = some j)
    (hempty : (entry_at entries j).key = none) (e : esh_object_entry)
    (hk : e.key = some k) : slots_ok (entries.set j e) := by
  rw [object_find_eq_some] at hf
  obtain ⟨hj, _, hbefore⟩ := hf
  have hjhit : ∀ key, slot_hit entries key j = true := by
    intro key
    rw [slot_hit_of_key (getElem?_entry_at hj)]
    exact key_hit_of_none hempty key
  apply slots_ok_intro
  · intro i e1 k1 he1 hk1
    rw [List.getElem?_set] at he1
    by_cases hij : j = i
    · subst hij
      simp only [if_true, hj] at he1
      have : e1 = e := by cases he1; rfl
      subst this
      have hkk : k1 = k := by rw [hk] at hk1; cases hk1; rfl
      subst hkk
      rw [object_find_eq_some, List.length_set]
      refine ⟨hj, ?_, ?_⟩
      · rw [slot_hit_set_self _ _ _ _ hj, key_hit_of_some hk]; simp
      · intro m hm
        rw [slot_hit_set_ne _ _ _ _ (Ne.symm (before_ne hm))]
        exact hbefore m hm
    · simp only [hij, if_false] at he1
      have hfi := slots_ok_key h he1 hk1
      rw [object_find_eq_some] at hfi
      obtain ⟨hi, hhit, hb⟩ := hfi
      rw [object_find_eq_some, List.length_set]
      refine ⟨hi, ?_, ?_⟩
      · rw [slot_hit_set_ne _ _ _ _ hij]; exact hhit
      · intro m hm
        have hmj : j ≠ m := by
          rintro rfl
          have := hb j hm
          rw [hjhit] at this; cases this
        rw [slot_hit_set_ne _ _ _ _ hmj]
        exact hb m hm
  · intro i e1 he1 hk1
    rw [List.getElem?_set] at he1
    by_cases hij : j = i
    · subst hij
      simp only [if_true, hj] at he1
      have : e1 = e := by cases he1; rfl
      subst this
      rw [hk] at hk1; cases hk1
    · simp only [hij, if_false] at he1
      exact slots_ok_empty h he1 hk1

/-- Overwriting a slot by an entry with the same key keeps every slot consistent. -/
theorem slots_ok_update {entries : List esh_object_entry} (h : slots_ok entries)
    {j : Nat} (hj : j < entries.length) (e : esh_object_entry)
    (hk : e.key = (entry_at entries j).key) (hd : e.key = none → e.deleted = false) :
    slots_ok (entries.set j e) := by
  apply slots_ok_intro
  · intro i e1 k1 he1 hk1
    rw [object_find_set_same_key _ _ _ _ hj hk]
    rw [List.getElem?_set] at he1
    by_cases hij : j = i
    · subst hij
      simp only [if_true, hj] at he1
      have : e1 = e := by cases he1; rfl
      subst this
      exact slots_ok_key h (getElem?_entry_at hj) (by rw [← hk]; exact hk1)
    · simp only [hij, if_false] at he1
      exact slots_ok_key h he1 hk1
  · intro i e1 he1 hk1
    rw [List.getElem?_set] at he1
    by_cases hij : j = i
    · subst hij
      simp only [if_true, hj] at he1
      have : e1 = e := by cases he1; rfl
      subst this
      exact hd hk1
    · simp only [hij, if_false] at he1
      exact slots_ok_empty h he1 hk1

/-- Two live slots with the same key are the same slot. -/
theorem live_at_unique {entries : List esh_object_entry} (h : slots_ok entries)
    {k : List Nat} {v w : esh_val} (hv : live_at entries k v) (hw : live_at entries k w) :
    v = w := by
  obtain ⟨i, hi⟩ := hv
  obtain ⟨j, hj⟩ := hw
  have h1 := slots_ok_key h hi rfl
  have h2 := slots_ok_key h hj rfl
  rw [h1] at h2
  cases h2
  rw [hi] at hj
  cases hj
  rfl

theorem live_count_pos {entries : List esh_object_entry} {i : Nat} {e : esh_object_entry}
    (he : entries[i]? = some e) (hl : is_live e = true) : 0 < live_count entries := by
  unfold live_count
  rw [List.countP_pos_iff]
  exact ⟨e, List.mem_iff_getElem?.mpr ⟨i, he⟩, hl⟩

theorem live_count_set (entries : List esh_object_entry) (j : Nat) (e : esh_object_entry)
    (hj : j < entries.length) :
    live_count (entries.set j e) + (if is_live (entry_at entries j) = true then 1 else 0) =
      live_count entries + (if is_live e = true then 1 else 0) := by
  unfold live_count
  rw [List.countP_set _ _ _ _ hj]
  have h1 : entry_at entries j = entries[j] := by
    simp [entry_at, List.getElem?_eq_getElem hj]
  rw [h1]
  have h2 : (if is_live entries[j] = true then 1 else 0) ≤ List.countP is_live entries := by
    by_cases hl : is_live entries[j] = true
    · simp only [hl, if_true]
      exact List.countP_pos_iff.mpr ⟨entries[j], List.getElem_mem _, hl⟩
    · simp [hl]
  omega

theorem live_count_le (entries : List esh_object_entry) : live_count entries ≤ entries.length :=
  List.countP_le_length _

/-- Under the invariant a lookup never trips the assertion of `object_find`. -/
theorem get_ne_none {obj : esh_object} (hw : wf obj) (k : List Nat) :
    esh_object_get obj k ≠ none := by
  unfold esh_object_get
  by_cases h0 : obj.len = 0
  · simp [h0]
  · have hc : obj.cap ≠ 0 := by
      have := live_count_le obj.entries
      have := hw.1
      unfold esh_object.cap
      omega
    simp only [h0, hc, if_false]
    cases object_find obj.entries k with
    | none => simp
    | some i =>
      simp only
      split <;> simp

/-- Under the invariant a lookup hits with `v` exactly when a live slot holds the key
with value `v`. -/
theorem get_hit_iff {obj : esh_object} (hw : wf obj) (k : List Nat) (v : esh_val) :
    esh_object_get obj k = some (some v) ↔ live_at obj.entries k v := by
  constructor
  · intro hg
    unfold esh_object_get at hg
    by_cases h0 : obj.len = 0
    · simp [h0] at hg
    by_cases hc : obj.cap = 0
    · simp [h0, hc] at hg
    simp only [h0, hc, if_false] at hg
    cases hf : object_find obj.entries k with
    | none => simp [hf] at hg
    | some i =>
      simp only [hf] at hg
      have hfi := object_find_eq_some.mp hf
      obtain ⟨hi, hhit, _⟩ := hfi
      rw [slot_hit_of_key (getElem?_entry_at hi)] at hhit
      by_cases hcond : (entry_at obj.entries i).key = none ∨ (entry_at obj.entries i).deleted = true
      · simp [hcond] at hg
      · simp only [hcond, if_false, Option.some.injEq] at hg
        push_neg at hcond
        obtain ⟨hkey, hdel⟩ := hcond
        refine ⟨i, ?_⟩
        rw [getElem?_entry_at hi]
        cases hent : entry_at obj.entries i with
        | mk key val deleted =>
          rw [hent] at hkey hdel hhit hg
          simp only at hkey hdel hg
          cases key with
          | none => exact absurd rfl hkey
          | some k0 =>
            simp only [key_hit, decide_eq_true_eq] at hhit
            subst hhit
            subst hg
            simp at hdel
            rw [hdel]
  · rintro ⟨i, hi⟩
    have hpos := live_count_pos hi (by simp [is_live])
    have hlen : obj.len ≠ 0 := by rw [hw.1]; omega
    have hc : obj.cap ≠ 0 := by
      have := getElem?_lt hi
      unfold esh_object.cap; omega
    have hf := slots_ok_key hw.2 hi rfl
    unfold esh_object_get
    simp [hlen, hc, hf, entry_at_of_getElem? hi]

/-- Under the invariant the result of a lookup is determined by the live slots. -/
theorem get_congr {o1 o2 : esh_object} (h1 : wf o1) (h2 : wf o2) (k : List Nat)
    (h : ∀ v, live_at o1.entries k v ↔ live_at o2.entries k v) :
    esh_object_get o1 k = esh_object_get o2 k := by
  cases hg1 : esh_object_get o1 k with
  | none => exact absurd hg1 (get_ne_none h1 k)
  | some r1 =>
    cases hg2 : esh_object_get o2 k with
    | none => exact absurd hg2 (get_ne_none h2 k)
    | some r2 =>
      cases r1 with
      | some v =>
        have := (h v).mp ((get_hit_iff h1 k v).mp hg1)
        rw [← get_hit_iff h2 k v, hg2] at this
        exact this.symm
      | none =>
        cases r2 with
        | none => rfl
        | some w =>
          have := (h w).mpr ((get_hit_iff h2 k w).mp hg2)
          rw [← get_hit_iff h1 k w, hg1] at this
          cases this

theorem get_miss_iff {obj : esh_object} (hw : wf obj) (k : List Nat) :
    esh_object_get obj k = some none ↔ ∀ v, ¬ live_at obj.entries k v := by
  constructor
  · intro hg v hv
    rw [← get_hit_iff hw, hg] at hv
    cases hv
  · intro h
    cases hg : esh_object_get obj k with
    | none => exact absurd hg (get_ne_none hw k)
    | some r =>
      cases r with
      | none => rfl
      | some v => exact absurd ((get_hit_iff hw k v).mp hg) (h v)

/-- Replacing slot `j` does not change which slots are live for a key that neither the
old nor the new entry of slot `j` carries. -/
theorem live_at_set_other {entries : List esh_object_entry} {j : Nat} {e : esh_object_entry}
    {k : List Nat} (hold : (entry_at entries j).key ≠ some k) (hnew : e.key ≠ some k)
    (v : esh_val) : live_at (entries.set j e) k v ↔ live_at entries k v := by
  constructor
  · rintro ⟨i, hi⟩
    rw [List.getElem?_set] at hi
    by_cases hij : j = i
    · subst hij
      by_cases hj : j < entries.length
      · simp only [if_true, hj, Option.some.injEq] at hi
        rw [hi] at hnew
        exact absurd rfl hnew
      · simp [hj] at hi
    · simp only [hij, if_false] at hi
      exact ⟨i, hi⟩
  · rintro ⟨i, hi⟩
    by_cases hij : j = i
    · subst hij
      rw [entry_at_of_getElem? hi] at hold
      exact absurd rfl hold
    · exact ⟨i, by rw [List.getElem?_set_ne hij]; exact hi⟩

theorem live_at_set_self {entries : List esh_object_entry} {j : Nat} (hj : j < entries.length)
    (k : List Nat) (v : esh_val) :
    live_at (entries.set j ⟨some k, v, false⟩) k v :=
  ⟨j, by rw [List.getElem?_set]; simp [hj]⟩

theorem hit_key_eq {entries : List esh_object_entry} {k k0 : List Nat} {i : Nat}
    (hf : object_find entries k = some i) (hk : (entry_at entries i).key = some k0) :
    k0 = k := by
  obtain ⟨hi, hhit, _⟩ := object_find_eq_some.mp hf
  rw [slot_hit_of_key (getElem?_entry_at hi), key_hit_of_some hk] at hhit
  simpa using hhit

theorem not_live_of_find_none {entries : List esh_object_entry} {k : List Nat}
    (hf : object_find entries k = none) (v : esh_val) : ¬ live_at entries k v := by
  rintro ⟨i, hi⟩
  have := object_find_eq_none.mp hf i (getElem?_lt hi)
  rw [slot_hit_of_key hi] at this
  simp [key_hit] at this

theorem live_entry_at {entries : List esh_object_entry} (h : slots_ok entries) {k : List Nat}
    {i : Nat} (hf : object_find entries k = some i) {v : esh_val} (hl : live_at entries k v) :
    entry_at entries i = ⟨some k, v, false⟩ := by
  obtain ⟨m, hm⟩ := hl
  have := slots_ok_key h hm rfl
  rw [hf] at this
  cases this
  exact entry_at_of_getElem? hm

/-- Effect of `esh_object_delete_entry` on an object that satisfies the invariant. -/
theorem delete_spec {obj : esh_object} (hw : wf obj) (k : List Nat) :
    wf (esh_object_delete_entry obj k).2 ∧
    (esh_object_delete_entry obj k).2.is_const = obj.is_const ∧
    (esh_object_delete_entry obj k).2.cap = obj.cap ∧
    (∀ k1 v, k1 ≠ k →
      (live_at (esh_object_delete_entry obj k).2.entries k1 v ↔ live_at obj.entries k1 v)) ∧
    (∀ v, ¬ live_at (esh_object_delete_entry obj k).2.entries k v) ∧
    ((∃ v, live_at obj.entries k v) →
      (esh_object_delete_entry obj k).1 = true ∧
        (esh_object_delete_entry obj k).2.len + 1 = obj.len) ∧
    ((¬ ∃ v, live_at obj.entries k v) →
      (esh_object_delete_entry obj k).1 = false ∧ (esh_object_delete_entry obj k).2 = obj) := by
  by_cases hc : obj.cap = 0
  · have hnil : obj.entries = [] := List.length_eq_zero.mp hc
    have hno : ∀ v, ¬ live_at obj.entries k v := by
      rintro v ⟨i, hi⟩
      rw [hnil] at hi
      simp at hi
    have hres : esh_object_delete_entry obj k = (false, obj) := by
      unfold esh_object_delete_entry; simp [hc]
    rw [hres]
    exact ⟨hw, rfl, rfl, fun _ _ _ => Iff.rfl, hno, fun ⟨v, hv⟩ => absurd hv (hno v),
      fun _ => ⟨rfl, rfl⟩⟩
  cases hf : object_find obj.entries k with
  | none =>
    have hno := not_live_of_find_none hf
    have hres : esh_object_delete_entry obj k = (false, obj) := by
      unfold esh_object_delete_entry; simp [hc, hf]
    rw [hres]
    exact ⟨hw, rfl, rfl, fun _ _ _ => Iff.rfl, hno, fun ⟨v, hv⟩ => absurd hv (hno v),
      fun _ => ⟨rfl, rfl⟩⟩
  | some i =>
    obtain ⟨hi, _, _⟩ := object_find_eq_some.mp hf
    by_cases hcond : (entry_at obj.entries i).key ≠ none ∧ (entry_at obj.entries i).deleted = false
    · have hres : esh_object_delete_entry obj k = (true, { obj with
          entries := obj.entries.set i { entry_at obj.entries i with deleted := true },
          len := obj.len - 1 }) := by
        unfold esh_object_delete_entry; simp only [hc, hf, if_false]; rw [if_pos hcond]
      rw [hres]
      obtain ⟨hkey, hdel⟩ := hcond
      obtain ⟨k0, hk0⟩ := Option.ne_none_iff_exists'.mp hkey
      have hkk := hit_key_eq hf hk0
      subst hkk
      have hlive : is_live (entry_at obj.entries i) = true := by simp [is_live, hk0, hdel]
      have hcount := live_count_set obj.entries i
        { entry_at obj.entries i with deleted := true } hi
      simp only [hlive, if_true] at hcount
      have hnl : is_live { entry_at obj.entries i with deleted := true } = false := by
        simp [is_live]
      simp only [hnl, Bool.false_eq_true, if_false, Nat.add_zero] at hcount
      have hpres : live_at obj.entries k0 (entry_at obj.entries i).val := by
        refine ⟨i, ?_⟩
        rw [getElem?_entry_at hi]
        cases hent : entry_at obj.entries i with
        | mk key val deleted =>
          rw [hent] at hk0 hdel
          simp only at hk0 hdel
          rw [hk0, hdel]
      have hlen := hw.1
      refine ⟨⟨?_, ?_⟩, rfl, ?_, ?_, ?_, ?_, ?_⟩
      · show obj.len - 1 = live_count
          (obj.entries.set i { entry_at obj.entries i with deleted := true })
        rw [hlen, ← hcount]
        exact Nat.add_sub_cancel _ _
      · exact slots_ok_update hw.2 hi _ rfl (by simp [hk0])
      · show (List.set _ _ _).length = _
        rw [List.length_set]; rfl
      · intro k1 v hne
        exact live_at_set_other (by rw [hk0]; intro h; cases h; exact hne rfl)
          (by simp only [hk0]; intro h; cases h; exact hne rfl) v
      · rintro v ⟨m, hm⟩
        have hm2 : (obj.entries.set i { entry_at obj.entries i with deleted := true })[m]? =
            some ⟨some k0, v, false⟩ := hm
        rw [List.getElem?_set] at hm2
        by_cases him : i = m
        · subst him
          simp [hi] at hm2
        · simp only [him, if_false] at hm2
          have := slots_ok_key hw.2 hm2 rfl
          rw [hf] at this
          cases this
          exact him rfl
      · intro _
        refine ⟨rfl, ?_⟩
        show obj.len - 1 + 1 = obj.len
        have hpos : 0 < live_count obj.entries := by rw [← hcount]; exact Nat.succ_pos _
        omega
      · intro hno
        exact absurd ⟨_, hpres⟩ hno
    · have hres : esh_object_delete_entry obj k = (false, obj) := by
        unfold esh_object_delete_entry; simp only [hc, hf, if_false]; rw [if_neg hcond]
      rw [hres]
      have hno : ∀ v, ¬ live_at obj.entries k v := by
        intro v hv
        have := live_entry_at hw.2 hf hv
        apply hcond
        rw [this]
        simp
      exact ⟨hw, rfl, rfl, fun _ _ _ => Iff.rfl, hno, fun ⟨v, hv⟩ => absurd hv (hno v),
        fun _ => ⟨rfl, rfl⟩⟩

/-- Effect of the slot-writing part of `esh_object_set` on an object that satisfies the
invariant, whenever it returns. -/
theorem set_slot_spec {obj : esh_object} (hw : wf obj) (ak : Bool) (k : List Nat) (v : esh_val)
    (r : set_result) (h : set_slot ak obj k v = some r) :
    wf r.obj ∧ r.obj.is_const = obj.is_const ∧ r.obj.cap = obj.cap ∧ r.err = none ∧
    (∀ k1 v1, k1 ≠ k → (live_at r.obj.entries k1 v1 ↔ live_at obj.entries k1 v1)) ∧
    (r.ret = 0 → live_at r.obj.entries k v ∧
      ((∃ w, live_at obj.entries k w) → r.obj.len = obj.len) ∧
      ((¬ ∃ w, live_at obj.entries k w) → r.obj.len = obj.len + 1)) ∧
    (r.ret ≠ 0 → r.obj = obj ∧ ak = false ∧ r.ret = 1) := by
  unfold set_slot at h
  by_cases hlt : obj.len < obj.cap
  swap
  · simp [hlt] at h
  simp only [hlt, not_true_eq_false, if_false] at h
  cases hf : object_find obj.entries k with
  | none => simp [hf] at h
  | some i =>
    simp only [hf] at h
    obtain ⟨hi, _, _⟩ := object_find_eq_some.mp hf
    have hlen := hw.1
    by_cases hkey : (entry_at obj.entries i).key ≠ none
    · rw [if_pos hkey] at h
      obtain ⟨k0, hk0⟩ := Option.ne_none_iff_exists'.mp hkey
      have hkk := hit_key_eq hf hk0
      subst hkk
      cases h
      have hcount := live_count_set obj.entries i
        { entry_at obj.entries i with val := v, deleted := false } hi
      have hnl : is_live { entry_at obj.entries i with val := v, deleted := false } = true := by
        simp [is_live, hk0]
      rw [if_pos hnl] at hcount
      have heq : ({ entry_at obj.entries i with val := v, deleted := false } : esh_object_entry) =
          ⟨some k0, v, false⟩ := by
        show (⟨(entry_at obj.entries i).key, v, false⟩ : esh_object_entry) = _
        rw [hk0]
      refine ⟨⟨?_, ?_⟩, rfl, ?_, rfl, ?_, ?_, ?_⟩
      · show (if (entry_at obj.entries i).deleted = true then obj.len + 1 else obj.len) =
          live_count (obj.entries.set i { entry_at obj.entries i with val := v, deleted := false })
        by_cases hd : (entry_at obj.entries i).deleted = true
        · have hl : is_live (entry_at obj.entries i) = false := by simp [is_live, hd]
          rw [hl] at hcount
          simp only [Bool.false_eq_true, if_false, Nat.add_zero] at hcount
          rw [if_pos hd, hlen]
          exact hcount.symm
        · have hl : is_live (entry_at obj.entries i) = true := by
            simp [is_live, hk0]; simpa using hd
          rw [if_pos hl] at hcount
          rw [if_neg hd, hlen]
          exact (Nat.add_right_cancel hcount).symm
      · exact slots_ok_update hw.2 hi _ rfl (by simp [hk0])
      · show (List.set _ _ _).length = _
        rw [List.length_set]; rfl
      · intro k1 v1 hne
        exact live_at_set_other (by rw [hk0]; intro h; cases h; exact hne rfl)
          (by simp only [hk0]; intro h; cases h; exact hne rfl) v1
      · intro _
        refine ⟨?_, ?_, ?_⟩
        · show live_at (obj.entries.set i
            { entry_at obj.entries i with val := v, deleted := false }) k0 v
          rw [heq]
          exact live_at_set_self hi k0 v
        · rintro ⟨w, hw1⟩
          have := live_entry_at hw.2 hf hw1
          show (if (entry_at obj.entries i).deleted = true then obj.len + 1 else obj.len) = obj.len
          rw [this]
          simp
        · intro hno
          show (if (entry_at obj.entries i).deleted = true then obj.len + 1 else obj.len) =
            obj.len + 1
          by_cases hd : (entry_at obj.entries i).deleted = true
          · rw [if_pos hd]
          · exfalso
            apply hno
            refine ⟨(entry_at obj.entries i).val, i, ?_⟩
            rw [getElem?_entry_at hi]
            cases hent : entry_at obj.entries i with
            | mk key val deleted =>
              rw [hent] at hk0 hd
              simp only at hk0 hd
              simp only [Bool.not_eq_true] at hd
              rw [hk0, hd]
      · intro hne
        exact absurd rfl hne
    · rw [if_neg hkey] at h
      have hkn : (entry_at obj.entries i).key = none := by simpa using hkey
      have hdel : (entry_at obj.entries i).deleted = false :=
        slots_ok_empty hw.2 (getElem?_entry_at hi) hkn
      have hno : ∀ w, ¬ live_at obj.entries k w := by
        intro w hw1
        have := live_entry_at hw.2 hf hw1
        rw [this] at hkn
        cases hkn
      by_cases hak : ak = false
      · rw [if_pos hak] at h
        cases h
        exact ⟨hw, rfl, rfl, rfl, fun _ _ _ => Iff.rfl, fun h0 => absurd h0 Nat.one_ne_zero,
          fun _ => ⟨rfl, hak, rfl⟩⟩
      · rw [if_neg hak] at h
        cases h
        have heq : ({ entry_at obj.entries i with key := some k, val := v } : esh_object_entry) =
            ⟨some k, v, false⟩ := by
          show (⟨some k, v, (entry_at obj.entries i).deleted⟩ : esh_object_entry) = _
          rw [hdel]
        have hcount := live_count_set obj.entries i
          { entry_at obj.entries i with key := some k, val := v } hi
        have hnl : is_live { entry_at obj.entries i with key := some k, val := v } = true := by
          simp [is_live, hdel]
        have hl : is_live (entry_at obj.entries i) = false := by simp [is_live, hkn]
        rw [if_pos hnl, hl] at hcount
        simp only [Bool.false_eq_true, if_false, Nat.add_zero] at hcount
        refine ⟨⟨?_, ?_⟩, rfl, ?_, rfl, ?_, ?_, ?_⟩
        · show obj.len + 1 = live_count
            (obj.entries.set i { entry_at obj.entries i with key := some k, val := v })
          rw [hlen]
          exact hcount.symm
        · exact slots_ok_insert hw.2 hf hkn _ rfl
        · show (List.set _ _ _).length = _
          rw [List.length_set]; rfl
        · intro k1 v1 hne
          exact live_at_set_other (by rw [hkn]; intro h; cases h)
            (by simp only; intro h; cases h; exact hne rfl) v1
        · intro _
          refine ⟨?_, ?_, ?_⟩
          · show live_at (obj.entries.set i
              { entry_at obj.entries i with key := some k, val := v }) k v
            rw [heq]
            exact live_at_set_self hi k v
          · rintro ⟨w, hw1⟩
            exact absurd hw1 (hno w)
          · intro _
            rfl
        · intro hne
          exact absurd rfl hne

theorem exists_empty_slot {fresh : List esh_object_entry}
    (hclean : ∀ e ∈ fresh, e.deleted = false) (hroom : live_count fresh < fresh.length) :
    ∃ (m : Nat) (e : esh_object_entry), fresh[m]? = some e ∧ e.key = none := by
  have hne : ¬ ∀ a ∈ fresh, is_live a = true := by
    intro hall
    have := List.countP_eq_length.mpr hall
    unfold live_count at hroom
    omega
  push_neg at hne
  obtain ⟨a, ha, hl⟩ := hne
  obtain ⟨m, hm⟩ := List.mem_iff_getElem?.mp ha
  refine ⟨m, a, hm, ?_⟩
  have hd := hclean a ha
  cases hk : a.key with
  | none => rfl
  | some k => simp [is_live, hk, hd] at hl

theorem live_count_cons_dead {e : esh_object_entry} (rest : List esh_object_entry)
    (h : is_live e = false) : live_count (e :: rest) = live_count rest := by
  unfold live_count
  rw [List.countP_cons]
  simp [h]

theorem live_count_cons_live {e : esh_object_entry} (rest : List esh_object_entry)
    (h : is_live e = true) : live_count (e :: rest) = live_count rest + 1 := by
  unfold live_count
  rw [List.countP_cons]
  simp [h]

/-- The rehash loop never dereferences NULL and moves exactly the live entries. -/
theorem rehash_spec (old : List esh_object_entry) :
    ∀ fresh : List esh_object_entry, slots_ok fresh →
      (∀ e ∈ fresh, e.deleted = false) →
      live_count fresh + old.length < fresh.length →
      old.Pairwise (fun a b => is_live a = true → is_live b = true → a.key ≠ b.key) →
      (∀ e ∈ old, is_live e = true → ∀ e1 ∈ fresh, e1.key ≠ e.key) →
      ∃ grown, rehash old fresh = some grown ∧ grown.length = fresh.length ∧
        slots_ok grown ∧ (∀ e ∈ grown, e.deleted = false) ∧
        live_count grown = live_count fresh + live_count old ∧
        (∀ k v, live_at grown k v ↔
          (live_at fresh k v ∨ esh_object_entry.mk (some k) v false ∈ old)) := by
  induction old with
  | nil =>
    intro fresh hs hc _ _ _
    refine ⟨fresh, rfl, rfl, hs, hc, ?_, ?_⟩
    · simp [live_count]
    · intro k v; simp
  | cons e rest ih =>
    intro fresh hs hc hroom hpw hdisj
    have hroom1 : live_count fresh + rest.length < fresh.length := by
      simp only [List.length_cons] at hroom; omega
    have hpw1 := (List.pairwise_cons.mp hpw).2
    have hdisj1 : ∀ e2 ∈ rest, is_live e2 = true → ∀ e1 ∈ fresh, e1.key ≠ e2.key :=
      fun e2 h2 => hdisj e2 (List.mem_cons_of_mem _ h2)
    by_cases hlive : is_live e = true
    · -- a live entry is copied
      have hkey : ∃ k, e.key = some k := by
        cases hk : e.key with
        | none => simp [is_live, hk] at hlive
        | some k => exact ⟨k, rfl⟩
      obtain ⟨k, hk⟩ := hkey
      have hdel : e.deleted = false := by
        cases hd : e.deleted with
        | false => rfl
        | true => simp [is_live, hd] at hlive
      have heq : e = ⟨some k, e.val, false⟩ := by
        cases e with
        | mk key val deleted =>
          simp only at hk hdel
          rw [hk, hdel]
      obtain ⟨m, a, hm, hak⟩ := exists_empty_slot hc (by omega)
      cases hf : object_find fresh k with
      | none =>
        have := object_find_eq_none.mp hf m (getElem?_lt hm)
        rw [slot_hit_of_key hm, key_hit_of_none hak] at this
        cases this
      | some i =>
        obtain ⟨hi, hhit, _⟩ := object_find_eq_some.mp hf
        have hempty : (entry_at fresh i).key = none := by
          cases hki : (entry_at fresh i).key with
          | none => rfl
          | some k1 =>
            have hkk := hit_key_eq hf hki
            subst hkk
            have hmem : entry_at fresh i ∈ fresh :=
              List.mem_iff_getElem?.mpr ⟨i, getElem?_entry_at hi⟩
            have := hdisj e (List.mem_cons_self _ _) hlive _ hmem
            rw [hki, hk] at this
            exact absurd rfl this
        have hstep : rehash (e :: rest) fresh = rehash rest (fresh.set i e) := by
          rw [rehash]
          simp [hk, hdel, hf]
        have hcount := live_count_set fresh i e hi
        have hdead : is_live (entry_at fresh i) = false := by simp [is_live, hempty]
        rw [hdead, if_pos hlive] at hcount
        simp only [Bool.false_eq_true, if_false, Nat.add_zero] at hcount
        have hc2 : ∀ e1 ∈ fresh.set i e, e1.deleted = false := by
          intro e1 h1
          rcases List.mem_or_eq_of_mem_set h1 with h2 | h2
          · exact hc e1 h2
          · rw [h2]; exact hdel
        have hdisj2 : ∀ e2 ∈ rest, is_live e2 = true → ∀ e1 ∈ fresh.set i e, e1.key ≠ e2.key := by
          intro e2 h2 hl2 e1 h1
          rcases List.mem_or_eq_of_mem_set h1 with h3 | h3
          · exact hdisj1 e2 h2 hl2 e1 h3
          · rw [h3]
            exact (List.pairwise_cons.mp hpw).1 e2 h2 hlive hl2
        obtain ⟨grown, hg1, hg2, hg3, hg4, hg5, hg6⟩ :=
          ih (fresh.set i e) (slots_ok_insert hs hf hempty e hk) hc2
            (by rw [List.length_set, hcount]; simp only [List.length_cons] at hroom; omega)
            hpw1 hdisj2
        refine ⟨grown, by rw [hstep]; exact hg1, by rw [hg2, List.length_set], hg3, hg4, ?_, ?_⟩
        · rw [hg5, hcount, live_count_cons_live rest hlive]; omega
        · intro k1 v1
          rw [hg6]
          constructor
          · rintro (⟨n, hn⟩ | hmem)
            · rw [List.getElem?_set] at hn
              by_cases hin : i = n
              · subst hin
                simp only [if_true, hi, Option.some.injEq] at hn
                right
                rw [← hn]
                exact List.mem_cons_self _ _
              · simp only [hin, if_false] at hn
                exact Or.inl ⟨n, hn⟩
            · exact Or.inr (List.mem_cons_of_mem _ hmem)
          · rintro (⟨n, hn⟩ | hmem)
            · left
              have hin : i ≠ n := by
                rintro rfl
                rw [entry_at_of_getElem? hn] at hempty
                cases hempty
              exact ⟨n, by rw [List.getElem?_set_ne hin]; exact hn⟩
            · rcases List.mem_cons.mp hmem with h1 | h1
              · left
                refine ⟨i, ?_⟩
                rw [List.getElem?_set, if_pos rfl, if_pos hi, h1]
              · exact Or.inr h1
    · -- an empty slot or a tombstone is skipped
      have hdead : is_live e = false := by simpa using hlive
      have hstep : rehash (e :: rest) fresh = rehash rest fresh := by
        rw [rehash]
        cases hk : e.key with
        | none => rfl
        | some k =>
          cases hd : e.deleted with
          | true => simp
          | false => simp [is_live, hk, hd] at hdead
      obtain ⟨grown, hg1, hg2, hg3, hg4, hg5, hg6⟩ := ih fresh hs hc hroom1 hpw1 hdisj1
      refine ⟨grown, by rw [hstep]; exact hg1, hg2, hg3, hg4, ?_, ?_⟩
      · rw [hg5, live_count_cons_dead rest hdead]
      · intro k1 v1
        rw [hg6]
        constructor
        · rintro (h1 | h1)
          · exact Or.inl h1
          · exact Or.inr (List.mem_cons_of_mem _ h1)
        · rintro (h1 | h1)
          · exact Or.inl h1
          · rcases List.mem_cons.mp h1 with h2 | h2
            · rw [← h2] at hdead
              simp [is_live] at hdead
            · exact Or.inr h2

theorem new_entries_getElem? {n i : Nat} {e : esh_object_entry}
    (h : (new_entries n)[i]? = some e) : e = ⟨none, 0, false⟩ := by
  unfold new_entries at h
  rw [List.getElem?_replicate] at h
  by_cases hi : i < n
  · rw [if_pos hi] at h; cases h; rfl
  · rw [if_neg hi] at h; cases h

theorem new_entries_mem {n : Nat} {e : esh_object_entry} (h : e ∈ new_entries n) :
    e = ⟨none, 0, false⟩ := by
  obtain ⟨i, hi⟩ := List.mem_iff_getElem?.mp h
  exact new_entries_getElem? hi

theorem slots_ok_new_entries (n : Nat) : slots_ok (new_entries n) := by
  apply slots_ok_intro
  · intro i e k he hk
    rw [new_entries_getElem? he] at hk
    cases hk
  · intro i e he _
    rw [new_entries_getElem? he]

theorem live_count_new_entries (n : Nat) : live_count (new_entries n) = 0 := by
  unfold live_count
  rw [List.countP_eq_zero]
  intro a ha
  rw [new_entries_mem ha]
  simp [is_live]

theorem not_live_at_new_entries (n : Nat) (k : List Nat) (v : esh_val) :
    ¬ live_at (new_entries n) k v := by
  rintro ⟨i, hi⟩
  have := new_entries_getElem? hi
  cases this

theorem live_keys_pairwise {entries : List esh_object_entry} (h : slots_ok entries) :
    entries.Pairwise (fun a b => is_live a = true → is_live b = true → a.key ≠ b.key) := by
  rw [List.pairwise_iff_getElem]
  intro i j hi hj hij ha _ hkey
  cases hk : entries[i].key with
  | none => simp [is_live, hk] at ha
  | some k =>
    have h1 := slots_ok_key h (List.getElem?_eq_getElem hi) hk
    have h2 := slots_ok_key h (List.getElem?_eq_getElem hj) (by rw [← hkey]; exact hk)
    rw [h1] at h2
    cases h2
    omega

/-- The grow step of `esh_object_set` succeeds on an object that satisfies the invariant,
keeps the invariant and keeps exactly the live entries. -/
theorem grow_spec {obj : esh_object} (hw : wf obj) :
    ∃ grown, rehash obj.entries (new_entries (GROW_FACTOR obj.cap)) = some grown ∧
      wf { obj with entries := grown } ∧ grown.length = GROW_FACTOR obj.cap ∧
      (∀ e ∈ grown, e.deleted = false) ∧
      ∀ k v, live_at grown k v ↔ live_at obj.entries k v := by
  have hlen : (new_entries (GROW_FACTOR obj.cap)).length = GROW_FACTOR obj.cap := by
    simp [new_entries]
  obtain ⟨grown, h1, h2, h3, h4, h5, h6⟩ :=
    rehash_spec obj.entries (new_entries (GROW_FACTOR obj.cap))
      (slots_ok_new_entries _)
      (fun e he => by rw [new_entries_mem he])
      (by rw [live_count_new_entries, hlen]; unfold GROW_FACTOR esh_object.cap; omega)
      (live_keys_pairwise hw.2)
      (fun e _ hl e1 h1 => by
        rw [new_entries_mem h1]
        intro hk
        simp [is_live, ← hk] at hl)
  refine ⟨grown, h1, ⟨?_, h3⟩, by rw [h2, hlen], h4, ?_⟩
  · show obj.len = live_count grown
    rw [h5, live_count_new_entries, hw.1]; omega
  · intro k v
    rw [h6]
    constructor
    · rintro (h | h)
      · exact absurd h (not_live_at_new_entries _ k v)
      · exact List.mem_iff_getElem?.mp h
    · intro h
      exact Or.inr (List.mem_iff_getElem?.mpr h)

/-- Effect of `esh_object_set` with a non-NULL value on a non-const object that satisfies
the invariant, whenever the call returns. -/
theorem set_spec {obj : esh_object} (hw : wf obj) (hc : obj.is_const = false)
    (ae ak : Bool) (k : List Nat) (v : esh_val) (hv : v ≠ ESH_NULL) (r : set_result)
    (h : esh_object_set ae ak obj k v = some r) :
    wf r.obj ∧ r.obj.is_const = false ∧ r.err = none ∧
    (∀ k1 v1, k1 ≠ k → (live_at r.obj.entries k1 v1 ↔ live_at obj.entries k1 v1)) ∧
    (r.ret = 0 → live_at r.obj.entries k v ∧
      ((∃ w, live_at obj.entries k w) → r.obj.len = obj.len) ∧
      ((¬ ∃ w, live_at obj.entries k w) → r.obj.len = obj.len + 1)) ∧
    (r.ret ≠ 0 → r.ret = 1 ∧ r.obj.len = obj.len ∧
      ∀ v1, live_at r.obj.entries k v1 ↔ live_at obj.entries k v1) := by
  unfold esh_object_set at h
  rw [if_neg (by rw [hc]; exact Bool.false_ne_true), if_neg hv] at h
  by_cases hgrow : obj.len ≥ GROW_THRESHOLD obj.cap
  · rw [if_pos hgrow] at h
    by_cases hae : ae = false
    · rw [if_pos hae] at h
      cases h
      exact ⟨hw, hc, rfl, fun _ _ _ => Iff.rfl, fun h0 => absurd h0 Nat.one_ne_zero,
        fun _ => ⟨rfl, rfl, fun _ => Iff.rfl⟩⟩
    · rw [if_neg hae] at h
      obtain ⟨grown, hg1, hg2, _, _, hg4⟩ := grow_spec hw
      rw [hg1] at h
      simp only at h
      obtain ⟨s1, s2, _, s4, s5, s6, s7⟩ := set_slot_spec hg2 ak k v r h
      refine ⟨s1, by rw [s2]; exact hc, s4, ?_, ?_, ?_⟩
      · intro k1 v1 hne
        rw [s5 k1 v1 hne]
        exact hg4 k1 v1
      · intro h0
        obtain ⟨t1, t2, t3⟩ := s6 h0
        refine ⟨t1, ?_, ?_⟩
        · rintro ⟨w, hw1⟩
          exact t2 ⟨w, (hg4 k w).mpr hw1⟩
        · intro hno
          apply t3
          rintro ⟨w, hw1⟩
          exact hno ⟨w, (hg4 k w).mp hw1⟩
      · intro hne
        obtain ⟨t1, _, t3⟩ := s7 hne
        refine ⟨t3, by rw [t1], fun v1 => ?_⟩
        rw [t1]
        exact hg4 k v1
  · rw [if_neg hgrow] at h
    obtain ⟨s1, s2, _, s4, s5, s6, s7⟩ := set_slot_spec hw ak k v r h
    refine ⟨s1, by rw [s2]; exact hc, s4, s5, s6, ?_⟩
    intro hne
    obtain ⟨t1, _, t3⟩ := s7 hne
    exact ⟨t3, by rw [t1], fun v1 => by rw [t1]⟩

theorem wf_init : wf esh_object_init_entries := by decide

/-- Whether the slot-writing part returns depends on the object and the key only. -/
theorem set_slot_isSome (ak : Bool) (obj : esh_object) (k : List Nat) (v w : esh_val) :
    (set_slot ak obj k v).isSome = (set_slot ak obj k w).isSome := by
  unfold set_slot
  by_cases hlt : obj.len < obj.cap
  · simp only [hlt, not_true_eq_false, if_false]
    cases object_find obj.entries k with
    | none => rfl
    | some i =>
      simp only
      by_cases hkey : (entry_at obj.entries i).key ≠ none
      · rw [if_pos hkey, if_pos hkey]; rfl
      · rw [if_neg hkey, if_neg hkey]
        by_cases hak : ak = false
        · rw [if_pos hak, if_pos hak]
        · rw [if_neg hak, if_neg hak]; rfl
  · simp [hlt]

/-- Whether `esh_object_set` returns does not depend on which non-NULL value is stored. -/
theorem set_isSome (ae ak : Bool) (obj : esh_object) (k : List Nat) (v w : esh_val)
    (hv : v ≠ ESH_NULL) (hw : w ≠ ESH_NULL) :
    (esh_object_set ae ak obj k v).isSome = (esh_object_set ae ak obj k w).isSome := by
  unfold esh_object_set
  by_cases hc : obj.is_const = true
  · rw [if_pos hc, if_pos hc]
  · rw [if_neg hc, if_neg hc, if_neg hv, if_neg hw]
    by_cases hgrow : obj.len ≥ GROW_THRESHOLD obj.cap
    · rw [if_pos hgrow, if_pos hgrow]
      by_cases hae : ae = false
      · rw [if_pos hae, if_pos hae]
      · rw [if_neg hae, if_neg hae]
        cases rehash obj.entries (new_entries (GROW_FACTOR obj.cap)) with
        | none => rfl
        | some grown => exact set_slot_isSome _ _ _ _ _
    · rw [if_neg hgrow, if_neg hgrow]
      exact set_slot_isSome _ _ _ _ _

theorem set_slot_ret_zero {obj : esh_object} {k : List Nat} {v : esh_val} {r : set_result}
    (h : set_slot true obj k v = some r) : r.ret = 0 := by
  unfold set_slot at h
  by_cases hlt : obj.len < obj.cap
  · simp only [hlt, not_true_eq_false, if_false] at h
    cases hf : object_find obj.entries k with
    | none => simp [hf] at h
    | some i =>
      simp only [hf] at h
      by_cases hkey : (entry_at obj.entries i).key ≠ none
      · rw [if_pos hkey] at h; cases h; rfl
      · rw [if_neg hkey, if_neg (by decide)] at h; cases h; rfl
  · simp [hlt] at h

/-- With both allocations succeeding a call on a non-const object that returns, returns 0. -/
theorem set_ret_zero {obj : esh_object} (hc : obj.is_const = false) {k : List Nat}
    {v : esh_val} {r : set_result} (h : esh_object_set true true obj k v = some r) :
    r.ret = 0 := by
  unfold esh_object_set at h
  rw [if_neg (by rw [hc]; exact Bool.false_ne_true)] at h
  by_cases hv : v = ESH_NULL
  · rw [if_pos hv] at h; cases h; rfl
  · rw [if_neg hv] at h
    by_cases hgrow : obj.len ≥ GROW_THRESHOLD obj.cap
    · rw [if_pos hgrow, if_neg (by decide)] at h
      cases hr : rehash obj.entries (new_entries (GROW_FACTOR obj.cap)) with
      | none => simp [hr] at h
      | some grown =>
        simp only [hr] at h
        exact set_slot_ret_zero h
    · rw [if_neg hgrow] at h
      exact set_slot_ret_zero h

/-- The slot-writing part returns when the table has room and some slot passes the test of
`object_find` for the key. -/
theorem set_slot_returns {obj : esh_object} (hlt : obj.len < obj.cap) (ak : Bool)
    (k : List Nat) (v : esh_val)
    (hslot : ∃ (i : Nat) (e : esh_object_entry), obj.entries[i]? = some e ∧ key_hit e k = true) :
    ∃ r, set_slot ak obj k v = some r := by
  obtain ⟨i, e, he, hhit⟩ := hslot
  unfold set_slot
  simp only [hlt, not_true_eq_false, if_false]
  cases hf : object_find obj.entries k with
  | none =>
    have := object_find_eq_none.mp hf i (getElem?_lt he)
    rw [slot_hit_of_key he, hhit] at this
    cases this
  | some j =>
    simp only
    by_cases hkey : (entry_at obj.entries j).key ≠ none
    · rw [if_pos hkey]; exact ⟨_, rfl⟩
    · rw [if_neg hkey]
      by_cases hak : ak = false
      · rw [if_pos hak]; exact ⟨_, rfl⟩
      · rw [if_neg hak]; exact ⟨_, rfl⟩

/-- A call of `esh_object_set` returns whenever some slot already carries the key. -/
theorem set_returns_of_slot {obj : esh_object} (hw : wf obj) (ae ak : Bool) (k : List Nat)
    (v : esh_val)
    (hslot : ∃ (i : Nat) (e : esh_object_entry), obj.entries[i]? = some e ∧ e.key = some k) :
    ∃ r, esh_object_set ae ak obj k v = some r := by
  unfold esh_object_set
  by_cases hc : obj.is_const = true
  · rw [if_pos hc]; exact ⟨_, rfl⟩
  rw [if_neg hc]
  by_cases hv : v = ESH_NULL
  · rw [if_pos hv]; exact ⟨_, rfl⟩
  rw [if_neg hv]
  have hle := live_count_le obj.entries
  have hlen := hw.1
  by_cases hgrow : obj.len ≥ GROW_THRESHOLD obj.cap
  · rw [if_pos hgrow]
    by_cases hae : ae = false
    · rw [if_pos hae]; exact ⟨_, rfl⟩
    · rw [if_neg hae]
      obtain ⟨grown, hg1, hg2, hg3, hg4, _⟩ := grow_spec hw
      rw [hg1]
      have hroom : obj.len < grown.length := by
        rw [hg3]; unfold GROW_FACTOR esh_object.cap; omega
      have hlc : live_count grown = obj.len := hg2.1.symm
      obtain ⟨m, e, hm, hk⟩ := exists_empty_slot hg4 (by rw [hlc]; exact hroom)
      exact @set_slot_returns { obj with entries := grown } hroom ak k v
        ⟨m, e, hm, key_hit_of_none hk k⟩
  · rw [if_neg hgrow]
    have hlt : obj.len < obj.cap := by
      unfold GROW_THRESHOLD at hgrow
      omega
    obtain ⟨i, e, he, hk⟩ := hslot
    exact set_slot_returns hlt ak k v ⟨i, e, he, by rw [key_hit_of_some hk]; simp⟩

/-- Deleting never empties a slot: every slot keeps its key. -/
theorem delete_keeps_keys (obj : esh_object) (k : List Nat) {i : Nat} {e : esh_object_entry}
    (he : obj.entries[i]? = some e) :
    ∃ e1, (esh_object_delete_entry obj k).2.entries[i]? = some e1 ∧ e1.key = e.key := by
  unfold esh_object_delete_entry
  by_cases hc : obj.cap = 0
  · rw [if_pos hc]; exact ⟨e, he, rfl⟩
  rw [if_neg hc]
  cases hf : object_find obj.entries k with
  | none => exact ⟨e, he, rfl⟩
  | some j =>
    simp only
    by_cases hcond : (entry_at obj.entries j).key ≠ none ∧ (entry_at obj.entries j).deleted = false
    · rw [if_pos hcond]
      show ∃ e1, (obj.entries.set j { entry_at obj.entries j with deleted := true })[i]? = some e1 ∧
        e1.key = e.key
      rw [List.getElem?_set]
      by_cases hji : j = i
      · subst hji
        rw [if_pos rfl, if_pos (getElem?_lt he)]
        exact ⟨_, rfl, by rw [entry_at_of_getElem? he]⟩
      · rw [if_neg hji]; exact ⟨e, he, rfl⟩
    · rw [if_neg hcond]; exact ⟨e, he, rfl⟩

/-- Every call of `esh_object_set` that returns keeps the invariant. -/
theorem set_wf {obj : esh_object} (hw : wf obj) (ae ak : Bool) (k : List Nat) (v : esh_val)
    {r : set_result} (h : esh_object_set ae ak obj k v = some r) : wf r.obj := by
  by_cases hc : obj.is_const = true
  · unfold esh_object_set at h
    rw [if_pos hc] at h
    cases h; exact hw
  by_cases hv : v = ESH_NULL
  · unfold esh_object_set at h
    rw [if_neg hc, if_pos hv] at h
    cases h
    exact (delete_spec hw k).1
  · exact (set_spec hw (by simpa using hc) ae ak k v hv r h).1

/-- A call of `esh_object_set` leaves the lookup of every other key unchanged. -/
theorem set_frame {obj : esh_object} (hw : wf obj) (ae ak : Bool) (k : List Nat) (v : esh_val)
    {r : set_result} (h : esh_object_set ae ak obj k v = some r) (k1 : List Nat)
    (hne : k1 ≠ k) : esh_object_get r.obj k1 = esh_object_get obj k1 := by
  have hwr := set_wf hw ae ak k v h
  apply get_congr hwr hw
  intro v1
  by_cases hc : obj.is_const = true
  · unfold esh_object_set at h
    rw [if_pos hc] at h
    cases h; exact Iff.rfl
  by_cases hv : v = ESH_NULL
  · unfold esh_object_set at h
    rw [if_neg hc, if_pos hv] at h
    cases h
    exact (delete_spec hw k).2.2.2.1 k1 v1 hne
  · exact (set_spec hw (by simpa using hc) ae ak k v hv r h).2.2.2.1 k1 v1 hne

/-- C1. On a non-const object (satisfying the table invariant), for every key and every
non-NULL value `v`: if `esh_object_set(obj, key, v)` returns success (0), then
`esh_object_get(obj, key)` hits and returns `v`. -/
theorem C1_get_after_set (obj : esh_object) (hw : wf obj) (hc : obj.is_const = false)
    (ae ak : Bool) (key : List Nat) (v : esh_val) (hv : v ≠ ESH_NULL) (r : set_result)
    (h : esh_object_set ae ak obj key v = some r) (hret : r.ret = 0) :
    esh_object_get r.obj key = some (some v) := by
  obtain ⟨h1, _, _, _, h5, _⟩ := set_spec hw hc ae ak key v hv r h
  exact (get_hit_iff h1 key v).mpr (h5 hret).1

theorem C1_get_after_set_witness :
    esh_object_get (⟨false, 1, [⟨some [102, 111, 111], 1, false⟩]⟩ : esh_object)
      [102, 111, 111] = some (some 1) :=
  C1_get_after_set esh_object_init_entries (by decide) rfl true true [102, 111, 111] 1
    (by decide) ⟨0, none, ⟨false, 1, [⟨some [102, 111, 111], 1, false⟩]⟩⟩ (by decide) rfl

/-- C2 as stated fails on a const object: `esh_object_set(obj, key, NULL)` on a const object
holding the key is rejected, so the key is still found and `len` is not decremented. -/
theorem C2_counterexample :
    ¬ (∀ (obj : esh_object) (key : List Nat) (ae ak : Bool) (r : set_result),
        wf obj → (∃ v, esh_object_get obj key = some (some v)) →
        esh_object_set ae ak obj key ESH_NULL = some r →
        esh_object_get r.obj key = some none ∧ r.obj.len + 1 = obj.len) := by
  intro h
  have := h ⟨true, 1, [⟨some [102], 7, false⟩]⟩ [102] true true
    ⟨1, some "Attempting to mutate constant object", ⟨true, 1, [⟨some [102], 7, false⟩]⟩⟩
    (by decide) ⟨7, by decide⟩ (by decide)
  exact absurd this.1 (by decide)

/-- C2 (amended). For every object (satisfying the table invariant) and key:
`esh_object_delete_entry`, and `esh_object_set` with value NULL on a non-const object (which
returns 0 and leaves exactly what `esh_object_delete_entry` leaves), makes a following
`esh_object_get` of a present key a miss and decrements `len` by exactly one; when the key is
absent the object, hence `len` and every lookup, is unchanged. -/
theorem C2_delete (obj : esh_object) (hw : wf obj) (key : List Nat) :
    ((∃ v, esh_object_get obj key = some (some v)) →
      (esh_object_delete_entry obj key).1 = true ∧
      esh_object_get (esh_object_delete_entry obj key).2 key = some none ∧
      (esh_object_delete_entry obj key).2.len + 1 = obj.len) ∧
    (esh_object_get obj key = some none →
      (esh_object_delete_entry obj key).1 = false ∧
      (esh_object_delete_entry obj key).2 = obj) ∧
    (obj.is_const = false → ∀ ae ak : Bool,
      esh_object_set ae ak obj key ESH_NULL =
        some ⟨0, none, (esh_object_delete_entry obj key).2⟩) := by
  obtain ⟨d1, _, _, _, d5, d6, d7⟩ := delete_spec hw key
  refine ⟨?_, ?_, ?_⟩
  · rintro ⟨v, hv⟩
    have hpres : ∃ v, live_at obj.entries key v := ⟨v, (get_hit_iff hw key v).mp hv⟩
    exact ⟨(d6 hpres).1, (get_miss_iff d1 key).mpr d5, (d6 hpres).2⟩
  · intro hmiss
    have habs : ¬ ∃ v, live_at obj.entries key v := by
      rintro ⟨v, hv⟩
      exact (get_miss_iff hw key).mp hmiss v hv
    exact d7 habs
  · intro hc ae ak
    unfold esh_object_set
    rw [if_neg (by rw [hc]; exact Bool.false_ne_true), if_pos rfl]

theorem C2_delete_witness :
    ((∃ v, esh_object_get ⟨false, 1, [⟨some [102], 7, false⟩]⟩ [102] = some (some v)) →
      (esh_object_delete_entry ⟨false, 1, [⟨some [102], 7, false⟩]⟩ [102]).1 = true ∧
      esh_object_get (esh_object_delete_entry ⟨false, 1, [⟨some [102], 7, false⟩]⟩ [102]).2
        [102] = some none ∧
      (esh_object_delete_entry ⟨false, 1, [⟨some [102], 7, false⟩]⟩ [102]).2.len + 1 = 1) ∧
    (esh_object_get ⟨false, 1, [⟨some [102], 7, false⟩]⟩ [102] = some none →
      (esh_object_delete_entry ⟨false, 1, [⟨some [102], 7, false⟩]⟩ [102]).1 = false ∧
      (esh_object_delete_entry ⟨false, 1, [⟨some [102], 7, false⟩]⟩ [102]).2 =
        ⟨false, 1, [⟨some [102], 7, false⟩]⟩) ∧
    (false = false → ∀ ae ak : Bool,
      esh_object_set ae ak ⟨false, 1, [⟨some [102], 7, false⟩]⟩ [102] ESH_NULL =
        some ⟨0, none, (esh_object_delete_entry ⟨false, 1, [⟨some [102], 7, false⟩]⟩ [102]).2⟩) :=
  C2_delete ⟨false, 1, [⟨some [102], 7, false⟩]⟩ (by decide) [102]

/-- C3. `esh_object_set` (any value, with or without a grow/rehash, whatever the allocator
answers) and `esh_object_delete_entry` on a key `k` leave the result of `esh_object_get` for
every other key unchanged: a live entry is still found with the same value and a missing or
deleted key is still a miss. -/
theorem C3_other_keys_unchanged (obj : esh_object) (hw : wf obj) (k k1 : List Nat)
    (hne : k1 ≠ k) :
    esh_object_get (esh_object_delete_entry obj k).2 k1 = esh_object_get obj k1 ∧
    ∀ (ae ak : Bool) (v : esh_val) (r : set_result),
      esh_object_set ae ak obj k v = some r →
      esh_object_get r.obj k1 = esh_object_get obj k1 := by
  refine ⟨?_, ?_⟩
  · obtain ⟨d1, _, _, d4, _⟩ := delete_spec hw k
    exact get_congr d1 hw k1 (fun v => d4 k1 v hne)
  · intro ae ak v r h
    exact set_frame hw ae ak k v h k1 hne

/-- C6. On an object whose `is_const` flag is set, `esh_object_set` with any key and any
value (NULL included) returns 1 with the mutate-constant message and leaves the object, hence
its entries and `len`, unchanged. -/
theorem C6_const_rejects_set (obj : esh_object) (hc : obj.is_const = true) (ae ak : Bool)
    (key : List Nat) (val : esh_val) :
    esh_object_set ae ak obj key val =
      some ⟨1, some "Attempting to mutate constant object", obj⟩ := by
  unfold esh_object_set
  rw [if_pos hc]

theorem C6_const_rejects_set_witness :
    esh_object_set true true ⟨true, 1, [⟨some [102], 7, false⟩]⟩ [102] ESH_NULL =
      some ⟨1, some "Attempting to mutate constant object",
        ⟨true, 1, [⟨some [102], 7, false⟩]⟩⟩ :=
  C6_const_rejects_set ⟨true, 1, [⟨some [102], 7, false⟩]⟩ rfl true true [102] ESH_NULL

theorem two_entry_object_reached :
    (esh_object_set true true esh_object_init_entries [1] 5).bind
      (fun r => esh_object_set true true r.obj [2] 6) = some ⟨0, none, two_entry_object⟩ := by
  decide

theorem set_of_const {obj : esh_object} (hc : obj.is_const = true) (ae ak : Bool)
    (key : List Nat) (val : esh_val) :
    esh_object_set ae ak obj key val =
      some ⟨1, some "Attempting to mutate constant object", obj⟩ := by
  unfold esh_object_set
  rw [if_pos hc]

theorem set_null_eq {obj : esh_object} (hc : obj.is_const = false) (ae ak : Bool)
    (key : List Nat) :
    esh_object_set ae ak obj key ESH_NULL =
      some ⟨0, none, (esh_object_delete_entry obj key).2⟩ := by
  unfold esh_object_set
  rw [if_neg (by rw [hc]; exact Bool.false_ne_true), if_pos rfl]

theorem C3_other_keys_unchanged_witness :
    esh_object_get (esh_object_delete_entry two_entry_object [3]).2 [1] =
      esh_object_get two_entry_object [1] ∧
    ∀ (ae ak : Bool) (v : esh_val) (r : set_result),
      esh_object_set ae ak two_entry_object [3] v = some r →
      esh_object_get r.obj [1] = esh_object_get two_entry_object [1] :=
  C3_other_keys_unchanged two_entry_object (by decide) [3] [1] (by decide)

/-- C4. With the allocator answering every request: for every object (satisfying the table
invariant), key `k` and non-NULL values `v`, `w`, the sequence `set(k, v); set(k, NULL);
set(k, w)` returns exactly when the single `set(k, w)` returns, and then with the same return
code, the same `len` and the same `esh_object_get` result for every key.  On a non-const object
the middle step is the same as `esh_object_delete_entry(k)`. -/
theorem C4_delete_then_reinsert (obj : esh_object) (hw : wf obj) (k : List Nat)
    (v w : esh_val) (hv : v ≠ ESH_NULL) (hw2 : w ≠ ESH_NULL) :
    (esh_object_set true true obj k w = none → esh_object_set true true obj k v = none) ∧
    (∀ rs, esh_object_set true true obj k w = some rs →
      ∃ r1 r2 r3, esh_object_set true true obj k v = some r1 ∧
        esh_object_set true true r1.obj k ESH_NULL = some r2 ∧
        esh_object_set true true r2.obj k w = some r3 ∧
        (obj.is_const = false → r2.obj = (esh_object_delete_entry r1.obj k).2) ∧
        r3.ret = rs.ret ∧ r3.obj.len = rs.obj.len ∧
        ∀ k1, esh_object_get r3.obj k1 = esh_object_get rs.obj k1) := by
  have hsome := set_isSome true true obj k v w hv hw2
  refine ⟨?_, ?_⟩
  · intro hn
    rw [hn] at hsome
    cases hr : esh_object_set true true obj k v with
    | none => rfl
    | some r => rw [hr] at hsome; cases hsome
  · intro rs hrs
    by_cases hc : obj.is_const = true
    · have e1 := set_of_const hc true true k v
      have e2 := set_of_const hc true true k ESH_NULL
      have e3 := set_of_const hc true true k w
      rw [e3] at hrs
      cases hrs
      refine ⟨_, _, _, e1, e2, e3, ?_, rfl, rfl, fun _ => rfl⟩
      intro hf
      rw [hc] at hf
      cases hf
    · have hnc : obj.is_const = false := by simpa using hc
      rw [hrs] at hsome
      cases hr1 : esh_object_set true true obj k v with
      | none => rw [hr1] at hsome; cases hsome
      | some r1 =>
        -- first insert
        obtain ⟨a1, a2, _, a4, a5, _⟩ := set_spec hw hnc true true k v hv r1 hr1
        obtain ⟨a51, a52, a53⟩ := a5 (set_ret_zero hnc hr1)
        -- delete
        have hr2 := set_null_eq a2 true true k
        obtain ⟨d1, d2, _, d4, d5, d6, _⟩ := delete_spec a1 k
        have d2c : (esh_object_delete_entry r1.obj k).2.is_const = false := by rw [d2]; exact a2
        -- second insert
        obtain ⟨i, hi⟩ := a51
        obtain ⟨e1, he1, hk1⟩ := delete_keeps_keys r1.obj k hi
        obtain ⟨r3, hr3⟩ := set_returns_of_slot d1 true true k w ⟨i, e1, he1, hk1⟩
        obtain ⟨b1, _, _, b4, b5, _⟩ := set_spec d1 d2c true true k w hw2 r3 hr3
        obtain ⟨b51, _, b53⟩ := b5 (set_ret_zero d2c hr3)
        -- the single insert
        obtain ⟨c1, _, _, c4, c5, _⟩ := set_spec hw hnc true true k w hw2 rs hrs
        obtain ⟨c51, c52, c53⟩ := c5 (set_ret_zero hnc hrs)
        refine ⟨r1, _, r3, rfl, hr2, hr3, fun _ => rfl, ?_, ?_, ?_⟩
        · rw [set_ret_zero d2c hr3, set_ret_zero hnc hrs]
        · have h3 : r3.obj.len = (esh_object_delete_entry r1.obj k).2.len + 1 :=
            b53 (fun ⟨u, hu⟩ => d5 u hu)
          have h2 := (d6 ⟨v, ⟨i, hi⟩⟩).2
          by_cases hp : ∃ u, live_at obj.entries k u
          · rw [h3, h2, a52 hp, c52 hp]
          · rw [h3, h2, a53 hp, c53 hp]
        · intro k1
          apply get_congr b1 c1
          intro u
          by_cases hk : k1 = k
          · subst hk
            constructor
            · intro hu
              rw [live_at_unique b1.2 hu b51]
              exact c51
            · intro hu
              rw [live_at_unique c1.2 hu c51]
              exact b51
          · rw [b4 k1 u hk, d4 k1 u hk, a4 k1 u hk, c4 k1 u hk]

theorem C4_delete_then_reinsert_witness :
    (esh_object_set true true two_entry_object [1] 9 = none →
      esh_object_set true true two_entry_object [1] 8 = none) ∧
    (∀ rs, esh_object_set true true two_entry_object [1] 9 = some rs →
      ∃ r1 r2 r3, esh_object_set true true two_entry_object [1] 8 = some r1 ∧
        esh_object_set true true r1.obj [1] ESH_NULL = some r2 ∧
        esh_object_set true true r2.obj [1] 9 = some r3 ∧
        (two_entry_object.is_const = false →
          r2.obj = (esh_object_delete_entry r1.obj [1]).2) ∧
        r3.ret = rs.ret ∧ r3.obj.len = rs.obj.len ∧
        ∀ k1, esh_object_get r3.obj k1 = esh_object_get rs.obj k1) :=
  C4_delete_then_reinsert two_entry_object (by decide) [1] 8 9 (by decide) (by decide)

theorem wrap64_range (i : Int) :
    -9223372036854775808 ≤ wrap64 i ∧ wrap64 i < 9223372036854775808 := by
  unfold wrap64; omega

theorem wrap64_of_range {i : Int} (h1 : -9223372036854775808 ≤ i)
    (h2 : i < 9223372036854775808) : wrap64 i = i := by
  unfold wrap64; omega

theorem wrap64_step {a b : Int} (h : wrap64 a = wrap64 b) (d : Int) :
    wrap64 (wrap64 (wrap64 (a * 10) + d)) = wrap64 (b * 10 + d) := by
  unfold wrap64 at *; omega

theorem wrap64_neg {a b : Int} (h : wrap64 a = wrap64 b) :
    wrap64 (a * -1) = wrap64 (-b) := by
  unfold wrap64 at *; omega

/-- The digit loop without wrap-around. -/
theorem parse_digits_range (s : List Nat) (acc : Int)
    (h : -9223372036854775808 ≤ acc ∧ acc < 9223372036854775808) :
    -9223372036854775808 ≤ parse_digits s acc ∧ parse_digits s acc < 9223372036854775808 := by
  induction s generalizing acc with
  | nil => exact h
  | cons c rest ih =>
    unfold parse_digits
    by_cases hd : 48 ≤ c ∧ c ≤ 57
    · rw [if_pos hd]; exact ih _ (wrap64_range _)
    · rw [if_neg hd]; exact h

/-- Bytes after a NUL do not influence the digit loop. -/
theorem parse_digits_append_nul (s rest : List Nat) (acc : Int) :
    parse_digits (s ++ 0 :: rest) acc = parse_digits s acc := by
  induction s generalizing acc with
  | nil => simp [parse_digits]
  | cons c tl ih =>
    simp only [List.cons_append, parse_digits]
    by_cases hd : 48 ≤ c ∧ c ≤ 57
    · rw [if_pos hd, if_pos hd]; exact ih _
    · rw [if_neg hd, if_neg hd]

/-- The digit loop computes the decimal value of the digit prefix, modulo `2 ^ 64`. -/
theorem parse_digits_value (s : List Nat) (acc : Int) (n : Nat)
    (h : wrap64 acc = wrap64 (n : Int)) :
    wrap64 (parse_digits s acc) =
      wrap64 (((s.takeWhile is_digit).foldl (fun a c => 10 * a + (c - 48)) n : Nat) : Int) := by
  induction s generalizing acc n with
  | nil => simpa [parse_digits] using h
  | cons c tl ih =>
    unfold parse_digits
    by_cases hd : 48 ≤ c ∧ c ≤ 57
    · have hdig : is_digit c = true := by simp [is_digit, hd.1, hd.2]
      rw [if_pos hd, List.takeWhile_cons, if_pos hdig, List.foldl_cons]
      apply ih
      have hcast : ((10 * n + (c - 48) : Nat) : Int) = (n : Int) * 10 + ((c : Int) - 48) := by
        omega
      rw [hcast]
      exact wrap64_step h _
    · have hdig : is_digit c = false := by
        simp only [is_digit, Bool.and_eq_false_imp, decide_eq_true_eq, decide_eq_false_iff_not]
        intro h1 h2; exact hd ⟨h1, h2⟩
      rw [if_neg hd, List.takeWhile_cons, hdig]
      simpa using h

theorem parse_digits_zero (s : List Nat) :
    parse_digits s 0 = wrap64 (decimal_value (s.takeWhile is_digit) : Int) := by
  have h1 := parse_digits_value s 0 0 rfl
  have h2 := parse_digits_range s 0 (by omega)
  rw [wrap64_of_range h2.1 h2.2] at h1
  exact h1

/-- What `val_as_int` computes from the bytes at the string pointer. -/
theorem val_as_int_of_string {heap : Nat → Option heap_object} {val : esh_val}
    {mem : List Nat} {len : Nat} (hs : val_as_string heap val = some (mem, len))
    (hnul : mem[len]? = some 0) :
    val_as_int heap val = some (wrap64 (denoted_int (mem.take len))) := by
  have hlt : len < mem.length := by
    by_contra hn
    rw [List.getElem?_eq_none (by omega)] at hnul; cases hnul
  obtain ⟨s, rest, hsplit, hs2⟩ : ∃ s rest, mem = s ++ 0 :: rest ∧ mem.take len = s := by
    refine ⟨mem.take len, mem.drop (len + 1), ?_, rfl⟩
    have h0 : mem[len] = 0 := by
      rw [List.getElem?_eq_getElem hlt] at hnul
      exact Option.some.inj hnul
    rw [← h0, ← List.drop_eq_getElem_cons hlt, List.take_append_drop]
  unfold val_as_int
  rw [hs, hs2]
  subst hsplit
  simp only
  have hhead : (s ++ 0 :: rest).head? = some 45 ↔ s.head? = some 45 := by
    cases s with
    | nil => simp
    | cons c tl => simp
  by_cases hneg : s.head? = some 45
  · have hneg2 := hhead.mpr hneg
    obtain ⟨tl, rfl⟩ : ∃ tl, s = 45 :: tl := by
      cases s with
      | nil => simp at hneg
      | cons c tl => simp at hneg; exact ⟨tl, by rw [hneg]⟩
    simp only [hneg2, decide_True, if_true]
    unfold denoted_int
    rw [if_pos hneg]
    have hd1 : List.drop 1 (45 :: tl ++ 0 :: rest) = tl ++ 0 :: rest := rfl
    have hd2 : List.drop 1 (45 :: tl) = tl := rfl
    rw [hd1, hd2, parse_digits_append_nul, parse_digits_zero]
    rw [wrap64_neg (wrap64_of_range (wrap64_range _).1 (wrap64_range _).2)]
  · have hneg2 : ¬ (s ++ 0 :: rest).head? = some 45 := fun h => hneg (hhead.mp h)
    simp only [hneg2, decide_False, Bool.false_eq_true, if_false]
    unfold denoted_int
    rw [if_neg hneg, parse_digits_append_nul, parse_digits_zero]

theorem bytes_of_word_of_bytes (b0 b1 b2 b3 b4 b5 b6 b7 : Nat) (h0 : b0 < 256) (h1 : b1 < 256)
    (h2 : b2 < 256) (h3 : b3 < 256) (h4 : b4 < 256) (h5 : b5 < 256) (h6 : b6 < 256)
    (h7 : b7 < 256) :
    bytes_of_word (word_of_bytes [b0, b1, b2, b3, b4, b5, b6, b7]) =
      [b0, b1, b2, b3, b4, b5, b6, b7] := by
  simp only [bytes_of_word, word_of_bytes, List.cons.injEq, and_true]
  refine ⟨?_, ?_, ?_, ?_, ?_, ?_, ?_, ?_⟩ <;> omega

theorem word_of_bytes_odd (b1 b2 b3 b4 b5 b6 b7 : Nat) :
    word_of_bytes [1, b1, b2, b3, b4, b5, b6, b7] % 2 = 1 := by
  simp only [word_of_bytes]
  omega

theorem c_strlen_append_nul (s rest : List Nat) : c_strlen (s ++ 0 :: rest) = c_strlen s := by
  induction s with
  | nil => simp [c_strlen]
  | cons c tl ih =>
    show (if c = 0 then 0 else c_strlen (tl ++ 0 :: rest) + 1) =
      if c = 0 then 0 else c_strlen tl + 1
    rw [ih]

theorem c_strlen_le (s : List Nat) : c_strlen s ≤ s.length := by
  induction s with
  | nil => simp [c_strlen]
  | cons c tl ih =>
    simp only [c_strlen, List.length_cons]
    split <;> omega

theorem c_strlen_of_no_nul (s : List Nat) (h : ∀ c ∈ s, c ≠ 0) : c_strlen s = s.length := by
  induction s with
  | nil => simp [c_strlen]
  | cons c tl ih =>
    simp only [c_strlen, List.length_cons]
    rw [if_neg (h c (List.mem_cons_self _ _)), ih (fun x hx => h x (List.mem_cons_of_mem _ hx))]

/-- The byte at position `strlen(s)` of a NUL-terminated array is the NUL. -/
theorem getElem?_c_strlen (s rest : List Nat) :
    (s ++ 0 :: rest)[c_strlen s]? = some 0 := by
  induction s with
  | nil => simp [c_strlen]
  | cons c tl ih =>
    simp only [c_strlen]
    by_cases hc : c = 0
    · subst hc; simp
    · rw [if_neg hc]
      simpa using ih

/-- The inline word that `esh_new_string` builds for a string shorter than six bytes reads
back as the bytes followed by NULs. -/
theorem short_word_bytes (s : List Nat) (hlen : s.length < 6) (hb : ∀ c ∈ s, c < 256) :
    word_of_bytes ((memcpy_at (bytes_of_word 1) 1 s).set (1 + s.length) 0) % 2 = 1 ∧
    (bytes_of_word (word_of_bytes ((memcpy_at (bytes_of_word 1) 1 s).set (1 + s.length) 0))).drop 1
      = s ++ List.replicate (7 - s.length) 0 := by
  have hw : bytes_of_word 1 = [1, 0, 0, 0, 0, 0, 0, 0] := by decide
  rw [hw]
  match s, hlen, hb with
  | [], _, _ =>
    simp only [memcpy_at, List.length_nil]
    exact ⟨word_of_bytes_odd _ _ _ _ _ _ _,
      by rw [show ([1, 0, 0, 0, 0, 0, 0, 0] : List Nat).set (1 + 0) 0 = [1, 0, 0, 0, 0, 0, 0, 0]
          from rfl, bytes_of_word_of_bytes _ _ _ _ _ _ _ _ (by omega) (by omega) (by omega)
            (by omega) (by omega) (by omega) (by omega) (by omega)]; rfl⟩
  | [a], _, hb =>
    have ha := hb a (by simp)
    simp only [memcpy_at, List.length_cons, List.length_nil]
    rw [show (([1, 0, 0, 0, 0, 0, 0, 0] : List Nat).set 1 a).set (1 + (0 + 1)) 0 =
      [1, a, 0, 0, 0, 0, 0, 0] from rfl]
    exact ⟨word_of_bytes_odd _ _ _ _ _ _ _,
      by rw [bytes_of_word_of_bytes _ _ _ _ _ _ _ _ (by omega) ha (by omega)
            (by omega) (by omega) (by omega) (by omega) (by omega)]; rfl⟩
  | [a, b], _, hb =>
    have ha := hb a (by simp)
    have hb1 := hb b (by simp)
    simp only [memcpy_at, List.length_cons, List.length_nil]
    rw [show ((([1, 0, 0, 0, 0, 0, 0, 0] : List Nat).set 1 a).set (1 + 1) b).set
      (1 + (0 + 1 + 1)) 0 = [1, a, b, 0, 0, 0, 0, 0] from rfl]
    exact ⟨word_of_bytes_odd _ _ _ _ _ _ _,
      by rw [bytes_of_word_of_bytes _ _ _ _ _ _ _ _ (by omega) ha hb1
            (by omega) (by omega) (by omega) (by omega) (by omega)]; rfl⟩
  | [a, b, c], _, hb =>
    have ha := hb a (by simp)
    have hb1 := hb b (by simp)
    have hc := hb c (by simp)
    simp only [memcpy_at, List.length_cons, List.length_nil]
    rw [show (((([1, 0, 0, 0, 0, 0, 0, 0] : List Nat).set 1 a).set (1 + 1) b).set (1 + 1 + 1) c).set
      (1 + (0 + 1 + 1 + 1)) 0 = [1, a, b, c, 0, 0, 0, 0] from rfl]
    exact ⟨word_of_bytes_odd _ _ _ _ _ _ _,
      by rw [bytes_of_word_of_bytes _ _ _ _ _ _ _ _ (by omega) ha hb1
            hc (by omega) (by omega) (by omega) (by omega)]; rfl⟩
  | [a, b, c, d], _, hb =>
    have ha := hb a (by simp)
    have hb1 := hb b (by simp)
    have hc := hb c (by simp)
    have hd := hb d (by simp)
    simp only [memcpy_at, List.length_cons, List.length_nil]
    rw [show ((((([1, 0, 0, 0, 0, 0, 0, 0] : List Nat).set 1 a).set (1 + 1) b).set (1 + 1 + 1) c).set
      (1 + 1 + 1 + 1) d).set (1 + (0 + 1 + 1 + 1 + 1)) 0 = [1, a, b, c, d, 0, 0, 0] from rfl]
    exact ⟨word_of_bytes_odd _ _ _ _ _ _ _,
      by rw [bytes_of_word_of_bytes _ _ _ _ _ _ _ _ (by omega) ha hb1
            hc hd (by omega) (by omega) (by omega)]; rfl⟩
  | [a, b, c, d, e], _, hb =>
    have ha := hb a (by simp)
    have hb1 := hb b (by simp)
    have hc := hb c (by simp)
    have hd := hb d (by simp)
    have he := hb e (by simp)
    simp only [memcpy_at, List.length_cons, List.length_nil]
    rw [show (((((([1, 0, 0, 0, 0, 0, 0, 0] : List Nat).set 1 a).set (1 + 1) b).set (1 + 1 + 1) c).set
      (1 + 1 + 1 + 1) d).set (1 + 1 + 1 + 1 + 1) e).set (1 + (0 + 1 + 1 + 1 + 1 + 1)) 0 =
      [1, a, b, c, d, e, 0, 0] from rfl]
    exact ⟨word_of_bytes_odd _ _ _ _ _ _ _,
      by rw [bytes_of_word_of_bytes _ _ _ _ _ _ _ _ (by omega) ha hb1
            hc hd he (by omega) (by omega)]; rfl⟩
  | _ :: _ :: _ :: _ :: _ :: _ :: _, hlen, _ =>
    simp only [List.length_cons] at hlen
    omega

theorem memcpy_at_zeros (s pre : List Nat) (k : Nat) :
    memcpy_at (pre ++ List.replicate (s.length + k) 0) pre.length s =
      pre ++ s ++ List.replicate k 0 := by
  induction s generalizing pre with
  | nil => simp [memcpy_at]
  | cons b rest ih =>
    simp only [memcpy_at, List.length_cons]
    have h1 : (pre ++ List.replicate (rest.length + 1 + k) 0).set pre.length b =
        (pre ++ [b]) ++ List.replicate (rest.length + k) 0 := by
      have : rest.length + 1 + k = (rest.length + k) + 1 := by omega
      rw [this, List.replicate_succ]
      simp
    rw [h1]
    have h2 := ih (pre ++ [b])
    simp only [List.length_append, List.length_singleton] at h2
    rw [h2]
    simp

/-- The character array `esh_new_string` fills for a heap string. -/
theorem heap_chars (s : List Nat) :
    (memcpy_at (List.replicate (s.length + 1) 0) 0 s).set s.length 0 = s ++ [0] := by
  have h := memcpy_at_zeros s [] 1
  simp only [List.nil_append, List.length_nil] at h
  rw [h]
  simp

theorem stack_push_ok {esh : esh_state} (hroom : esh.stack_len < esh.stack_cap) (v : esh_val) :
    stack_push esh v = (0, { esh with stack := esh.stack ++ [v] }) := by
  unfold stack_push
  rw [if_neg (by omega)]

/-- Effect of `esh_new_string` when the stack has room and, for a string of six bytes or
more, the allocator returns an aligned block: one value is pushed, and it reads back through
`val_as_string` as the bytes (up to the first NUL if the string is inline). -/
theorem new_string_spec (p : Nat) (esh : esh_state) (s : List Nat)
    (hroom : esh.stack_len < esh.stack_cap) (hb : ∀ c ∈ s, c < 256)
    (hp : 6 ≤ s.length → p ≠ 0 ∧ p % 2 = 0) :
    ∃ esh1 kv, esh_new_string p esh s = (0, esh1) ∧
      esh1.stack = esh.stack ++ [kv] ∧ esh1.stack_cap = esh.stack_cap ∧
      esh1.stack_base = esh.stack_base ∧ esh1.err = esh.err ∧
      (∀ a, a ≠ p → esh1.heap a = esh.heap a) ∧
      (s.length < 6 → esh1.heap = esh.heap ∧ kv % 2 = 1 ∧ ∀ h, val_as_string h kv =
        some (s ++ List.replicate (7 - s.length) 0, c_strlen s)) ∧
      (6 ≤ s.length → kv = p ∧
        val_as_string esh1.heap kv = some (s ++ [0], s.length)) := by
  by_cases hlen : s.length < 6
  · obtain ⟨h1, h2⟩ := short_word_bytes s hlen hb
    refine ⟨{ esh with stack := esh.stack ++
      [word_of_bytes ((memcpy_at (bytes_of_word 1) 1 s).set (1 + s.length) 0)] }, _, ?_,
      rfl, rfl, rfl, rfl, fun _ _ => rfl, ?_, fun h => absurd hlen (by omega)⟩
    · unfold esh_new_string
      simp only
      rw [if_pos (by omega), stack_push_ok hroom]
    · intro _
      refine ⟨rfl, h1, fun h => ?_⟩
      unfold val_as_string
      rw [if_pos h1]
      simp only
      rw [h2]
      have h7 : 7 - s.length = (6 - s.length) + 1 := by omega
      rw [h7, List.replicate_succ, c_strlen_append_nul]
  · have hge : 6 ≤ s.length := by omega
    obtain ⟨hp0, hp2⟩ := hp hge
    have hset : (esh.stack ++ [ESH_NULL]).set ((esh.stack ++ [ESH_NULL]).length - 1) p =
        esh.stack ++ [p] := by
      simp
    refine ⟨{ esh with
        stack := esh.stack ++ [p],
        heap := heap_store (heap_store esh.heap p
          ⟨some esh_type_ptr.string_type, esh_object_init_entries, 0, []⟩) p
          ⟨some esh_type_ptr.string_type, { esh_object_init_entries with is_const := true },
            s.length, s ++ [0]⟩ }, p, ?_, rfl, rfl, rfl, rfl, ?_,
      fun h => absurd h hlen, fun _ => ⟨rfl, ?_⟩⟩
    · unfold esh_new_string
      simp only
      rw [if_neg (by omega)]
      unfold esh_new_object
      rw [stack_push_ok hroom]
      simp only
      unfold alloc_object
      rw [if_neg hp0]
      simp only [esh_state.stack_len]
      rw [hset, heap_chars]
    · intro a ha
      simp [heap_store, ha]
    · unfold val_as_string
      rw [if_neg (show ¬ p % 2 = 1 by omega)]
      unfold val_as_object
      rw [if_neg hp0, if_neg (show ¬ p % 2 = 1 by omega)]
      simp [heap_store]

/-- The offset `-1` addresses the top of a non-empty frame. -/
theorem stack_offset_top (esh : esh_state) (st : List esh_val) (kv : esh_val)
    (hst : esh.stack = st ++ [kv]) (hbase : esh.stack_base ≤ st.length) :
    stack_offset esh (-1) = (some st.length, esh) ∧ stack_at esh st.length = kv := by
  have hlen : esh.stack_len = st.length + 1 := by
    unfold esh_state.stack_len; rw [hst]; simp
  refine ⟨?_, ?_⟩
  · unfold stack_offset
    have h1 : (-(-1 : Int)).toNat = 1 := by decide
    have h2 : ((-1 : Int) < 0) := by decide
    simp only [hlen, h1, h2, if_true]
    split_ifs with a b
    · omega
    · simp
    · omega
    · simp
  · unfold stack_at
    rw [hst]
    simp

theorem getElem?_length_append_nul (s rest : List Nat) :
    (s ++ 0 :: rest)[s.length]? = some 0 := by
  induction s with
  | nil => simp
  | cons c tl ih => simpa using ih

theorem esh_as_string_top (esh : esh_state) (st : List esh_val) (kv : esh_val)
    (hst : esh.stack = st ++ [kv]) (hbase : esh.stack_base ≤ st.length)
    (str : List Nat × Nat) (hs : val_as_string esh.heap kv = some str) :
    esh_as_string esh (-1) = (some str, esh) := by
  obtain ⟨h1, h2⟩ := stack_offset_top esh st kv hst hbase
  unfold esh_as_string
  rw [h1]
  simp only
  rw [h2, hs]

theorem esh_as_int_top (esh : esh_state) (st : List esh_val) (kv : esh_val)
    (hst : esh.stack = st ++ [kv]) (hbase : esh.stack_base ≤ st.length)
    (i : Int) (hs : val_as_int esh.heap kv = some i) :
    esh_as_int esh (-1) = (some i, esh) := by
  obtain ⟨h1, h2⟩ := stack_offset_top esh st kv hst hbase
  unfold esh_as_int
  rw [h1]
  simp only
  rw [h2, hs]

/-- Round trip of `esh_new_string` and `esh_as_string` for every string that is stored on
the heap (six bytes or more) and for every inline string without a NUL byte. -/
theorem new_string_roundtrip (p : Nat) (esh : esh_state) (s : List Nat)
    (hroom : esh.stack_len < esh.stack_cap) (hbase : esh.stack_base ≤ esh.stack_len)
    (hb : ∀ c ∈ s, c < 256) (hp : 6 ≤ s.length → p ≠ 0 ∧ p % 2 = 0)
    (hnul : s.length < 6 → ∀ c ∈ s, c ≠ 0) :
    ∃ esh1 mem, esh_new_string p esh s = (0, esh1) ∧
      esh_as_string esh1 (-1) = (some (mem, s.length), esh1) ∧ mem.take s.length = s ∧
      mem[s.length]? = some 0 := by
  obtain ⟨esh1, kv, h1, h2, _, h4, _, _, h7, h8⟩ := new_string_spec p esh s hroom hb hp
  by_cases hlen : s.length < 6
  · obtain ⟨_, _, hv⟩ := h7 hlen
    have hv1 := hv esh1.heap
    rw [c_strlen_of_no_nul s (hnul hlen)] at hv1
    refine ⟨esh1, _, h1, esh_as_string_top esh1 esh.stack kv h2 (by rw [h4]; exact hbase) _ hv1,
      by simp, ?_⟩
    have h7' : 7 - s.length = (6 - s.length) + 1 := by omega
    rw [h7', List.replicate_succ]
    exact getElem?_length_append_nul s _
  · obtain ⟨_, hv⟩ := h8 (by omega)
    exact ⟨esh1, _, h1, esh_as_string_top esh1 esh.stack kv h2 (by rw [h4]; exact hbase) _ hv,
      by simp, getElem?_length_append_nul s []⟩

/-- C8 (code defect, evaluated at the failing input).  For the three bytes `a`, NUL, `b`
`esh_new_string` succeeds with the inline representation, and `esh_as_string` on the pushed
value reports length 1 instead of 3; the same bytes followed by four more are stored on the
heap and read back with their full length 7. -/
theorem C8_inline_string_cut_at_nul :
    (esh_new_string 16 empty_state [97, 0, 98]).1 = 0 ∧
    (esh_as_string (esh_new_string 16 empty_state [97, 0, 98]).2 (-1)).1 =
      some ([97, 0, 98, 0, 0, 0, 0], 1) ∧
    (esh_as_string (esh_new_string 16 empty_state [97, 0, 98, 1, 2, 3, 4]).2 (-1)).1 =
      some ([97, 0, 98, 1, 2, 3, 4, 0], 7) := by
  decide

/-- C9 (code defect, evaluated at the failing input).  For `i = LLONG_MIN` the negation in
`int_to_str` wraps back to `LLONG_MIN`, the digit loop emits non-digit bytes after the sign,
and `esh_as_int` on the pushed string succeeds with 0 instead of `LLONG_MIN`. -/
theorem C9_llong_min_reads_back_zero :
    int_to_str (-9223372036854775808) =
      [45, 39, 46, 46, 45, 45, 41, 46, 48, 45, 42, 40, 43, 44, 41, 41, 43, 40, 48, 40] ∧
    (esh_push_int 16 empty_state (-9223372036854775808)).1 = 0 ∧
    (esh_as_int (esh_push_int 16 empty_state (-9223372036854775808)).2 (-1)).1 = some 0 := by
  decide

set_option maxRecDepth 100000 in
/-- C10 as stated fails when the digits denote a number outside the `long long` range:
`"9223372036854775808"` (2^63) is read as `-9223372036854775808`. -/
theorem C10_counterexample :
    ¬ (∀ (heap : Nat → Option heap_object) (val : esh_val) (mem : List Nat) (len : Nat),
        val_as_string heap val = some (mem, len) → mem[len]? = some 0 →
        val_as_int heap val = some (denoted_int (mem.take len))) := by
  intro h
  have := h (heap_store (fun _ => none) 16 ⟨some esh_type_ptr.string_type,
      ⟨true, 0, []⟩, 19,
      [57, 50, 50, 51, 51, 55, 50, 48, 51, 54, 56, 53, 52, 55, 55, 53, 56, 48, 56, 0]⟩) 16
    [57, 50, 50, 51, 51, 55, 50, 48, 51, 54, 56, 53, 52, 55, 55, 53, 56, 48, 56, 0] 19
    (by decide) (by decide)
  revert this
  decide

/-- C10 (amended). `val_as_int` fails exactly when the value is not readable as a string.
On a value readable as a NUL-terminated string `s` it succeeds and returns the integer denoted
by the longest prefix of `s` of the form optional `'-'` followed by decimal digits (0 when
there are no digits), reduced to the `long long` range by two's-complement wrap-around; so it
returns exactly that integer whenever it lies in `[-2^63, 2^63)`. -/
theorem C10_val_as_int (heap : Nat → Option heap_object) (val : esh_val) :
    (val_as_int heap val = none ↔ val_as_string heap val = none) ∧
    ∀ (mem : List Nat) (len : Nat), val_as_string heap val = some (mem, len) →
      mem[len]? = some 0 →
      val_as_int heap val = some (wrap64 (denoted_int (mem.take len))) ∧
      (-9223372036854775808 ≤ denoted_int (mem.take len) →
        denoted_int (mem.take len) < 9223372036854775808 →
        val_as_int heap val = some (denoted_int (mem.take len))) := by
  refine ⟨?_, ?_⟩
  · unfold val_as_int
    cases val_as_string heap val with
    | none => simp
    | some r => simp
  · intro mem len hs hnul
    have h := val_as_int_of_string hs hnul
    refine ⟨h, fun h1 h2 => ?_⟩
    rw [h, wrap64_of_range h1 h2]

theorem C10_val_as_int_witness : val_as_int sample_string_heap 16 = some (-42) :=
  ((C10_val_as_int sample_string_heap 16).2 [45, 52, 50, 97, 98, 99, 0] 6 (by decide)
    (by decide)).2 (by decide) (by decide)

theorem char_of_digit (n : Nat) : char_of_int (48 + (n : Int).tmod 10) = 48 + n % 10 := by
  unfold char_of_int
  rw [Int.tmod_eq_emod (by omega) (by omega)]
  omega

/-- The digit loop of `int_to_str` on a non-negative number with enough iterations left
writes the decimal digits of the number in front of what is already in the buffer. -/
theorem int_to_str_loop_nat (fuel : Nat) :
    ∀ (n : Nat) (acc : List Nat), n < 10 ^ fuel →
      ∃ ds, int_to_str_loop fuel (n : Int) acc = ds ++ acc ∧
        (∀ c ∈ ds, 48 ≤ c ∧ c ≤ 57) ∧
        (∀ init : Nat, ds.foldl (fun a c => 10 * a + (c - 48)) init =
          init * 10 ^ ds.length + n) ∧
        ds.length ≤ fuel ∧ (0 < n → ds ≠ []) := by
  induction fuel with
  | zero =>
    intro n acc hn
    have h0 : n = 0 := by simpa using hn
    subst h0
    exact ⟨[], rfl, by simp, by simp, by simp, by simp⟩
  | succ fuel ih =>
    intro n acc hn
    unfold int_to_str_loop
    by_cases h0 : (n : Int) = 0
    · rw [if_pos h0]
      have : n = 0 := by omega
      subst this
      exact ⟨[], rfl, by simp, by simp, by simp, by simp⟩
    · rw [if_neg h0, char_of_digit, Int.tdiv_eq_ediv (by omega) (by omega)]
      have hcast : (n : Int) / 10 = ((n / 10 : Nat) : Int) := by omega
      rw [hcast]
      have hlt : n / 10 < 10 ^ fuel := by
        rw [Nat.pow_succ] at hn
        omega
      obtain ⟨ds, h1, h2, h3, h4, _⟩ := ih (n / 10) ((48 + n % 10) :: acc) hlt
      refine ⟨ds ++ [48 + n % 10], by rw [h1]; simp, ?_, ?_, by simp; omega, by simp⟩
      · intro c hc
        rcases List.mem_append.mp hc with h | h
        · exact h2 c h
        · simp only [List.mem_singleton] at h
          omega
      · intro init
        rw [List.foldl_append, h3 init]
        simp only [List.foldl_cons, List.foldl_nil, List.length_append, List.length_singleton]
        have hsub : 48 + n % 10 - 48 = n % 10 := by omega
        rw [hsub, Nat.pow_succ]
        have hmul : init * (10 ^ ds.length * 10) = (init * 10 ^ ds.length) * 10 := by ring
        rw [hmul]
        generalize init * 10 ^ ds.length = x
        omega

theorem digits_takeWhile (ds rest : List Nat) (h : ∀ c ∈ ds, 48 ≤ c ∧ c ≤ 57) :
    (ds ++ 0 :: rest).takeWhile is_digit = ds ∧ ds.takeWhile is_digit = ds := by
  induction ds with
  | nil => simp [is_digit]
  | cons c tl ih =>
    have hc := h c (List.mem_cons_self _ _)
    have hd : is_digit c = true := by simp [is_digit, hc.1, hc.2]
    obtain ⟨i1, i2⟩ := ih (fun x hx => h x (List.mem_cons_of_mem _ hx))
    simp only [List.cons_append, List.takeWhile_cons, hd, if_true]
    rw [i1, i2]
    exact ⟨rfl, rfl⟩

/-- The decimal string of `int_to_str` denotes the integer, for every `long long` except
`LLONG_MIN`: its bytes are non-zero and below 256, and it is at most 20 bytes long. -/
theorem int_to_str_denotes (i : Int) (h1 : -9223372036854775808 < i)
    (h2 : i < 9223372036854775808) :
    denoted_int (int_to_str i) = i ∧ (∀ c ∈ int_to_str i, c ≠ 0 ∧ c < 256) ∧
      (int_to_str i).length ≤ 21 := by
  unfold int_to_str
  by_cases h0 : i = 0
  · rw [if_pos h0, h0]
    refine ⟨by decide, by simp, by simp⟩
  rw [if_neg h0]
  by_cases hneg : i < 0
  · -- negative: the sign, then the digits of `-i`
    simp only [hneg, decide_True, if_true]
    have hw : wrap64 (-i) = ((-i).toNat : Int) := by
      rw [wrap64_of_range (by omega) (by omega)]
      omega
    rw [hw]
    obtain ⟨ds, e1, e2, e3, e4, _⟩ := int_to_str_loop_nat 20 (-i).toNat []
      (by have : (-i).toNat < 9223372036854775808 := by omega
          omega)
    rw [e1, List.append_nil]
    refine ⟨?_, ?_, by simp; omega⟩
    · unfold denoted_int
      rw [if_pos (show (45 :: ds).head? = some 45 from rfl)]
      have hd : List.drop 1 (45 :: ds) = ds := rfl
      rw [hd, (digits_takeWhile ds [] e2).2]
      unfold decimal_value
      rw [e3 0]
      omega
    · intro c hc
      rcases List.mem_cons.mp hc with h | h
      · omega
      · have := e2 c h
        omega
  · -- positive: the digits of `i`
    simp only [hneg, decide_False, Bool.false_eq_true, if_false]
    have hi : i = (i.toNat : Int) := by omega
    rw [hi]
    obtain ⟨ds, e1, e2, e3, e4, e5⟩ := int_to_str_loop_nat 20 i.toNat []
      (by have : i.toNat < 9223372036854775808 := by omega
          omega)
    rw [e1, List.append_nil]
    refine ⟨?_, ?_, by omega⟩
    · unfold denoted_int
      have hhead : ¬ ds.head? = some 45 := by
        cases ds with
        | nil => simp
        | cons c tl =>
          have := e2 c (List.mem_cons_self _ _)
          simp only [List.head?_cons, Option.some.injEq]
          omega
      rw [if_neg hhead, (digits_takeWhile ds [] e2).2]
      unfold decimal_value
      rw [e3 0]
      omega
    · intro c hc
      have := e2 c hc
      omega

/-- Round trip of `esh_push_int` and `esh_as_int` for every `long long` except `LLONG_MIN`,
when the stack has room and the allocator returns an aligned block. -/
theorem push_int_roundtrip (p : Nat) (esh : esh_state) (i : Int)
    (h1 : -9223372036854775808 < i) (h2 : i < 9223372036854775808)
    (hroom : esh.stack_len < esh.stack_cap) (hbase : esh.stack_base ≤ esh.stack_len)
    (hp : p ≠ 0 ∧ p % 2 = 0) :
    ∃ esh1, esh_push_int p esh i = (0, esh1) ∧ esh_as_int esh1 (-1) = (some i, esh1) := by
  obtain ⟨d1, d2, _⟩ := int_to_str_denotes i h1 h2
  obtain ⟨esh1, kv, e1, e2, _, e4, _, _, e7, e8⟩ :=
    new_string_spec p esh (int_to_str i) hroom (fun c hc => (d2 c hc).2) (fun _ => hp)
  have hread : ∃ mem, val_as_string esh1.heap kv = some (mem, (int_to_str i).length) ∧
      mem.take (int_to_str i).length = int_to_str i ∧
      mem[(int_to_str i).length]? = some 0 := by
    by_cases hlen : (int_to_str i).length < 6
    · obtain ⟨_, _, hv⟩ := e7 hlen
      have hv1 := hv esh1.heap
      rw [c_strlen_of_no_nul _ (fun c hc => (d2 c hc).1)] at hv1
      refine ⟨_, hv1, by simp, ?_⟩
      have h7 : 7 - (int_to_str i).length = (6 - (int_to_str i).length) + 1 := by omega
      rw [h7, List.replicate_succ]
      exact getElem?_length_append_nul _ _
    · obtain ⟨_, hv⟩ := e8 (by omega)
      exact ⟨_, hv, by simp, getElem?_length_append_nul _ []⟩
  obtain ⟨mem, r1, r2, r3⟩ := hread
  have hint := val_as_int_of_string r1 r3
  rw [r2, d1, wrap64_of_range (by omega) h2] at hint
  exact ⟨esh1, e1, esh_as_int_top esh1 esh.stack kv e2 (by rw [e4]; exact hbase) i hint⟩

/-- What a lookup of the written key returns after a successful `esh_object_set`. -/
theorem get_set_self {obj : esh_object} (hw : wf obj) (hc : obj.is_const = false)
    (ae ak : Bool) (k : List Nat) (v : esh_val) {r : set_result}
    (h : esh_object_set ae ak obj k v = some r) (hret : r.ret = 0) :
    esh_object_get r.obj k = some (if v = ESH_NULL then none else some v) := by
  by_cases hv : v = ESH_NULL
  · rw [if_pos hv]
    subst hv
    rw [set_null_eq hc] at h
    cases h
    obtain ⟨d1, _, _, _, d5, _⟩ := delete_spec hw k
    exact (get_miss_iff d1 k).mpr d5
  · rw [if_neg hv]
    obtain ⟨h1, _, _, _, h5, _⟩ := set_spec hw hc ae ak k v hv r h
    exact (get_hit_iff h1 k v).mpr (h5 hret).1

theorem set_keeps_non_const {obj : esh_object} (hw : wf obj) (hc : obj.is_const = false)
    (ae ak : Bool) (k : List Nat) (v : esh_val) {r : set_result}
    (h : esh_object_set ae ak obj k v = some r) : r.obj.is_const = false := by
  by_cases hv : v = ESH_NULL
  · subst hv
    rw [set_null_eq hc] at h
    cases h
    rw [(delete_spec hw k).2.1]; exact hc
  · exact (set_spec hw hc ae ak k v hv r h).2.1

/-- The object left by a run of table writes that all succeed holds, for every key, the
value of the last write to it (nothing if that value was NULL) and is otherwise unchanged. -/
theorem set_pairs_get (alloc : Nat → Bool × Bool) (kvs : List (List Nat × esh_val)) :
    ∀ (i : Nat) (obj obj1 : esh_object), wf obj → obj.is_const = false →
      set_pairs alloc i obj kvs = some (0, obj1) →
      wf obj1 ∧ obj1.is_const = false ∧
      ∀ k, esh_object_get obj1 k =
        match last_value kvs k with
        | some v => some (if v = ESH_NULL then none else some v)
        | none => esh_object_get obj k := by
  induction kvs with
  | nil =>
    intro i obj obj1 hw hc h
    simp only [set_pairs, Option.some.injEq, Prod.mk.injEq, true_and] at h
    subst h
    exact ⟨hw, hc, fun k => rfl⟩
  | cons kv rest ih =>
    obtain ⟨k0, v0⟩ := kv
    intro i obj obj1 hw hc h
    simp only [set_pairs] at h
    cases hr : esh_object_set (alloc i).1 (alloc i).2 obj k0 v0 with
    | none => rw [hr] at h; cases h
    | some r =>
      rw [hr] at h
      simp only at h
      by_cases hret : r.ret ≠ 0
      · rw [if_pos hret] at h
        cases h
      · rw [if_neg hret] at h
        have hret0 : r.ret = 0 := by omega
        have hwr := set_wf hw _ _ k0 v0 hr
        have hcr := set_keeps_non_const hw hc _ _ k0 v0 hr
        obtain ⟨i1, i2, i3⟩ := ih (i + 1) r.obj obj1 hwr hcr h
        refine ⟨i1, i2, fun k => ?_⟩
        rw [i3 k]
        simp only [last_value]
        cases hl : last_value rest k with
        | some v => rfl
        | none =>
          simp only
          by_cases hk : k0 = k
          · subst hk
            rw [if_pos rfl]
            exact get_set_self hw hc _ _ k0 v0 hr hret0
          · rw [if_neg hk]
            exact set_frame hw _ _ k0 v0 hr k (fun h => hk h.symm)

/-- Under the invariant `len` is the number of keys a lookup finds. -/
theorem len_eq_card {obj : esh_object} (hw : wf obj) (keys : List (List Nat))
    (hnd : keys.Nodup)
    (hmem : ∀ k, k ∈ keys ↔ ∃ v, esh_object_get obj k = some (some v)) :
    obj.len = keys.length := by
  have hL : ((obj.entries.filter is_live).map (fun e => e.key)).Nodup := by
    rw [List.Nodup, List.pairwise_map]
    have hp := (live_keys_pairwise hw.2).filter is_live
    refine List.Pairwise.imp_of_mem ?_ hp
    intro a b ha hb hab
    exact hab (List.mem_filter.mp ha).2 (List.mem_filter.mp hb).2
  have hT : (keys.map some).Nodup := hnd.map (Option.some_injective _)
  have hperm : ((obj.entries.filter is_live).map (fun e => e.key)).Perm (keys.map some) := by
    rw [List.perm_ext_iff_of_nodup hL hT]
    intro x
    constructor
    · intro hx
      obtain ⟨e, he, hxe⟩ := List.mem_map.mp hx
      obtain ⟨hmemE, hlive⟩ := List.mem_filter.mp he
      obtain ⟨i, hi⟩ := List.mem_iff_getElem?.mp hmemE
      cases e with
      | mk key val deleted =>
        cases key with
        | none => simp [is_live] at hlive
        | some k =>
          have hd : deleted = false := by simpa [is_live] using hlive
          subst hd
          simp only at hxe
          rw [← hxe]
          apply List.mem_map.mpr
          exact ⟨k, (hmem k).mpr ⟨val, (get_hit_iff hw k val).mpr ⟨i, hi⟩⟩, rfl⟩
    · intro hx
      obtain ⟨k, hk, hxk⟩ := List.mem_map.mp hx
      obtain ⟨v, hv⟩ := (hmem k).mp hk
      obtain ⟨i, hi⟩ := (get_hit_iff hw k v).mp hv
      rw [← hxk]
      apply List.mem_map.mpr
      exact ⟨⟨some k, v, false⟩,
        List.mem_filter.mpr ⟨List.mem_iff_getElem?.mpr ⟨i, hi⟩, by simp [is_live]⟩, rfl⟩
  have hlen := hperm.length_eq
  rw [List.length_map, List.length_map] at hlen
  rw [hw.1, ← hlen]
  unfold live_count
  rw [List.countP_eq_length_filter]

theorem literal_entry_mem {kvs : List (List Nat × esh_val)} {k : List Nat}
    (h : (last_value kvs k).isSome) : k ∈ kvs.map Prod.fst := by
  induction kvs with
  | nil => simp [last_value] at h
  | cons kv rest ih =>
    obtain ⟨k0, v0⟩ := kv
    simp only [last_value] at h
    cases hl : last_value rest k with
    | some v =>
      simp only [List.map_cons, List.mem_cons]
      exact Or.inr (ih (by rw [hl]; rfl))
    | none =>
      rw [hl] at h
      simp only at h
      by_cases hk : k0 = k
      · simp [hk]
      · rw [if_neg hk] at h; cases h

theorem last_value_of_mem {kvs : List (List Nat × esh_val)} {k : List Nat}
    (h : k ∈ kvs.map Prod.fst) : ∃ v, last_value kvs k = some v ∧ (k, v) ∈ kvs := by
  induction kvs with
  | nil => simp at h
  | cons kv rest ih =>
    obtain ⟨k0, v0⟩ := kv
    simp only [last_value]
    cases hl : last_value rest k with
    | some v =>
      have hin : k ∈ rest.map Prod.fst := literal_entry_mem (by rw [hl]; rfl)
      obtain ⟨v1, h1, h2⟩ := ih hin
      rw [hl] at h1
      cases h1
      exact ⟨v, rfl, List.mem_cons_of_mem _ h2⟩
    | none =>
      simp only
      simp only [List.map_cons, List.mem_cons] at h
      rcases h with h | h
      · subst h
        exact ⟨v0, by rw [if_pos rfl], List.mem_cons_self _ _⟩
      · obtain ⟨v1, h1, _⟩ := ih h
        rw [hl] at h1; cases h1

/-- The object built by a run of successful table writes from the empty table. -/
theorem set_pairs_from_empty (alloc : Nat → Bool × Bool) (kvs : List (List Nat × esh_val))
    (i : Nat) (obj1 : esh_object)
    (h : set_pairs alloc i esh_object_init_entries kvs = some (0, obj1)) :
    wf obj1 ∧ obj1.is_const = false ∧
    (∀ k, esh_object_get obj1 k = some (literal_entry kvs k)) ∧
    obj1.len = ((kvs.map Prod.fst).dedup.filter
      (fun k => (literal_entry kvs k).isSome)).length := by
  obtain ⟨h1, h2, h3⟩ := set_pairs_get alloc kvs i _ obj1 wf_init rfl h
  have hget : ∀ k, esh_object_get obj1 k = some (literal_entry kvs k) := by
    intro k
    rw [h3 k]
    unfold literal_entry
    cases last_value kvs k with
    | none => rfl
    | some v => rfl
  refine ⟨h1, h2, hget, ?_⟩
  apply len_eq_card h1
  · exact (List.nodup_dedup _).filter _
  · intro k
    rw [List.mem_filter, List.mem_dedup, hget k]
    constructor
    · rintro ⟨_, hs⟩
      cases hl : literal_entry kvs k with
      | none => rw [hl] at hs; cases hs
      | some v => exact ⟨v, rfl⟩
    · rintro ⟨v, hv⟩
      have hl : literal_entry kvs k = some v := Option.some.inj hv
      refine ⟨?_, by rw [hl]; rfl⟩
      apply literal_entry_mem
      unfold literal_entry at hl
      cases hlv : last_value kvs k with
      | none => rw [hlv] at hl; cases hl
      | some w => rfl

/-- With no NULL value among the pairs every key of the list is held, with the value of its
last pair, and `len` is the number of distinct keys. -/
theorem literal_entry_non_null {kvs : List (List Nat × esh_val)}
    (hv : ∀ kv ∈ kvs, kv.2 ≠ ESH_NULL) (k : List Nat) :
    literal_entry kvs k = last_value kvs k ∧
    (k ∈ kvs.map Prod.fst → (literal_entry kvs k).isSome) := by
  refine ⟨?_, ?_⟩
  · unfold literal_entry
    cases hl : last_value kvs k with
    | none => rfl
    | some v =>
      simp only
      have hk : k ∈ kvs.map Prod.fst := literal_entry_mem (by rw [hl]; rfl)
      obtain ⟨v1, h1, h2⟩ := last_value_of_mem hk
      rw [hl] at h1
      cases h1
      rw [if_neg (hv (k, v) h2)]
  · intro hk
    obtain ⟨v1, h1, h2⟩ := last_value_of_mem hk
    unfold literal_entry
    rw [h1]
    simp only
    rw [if_neg (hv (k, v1) h2)]
    rfl

theorem distinct_count_non_null {kvs : List (List Nat × esh_val)}
    (hv : ∀ kv ∈ kvs, kv.2 ≠ ESH_NULL) :
    ((kvs.map Prod.fst).dedup.filter (fun k => (literal_entry kvs k).isSome)).length =
      (kvs.map Prod.fst).dedup.length := by
  congr 1
  rw [List.filter_eq_self]
  intro k hk
  exact (literal_entry_non_null hv k).2 (List.mem_dedup.mp hk)

theorem entry_at_mem {entries : List esh_object_entry} {i : Nat} (hi : i < entries.length) :
    entry_at entries i ∈ entries :=
  List.mem_iff_getElem?.mpr ⟨i, getElem?_entry_at hi⟩

/-- The slot-writing part creates no tombstone. -/
theorem set_slot_clean {obj : esh_object} (hcl : ∀ e ∈ obj.entries, e.deleted = false)
    (ak : Bool) (k : List Nat) (v : esh_val) {r : set_result}
    (h : set_slot ak obj k v = some r) : ∀ e ∈ r.obj.entries, e.deleted = false := by
  unfold set_slot at h
  by_cases hlt : obj.len < obj.cap
  swap
  · simp [hlt] at h
  simp only [hlt, not_true_eq_false, if_false] at h
  cases hf : object_find obj.entries k with
  | none => simp [hf] at h
  | some i =>
    simp only [hf] at h
    obtain ⟨hi, _, _⟩ := object_find_eq_some.mp hf
    by_cases hkey : (entry_at obj.entries i).key ≠ none
    · rw [if_pos hkey] at h
      cases h
      intro e he
      rcases List.mem_or_eq_of_mem_set he with h1 | h1
      · exact hcl e h1
      · rw [h1]
    · rw [if_neg hkey] at h
      by_cases hak : ak = false
      · rw [if_pos hak] at h
        cases h
        exact hcl
      · rw [if_neg hak] at h
        cases h
        intro e he
        rcases List.mem_or_eq_of_mem_set he with h1 | h1
        · exact hcl e h1
        · rw [h1]
          exact hcl (entry_at obj.entries i) (entry_at_mem hi)

/-- Writing a non-NULL value creates no tombstone. -/
theorem set_clean {obj : esh_object} (hw : wf obj)
    (hcl : ∀ e ∈ obj.entries, e.deleted = false) (ae ak : Bool) (k : List Nat) (v : esh_val)
    (hv : v ≠ ESH_NULL) {r : set_result} (h : esh_object_set ae ak obj k v = some r) :
    ∀ e ∈ r.obj.entries, e.deleted = false := by
  unfold esh_object_set at h
  by_cases hc : obj.is_const = true
  · rw [if_pos hc] at h; cases h; exact hcl
  rw [if_neg hc, if_neg hv] at h
  by_cases hgrow : obj.len ≥ GROW_THRESHOLD obj.cap
  · rw [if_pos hgrow] at h
    by_cases hae : ae = false
    · rw [if_pos hae] at h; cases h; exact hcl
    · rw [if_neg hae] at h
      obtain ⟨grown, hg1, _, _, hg4, _⟩ := grow_spec hw
      rw [hg1] at h
      exact @set_slot_clean { obj with entries := grown } hg4 ak k v r h
  · rw [if_neg hgrow] at h
    exact set_slot_clean hcl ak k v h

/-- On a table without tombstones `esh_object_set` always returns. -/
theorem set_returns_of_clean {obj : esh_object} (hw : wf obj)
    (hcl : ∀ e ∈ obj.entries, e.deleted = false) (ae ak : Bool) (k : List Nat) (v : esh_val) :
    ∃ r, esh_object_set ae ak obj k v = some r := by
  unfold esh_object_set
  by_cases hc : obj.is_const = true
  · rw [if_pos hc]; exact ⟨_, rfl⟩
  rw [if_neg hc]
  by_cases hv : v = ESH_NULL
  · rw [if_pos hv]; exact ⟨_, rfl⟩
  rw [if_neg hv]
  have hle := live_count_le obj.entries
  have hlen := hw.1
  by_cases hgrow : obj.len ≥ GROW_THRESHOLD obj.cap
  · rw [if_pos hgrow]
    by_cases hae : ae = false
    · rw [if_pos hae]; exact ⟨_, rfl⟩
    · rw [if_neg hae]
      obtain ⟨grown, hg1, hg2, hg3, hg4, _⟩ := grow_spec hw
      rw [hg1]
      have hroom : obj.len < grown.length := by
        rw [hg3]; unfold GROW_FACTOR esh_object.cap; omega
      have hlc : live_count grown = obj.len := hg2.1.symm
      obtain ⟨m, e, hm, hk⟩ := exists_empty_slot hg4 (by rw [hlc]; exact hroom)
      exact @set_slot_returns { obj with entries := grown } hroom ak k v
        ⟨m, e, hm, key_hit_of_none hk k⟩
  · rw [if_neg hgrow]
    have hlt : obj.len < obj.cap := by
      unfold GROW_THRESHOLD at hgrow
      omega
    obtain ⟨m, e, hm, hk⟩ := exists_empty_slot hcl (by rw [← hlen]; exact hlt)
    exact set_slot_returns hlt ak k v ⟨m, e, hm, key_hit_of_none hk k⟩

/-- A run of table writes with non-NULL values on a table without tombstones, with the
allocator answering every request, succeeds. -/
theorem set_pairs_total (kvs : List (List Nat × esh_val)) :
    ∀ (i : Nat) (obj : esh_object), wf obj → obj.is_const = false →
      (∀ e ∈ obj.entries, e.deleted = false) → (∀ kv ∈ kvs, kv.2 ≠ ESH_NULL) →
      ∃ obj1, set_pairs (fun _ => (true, true)) i obj kvs = some (0, obj1) := by
  induction kvs with
  | nil => intro i obj _ _ _ _; exact ⟨obj, rfl⟩
  | cons kv rest ih =>
    obtain ⟨k0, v0⟩ := kv
    intro i obj hw hc hcl hv
    obtain ⟨r, hr⟩ := set_returns_of_clean hw hcl true true k0 v0
    have hv0 : v0 ≠ ESH_NULL := hv (k0, v0) (List.mem_cons_self _ _)
    have hret := set_ret_zero hc hr
    obtain ⟨obj1, h1⟩ := ih (i + 1) r.obj (set_wf hw _ _ k0 v0 hr)
      (set_keeps_non_const hw hc _ _ k0 v0 hr) (set_clean hw hcl _ _ k0 v0 hv0 hr)
      (fun kv hkv => hv kv (List.mem_cons_of_mem _ hkv))
    refine ⟨obj1, ?_⟩
    simp only [set_pairs]
    rw [hr]
    simp only
    rw [if_neg (by omega)]
    exact h1

theorem flat_pairs_append (a b : List (esh_val × esh_val)) :
    flat_pairs (a ++ b) = flat_pairs a ++ flat_pairs b := by
  induction a with
  | nil => rfl
  | cons x rest ih =>
    obtain ⟨k, v⟩ := x
    show k :: v :: flat_pairs (rest ++ b) = k :: v :: (flat_pairs rest ++ flat_pairs b)
    rw [ih]

theorem flat_pairs_length (a : List (esh_val × esh_val)) :
    (flat_pairs a).length = a.length * 2 := by
  induction a with
  | nil => rfl
  | cons x rest ih =>
    obtain ⟨k, v⟩ := x
    simp only [flat_pairs, List.length_cons, ih]
    omega

/-- A string read in a heap is read the same in a heap that differs at an address that was
free. -/
theorem val_as_string_agree {heap0 heap1 : Nat → Option heap_object} {p : Nat}
    (hfree : heap0 p = none) (hagree : ∀ a, a ≠ p → heap1 a = heap0 a) {kv : esh_val}
    {r : List Nat × Nat} (h : val_as_string heap0 kv = some r) :
    val_as_string heap1 kv = some r := by
  unfold val_as_string at h ⊢
  by_cases hodd : kv % 2 = 1
  · rw [if_pos hodd] at h ⊢
    exact h
  · rw [if_neg hodd] at h ⊢
    have hobj : val_as_object heap1 kv (some esh_type_ptr.string_type) =
        val_as_object heap0 kv (some esh_type_ptr.string_type) := by
      unfold val_as_object
      by_cases h0 : kv = ESH_NULL
      · rw [if_pos h0, if_pos h0]
      · rw [if_neg h0, if_neg h0, if_neg hodd, if_neg hodd]
        by_cases hp : kv = p
        · exfalso
          have hnone : val_as_object heap0 kv (some esh_type_ptr.string_type) = none := by
            unfold val_as_object
            rw [if_neg h0, if_neg hodd, hp, hfree]
          rw [hnone] at h
          cases h
        · rw [hagree kv hp]
    rw [hobj]
    exact h

theorem stack_at_pair (esh : esh_state) (below : List esh_val)
    (done rest : List (esh_val × esh_val)) (kw v p : esh_val)
    (hst : esh.stack = below ++ flat_pairs (done ++ (kw, v) :: rest) ++ [p]) :
    esh.stack_len - ((done ++ (kw, v) :: rest).length - done.length) * 2 - 1 =
      below.length + done.length * 2 ∧
    stack_at esh (below.length + done.length * 2) = kw ∧
    stack_at esh (below.length + done.length * 2 + 1) = v := by
  have hsplit : esh.stack =
      (below ++ flat_pairs done) ++ (kw :: v :: (flat_pairs rest ++ [p])) := by
    rw [hst, flat_pairs_append]
    simp [flat_pairs]
  have hpre : (below ++ flat_pairs done).length = below.length + done.length * 2 := by
    rw [List.length_append, flat_pairs_length]
  refine ⟨?_, ?_, ?_⟩
  · unfold esh_state.stack_len
    rw [hst]
    simp only [List.length_append, flat_pairs_length, List.length_cons, List.length_nil]
    omega
  · unfold stack_at
    rw [hsplit, ← hpre, List.getD_eq_getElem?_getD, List.getElem?_append_right (le_refl _)]
    simp
  · unfold stack_at
    rw [hsplit, ← hpre, List.getD_eq_getElem?_getD,
      List.getElem?_append_right (Nat.le_add_right _ _)]
    simp

theorem read_pairs_cons {heap : Nat → Option heap_object} {kw v : esh_val}
    {rest : List (esh_val × esh_val)} {kvs : List (List Nat × esh_val)}
    (h : read_pairs heap ((kw, v) :: rest) = some kvs) :
    ∃ mem len kvs1, val_as_string heap kw = some (mem, len) ∧
      read_pairs heap rest = some kvs1 ∧ kvs = (mem.take len, v) :: kvs1 := by
  simp only [read_pairs] at h
  cases hs : val_as_string heap kw with
  | none => rw [hs] at h; simp at h
  | some r =>
    obtain ⟨mem, len⟩ := r
    cases hr : read_pairs heap rest with
    | none => rw [hs, hr] at h; simp at h
    | some kvs1 =>
      rw [hs, hr] at h
      simp only [Option.some.injEq] at h
      exact ⟨mem, len, kvs1, rfl, rfl, h.symm⟩

theorem read_pairs_length {heap : Nat → Option heap_object} :
    ∀ {pairs : List (esh_val × esh_val)} {kvs : List (List Nat × esh_val)},
      read_pairs heap pairs = some kvs → kvs.length = pairs.length := by
  intro pairs
  induction pairs with
  | nil =>
    intro kvs h
    simp only [read_pairs, Option.some.injEq] at h
    subst h
    rfl
  | cons x rest ih =>
    obtain ⟨kw, v⟩ := x
    intro kvs h
    obtain ⟨mem, len, kvs1, _, h2, h3⟩ := read_pairs_cons h
    rw [h3, List.length_cons, List.length_cons, ih h2]

/-- The loop of `esh_object_of` performs on the new object exactly the run of table writes
`set_pairs`, and touches nothing else but the error message. -/
theorem object_of_loop_spec (alloc : Nat → Bool × Bool) (p : Nat)
    (heap0 : Nat → Option heap_object) (hfree : heap0 p = none) (below : List esh_val) :
    ∀ (rest done : List (esh_val × esh_val)) (kvs : List (List Nat × esh_val))
      (esh : esh_state) (o : heap_object),
      esh.stack = below ++ flat_pairs (done ++ rest) ++ [p] →
      (∀ a, a ≠ p → esh.heap a = heap0 a) →
      esh.heap p = some o →
      read_pairs heap0 rest = some kvs →
      (set_pairs alloc done.length o.obj kvs = none →
        object_of_loop alloc p (done ++ rest).length rest.length done.length esh = none) ∧
      (∀ c obj1, set_pairs alloc done.length o.obj kvs = some (c, obj1) →
        ∃ esh1, object_of_loop alloc p (done ++ rest).length rest.length done.length esh =
            some (c, esh1) ∧
          esh1.stack = esh.stack ∧ esh1.stack_cap = esh.stack_cap ∧
          esh1.stack_base = esh.stack_base ∧ (∀ a, a ≠ p → esh1.heap a = heap0 a) ∧
          esh1.heap p = some { o with obj := obj1 }) := by
  intro rest
  induction rest with
  | nil =>
    intro done kvs esh o hst hag hp hr
    simp only [read_pairs, Option.some.injEq] at hr
    subst hr
    refine ⟨fun h => by simp [set_pairs] at h, fun c obj1 h => ?_⟩
    simp only [set_pairs, Option.some.injEq, Prod.mk.injEq] at h
    obtain ⟨rfl, rfl⟩ := h
    exact ⟨esh, rfl, rfl, rfl, rfl, hag, hp⟩
  | cons x rest ih =>
    obtain ⟨kw, v⟩ := x
    intro done kvs esh o hst hag hp hr
    obtain ⟨mem, len, kvs1, hs, hr1, hk⟩ := read_pairs_cons hr
    subst hk
    obtain ⟨hidx, hkey, hval⟩ := stack_at_pair esh below done rest kw v p hst
    have hs1 := val_as_string_agree hfree hag hs
    cases hset : esh_object_set (alloc done.length).1 (alloc done.length).2 o.obj
        (mem.take len) v with
    | none =>
      have hloop : object_of_loop alloc p (done ++ (kw, v) :: rest).length
          ((kw, v) :: rest).length done.length esh = none := by
        rw [List.length_cons, object_of_loop]
        simp only [hidx, hkey, hs1, hval, hp, hset]
      have hsp : set_pairs alloc done.length o.obj ((mem.take len, v) :: kvs1) = none := by
        simp only [set_pairs, hset]
      rw [hloop, hsp]
      exact ⟨fun _ => rfl, fun c obj1 h => by cases h⟩
    | some r =>
      by_cases hret : r.ret ≠ 0
      · have hloop : object_of_loop alloc p (done ++ (kw, v) :: rest).length
            ((kw, v) :: rest).length done.length esh =
            some (1, esh_err_printf { esh with
              heap := heap_store esh.heap p { o with obj := r.obj },
              err := if r.err.isSome then r.err else esh.err }
              "Unable to add entry to object literal (out of memory?)") := by
          rw [List.length_cons, object_of_loop]
          simp only [hidx, hkey, hs1, hval, hp, hset]
          rw [if_pos hret]
        have hsp : set_pairs alloc done.length o.obj ((mem.take len, v) :: kvs1) =
            some (1, r.obj) := by
          simp only [set_pairs, hset]
          rw [if_pos hret]
        rw [hloop, hsp]
        refine ⟨fun h => (by cases h), fun c obj1 h => ?_⟩
        simp only [Option.some.injEq, Prod.mk.injEq] at h
        obtain ⟨rfl, rfl⟩ := h
        refine ⟨_, rfl, rfl, rfl, rfl, ?_, ?_⟩
        · intro a ha
          simp only [esh_err_printf, heap_store, if_neg ha]
          exact hag a ha
        · simp [esh_err_printf, heap_store]
      · have hloop : object_of_loop alloc p (done ++ (kw, v) :: rest).length
            ((kw, v) :: rest).length done.length esh =
            object_of_loop alloc p (done ++ (kw, v) :: rest).length rest.length
              (done.length + 1) { esh with
                heap := heap_store esh.heap p { o with obj := r.obj },
                err := if r.err.isSome then r.err else esh.err } := by
          rw [List.length_cons, object_of_loop]
          simp only [hidx, hkey, hs1, hval, hp, hset]
          rw [if_neg hret]
        have hsp : set_pairs alloc done.length o.obj ((mem.take len, v) :: kvs1) =
            set_pairs alloc (done.length + 1) r.obj kvs1 := by
          simp only [set_pairs, hset]
          rw [if_neg hret]
        rw [hloop, hsp]
        have hst2 : ({ esh with
              heap := heap_store esh.heap p { o with obj := r.obj },
              err := if r.err.isSome then r.err else esh.err } : esh_state).stack =
            below ++ flat_pairs ((done ++ [(kw, v)]) ++ rest) ++ [p] := by
          rw [List.append_assoc done]
          exact hst
        have hih := ih (done ++ [(kw, v)]) kvs1 _ { o with obj := r.obj } hst2
          (fun a ha => by simp only [heap_store, if_neg ha]; exact hag a ha)
          (by simp [heap_store]) hr1
        have hlen : (done ++ [(kw, v)]).length = done.length + 1 := by simp
        have happ : (done ++ [(kw, v)]) ++ rest = done ++ (kw, v) :: rest := by simp
        rw [hlen, happ] at hih
        exact hih

theorem stack_push_ne {esh : esh_state} (hroom : esh.stack_len ≠ esh.stack_cap) (v : esh_val) :
    stack_push esh v = (0, { esh with stack := esh.stack ++ [v] }) := by
  unfold stack_push
  rw [if_neg hroom]

theorem new_object_ok (p : Nat) (esh : esh_state) (type : Option esh_type_ptr)
    (hroom : esh.stack_len ≠ esh.stack_cap) (hp : p ≠ 0) :
    esh_new_object p esh type =
      (some ⟨type, esh_object_init_entries, 0, []⟩,
        { esh with stack := esh.stack ++ [p],
                   heap := heap_store esh.heap p ⟨type, esh_object_init_entries, 0, []⟩ }) := by
  unfold esh_new_object
  rw [stack_push_ne hroom]
  simp only
  unfold alloc_object
  rw [if_neg hp]
  simp [esh_state.stack_len]

theorem new_object_fail (p : Nat) (esh : esh_state) (type : Option esh_type_ptr)
    (h : esh.stack_len = esh.stack_cap ∨ p = 0) :
    (esh_new_object p esh type).1 = none := by
  unfold esh_new_object
  by_cases hroom : esh.stack_len = esh.stack_cap
  · unfold stack_push
    rw [if_pos hroom]
  · rw [stack_push_ne hroom]
    simp only
    unfold alloc_object
    rcases h with h | h
    · exact absurd h hroom
    · rw [if_pos h]

/-- The stack `esh_object_of` leaves: the `2 n` slots of the pairs replaced by the object. -/
theorem object_of_final_stack (below : List esh_val) (pairs : List (esh_val × esh_val))
    (p : esh_val) :
    ((below ++ flat_pairs pairs ++ [p]).take
        ((below ++ flat_pairs pairs ++ [p]).length - pairs.length * 2)).set
      (((below ++ flat_pairs pairs ++ [p]).take
        ((below ++ flat_pairs pairs ++ [p]).length - pairs.length * 2)).length - 1)
      ((below ++ flat_pairs pairs ++ [p]).getD
        ((below ++ flat_pairs pairs ++ [p]).length - 1) ESH_NULL) = below ++ [p] := by
  have hlen : (below ++ flat_pairs pairs ++ [p]).length = below.length + pairs.length * 2 + 1 := by
    simp only [List.length_append, flat_pairs_length, List.length_singleton]
  have htop : (below ++ flat_pairs pairs ++ [p]).getD
      ((below ++ flat_pairs pairs ++ [p]).length - 1) ESH_NULL = p := by
    rw [hlen, List.getD_eq_getElem?_getD]
    have : (below ++ flat_pairs pairs).length = below.length + pairs.length * 2 := by
      simp only [List.length_append, flat_pairs_length]
    rw [show below.length + pairs.length * 2 + 1 - 1 = (below ++ flat_pairs pairs).length by
      rw [this]; omega]
    rw [List.getElem?_append_right (le_refl _)]
    simp
  rw [htop, hlen]
  have hk : below.length + pairs.length * 2 + 1 - pairs.length * 2 = below.length + 1 := by omega
  rw [hk, List.append_assoc, List.take_append_eq_append_take]
  have h1 : List.take (below.length + 1) below = below := List.take_of_length_le (by omega)
  have h2 : below.length + 1 - below.length = 1 := by omega
  rw [h1, h2]
  have h3 : ∃ x, List.take 1 (flat_pairs pairs ++ [p]) = [x] := by
    cases hfl : flat_pairs pairs ++ [p] with
    | nil => simp at hfl
    | cons x rest => exact ⟨x, rfl⟩
  obtain ⟨x, hx⟩ := h3
  rw [hx]
  simp

/-- The function `esh_object_of`, once the object is allocated, is the run of table writes
`set_pairs` on the new object followed by the replacement of the pairs by the object. -/
theorem object_of_spec (alloc : Nat → Bool × Bool) (p : Nat) (esh : esh_state)
    (below : List esh_val) (pairs : List (esh_val × esh_val))
    (kvs : List (List Nat × esh_val))
    (hst : esh.stack = below ++ flat_pairs pairs) (hbase : esh.stack_base ≤ below.length)
    (hkeys : read_pairs esh.heap pairs = some kvs) (hfresh : esh.heap p = none)
    (hroom : esh.stack_len ≠ esh.stack_cap) (hp : p ≠ 0) :
    (set_pairs alloc 0 esh_object_init_entries kvs = none →
      esh_object_of alloc p esh pairs.length = none) ∧
    (∀ c obj1, set_pairs alloc 0 esh_object_init_entries kvs = some (c, obj1) →
      ∃ esh1, esh_object_of alloc p esh pairs.length = some (c, esh1) ∧
        (∀ a, a ≠ p → esh1.heap a = esh.heap a) ∧
        esh1.heap p = some ⟨none, obj1, 0, []⟩ ∧
        (c = 0 → esh1.stack = below ++ [p])) := by
  have hlen : esh.stack_len = below.length + pairs.length * 2 := by
    unfold esh_state.stack_len
    rw [hst, List.length_append, flat_pairs_length]
  have hhead : esh_object_of alloc p esh pairs.length =
      object_of_finish pairs.length (object_of_loop alloc p pairs.length pairs.length 0
        { esh with stack := esh.stack ++ [p],
                   heap := heap_store esh.heap p ⟨none, esh_object_init_entries, 0, []⟩ }) := by
    unfold esh_object_of
    rw [if_neg (by omega), if_neg (by unfold stack_size; omega), new_object_ok p esh none hroom hp]
  have hspec := object_of_loop_spec alloc p esh.heap hfresh below pairs [] kvs
    { esh with stack := esh.stack ++ [p],
               heap := heap_store esh.heap p ⟨none, esh_object_init_entries, 0, []⟩ }
    ⟨none, esh_object_init_entries, 0, []⟩
    (by simp [hst])
    (fun a ha => by simp only [heap_store, if_neg ha])
    (by simp [heap_store]) hkeys
  simp only [List.nil_append, List.length_nil] at hspec
  obtain ⟨s1, s2⟩ := hspec
  refine ⟨fun h => ?_, fun c obj1 h => ?_⟩
  · rw [hhead, s1 h]
    rfl
  · obtain ⟨esh2, e1, e2, _, _, e5, e6⟩ := s2 c obj1 h
    rw [hhead, e1]
    cases c with
    | zero =>
      refine ⟨_, rfl, e5, e6, fun _ => ?_⟩
      have hs2 : esh2.stack = below ++ flat_pairs pairs ++ [p] := by
        rw [e2]; simp [hst]
      show List.set (esh2.stack.take (esh2.stack_len - pairs.length * 2))
          ((esh2.stack.take (esh2.stack_len - pairs.length * 2)).length - 1)
          (stack_at esh2 (esh2.stack_len - 1)) = below ++ [p]
      unfold stack_at esh_state.stack_len
      rw [hs2]
      exact object_of_final_stack below pairs p
    | succ m =>
      exact ⟨esh2, rfl, e5, e6, fun h0 => by cases h0⟩

/-- When the stack is full or the allocator returns NULL `esh_object_of` fails with code 1. -/
theorem object_of_no_memory (alloc : Nat → Bool × Bool) (p : Nat) (esh : esh_state) (n : Nat)
    (h : esh.stack_len = esh.stack_cap ∨ p = 0) (r : Nat × esh_state)
    (hr : esh_object_of alloc p esh n = some r) : r.1 = 1 := by
  unfold esh_object_of at hr
  by_cases h1 : esh.stack_len < esh.stack_base
  · rw [if_pos h1] at hr; cases hr
  rw [if_neg h1] at hr
  by_cases h2 : stack_size esh < n * 2
  · rw [if_pos h2] at hr; cases hr; rfl
  rw [if_neg h2] at hr
  have hf := new_object_fail p esh none h
  cases hn : esh_new_object p esh none with
  | mk o esh1 =>
    rw [hn] at hf hr
    simp only at hf
    subst hf
    simp only at hr
    cases hr
    rfl

/-- Writing to a key that is present never increases `len`. -/
theorem set_present_len_le {obj : esh_object} (hw : wf obj) (k : List Nat) (v : esh_val)
    (ae ak : Bool) {r : set_result} (hpres : ∃ w, esh_object_get obj k = some (some w))
    (h : esh_object_set ae ak obj k v = some r) : r.obj.len ≤ obj.len := by
  obtain ⟨w, hget⟩ := hpres
  have hlive : ∃ w, live_at obj.entries k w := ⟨w, (get_hit_iff hw k w).mp hget⟩
  by_cases hc : obj.is_const = true
  · rw [set_of_const hc] at h
    cases h
    exact le_refl _
  have hnc : obj.is_const = false := by simpa using hc
  by_cases hv : v = ESH_NULL
  · subst hv
    rw [set_null_eq hnc] at h
    cases h
    have := ((delete_spec hw k).2.2.2.2.2.1 hlive).2
    show (esh_object_delete_entry obj k).2.len ≤ obj.len
    omega
  · obtain ⟨_, _, _, _, s5, s6⟩ := set_spec hw hnc ae ak k v hv r h
    by_cases hret : r.ret = 0
    · exact le_of_eq ((s5 hret).2.1 hlive)
    · exact le_of_eq (s6 hret).2.1

/-- C5 as stated fails for a pair whose value is NULL: for the single pair `"a"`, NULL the
call succeeds and leaves an object with `len == 0`, not 1, that has no entry for `"a"`. -/
theorem C5_counterexample :
    ¬ (∀ (alloc : Nat → Bool × Bool) (p : Nat) (esh : esh_state) (below : List esh_val)
        (pairs : List (esh_val × esh_val)) (kvs : List (List Nat × esh_val))
        (r : Nat × esh_state) (o : heap_object),
        esh.stack = below ++ flat_pairs pairs → esh.stack_base ≤ below.length →
        read_pairs esh.heap pairs = some kvs → esh.heap p = none →
        esh_object_of alloc p esh pairs.length = some r → r.1 = 0 →
        r.2.heap p = some o → (kvs.map Prod.fst).Nodup → o.obj.len = pairs.length) := by
  intro h
  have hmap : (esh_object_of (fun _ => (true, true)) 16 null_pair_state 1).map
      (fun r => (r.1, r.2.heap 16)) =
      some (0, some ⟨none, ⟨false, 0, []⟩, 0, []⟩) := by decide
  obtain ⟨r, hr, hf⟩ := Option.map_eq_some'.mp hmap
  have h1 : r.1 = 0 := congrArg Prod.fst hf
  have h2 : r.2.heap 16 = some ⟨none, ⟨false, 0, []⟩, 0, []⟩ := congrArg Prod.snd hf
  have := h (fun _ => (true, true)) 16 null_pair_state [] [(24833, 0)] [([97], 0)] r
    ⟨none, ⟨false, 0, []⟩, 0, []⟩ rfl (by decide) (by decide) rfl hr h1 h2 (by decide)
  revert this
  decide

/-- C5 (amended). For `n` key/value pairs on top of the stack whose keys read as strings, a
successful `esh_object_of(n)` replaces the `2 n` slots by one new object that holds, for each
key, the value of the key's last pair if that value is non-NULL and no entry if it is NULL,
so that `len` is the number of distinct keys whose last value is non-NULL.  When no value is
NULL the object maps every key to the value of its last pair, `len` is the number of distinct
keys (`n` when the keys are distinct), and the call does succeed if the stack has room for one
more slot and the allocator answers every request.  Writing to a key that is present never
increases `len`. -/
theorem C5_object_of (alloc : Nat → Bool × Bool) (p : Nat) (esh : esh_state)
    (below : List esh_val) (pairs : List (esh_val × esh_val))
    (kvs : List (List Nat × esh_val))
    (hst : esh.stack = below ++ flat_pairs pairs) (hbase : esh.stack_base ≤ below.length)
    (hkeys : read_pairs esh.heap pairs = some kvs) (hfresh : esh.heap p = none) :
    (∀ esh1, esh_object_of alloc p esh pairs.length = some (0, esh1) →
      esh1.stack = below ++ [p] ∧ (∀ a, a ≠ p → esh1.heap a = esh.heap a) ∧
      ∃ o, esh1.heap p = some o ∧ o.type = none ∧ wf o.obj ∧
        (∀ k, esh_object_get o.obj k = some (literal_entry kvs k)) ∧
        o.obj.len = ((kvs.map Prod.fst).dedup.filter
          (fun k => (literal_entry kvs k).isSome)).length ∧
        ((∀ kv ∈ kvs, kv.2 ≠ ESH_NULL) →
          (∀ k, esh_object_get o.obj k = some (last_value kvs k)) ∧
          o.obj.len = (kvs.map Prod.fst).dedup.length ∧
          ((kvs.map Prod.fst).Nodup → o.obj.len = pairs.length))) ∧
    (p ≠ 0 → esh.stack_len ≠ esh.stack_cap → (∀ kv ∈ kvs, kv.2 ≠ ESH_NULL) →
      ∃ esh1, esh_object_of (fun _ => (true, true)) p esh pairs.length = some (0, esh1)) ∧
    (∀ (obj : esh_object) (k : List Nat) (v : esh_val) (ae ak : Bool) (r : set_result),
      wf obj → (∃ w, esh_object_get obj k = some (some w)) →
      esh_object_set ae ak obj k v = some r → r.obj.len ≤ obj.len) := by
  refine ⟨fun esh1 h => ?_, fun hp hroom hv => ?_, fun obj k v ae ak r hw hpres h =>
    set_present_len_le hw k v ae ak hpres h⟩
  · by_cases hmem : esh.stack_len = esh.stack_cap ∨ p = 0
    · have := object_of_no_memory alloc p esh pairs.length hmem _ h
      cases this
    · have hroom : esh.stack_len ≠ esh.stack_cap := fun hx => hmem (Or.inl hx)
      have hp : p ≠ 0 := fun hx => hmem (Or.inr hx)
      obtain ⟨s1, s2⟩ := object_of_spec alloc p esh below pairs kvs hst hbase hkeys hfresh
        hroom hp
      cases hsp : set_pairs alloc 0 esh_object_init_entries kvs with
      | none =>
        rw [s1 hsp] at h
        cases h
      | some res =>
        obtain ⟨c, obj1⟩ := res
        obtain ⟨esh2, e1, e2, e3, e4⟩ := s2 c obj1 hsp
        rw [e1] at h
        simp only [Option.some.injEq, Prod.mk.injEq] at h
        obtain ⟨hc, he⟩ := h
        subst hc
        subst he
        obtain ⟨f1, _, f3, f4⟩ := set_pairs_from_empty alloc kvs 0 obj1 hsp
        refine ⟨e4 rfl, e2, ⟨none, obj1, 0, []⟩, e3, rfl, f1, f3, f4, fun hv => ?_⟩
        refine ⟨fun k => ?_, ?_, fun hnd => ?_⟩
        · rw [f3 k, (literal_entry_non_null hv k).1]
        · rw [f4]
          exact distinct_count_non_null hv
        · show obj1.len = pairs.length
          rw [f4, distinct_count_non_null hv, hnd.dedup, List.length_map]
          exact read_pairs_length hkeys
  · obtain ⟨obj1, hsp⟩ := set_pairs_total kvs 0 esh_object_init_entries wf_init rfl
      (by intro e he; cases he) hv
    obtain ⟨_, s2⟩ := object_of_spec (fun _ => (true, true)) p esh below pairs kvs hst hbase
      hkeys hfresh hroom hp
    obtain ⟨esh1, e1, _⟩ := s2 0 obj1 hsp
    exact ⟨esh1, e1⟩

theorem C5_object_of_witness :
    ∃ esh1, esh_object_of (fun _ => (true, true)) 16 three_pair_state 3 = some (0, esh1) :=
  (C5_object_of (fun _ => (true, true)) 16 three_pair_state [5]
    [(24833, 3), (25089, 4), (24833, 9)] [([97], 3), ([98], 4), ([97], 9)]
    rfl (by decide) (by decide) rfl).2.1 (by decide) (by decide) (by decide)

theorem entry_at_eq_getElem {entries : List esh_object_entry} {j : Nat}
    (hj : j < entries.length) : entry_at entries j = entries[j] := by
  simp [entry_at, List.getElem?_eq_getElem hj]

/-- Slots that are not live contribute nothing to the live entries from a position on. -/
theorem drop_filter_skip (entries : List esh_object_entry) (d : Nat) :
    ∀ j, (∀ m, j ≤ m → m < j + d → is_live (entry_at entries m) = false) →
      j + d ≤ entries.length →
      (entries.drop j).filter is_live = (entries.drop (j + d)).filter is_live := by
  induction d with
  | zero => intro j _ _; rfl
  | succ d ih =>
    intro j hdead hle
    have hj : j < entries.length := by omega
    rw [List.drop_eq_getElem_cons hj, List.filter_cons]
    have h0 := hdead j (le_refl _) (by omega)
    rw [entry_at_eq_getElem hj] at h0
    rw [h0]
    simp only [Bool.false_eq_true, if_false]
    rw [ih (j + 1) (fun m h1 h2 => hdead m (by omega) (by omega)) (by omega)]
    congr 2
    omega

theorem scan_live_some {entries : List esh_object_entry} {j i : Nat}
    (h : scan (fun i => is_live (entry_at entries i)) j (entries.length - j) = some i) :
    i < entries.length ∧ is_live (entry_at entries i) = true ∧
    (entries.drop j).filter is_live =
      entry_at entries i :: (entries.drop (i + 1)).filter is_live := by
  rw [scan_eq_some] at h
  obtain ⟨h1, h2, h3, h4⟩ := h
  have hi : i < entries.length := by omega
  refine ⟨hi, h3, ?_⟩
  have hskip := drop_filter_skip entries (i - j) j
    (fun m hm1 hm2 => h4 m hm1 (by omega)) (by omega)
  rw [hskip, show j + (i - j) = i by omega, List.drop_eq_getElem_cons hi, List.filter_cons,
    ← entry_at_eq_getElem hi, h3]
  simp

theorem scan_live_none {entries : List esh_object_entry} {j : Nat}
    (h : scan (fun i => is_live (entry_at entries i)) j (entries.length - j) = none) :
    (entries.drop j).filter is_live = [] := by
  rw [scan_eq_none] at h
  by_cases hj : j ≤ entries.length
  · rw [drop_filter_skip entries (entries.length - j) j h (by omega),
      show j + (entries.length - j) = entries.length by omega]
    simp
  · rw [List.drop_eq_nil_of_le (by omega)]
    rfl

theorem stack_offset_some {esh : esh_state} {offset : Int} {idx : Nat}
    (h : (stack_offset esh offset).1 = some idx) : stack_offset esh offset = (some idx, esh) := by
  unfold stack_offset at h ⊢
  simp only at h ⊢
  split_ifs at h ⊢ <;> (simp only [Option.some.injEq] at h; rw [h])

/-- The result of `stack_offset` depends on the stack length and the frame base only. -/
theorem stack_offset_congr {esh esh1 : esh_state} (offset : Int)
    (hlen : esh1.stack_len = esh.stack_len) (hbase : esh1.stack_base = esh.stack_base) :
    (stack_offset esh1 offset).1 = (stack_offset esh offset).1 := by
  unfold stack_offset
  simp only [hlen, hbase]
  split_ifs <;> rfl

theorem val_as_object_of_heap {heap : Nat → Option heap_object} {a : Nat} {o : heap_object}
    (ha0 : a ≠ 0) (ha2 : a % 2 = 0) (hheap : heap a = some o) :
    val_as_object heap a none = some o := by
  unfold val_as_object
  rw [if_neg ha0, if_neg (show ¬ a % 2 = 1 by omega), hheap]
  simp

theorem string_read_back_take (s : List Nat) :
    (s.length < 6 → (s ++ List.replicate (7 - s.length) 0).take (c_strlen s) =
      string_read_back s) ∧
    (6 ≤ s.length → (s ++ [0]).take s.length = string_read_back s) := by
  refine ⟨fun h => ?_, fun h => ?_⟩
  · unfold string_read_back
    rw [if_pos h, List.take_append_of_le_length (c_strlen_le s)]
  · unfold string_read_back
    rw [if_neg (by omega)]
    simp

/-- A call of `esh_iter_next` with a live slot ahead pushes the key of the first such slot as
a string and then its value, and moves the cursor behind that slot. -/
theorem iter_next_live (p : Nat) (esh : esh_state) (offset : Int) (iter : esh_iterator)
    (idx a : Nat) (o : heap_object) (i : Nat)
    (hdone : iter.done = false)
    (hoff : (stack_offset esh offset).1 = some idx) (hat : stack_at esh idx = a)
    (ha0 : a ≠ 0) (ha2 : a % 2 = 0) (hheap : esh.heap a = some o)
    (hroom : esh.stack_len + 2 ≤ esh.stack_cap)
    (hscan : scan (fun i => is_live (entry_at o.obj.entries i)) iter.index
      (o.obj.cap - iter.index) = some i)
    (hbytes : ∀ c ∈ (entry_at o.obj.entries i).key.getD [], c < 256)
    (hp : p ≠ 0 ∧ p % 2 = 0 ∧ p ≠ a) :
    ∃ esh2 kv mem len,
      esh_iter_next p esh offset iter = (0, esh2, ⟨false, iter.step + 1, i + 1⟩) ∧
      esh2.stack = esh.stack ++ [kv, (entry_at o.obj.entries i).val] ∧
      esh2.stack_cap = esh.stack_cap ∧ esh2.stack_base = esh.stack_base ∧
      esh2.heap a = some o ∧
      val_as_string esh2.heap kv = some (mem, len) ∧
      mem.take len = string_read_back ((entry_at o.obj.entries i).key.getD []) := by
  obtain ⟨esh1, kv, e1, e2, e3, e4, _, e6, e7, e8⟩ :=
    new_string_spec p esh ((entry_at o.obj.entries i).key.getD []) (by omega) hbytes
      (fun _ => ⟨hp.1, hp.2.1⟩)
  have hroom1 : esh1.stack_len ≠ esh1.stack_cap := by
    unfold esh_state.stack_len at hroom ⊢
    rw [e2, e3, List.length_append, List.length_singleton]
    omega
  have hread : ∃ mem len, val_as_string esh1.heap kv = some (mem, len) ∧
      mem.take len = string_read_back ((entry_at o.obj.entries i).key.getD []) := by
    by_cases hl : ((entry_at o.obj.entries i).key.getD []).length < 6
    · exact ⟨_, _, (e7 hl).2.2 esh1.heap, (string_read_back_take _).1 hl⟩
    · exact ⟨_, _, (e8 (by omega)).2, (string_read_back_take _).2 (by omega)⟩
  obtain ⟨mem, len, r1, r2⟩ := hread
  refine ⟨{ esh1 with stack := esh1.stack ++ [(entry_at o.obj.entries i).val] }, kv, mem, len,
    ?_, by simp [e2], e3, e4, by rw [← hheap]; exact e6 a (Ne.symm hp.2.2), r1, r2⟩
  unfold esh_iter_next
  rw [if_neg (by rw [hdone]; exact Bool.false_ne_true), stack_offset_some hoff]
  simp only [hat, val_as_object_of_heap ha0 ha2 hheap, hscan, e1, stack_push_ne hroom1, hdone]

/-- A call of `esh_iter_next` with no live slot ahead pushes nothing and reports done. -/
theorem iter_next_end (p : Nat) (esh : esh_state) (offset : Int) (iter : esh_iterator)
    (idx a : Nat) (o : heap_object)
    (hdone : iter.done = false)
    (hoff : (stack_offset esh offset).1 = some idx) (hat : stack_at esh idx = a)
    (ha0 : a ≠ 0) (ha2 : a % 2 = 0) (hheap : esh.heap a = some o)
    (hscan : scan (fun i => is_live (entry_at o.obj.entries i)) iter.index
      (o.obj.cap - iter.index) = none) :
    esh_iter_next p esh offset iter =
      (0, esh, ⟨true, iter.step + 1, max iter.index o.obj.cap⟩) := by
  unfold esh_iter_next
  rw [if_neg (by rw [hdone]; exact Bool.false_ne_true), stack_offset_some hoff]
  simp only [hat, val_as_object_of_heap ha0 ha2 hheap, hscan]

/-- After a producing call of `esh_iter_next` the caller reads the key at offset `-2`, the
value on top, and `esh_pop(2)` restores the stack. -/
theorem after_iter_step (esh2 : esh_state) (st : List esh_val) (kv v : esh_val)
    (mem : List Nat) (len : Nat) (hst : esh2.stack = st ++ [kv, v])
    (hbase : esh2.stack_base ≤ st.length)
    (hread : val_as_string esh2.heap kv = some (mem, len)) :
    esh_as_string esh2 (-2) = (some (mem, len), esh2) ∧
    stack_at esh2 (esh2.stack_len - 1) = v ∧
    esh_pop esh2 2 = { esh2 with stack := st } := by
  have hlen : esh2.stack_len = st.length + 2 := by
    unfold esh_state.stack_len; rw [hst]; simp
  have hoff : stack_offset esh2 (-2) = (some st.length, esh2) := by
    unfold stack_offset
    have h1 : (-(-2 : Int)).toNat = 2 := by decide
    have h2 : ((-2 : Int) < 0) := by decide
    simp only [hlen, h1, h2, if_true]
    split_ifs <;> first | omega | simp
  have hkv : stack_at esh2 st.length = kv := by
    unfold stack_at
    rw [hst, List.getD_eq_getElem?_getD, List.getElem?_append_right (le_refl _)]
    simp
  refine ⟨?_, ?_, ?_⟩
  · unfold esh_as_string
    rw [hoff]
    simp only
    rw [hkv, hread]
  · unfold stack_at
    rw [hlen, hst, List.getD_eq_getElem?_getD,
      List.getElem?_append_right (by omega)]
    simp
  · unfold esh_pop
    rw [if_pos (by omega), hlen, hst]
    simp

/-- The caller's loop, started anywhere in the table with enough iterations left, reads the
remaining live entries in slot order, each once, and ends with the cursor done. -/
theorem iterate_spec (alloc : Nat → Nat) (offset : Int) (idx a : Nat) (o : heap_object)
    (esh0 : esh_state) (hoff : (stack_offset esh0 offset).1 = some idx)
    (hat : stack_at esh0 idx = a) (ha0 : a ≠ 0) (ha2 : a % 2 = 0)
    (hroom : esh0.stack_len + 2 ≤ esh0.stack_cap) (hbase : esh0.stack_base ≤ esh0.stack_len)
    (hbytes : ∀ e ∈ o.obj.entries, ∀ c ∈ e.key.getD [], c < 256)
    (halloc : ∀ n, alloc n ≠ 0 ∧ alloc n % 2 = 0 ∧ alloc n ≠ a) :
    ∀ (fuel n : Nat) (esh : esh_state) (iter : esh_iterator) (acc : List (List Nat × esh_val)),
      iter.done = false → esh.stack = esh0.stack → esh.stack_cap = esh0.stack_cap →
      esh.stack_base = esh0.stack_base → esh.heap a = some o →
      ((o.obj.entries.drop iter.index).filter is_live).length < fuel →
      ∃ esh1 iter1, iterate alloc offset fuel n esh iter acc =
          some (acc ++ ((o.obj.entries.drop iter.index).filter is_live).map
            (fun e => (string_read_back (e.key.getD []), e.val)), esh1, iter1) ∧
        iter1.done = true ∧ esh1.stack = esh0.stack := by
  intro fuel
  induction fuel with
  | zero => intro n esh iter acc _ _ _ _ _ hf; omega
  | succ fuel ih =>
    intro n esh iter acc hdone hst hcap hb hheap hf
    have hlen : esh.stack_len = esh0.stack_len := by
      unfold esh_state.stack_len; rw [hst]
    have hoff1 : (stack_offset esh offset).1 = some idx := by
      rw [stack_offset_congr offset hlen hb]; exact hoff
    have hat1 : stack_at esh idx = a := by
      unfold stack_at; rw [hst]; exact hat
    cases hscan : scan (fun i => is_live (entry_at o.obj.entries i)) iter.index
        (o.obj.cap - iter.index) with
    | none =>
      have hnext := iter_next_end (alloc n) esh offset iter idx a o hdone hoff1 hat1 ha0 ha2
        hheap hscan
      have hnil := scan_live_none hscan
      refine ⟨esh, ⟨true, iter.step + 1, max iter.index o.obj.cap⟩, ?_, rfl, hst⟩
      rw [hnil, List.map_nil, List.append_nil, iterate, hnext]
      simp
    | some i =>
      obtain ⟨hi, hlive, hfilter⟩ := scan_live_some hscan
      obtain ⟨esh2, kv, mem, len, e1, e2, e3, e4, e5, e6, e7⟩ :=
        iter_next_live (alloc n) esh offset iter idx a o i hdone hoff1 hat1 ha0 ha2 hheap
          (by rw [hlen, hcap]; exact hroom) hscan
          (hbytes _ (entry_at_mem hi)) (halloc n)
      obtain ⟨a1, a2, a3⟩ := after_iter_step esh2 esh.stack kv _ mem len e2
        (by rw [e4, hb, hst]; exact hbase) e6
      rw [hfilter] at hf ⊢
      simp only [List.length_cons] at hf
      obtain ⟨esh3, iter3, i1, i2, i3⟩ := ih (n + 1) { esh2 with stack := esh.stack }
        ⟨false, iter.step + 1, i + 1⟩
        (acc ++ [(string_read_back ((entry_at o.obj.entries i).key.getD []),
          (entry_at o.obj.entries i).val)])
        rfl hst (by show esh2.stack_cap = _; rw [e3, hcap])
        (by show esh2.stack_base = _; rw [e4, hb]) e5
        (by show ((o.obj.entries.drop (i + 1)).filter is_live).length < fuel; omega)
      refine ⟨esh3, iter3, ?_, i2, i3⟩
      rw [iterate, e1]
      simp only [Bool.false_eq_true, if_false, a1, a2, a3, e7]
      rw [i1]
      simp

theorem live_keys_nodup {entries : List esh_object_entry} (h : slots_ok entries) :
    ((entries.filter is_live).map (fun e => e.key)).Nodup := by
  rw [List.Nodup, List.pairwise_map]
  have hp := (live_keys_pairwise h).filter is_live
  refine List.Pairwise.imp_of_mem ?_ hp
  intro a b ha hb hab
  exact hab (List.mem_filter.mp ha).2 (List.mem_filter.mp hb).2

theorem string_read_back_id (s : List Nat) (h : s.length < 6 → ∀ c ∈ s, c ≠ 0) :
    string_read_back s = s := by
  unfold string_read_back
  by_cases hl : s.length < 6
  · rw [if_pos hl, c_strlen_of_no_nul s (h hl), List.take_length]
  · rw [if_neg hl]

/-- On an un-mutated object (satisfying the table invariant) the caller's loop that
starts from `esh_iter_begin` and calls `esh_iter_next` until it reports done, with stack room
for the two pushes and an allocator that answers every request, terminates within `cap + 1`
calls and reads exactly the live entries in slot order, each once: the values are the
entries' values, the keys are the entries' keys as strings (read back through
`esh_as_string`; identical to the key bytes for every key that is not an inline string with
a NUL byte), their number is `len`, the keys of the live entries are pairwise distinct, and
the list read depends on the table only, so two iterations give the same order. -/
theorem iteration_reads_live_entries (alloc : Nat → Nat) (offset : Int) (idx a : Nat)
    (o : heap_object)
    (esh : esh_state) (hoff : (stack_offset esh offset).1 = some idx)
    (hat : stack_at esh idx = a) (ha0 : a ≠ 0) (ha2 : a % 2 = 0)
    (hheap : esh.heap a = some o) (hw : wf o.obj)
    (hroom : esh.stack_len + 2 ≤ esh.stack_cap) (hbase : esh.stack_base ≤ esh.stack_len)
    (hbytes : ∀ e ∈ o.obj.entries, ∀ c ∈ e.key.getD [], c < 256)
    (halloc : ∀ n, alloc n ≠ 0 ∧ alloc n % 2 = 0 ∧ alloc n ≠ a) :
    (∃ esh1 iter1, iterate alloc offset (o.obj.cap + 1) 0 esh esh_iter_begin [] =
        some ((o.obj.entries.filter is_live).map
          (fun e => (string_read_back (e.key.getD []), e.val)), esh1, iter1) ∧
      iter1.done = true ∧ esh1.stack = esh.stack) ∧
    ((o.obj.entries.filter is_live).map
      (fun e => (string_read_back (e.key.getD []), e.val))).length = o.obj.len ∧
    ((o.obj.entries.filter is_live).map (fun e => e.key)).Nodup ∧
    ((∀ e ∈ o.obj.entries, (e.key.getD []).length < 6 → ∀ c ∈ e.key.getD [], c ≠ 0) →
      (o.obj.entries.filter is_live).map (fun e => (string_read_back (e.key.getD []), e.val)) =
        (o.obj.entries.filter is_live).map (fun e => (e.key.getD [], e.val))) := by
  refine ⟨?_, ?_, live_keys_nodup hw.2, fun hnul => ?_⟩
  · have h := iterate_spec alloc offset idx a o esh hoff hat ha0 ha2 hroom hbase hbytes halloc
      (o.obj.cap + 1) 0 esh esh_iter_begin [] rfl rfl rfl rfl hheap
      (by
        have h1 : ((o.obj.entries.drop esh_iter_begin.index).filter is_live).length ≤
            (o.obj.entries.drop esh_iter_begin.index).length := List.length_filter_le _ _
        have h2 : (o.obj.entries.drop esh_iter_begin.index).length ≤ o.obj.entries.length := by
          rw [List.length_drop]; omega
        unfold esh_object.cap
        omega)
    simpa [esh_iter_begin] using h
  · rw [List.length_map, hw.1]
    unfold live_count
    rw [List.countP_eq_length_filter]
  · apply List.map_congr_left
    intro e he
    rw [string_read_back_id _ (hnul e (List.mem_filter.mp he).1)]

theorem iteration_reads_live_entries_sample :
    (∃ esh1 iter1, iterate (fun _ => 16) 0 (two_entry_object.cap + 1) 0 object_state
        esh_iter_begin [] =
        some ((two_entry_object.entries.filter is_live).map
          (fun e => (string_read_back (e.key.getD []), e.val)), esh1, iter1) ∧
      iter1.done = true ∧ esh1.stack = object_state.stack) ∧
    ((two_entry_object.entries.filter is_live).map
      (fun e => (string_read_back (e.key.getD []), e.val))).length = two_entry_object.len ∧
    ((two_entry_object.entries.filter is_live).map (fun e => e.key)).Nodup ∧
    ((∀ e ∈ two_entry_object.entries, (e.key.getD []).length < 6 →
        ∀ c ∈ e.key.getD [], c ≠ 0) →
      (two_entry_object.entries.filter is_live).map
          (fun e => (string_read_back (e.key.getD []), e.val)) =
        (two_entry_object.entries.filter is_live).map (fun e => (e.key.getD [], e.val))) :=
  iteration_reads_live_entries (fun _ => 16) 0 0 32 ⟨none, two_entry_object, 0, []⟩ object_state
    (by decide) (by decide) (by decide) (by decide) (by decide) (by decide) (by decide)
    (by decide) (by decide)
    (fun _ => ⟨(by decide : (16 : Nat) ≠ 0), (by decide : (16 : Nat) % 2 = 0),
      (by decide : (16 : Nat) ≠ 32)⟩)

/-- Every table the code can build satisfies the representation invariant. -/
theorem wf_of_reachable {obj : esh_object} (h : reachable obj) : wf obj := by
  induction h with
  | init => exact wf_init
  | set obj ae ak k v r _ hset ih => exact set_wf ih ae ak k v hset
  | delete obj k _ ih => exact (delete_spec ih k).1
  | make_const obj _ ih => exact ih

/-- Every value `esh_new_string` pushes reads as a NUL-terminated string: the byte at the
reported length is 0. -/
theorem new_string_terminated (p : Nat) (esh : esh_state) (s : List Nat)
    (hroom : esh.stack_len < esh.stack_cap) (hb : ∀ c ∈ s, c < 256)
    (hp : 6 ≤ s.length → p ≠ 0 ∧ p % 2 = 0) :
    ∃ esh1 kv mem len, esh_new_string p esh s = (0, esh1) ∧
      esh1.stack = esh.stack ++ [kv] ∧
      val_as_string esh1.heap kv = some (mem, len) ∧ mem[len]? = some 0 := by
  obtain ⟨esh1, kv, h1, h2, _, _, _, _, h7, h8⟩ := new_string_spec p esh s hroom hb hp
  by_cases hlen : s.length < 6
  · obtain ⟨_, _, hv⟩ := h7 hlen
    refine ⟨esh1, kv, _, _, h1, h2, hv esh1.heap, ?_⟩
    have h7' : 7 - s.length = (6 - s.length) + 1 := by omega
    rw [h7', List.replicate_succ]
    exact getElem?_c_strlen s _
  · obtain ⟨_, hv⟩ := h8 (by omega)
    exact ⟨esh1, kv, _, _, h1, h2, hv, getElem?_length_append_nul s []⟩

theorem digit_loop_digits (fuel : Nat) :
    ∀ (n : Nat) (acc : List Nat), n < 10 ^ fuel →
      int_to_str_loop fuel (n : Int) acc =
        (Nat.digits 10 n).reverse.map (fun d => d + 48) ++ acc := by
  induction fuel with
  | zero =>
    intro n acc hn
    have h0 : n = 0 := by simpa using hn
    subst h0
    simp [int_to_str_loop]
  | succ fuel ih =>
    intro n acc hn
    unfold int_to_str_loop
    by_cases h0 : (n : Int) = 0
    · rw [if_pos h0]
      have : n = 0 := by omega
      subst this
      simp
    · rw [if_neg h0]
      have hpos : 0 < n := by omega
      have hlt : n / 10 < 10 ^ fuel := by
        rw [Nat.pow_succ] at hn
        omega
      have hdiv : (n : Int).tdiv 10 = ((n / 10 : Nat) : Int) := by
        rw [Int.tdiv_eq_ediv (by omega) (by omega)]
        omega
      have hmod : char_of_int (48 + (n : Int).tmod 10) = n % 10 + 48 := by
        rw [Int.tmod_eq_emod (by omega) (by omega)]
        unfold char_of_int
        omega
      rw [hdiv, hmod, ih (n / 10) _ hlt, Nat.digits_def' (by omega) hpos]
      simp

/-- For a `long long` other than `LLONG_MIN` the string of `int_to_str` is the decimal
string. -/
theorem int_to_str_decimal (i : Int) (h1 : -9223372036854775808 < i)
    (h2 : i < 9223372036854775808) : int_to_str i = decimal_string i := by
  unfold int_to_str decimal_string
  by_cases h0 : i = 0
  · rw [if_pos h0, if_pos h0]
  rw [if_neg h0, if_neg h0]
  by_cases hneg : i < 0
  · simp only [hneg, decide_True, if_true]
    have hw : wrap64 (-i) = ((i.natAbs : Nat) : Int) := by
      rw [wrap64_of_range (by omega) (by omega)]
      omega
    rw [hw, digit_loop_digits 20 i.natAbs [] (by omega), List.append_nil]
  · simp only [hneg, decide_False, Bool.false_eq_true, if_false]
    have hi : i = ((i.natAbs : Nat) : Int) := by omega
    conv_lhs => rw [hi]
    rw [digit_loop_digits 20 i.natAbs [] (by omega), List.append_nil]

/-- The key `int_to_str(i)` of a loop counter is the decimal string of `i`. -/
theorem index_key (i : Nat) (h : i < 9223372036854775808) :
    int_to_str (wrap64 i) = decimal_string i := by
  rw [wrap64_of_range (by omega) (by omega)]
  exact int_to_str_decimal i (by omega) (by omega)

theorem stack_resv_ok (ok : Bool) (esh : esh_state) (n : Nat)
    (hcap : esh.stack_len ≤ esh.stack_cap)
    (hok : ok = true ∨ n ≤ esh.stack_cap - esh.stack_len) :
    ∃ cap, stack_resv ok esh n =
      (0, { esh with stack := esh.stack ++ List.replicate n ESH_NULL, stack_cap := cap }) ∧
      esh.stack_len + n ≤ cap := by
  unfold stack_resv esh_req_stack
  simp only [if_pos hcap]
  by_cases hfree : esh.stack_cap - esh.stack_len < n
  · have hok1 : ok = true := by
      rcases hok with h | h
      · exact h
      · omega
    rw [if_pos hfree, hok1]
    refine ⟨esh.stack_cap * 3 / 2 + n, rfl, ?_⟩
    omega
  · rw [if_neg hfree]
    exact ⟨esh.stack_cap, rfl, by omega⟩

theorem index_value_hit {heap : Nat → Option heap_object} {objv : esh_val} {o : heap_object}
    (ho : val_as_object heap objv none = some o) {key : List Nat} {v : esh_val}
    (hg : esh_object_get o.obj key = some (some v)) : index_value heap objv key = v := by
  unfold index_value
  rw [ho]
  simp only [hg]

theorem index_value_miss {heap : Nat → Option heap_object} {objv : esh_val} {o : heap_object}
    (ho : val_as_object heap objv none = some o) {key : List Nat}
    (hg : esh_object_get o.obj key = some none) : index_value heap objv key = ESH_NULL := by
  unfold index_value
  rw [ho]
  simp only [hg]

theorem index_value_non_object {heap : Nat → Option heap_object} {objv : esh_val}
    (ho : val_as_object heap objv none = none) (key : List Nat) :
    index_value heap objv key = ESH_NULL := by
  unfold index_value
  rw [ho]

/-- The loop of `unpack_obj` fills the reserved slots from the left with the entries under
the decimal keys, and leaves a slot NULL where there is no entry. -/
theorem unpack_loop_spec (heap : Nat → Option heap_object) (objv : esh_val) (o : heap_object)
    (ho : val_as_object heap objv none = some o) (hwf : wf o.obj)
    (below : List esh_val) (n : Nat) (hn : n < 9223372036854775808) :
    ∀ (fuel i : Nat) (filled : List esh_val), i + fuel = n → filled.length = i →
      unpack_loop o.obj (below.length + n + 1) n fuel i
          (below ++ filled ++ List.replicate fuel ESH_NULL ++ [objv]) =
        some (below ++ filled ++
          (List.range' i fuel).map
            (fun j : Nat => index_value heap objv (decimal_string (j : Int))) ++
          [objv]) := by
  intro fuel
  induction fuel with
  | zero => intro i filled _ _; simp [unpack_loop]
  | succ fuel ih =>
    intro i filled hi hlen
    unfold unpack_loop
    rw [index_key i (by omega)]
    have hidx : below.length + n + 1 - n - 1 + i = below.length + i := by omega
    cases hg : esh_object_get o.obj (decimal_string i) with
    | none => exact absurd hg (get_ne_none hwf _)
    | some r =>
      cases r with
      | none =>
        have hval := index_value_miss ho hg
        have hstep := ih (i + 1) (filled ++ [ESH_NULL]) (by omega) (by simp [hlen])
        simp only [List.range'_succ, List.map_cons, hval]
        rw [List.replicate_succ]
        simpa [List.append_assoc] using hstep
      | some v =>
        have hval := index_value_hit ho hg
        have hstep := ih (i + 1) (filled ++ [v]) (by omega) (by simp [hlen])
        simp only [List.range'_succ, List.map_cons, hval]
        rw [hidx]
        have hset : (below ++ filled ++ List.replicate (fuel + 1) ESH_NULL ++ [objv]).set
            (below.length + i) v =
            below ++ (filled ++ [v]) ++ List.replicate fuel ESH_NULL ++ [objv] := by
          rw [List.replicate_succ]
          have : below.length + i = (below ++ filled).length := by simp [hlen]
          rw [this]
          simp [List.append_assoc]
        rw [hset, hstep]
        simp [List.append_assoc]

theorem unpack_swap (below : List esh_val) (objv : esh_val) (n : Nat) :
    ((below ++ [objv] ++ List.replicate n ESH_NULL).set below.length
        ((below ++ [objv] ++ List.replicate n ESH_NULL).getD (below.length + 1 + n - 1)
          ESH_NULL)).set (below.length + 1 + n - 1) objv =
      below ++ List.replicate n ESH_NULL ++ [objv] := by
  cases n with
  | zero => simp
  | succ m =>
    have hlast : (below ++ [objv] ++ List.replicate (m + 1) ESH_NULL).getD
        (below.length + 1 + (m + 1) - 1) ESH_NULL = ESH_NULL := by
      rw [List.replicate_succ', List.getD_eq_getElem?_getD]
      have : below.length + 1 + (m + 1) - 1 = (below ++ [objv] ++ List.replicate m ESH_NULL).length := by
        simp; omega
      rw [this, ← List.append_assoc, List.getElem?_append_right (le_refl _)]
      simp
    rw [hlast]
    have h1 : (below ++ [objv] ++ List.replicate (m + 1) ESH_NULL).set below.length ESH_NULL =
        below ++ [ESH_NULL] ++ List.replicate (m + 1) ESH_NULL := by
      simp [List.append_assoc]
    rw [h1, List.replicate_succ']
    have h2 : below.length + 1 + (m + 1) - 1 =
        (below ++ [ESH_NULL] ++ List.replicate m ESH_NULL).length := by
      simp; omega
    rw [h2, ← List.append_assoc, List.set_append_right _ _ (le_refl _)]
    simp only [Nat.sub_self, List.set_cons_zero]
    have h3 : below ++ [ESH_NULL] ++ List.replicate m ESH_NULL =
        below ++ List.replicate (m + 1) ESH_NULL := by
      rw [List.replicate_succ]; simp
    rw [h3, List.replicate_succ']

theorem opt_req_stack_ok {esh : esh_state} {n : Nat}
    (h : esh.stack_base + n ≤ esh.stack_len) : opt_req_stack esh n = some 0 := by
  unfold opt_req_stack
  rw [if_neg (by omega), if_neg (by omega)]

theorem stack_at_top (esh : esh_state) (below : List esh_val) (v : esh_val)
    (hst : esh.stack = below ++ [v]) : stack_at esh (esh.stack_len - 1) = v := by
  unfold stack_at esh_state.stack_len
  rw [hst]
  simp

/-- Effect of `unpack_obj` on a non-NULL value on top of the frame. -/
theorem unpack_obj_spec (ok : Bool) (esh : esh_state) (below : List esh_val) (objv : esh_val)
    (n : Nat) (hst : esh.stack = below ++ [objv]) (hbase : esh.stack_base ≤ below.length)
    (hn : n < 9223372036854775808) (hcap : esh.stack_len ≤ esh.stack_cap)
    (hok : ok = true ∨ n ≤ esh.stack_cap - esh.stack_len)
    (hwf : ∀ o, val_as_object esh.heap objv none = some o → wf o.obj)
    (hne : objv ≠ ESH_NULL) :
    ∃ cap, unpack_obj ok esh n = some (0, { esh with
        stack := below ++ (List.range n).map
          (fun j : Nat => index_value esh.heap objv (decimal_string (j : Int))),
        stack_cap := cap }) ∧ below.length + n + 1 ≤ cap := by
  have hlen : esh.stack_len = below.length + 1 := by
    unfold esh_state.stack_len; rw [hst]; simp
  obtain ⟨cap, hres, hcap1⟩ := stack_resv_ok ok esh n hcap hok
  refine ⟨cap, ?_, by omega⟩
  unfold unpack_obj
  rw [opt_req_stack_ok (by omega)]
  simp only
  rw [stack_at_top esh below objv hst, if_neg hne, hres]
  simp only [stack_at, esh_state.stack_len, hst, List.length_append, List.length_singleton,
    List.length_replicate]
  have hobj : (below ++ [objv] ++ List.replicate n ESH_NULL).getD below.length
      ESH_NULL = objv := by
    rw [List.append_assoc, List.getD_eq_getElem?_getD,
      List.getElem?_append_right (le_refl _)]
    simp
  simp only [Nat.add_sub_cancel]
  rw [hobj, unpack_swap]
  cases ho : val_as_object esh.heap objv none with
  | none =>
    simp only
    have hrow : (List.range n).map
        (fun j : Nat => index_value esh.heap objv (decimal_string (j : Int))) =
        List.replicate n ESH_NULL := by
      rw [List.eq_replicate_iff]
      refine ⟨by simp, ?_⟩
      intro b hb
      obtain ⟨j, _, hj⟩ := List.mem_map.mp hb
      rw [← hj]
      exact index_value_non_object ho _
    rw [hrow]
    have : (below ++ List.replicate n ESH_NULL ++ [objv]).take (below.length + 1 + n - 1) =
        below ++ List.replicate n ESH_NULL := by
      have h : below.length + 1 + n - 1 = (below ++ List.replicate n ESH_NULL).length := by
        simp
      rw [h, List.take_left']
      rfl
    rw [this]
  | some o =>
    simp only
    have hloop := unpack_loop_spec esh.heap objv o ho (hwf o ho) below n hn n 0 [] (by omega) rfl
    have hL : below.length + 1 + n = below.length + n + 1 := by omega
    rw [hL]
    simp only [List.append_nil] at hloop
    rw [hloop]
    simp only
    have : (below ++ (List.range' 0 n).map
        (fun j : Nat => index_value esh.heap objv (decimal_string (j : Int))) ++ [objv]).take
          (below.length + n + 1 - 1) =
        below ++ (List.range' 0 n).map
          (fun j : Nat => index_value esh.heap objv (decimal_string (j : Int))) := by
      have h : below.length + n + 1 - 1 = (below ++ (List.range' 0 n).map
          (fun j : Nat => index_value esh.heap objv (decimal_string (j : Int)))).length := by
        simp
      rw [h, List.take_left']
      rfl
    rw [this, List.range_eq_range']

theorem put_stack (vm : esh_vm) (stack : List esh_val) (cap : Nat) :
    vm.put { vm.esh with stack := stack, stack_cap := cap } =
      { vm with thread := { vm.thread with stack := stack, stack_cap := cap } } := rfl

theorem put_printf (vm : esh_vm) (msg : String) :
    vm.put (esh_err_printf vm.esh msg) = vm.printf msg := rfl

/-- C16: For every `n` and every non-NULL value `obj` on top of the frame (with room for
the values, granted or already there, and every table well formed), `UNPACK n` replaces
`obj` by exactly `n` values of which the `i`-th, deepest first, is `obj[str(i)]` where that
entry exists and NULL otherwise; on a NULL top value `UNPACK` jumps to `PANIC` with the
message that NULL cannot be unpacked. -/
theorem C16_unpack (w : world) (vm : esh_vm) (f : esh_function) (instr : instr_regs)
    (below : List esh_val) (obj : esh_val)
    (hop : esh_opcode.of_byte instr.op = some esh_opcode.UNPACK)
    (hst : vm.thread.stack = below ++ [obj])
    (hbase : vm.thread.current_frame.stack_base ≤ below.length)
    (hn : instr.arg < 9223372036854775808)
    (hcap : vm.thread.stack.length ≤ vm.thread.stack_cap)
    (hok : w.stack_ok = true ∨ instr.arg ≤ vm.thread.stack_cap - vm.thread.stack.length)
    (hwf : ∀ o, val_as_object vm.heap obj none = some o → wf o.obj) :
    (obj ≠ ESH_NULL → ∃ cap, exec_instr w vm f instr =
      some (.brk { vm with thread := { vm.thread with
        stack := below ++ (List.range instr.arg).map
          (fun i : Nat => index_value vm.heap obj (decimal_string (i : Int))),
        stack_cap := cap } })) ∧
    (obj = ESH_NULL →
      exec_instr w vm f instr = some (.PANIC (vm.printf "Cannot unpack null value"))) := by
  constructor
  · intro hne
    obtain ⟨cap, h, _⟩ := unpack_obj_spec w.stack_ok vm.esh below obj instr.arg hst hbase hn
      hcap hok hwf hne
    refine ⟨cap, ?_⟩
    unfold exec_instr
    simp only [hop, h]
    rfl
  · intro hnull
    have h : unpack_obj w.stack_ok vm.esh instr.arg =
        some (1, esh_err_printf vm.esh "Cannot unpack null value") := by
      unfold unpack_obj
      rw [opt_req_stack_ok (by
        show vm.thread.current_frame.stack_base + 1 ≤ vm.thread.stack.length
        rw [hst]; simp; omega)]
      simp only
      rw [stack_at_top vm.esh below obj hst, if_pos hnull]
    unfold exec_instr
    simp only [hop, h]
    rfl

theorem C16_unpack_witness :
    ∃ cap, exec_instr sample_world (sample_running (sample_function [] [] []) [5, 64] 0)
        (sample_function [] [] []) ⟨32, 2, 0⟩ =
      some (.brk { sample_running (sample_function [] [] []) [5, 64] 0 with
        thread := { (sample_running (sample_function [] [] []) [5, 64] 0).thread with
          stack := [5] ++ (List.range 2).map
            (fun i : Nat => index_value sample_heap 64 (decimal_string (i : Int))),
          stack_cap := cap } }) :=
  (C16_unpack sample_world (sample_running (sample_function [] [] []) [5, 64] 0)
    (sample_function [] [] []) ⟨32, 2, 0⟩ [5] 64 (by decide) rfl (by decide) (by decide)
    (by decide) (Or.inl rfl)
    (by
      intro o ho
      have : o = ⟨none, ⟨false, 1, [⟨some [48], 7, false⟩]⟩, 0, []⟩ := by
        have h2 : val_as_object sample_heap 64 none =
            some ⟨none, ⟨false, 1, [⟨some [48], 7, false⟩]⟩, 0, []⟩ := by decide
        have ho1 : val_as_object sample_heap 64 none = some o := ho
        rw [h2] at ho1
        exact (Option.some.inj ho1).symm
      rw [this]
      decide)).1 (by decide)

theorem req_stack_ok (ok : Bool) (esh : esh_state) (n : Nat)
    (hcap : esh.stack_len ≤ esh.stack_cap)
    (hok : ok = true ∨ n ≤ esh.stack_cap - esh.stack_len) :
    ∃ cap, esh_req_stack ok esh n = (0, { esh with stack_cap := cap }) ∧
      esh.stack_len + n ≤ cap ∧ esh.stack_cap ≤ cap := by
  unfold esh_req_stack
  simp only [if_pos hcap]
  by_cases hfree : esh.stack_cap - esh.stack_len < n
  · have hok1 : ok = true := by
      rcases hok with h | h
      · exact h
      · omega
    rw [if_pos hfree, hok1]
    refine ⟨esh.stack_cap * 3 / 2 + n, rfl, ?_, ?_⟩ <;> omega
  · rw [if_neg hfree]
    exact ⟨esh.stack_cap, rfl, by omega, le_refl _⟩

/-- The arity check of `enter_fn`: with too few or too many arguments the call fails with
the message of the check and changes nothing else; otherwise `enter_fn` goes on to create
the coroutine or to push the frame. -/
theorem enter_fn_arity (w : world) (vm : esh_vm) (k er : Nat) (opt_fn : Option esh_val)
    (cp : Bool) (callee : esh_val) (cl : esh_closure) (f : esh_function)
    (hk : k + 1 < SIZE_MOD)
    (hstack : vm.thread.current_frame.stack_base + (k + 1) ≤ vm.thread.stack.length)
    (hcallee : opt_fn.getD (stack_at vm.esh (vm.stack_len - k - 1)) = callee)
    (hobj : val_as_object vm.heap callee (some esh_type_ptr.closure_type) ≠ none)
    (hcl : vm.closures callee = some cl) (hf : vm.functions cl.fn = some f)
    (hsum : f.n_args + f.opt_args < SIZE_MOD) :
    (k < f.n_args → enter_fn w vm k er opt_fn cp =
      some (1, vm.printf "Not enough arguments provided to function")) ∧
    (f.n_args ≤ k → f.variadic = false → f.n_args + f.opt_args < k →
      enter_fn w vm k er opt_fn cp =
        some (1, vm.printf "Too many arguments provided to function")) ∧
    (f.n_args ≤ k → (k ≤ f.n_args + f.opt_args ∨ f.variadic = true) →
      enter_fn w vm k er opt_fn cp =
        if cl.is_coroutine then create_coroutine w vm k er cl f
        else enter_frame w vm k er cl f cp) := by
  have hpre : enter_fn w vm k er opt_fn cp =
      if k < f.n_args then some (1, vm.printf "Not enough arguments provided to function")
      else if f.variadic = false ∧ k > (f.n_args + f.opt_args) % SIZE_MOD then
        some (1, vm.printf "Too many arguments provided to function")
      else if cl.is_coroutine then create_coroutine w vm k er cl f
      else enter_frame w vm k er cl f cp := by
    unfold enter_fn
    rw [if_neg (by omega), opt_req_stack_ok (by exact hstack)]
    cases opt_fn with
    | none =>
      simp only [Option.getD_none] at hcallee
      simp only [hcallee]
      cases ho : val_as_object vm.heap callee (some esh_type_ptr.closure_type) with
      | none => exact absurd ho hobj
      | some o => simp only [hcl, hf]
    | some val =>
      simp only [Option.getD_some] at hcallee
      simp only [hcallee]
      cases ho : val_as_object vm.heap callee (some esh_type_ptr.closure_type) with
      | none => exact absurd ho hobj
      | some o => simp only [hcl, hf]
  rw [hpre, Nat.mod_eq_of_lt hsum]
  refine ⟨fun h => by rw [if_pos h], fun h1 h2 h3 => ?_, fun h1 h2 => ?_⟩
  · rw [if_neg (by omega), if_pos ⟨h2, h3⟩]
  · rw [if_neg (by omega), if_neg]
    rintro ⟨hv, hgt⟩
    rcases h2 with h | h
    · omega
    · rw [hv] at h; cases h

theorem esh_pop_fields (esh : esh_state) (n : Nat) :
    (esh_pop esh n).stack_base = esh.stack_base ∧ (esh_pop esh n).stack_cap = esh.stack_cap ∧
    (esh_pop esh n).heap = esh.heap ∧ (esh_pop esh n).err = esh.err := by
  unfold esh_pop
  split <;> exact ⟨rfl, rfl, rfl, rfl⟩

theorem stack_resv_fields (ok : Bool) (esh : esh_state) (n : Nat) :
    (stack_resv ok esh n).2.stack_base = esh.stack_base ∧
    (stack_resv ok esh n).2.heap = esh.heap := by
  unfold stack_resv esh_req_stack
  simp only
  split_ifs <;> exact ⟨rfl, rfl⟩

/-- With memory granted, `enter_fn` past the arity check pushes the frame. -/
theorem enter_frame_ok (w : world) (vm : esh_vm) (k er : Nat) (cl : esh_closure)
    (f : esh_function) (cp : Bool)
    (hcap : vm.thread.stack.length ≤ vm.thread.stack_cap)
    (hframes : w.frames_ok = true) (hstk : w.stack_ok = true)
    (hobj : f.c_fn = 0 → f.upval_locals = true → w.obj ≠ 0)
    (hlocals : f.c_fn = 0 → k ≤ f.n_locals) :
    ∃ vm1, enter_frame w vm k er cl f cp = some (0, vm1) ∧ frame_pushed vm vm1 cl k er cp ∧
      (f.c_fn ≠ 0 → vm1.thread.stack = vm.thread.stack ∧
        vm1.thread.current_frame.stack_base = vm.thread.stack.length - k ∧
        vm1.heap = vm.heap) := by
  have key : ∀ vm0 : esh_vm, vm0.thread.stack = vm.thread.stack →
      vm0.thread.stack_cap = vm.thread.stack_cap →
      vm0.thread.current_frame = vm.thread.current_frame →
      vm0.thread.stack_frames = vm.thread.stack_frames → vm0.heap = vm.heap →
      ∃ vm1,
        (if f.c_fn = 0 then
          if f.upval_locals then
            match esh_req_stack w.stack_ok vm0.esh (k + ESH_FN_DEFAULT_STACK_CAP) with
            | (0, esh1) =>
              match new_env_object w.obj (vm0.put esh1) f.n_locals with
              | (none, vm2) => some (1, vm2)
              | (some new_env, vm2) =>
                if k > f.n_locals then none
                else
                  let args :=
                    (List.range k).map (fun i => stack_at vm2.esh (vm2.stack_len - k + i))
                  let locals := args ++ List.replicate (f.n_locals - k) ESH_NULL
                  let vm3 : esh_vm :=
                    { vm2 with
                      envs := store vm2.envs new_env ⟨cl.env, locals⟩,
                      thread := { vm2.thread with
                        stack := vm2.thread.stack.take (vm2.stack_len - k) } }
                  some (0, push_frame vm3 vm3.stack_len new_env cl.fn k er cp)
            | (_, esh1) => some (1, vm0.put esh1)
          else
            match esh_req_stack w.stack_ok vm0.esh (f.n_locals + ESH_FN_DEFAULT_STACK_CAP) with
            | (0, esh1) =>
              if ¬ f.n_locals ≥ k then none
              else
                let esh2 := (stack_resv w.stack_ok esh1 (f.n_locals - k)).2
                some (0, push_frame (vm0.put esh2) (vm0.stack_len - k) cl.env cl.fn k er cp)
            | (_, esh1) => some (1, vm0.put esh1)
        else
          match esh_req_stack w.stack_ok vm0.esh (k + C_FN_DEFAULT_STACK_CAP) with
          | (0, esh1) => some (0, push_frame (vm0.put esh1) (vm0.stack_len - k) 0 cl.fn k er cp)
          | (_, esh1) => some (1, vm0.put esh1)) = some (0, vm1) ∧
        frame_pushed vm vm1 cl k er cp ∧
        (f.c_fn ≠ 0 → vm1.thread.stack = vm.thread.stack ∧
          vm1.thread.current_frame.stack_base = vm.thread.stack.length - k ∧
          vm1.heap = vm.heap) := by
    intro vm0 e1 e2 e3 e4 e5
    have hcap0 : vm0.esh.stack_len ≤ vm0.esh.stack_cap := by
      show vm0.thread.stack.length ≤ vm0.thread.stack_cap
      rw [e1, e2]; exact hcap
    by_cases hc : f.c_fn = 0
    · rw [if_pos hc]
      by_cases hup : f.upval_locals = true
      · rw [if_pos hup]
        obtain ⟨cap, h1, h2, _⟩ := req_stack_ok w.stack_ok vm0.esh
          (k + ESH_FN_DEFAULT_STACK_CAP) hcap0 (Or.inl hstk)
        rw [h1]
        simp only
        unfold new_env_object
        rw [new_object_ok w.obj _ _ (by
          show vm0.thread.stack.length ≠ cap
          have : vm0.thread.stack.length + (k + ESH_FN_DEFAULT_STACK_CAP) ≤ cap := h2
          unfold ESH_FN_DEFAULT_STACK_CAP at this
          omega) (hobj hc hup)]
        simp only
        rw [if_neg (by have := hlocals hc; omega)]
        refine ⟨_, rfl, ?_, fun h => absurd hc h⟩
        unfold frame_pushed push_frame
        simp [esh_vm.put, (esh_pop_fields _ _).1, esh_vm.esh, e3, e4]
      · rw [if_neg hup]
        obtain ⟨cap, h1, h2, _⟩ := req_stack_ok w.stack_ok vm0.esh
          (f.n_locals + ESH_FN_DEFAULT_STACK_CAP) hcap0 (Or.inl hstk)
        rw [h1]
        simp only
        rw [if_neg (by have := hlocals hc; omega)]
        refine ⟨_, rfl, ?_, fun h => absurd hc h⟩
        unfold frame_pushed push_frame
        simp [esh_vm.put, (stack_resv_fields _ _ _).1, esh_vm.esh, e3, e4]
    · rw [if_neg hc]
      obtain ⟨cap, h1, h2, _⟩ := req_stack_ok w.stack_ok vm0.esh
        (k + C_FN_DEFAULT_STACK_CAP) hcap0 (Or.inl hstk)
      rw [h1]
      refine ⟨_, rfl, ?_, fun _ => ?_⟩
      · unfold frame_pushed push_frame
        simp [esh_vm.put, esh_vm.esh, e3, e4]
      · unfold push_frame
        simp [esh_vm.put, esh_vm.esh, esh_vm.stack_len, e1, e5]
  unfold enter_frame
  rw [if_neg (by rw [hframes]; simp)]
  simp only
  by_cases hfull : vm.thread.stack_frames_len = vm.thread.stack_frames_cap
  · simp only [if_pos hfull]
    exact key _ rfl rfl rfl rfl rfl
  · simp only [if_neg hfull]
    exact key vm rfl rfl rfl rfl rfl

/-- C17: A call with `k` arguments of a closure whose template has `n_args` required and
`opt_args` optional parameters passes the arity check of `enter_fn` exactly when
`n_args <= k <= n_args + opt_args`, or `k >= n_args` and the template is variadic: then
`enter_fn` goes on to create the coroutine or to push the frame (and, for a closure that is
no coroutine, with memory granted, does push it and returns 0); for every other `k` it
returns 1 with an arity message and leaves frames, stack and heap as they were. -/
theorem C17_arity_check (w : world) (vm : esh_vm) (k er : Nat) (opt_fn : Option esh_val)
    (cp : Bool) (callee : esh_val) (cl : esh_closure) (f : esh_function)
    (hk : k + 1 < SIZE_MOD)
    (hstack : vm.thread.current_frame.stack_base + (k + 1) ≤ vm.thread.stack.length)
    (hcallee : opt_fn.getD (stack_at vm.esh (vm.stack_len - k - 1)) = callee)
    (hobj : val_as_object vm.heap callee (some esh_type_ptr.closure_type) ≠ none)
    (hcl : vm.closures callee = some cl) (hf : vm.functions cl.fn = some f)
    (hsum : f.n_args + f.opt_args < SIZE_MOD) :
    ((f.n_args ≤ k ∧ (k ≤ f.n_args + f.opt_args ∨ f.variadic = true)) →
      enter_fn w vm k er opt_fn cp =
        (if cl.is_coroutine then create_coroutine w vm k er cl f
          else enter_frame w vm k er cl f cp) ∧
      (cl.is_coroutine = false → vm.thread.stack.length ≤ vm.thread.stack_cap →
        w.frames_ok = true → w.stack_ok = true → w.obj ≠ 0 → (f.c_fn = 0 → k ≤ f.n_locals) →
        ∃ vm1, enter_fn w vm k er opt_fn cp = some (0, vm1) ∧
          frame_pushed vm vm1 cl k er cp)) ∧
    (¬ (f.n_args ≤ k ∧ (k ≤ f.n_args + f.opt_args ∨ f.variadic = true)) →
      ∃ msg, enter_fn w vm k er opt_fn cp = some (1, vm.printf msg) ∧
        (msg = "Not enough arguments provided to function" ∨
          msg = "Too many arguments provided to function")) := by
  obtain ⟨a1, a2, a3⟩ := enter_fn_arity w vm k er opt_fn cp callee cl f hk hstack hcallee hobj
    hcl hf hsum
  constructor
  · rintro ⟨h1, h2⟩
    refine ⟨a3 h1 h2, ?_⟩
    intro hco hcap hfr hst hob hloc
    obtain ⟨vm1, e1, e2, _⟩ :=
      enter_frame_ok w vm k er cl f cp hcap hfr hst (fun _ _ => hob) hloc
    refine ⟨vm1, ?_, e2⟩
    rw [a3 h1 h2, hco]
    exact e1
  · intro hnot
    by_cases h1 : k < f.n_args
    · exact ⟨_, a1 h1, Or.inl rfl⟩
    · have hv : f.variadic = false := by
        cases hvv : f.variadic with
        | false => rfl
        | true => exact absurd ⟨by omega, Or.inr hvv⟩ hnot
      have hgt : f.n_args + f.opt_args < k := by
        by_contra hle
        exact hnot ⟨by omega, Or.inl (by omega)⟩
      exact ⟨_, a2 (by omega) hv hgt, Or.inr rfl⟩

theorem C17_arity_check_witness :
    ∃ vm1, enter_fn sample_world
        (sample_vm { sample_function [] [] [] with n_args := 1, opt_args := 1, n_locals := 2 }
          [16, 5]) 1 1 none false = some (0, vm1) ∧
      frame_pushed
        (sample_vm { sample_function [] [] [] with n_args := 1, opt_args := 1, n_locals := 2 }
          [16, 5]) vm1 ⟨false, 32, 0⟩ 1 1 false :=
  ((C17_arity_check sample_world
    (sample_vm { sample_function [] [] [] with n_args := 1, opt_args := 1, n_locals := 2 }
      [16, 5]) 1 1 none false 16 ⟨false, 32, 0⟩
    { sample_function [] [] [] with n_args := 1, opt_args := 1, n_locals := 2 }
    (by decide) (by decide) (by decide) (by decide) rfl rfl (by decide)).1
      ⟨by decide, Or.inl (by decide)⟩).2 rfl (by decide) rfl rfl (by decide)
      (fun _ => by decide)

theorem fold_fields (vm : esh_vm) (f : esh_function) :
    (fold_next_unpack_instr vm f).2.esh = vm.esh ∧
    (fold_next_unpack_instr vm f).2.globals = vm.globals ∧
    (fold_next_unpack_instr vm f).2.cmd = vm.cmd ∧
    (fold_next_unpack_instr vm f).2.closures = vm.closures ∧
    (fold_next_unpack_instr vm f).2.functions = vm.functions := by
  unfold fold_next_unpack_instr
  simp only
  split_ifs <;> exact ⟨rfl, rfl, rfl, rfl, rfl⟩

theorem push_bool_ok (esh : esh_state) (b : Bool) (hroom : esh.stack_len < esh.stack_cap) :
    esh_push_bool esh b =
      (0, ⟨esh.stack ++ [if b then true_value else ESH_NULL], esh.stack_cap, esh.stack_base,
        esh.heap, esh.err⟩) := by
  cases b
  · unfold esh_push_bool esh_push_null
    simp only [Bool.false_eq_true, if_false]
    rw [stack_push_ok hroom]
  · unfold esh_push_bool esh_new_string
    simp only [if_true]
    rw [if_pos (by decide), stack_push_ok hroom]
    rfl

/-- Whether the callee is handed to `enter_fn` by pointer or lies in the slot below the
arguments makes no difference. -/
theorem enter_fn_by_pointer (w : world) (vm : esh_vm) (k er : Nat) (g : esh_val) (cp : Bool)
    (hslot : stack_at vm.esh (vm.stack_len - k - 1) = g) :
    enter_fn w vm k er (some g) cp = enter_fn w vm k er none cp := by
  unfold enter_fn
  simp only [hslot]

/-- The case `CMD` up to the lookup of the command name among the globals. -/
theorem cmd_instr_lookup (w : world) (vm : esh_vm) (f : esh_function) (instr : instr_regs)
    (cmd : List Nat) (cmdlen : Nat) (globals : heap_object)
    (hitems : vm.thread.current_frame.stack_base + (instr.arg + 1) ≤ vm.thread.stack.length)
    (hname : val_as_string vm.heap (stack_at vm.esh (vm.stack_len - instr.arg - 1)) =
      some (cmd, cmdlen))
    (hglobals : vm.heap vm.globals = some globals) :
    (∀ g, esh_object_get globals.obj (cmd.take cmdlen) = some (some g) →
      cmd_instr w vm f instr =
        call_signal (enter_fn w (fold_next_unpack_instr vm.incr f).2 instr.arg
          (fold_next_unpack_instr vm.incr f).1 (some g) false)) ∧
    (esh_object_get globals.obj (cmd.take cmdlen) = some none → vm.cmd = ESH_NULL →
      cmd_instr w vm f instr =
        some (.PANIC ((fold_next_unpack_instr vm.incr f).2.printf
          "Unknown command (no command handler set)"))) ∧
    (esh_object_get globals.obj (cmd.take cmdlen) = some none → vm.cmd ≠ ESH_NULL →
      vm.thread.stack.length + 3 ≤ vm.thread.stack_cap →
      cmd_instr w vm f instr =
        call_signal (enter_fn w
          ((fold_next_unpack_instr vm.incr f).2.put { vm.esh with
            stack := vm.thread.stack ++ [stack_at vm.esh (vm.stack_len - instr.arg - 1),
              if instr.l &&& 2 ≠ 0 then true_value else ESH_NULL,
              if instr.l &&& 1 ≠ 0 then true_value else ESH_NULL] })
          (instr.arg + 3) (fold_next_unpack_instr vm.incr f).1 (some vm.cmd) false)) := by
  obtain ⟨e1, e2, e3, _, _⟩ := fold_fields vm.incr f
  have e1' : (fold_next_unpack_instr vm.incr f).2.esh = vm.esh := e1
  have e2' : (fold_next_unpack_instr vm.incr f).2.globals = vm.globals := e2
  have e3' : (fold_next_unpack_instr vm.incr f).2.cmd = vm.cmd := e3
  have eh : (fold_next_unpack_instr vm.incr f).2.heap = vm.heap := congrArg esh_state.heap e1'
  have hbase : vm.esh.stack_base ≤ vm.esh.stack_len := by
    show vm.thread.current_frame.stack_base ≤ vm.thread.stack.length
    omega
  have hit : ¬ vm.esh.stack_len - vm.esh.stack_base < instr.arg + 1 := by
    show ¬ vm.thread.stack.length - vm.thread.current_frame.stack_base < instr.arg + 1
    omega
  have hname' : val_as_string vm.esh.heap (stack_at vm.esh (vm.esh.stack_len - instr.arg - 1)) =
      some (cmd, cmdlen) := hname
  have hpre : ∀ r, esh_object_get globals.obj (cmd.take cmdlen) = some r →
      cmd_instr w vm f instr =
        match r with
        | some global =>
          call_signal (enter_fn w (fold_next_unpack_instr vm.incr f).2 instr.arg
            (fold_next_unpack_instr vm.incr f).1 (some global) false)
        | none =>
          if vm.cmd = ESH_NULL then
            some (.PANIC ((fold_next_unpack_instr vm.incr f).2.printf
              "Unknown command (no command handler set)"))
          else
            match stack_push vm.esh (stack_at vm.esh (vm.esh.stack_len - instr.arg - 1)) with
            | (0, esh1) =>
              match esh_push_bool esh1 (decide (instr.l &&& 2 ≠ 0)) with
              | (0, esh2) =>
                match esh_push_bool esh2 (decide (instr.l &&& 1 ≠ 0)) with
                | (0, esh3) =>
                  call_signal (enter_fn w ((fold_next_unpack_instr vm.incr f).2.put esh3)
                    (instr.arg + 3) (fold_next_unpack_instr vm.incr f).1 (some vm.cmd) false)
                | (_, esh3) => some (.PANIC ((fold_next_unpack_instr vm.incr f).2.put esh3))
              | (_, esh2) => some (.PANIC ((fold_next_unpack_instr vm.incr f).2.put esh2))
            | (_, esh1) => some (.PANIC ((fold_next_unpack_instr vm.incr f).2.put esh1)) := by
    intro r hr
    unfold cmd_instr
    simp only [e1', e2', e3', eh, if_pos hbase, if_neg hit, hname', hglobals, hr]
    cases r <;> rfl
  refine ⟨fun g hg => by rw [hpre _ hg], fun hg hc => by rw [hpre _ hg]; simp only [if_pos hc],
    fun hg hc hroom => ?_⟩
  rw [hpre _ hg]
  simp only [if_neg hc]
  have hr1 : vm.esh.stack_len < vm.esh.stack_cap := by
    show vm.thread.stack.length < vm.thread.stack_cap
    omega
  rw [stack_push_ok hr1]
  simp only
  rw [push_bool_ok ⟨vm.esh.stack ++ [stack_at vm.esh (vm.esh.stack_len - instr.arg - 1)],
    vm.esh.stack_cap, vm.esh.stack_base, vm.esh.heap, vm.esh.err⟩ _ (by
      show (vm.thread.stack ++ [_]).length < vm.thread.stack_cap
      simp; omega)]
  simp only
  rw [push_bool_ok ⟨vm.esh.stack ++ [stack_at vm.esh (vm.esh.stack_len - instr.arg - 1)] ++
      [if decide (instr.l &&& 2 ≠ 0) = true then true_value else ESH_NULL],
    vm.esh.stack_cap, vm.esh.stack_base, vm.esh.heap, vm.esh.err⟩ _ (by
      show (vm.thread.stack ++ [_] ++ [_]).length < vm.thread.stack_cap
      simp; omega)]
  simp [esh_vm.stack_len, esh_state.stack_len, esh_vm.esh]

theorem bit1_flag (l : Nat) : decide (l &&& 2 ≠ 0) = l.testBit 1 := by
  have h := Nat.and_two_pow l 1
  simp only [pow_one] at h
  rw [h]
  cases l.testBit 1 <;> simp

theorem bit0_flag (l : Nat) : decide (l &&& 1 ≠ 0) = l.testBit 0 := by
  have h := Nat.and_two_pow l 0
  simp only [pow_zero] at h
  rw [h]
  cases l.testBit 0 <;> simp

/-- C18: A `CMD` instruction whose command name is bound in the globals object calls that
global through `enter_fn` with the instruction's argument count, the folded expected-return
count and no catch flag, exactly as `CALL` calls the value in the callee slot, and this
whatever the dispatcher field `cmd` holds (NULL or a value); only when the name is not
bound is the dispatcher looked at: the instruction jumps to `PANIC` if it is NULL and
otherwise calls the dispatcher. -/
theorem C18_cmd_global_first (w : world) (vm : esh_vm) (f : esh_function)
    (instr call : instr_regs) (cmd : List Nat) (cmdlen : Nat) (globals : heap_object)
    (hop : esh_opcode.of_byte instr.op = some esh_opcode.CMD)
    (hcall : esh_opcode.of_byte call.op = some esh_opcode.CALL)
    (hitems : vm.thread.current_frame.stack_base + (instr.arg + 1) ≤ vm.thread.stack.length)
    (hname : val_as_string vm.heap (stack_at vm.esh (vm.stack_len - instr.arg - 1)) =
      some (cmd, cmdlen))
    (hglobals : vm.heap vm.globals = some globals) :
    (∀ g, esh_object_get globals.obj (cmd.take cmdlen) = some (some g) → ∀ c,
      exec_instr w { vm with cmd := c } f instr =
        call_signal (enter_fn w (fold_next_unpack_instr { vm with cmd := c }.incr f).2
          instr.arg (fold_next_unpack_instr { vm with cmd := c }.incr f).1 (some g) false)) ∧
    exec_instr w vm f call =
      call_signal (enter_fn w (fold_next_unpack_instr vm.incr f).2 call.arg
        (fold_next_unpack_instr vm.incr f).1 none false) ∧
    (esh_object_get globals.obj (cmd.take cmdlen) = some none → vm.cmd = ESH_NULL →
      exec_instr w vm f instr =
        some (.PANIC ((fold_next_unpack_instr vm.incr f).2.printf
          "Unknown command (no command handler set)"))) ∧
    (esh_object_get globals.obj (cmd.take cmdlen) = some none → vm.cmd ≠ ESH_NULL →
      vm.thread.stack.length + 3 ≤ vm.thread.stack_cap →
      ∃ vm1, vm1.cmd = vm.cmd ∧ exec_instr w vm f instr =
        call_signal (enter_fn w vm1 (instr.arg + 3) (fold_next_unpack_instr vm.incr f).1
          (some vm.cmd) false)) := by
  have hx : ∀ vm0 : esh_vm, exec_instr w vm0 f instr = cmd_instr w vm0 f instr := by
    intro vm0
    unfold exec_instr
    simp only [hop]
  refine ⟨fun g hg c => ?_, ?_, fun hg hc => ?_, fun hg hc hroom => ?_⟩
  · rw [hx]
    exact (cmd_instr_lookup w { vm with cmd := c } f instr cmd cmdlen globals hitems hname
      hglobals).1 g hg
  · unfold exec_instr
    simp only [hcall]
  · rw [hx]
    exact (cmd_instr_lookup w vm f instr cmd cmdlen globals hitems hname hglobals).2.1 hg hc
  · rw [hx]
    refine ⟨_, ?_, (cmd_instr_lookup w vm f instr cmd cmdlen globals hitems hname
      hglobals).2.2 hg hc hroom⟩
    exact (fold_fields vm.incr f).2.2.1

theorem C18_cmd_global_first_witness :
    exec_instr sample_world
        { { sample_vm sample_native [sample_name, 5] with heap := sample_heap_bound } with
          cmd := 0 } sample_native ⟨14, 1, 0⟩ =
      call_signal (enter_fn sample_world
        (fold_next_unpack_instr
          { { sample_vm sample_native [sample_name, 5] with heap := sample_heap_bound } with
            cmd := 0 }.incr sample_native).2 1
        (fold_next_unpack_instr
          { { sample_vm sample_native [sample_name, 5] with heap := sample_heap_bound } with
            cmd := 0 }.incr sample_native).1 (some 16) false) :=
  (C18_cmd_global_first sample_world
    { sample_vm sample_native [sample_name, 5] with heap := sample_heap_bound } sample_native
    ⟨14, 1, 0⟩ ⟨11, 1, 0⟩ [102, 0, 0, 0, 0, 0, 0] 1
    ⟨none, ⟨false, 1, [⟨some [102], 16, false⟩]⟩, 0, []⟩ (by decide) (by decide) (by decide)
    (by decide) (by decide)).1 16 (by decide) 0

/-- When `CMD` with `n` arguments and flag byte `l` finds no global of the command's
name and a dispatcher is registered, it pushes the command name, the pipe-in flag (`"true"`
iff bit 1 of `l` is set, else NULL) and the capture flag (`"true"` iff bit 0 of `l` is set,
else NULL) and calls the dispatcher through `enter_fn` with `n + 3` arguments; for a
dispatcher that is a native closure accepting that count, with memory granted, the call
succeeds and the frame of the dispatcher holds, from its base on, the `n` command
arguments in order, then the name and the two flags. -/
theorem dispatcher_native_frame (w : world) (vm : esh_vm) (f : esh_function)
    (instr : instr_regs) (below args : List esh_val) (name : esh_val) (cmd : List Nat)
    (cmdlen : Nat) (globals : heap_object) (cl : esh_closure) (d : esh_function)
    (hop : esh_opcode.of_byte instr.op = some esh_opcode.CMD)
    (hst : vm.thread.stack = below ++ [name] ++ args) (hargs : args.length = instr.arg)
    (hbase : vm.thread.current_frame.stack_base ≤ below.length)
    (hname : val_as_string vm.heap name = some (cmd, cmdlen))
    (hglobals : vm.heap vm.globals = some globals)
    (hmiss : esh_object_get globals.obj (cmd.take cmdlen) = some none)
    (hcmd : vm.cmd ≠ ESH_NULL)
    (hroom : vm.thread.stack.length + 3 ≤ vm.thread.stack_cap)
    (hsmall : instr.arg + 4 < SIZE_MOD)
    (hobj : val_as_object vm.heap vm.cmd (some esh_type_ptr.closure_type) ≠ none)
    (hcl : vm.closures vm.cmd = some cl) (hd : vm.functions cl.fn = some d)
    (hnative : d.c_fn ≠ 0) (hnoco : cl.is_coroutine = false)
    (harity : d.n_args ≤ instr.arg + 3 ∧
      (instr.arg + 3 ≤ d.n_args + d.opt_args ∨ d.variadic = true))
    (hsum : d.n_args + d.opt_args < SIZE_MOD)
    (hframes : w.frames_ok = true) (hstk : w.stack_ok = true) :
    ∃ vm1, exec_instr w vm f instr = some (.cont vm1) ∧
      frame_pushed (fold_next_unpack_instr vm.incr f).2 vm1 cl (instr.arg + 3)
        (fold_next_unpack_instr vm.incr f).1 false ∧
      vm1.thread.stack = vm.thread.stack ++ [name,
        if instr.l.testBit 1 then true_value else ESH_NULL,
        if instr.l.testBit 0 then true_value else ESH_NULL] ∧
      vm1.thread.stack.drop vm1.thread.current_frame.stack_base = args ++ [name,
        if instr.l.testBit 1 then true_value else ESH_NULL,
        if instr.l.testBit 0 then true_value else ESH_NULL] := by
  have hlen : vm.thread.stack.length = below.length + 1 + instr.arg := by
    rw [hst]; simp [hargs]; omega
  have hslot : stack_at vm.esh (vm.stack_len - instr.arg - 1) = name := by
    show vm.thread.stack.getD (vm.thread.stack.length - instr.arg - 1) ESH_NULL = name
    rw [hlen, hst, List.getD_eq_getElem?_getD]
    have : below.length + 1 + instr.arg - instr.arg - 1 = below.length := by omega
    rw [this, List.append_assoc, List.getElem?_append_right (le_refl _)]
    simp
  have hx : exec_instr w vm f instr = cmd_instr w vm f instr := by
    unfold exec_instr
    simp only [hop]
  have hlook := (cmd_instr_lookup w vm f instr cmd cmdlen globals (by omega)
    (by rw [hslot]; exact hname) hglobals).2.2 hmiss hcmd hroom
  rw [hslot] at hlook
  have hp : (if instr.l &&& 2 ≠ 0 then true_value else ESH_NULL) =
      if instr.l.testBit 1 then true_value else ESH_NULL := by
    rw [← bit1_flag]; simp
  have hc : (if instr.l &&& 1 ≠ 0 then true_value else ESH_NULL) =
      if instr.l.testBit 0 then true_value else ESH_NULL := by
    rw [← bit0_flag]; simp
  rw [hp, hc] at hlook
  obtain ⟨e1, _, _, e4, e5⟩ := fold_fields vm.incr f
  have e1' : (fold_next_unpack_instr vm.incr f).2.esh = vm.esh := e1
  have ebase : (fold_next_unpack_instr vm.incr f).2.thread.current_frame.stack_base =
      vm.thread.current_frame.stack_base := congrArg esh_state.stack_base e1'
  have ecap : (fold_next_unpack_instr vm.incr f).2.thread.stack_cap = vm.thread.stack_cap :=
    congrArg esh_state.stack_cap e1'
  have eheap : (fold_next_unpack_instr vm.incr f).2.heap = vm.heap :=
    congrArg esh_state.heap e1'
  generalize hvx : (fold_next_unpack_instr vm.incr f).2.put { vm.esh with
      stack := vm.thread.stack ++ [name,
        if instr.l.testBit 1 then true_value else ESH_NULL,
        if instr.l.testBit 0 then true_value else ESH_NULL] } = vmx at hlook
  have x1 : vmx.thread.stack = vm.thread.stack ++ [name,
      if instr.l.testBit 1 then true_value else ESH_NULL,
      if instr.l.testBit 0 then true_value else ESH_NULL] := by rw [← hvx]; rfl
  have x2 : vmx.thread.current_frame = (fold_next_unpack_instr vm.incr f).2.thread.current_frame := by
    rw [← hvx]
    show ({ (fold_next_unpack_instr vm.incr f).2.thread.current_frame with
      stack_base := vm.thread.current_frame.stack_base } : esh_stack_frame) = _
    rw [← ebase]
  have x3 : vmx.thread.stack_frames = (fold_next_unpack_instr vm.incr f).2.thread.stack_frames := by
    rw [← hvx]; rfl
  have x4 : vmx.heap = vm.heap := by rw [← hvx]; rfl
  have x5 : vmx.closures = vm.closures := by rw [← hvx]; exact e4
  have x6 : vmx.functions = vm.functions := by rw [← hvx]; exact e5
  have x7 : vmx.thread.stack_cap = vm.thread.stack_cap := by rw [← hvx]; rfl
  have hxlen : vmx.thread.stack.length = below.length + 1 + instr.arg + 3 := by
    rw [x1]; simp [hlen]
  have har := (enter_fn_arity w vmx (instr.arg + 3) (fold_next_unpack_instr vm.incr f).1
    (some vm.cmd) false vm.cmd cl d (by omega)
    (by rw [x2, ebase, hxlen]; omega) rfl (by rw [x4]; exact hobj) (by rw [x5]; exact hcl)
    (by rw [x6]; exact hd) hsum).2.2 harity.1 harity.2
  rw [hnoco] at har
  simp only [Bool.false_eq_true, if_false] at har
  obtain ⟨vm1, f1, f2, f3⟩ := enter_frame_ok w vmx (instr.arg + 3)
    (fold_next_unpack_instr vm.incr f).1 cl d false (by rw [x7, hxlen]; omega) hframes hstk
    (fun h => absurd h hnative) (fun h => absurd h hnative)
  obtain ⟨g1, g2, _⟩ := f3 hnative
  refine ⟨vm1, ?_, ?_, by rw [g1, x1], ?_⟩
  · rw [hx, hlook, har, f1]; rfl
  · unfold frame_pushed at f2 ⊢
    rw [x2, x3] at f2
    exact f2
  · rw [g2, hxlen, g1, x1, hst]
    have : below.length + 1 + instr.arg + 3 - (instr.arg + 3) = (below ++ [name]).length := by
      simp
    rw [this, List.append_assoc (below ++ [name]), List.drop_left]

theorem dispatcher_native_frame_sample :
    ∃ vm1, exec_instr sample_world { sample_vm sample_native [sample_name, 5] with cmd := 16 }
        sample_native ⟨14, 1, 3⟩ = some (.cont vm1) ∧
      vm1.thread.stack.drop vm1.thread.current_frame.stack_base =
        [5] ++ [sample_name, if (3 : Nat).testBit 1 then true_value else ESH_NULL,
          if (3 : Nat).testBit 0 then true_value else ESH_NULL] := by
  obtain ⟨vm1, h1, _, _, h4⟩ := dispatcher_native_frame sample_world
    { sample_vm sample_native [sample_name, 5] with cmd := 16 } sample_native ⟨14, 1, 3⟩
    [] [5] sample_name [102, 0, 0, 0, 0, 0, 0] 1 (sample_header none false) ⟨false, 32, 0⟩
    sample_native (by decide) rfl rfl (by decide) (by decide) (by decide) (by decide)
    (by decide) (by decide) (by decide) (by decide) rfl rfl (by decide) rfl
    ⟨by decide, Or.inr rfl⟩ (by decide) rfl rfl
  exact ⟨vm1, h1, h4⟩

theorem set_stack_len_some {stack stack1 : List esh_val} {n : Nat}
    (h : set_stack_len stack n = some stack1) : n ≤ stack.length ∧ stack1 = stack.take n := by
  unfold set_stack_len at h
  by_cases hn : n ≤ stack.length
  · rw [if_pos hn] at h
    exact ⟨hn, (Option.some.inj h).symm⟩
  · rw [if_neg hn] at h
    cases h

theorem set_last (l : List esh_val) (v : esh_val) (h : 0 < l.length) :
    l.set (l.length - 1) v = l.dropLast ++ [v] := by
  induction l with
  | nil => simp at h
  | cons a tl ih =>
    cases tl with
    | nil => simp
    | cons b tl2 =>
      have := ih (by simp)
      simp only [List.length_cons, Nat.add_sub_cancel] at this ⊢
      rw [List.set_cons_succ, this]
      simp

theorem getD_last (l : List esh_val) (h : 0 < l.length) :
    l.getLast? = some (l.getD (l.length - 1) ESH_NULL) := by
  rw [List.getLast?_eq_getElem?, List.getD_eq_getElem?_getD]
  have : l.length - 1 < l.length := by omega
  rw [List.getElem?_eq_getElem this]
  rfl

/-- The closure `esh_exec_fn` runs is the value on top of the stack. -/
theorem exec_fn_entry (esh : esh_state) (heap : Nat → Option heap_object)
    (hbase : esh.stack_base = 0) (entrypoint : Nat)
    (h : (match stack_offset esh (-1) with
      | (none, _) => none
      | (some index, _) =>
        match val_as_object heap (stack_at esh index) (some esh_type_ptr.closure_type) with
        | none => none
        | some _ => some (stack_at esh index)) = some entrypoint) :
    0 < esh.stack.length ∧ esh.stack.getLast? = some entrypoint := by
  unfold stack_offset at h
  simp only [hbase, Nat.zero_le, if_true, Nat.sub_zero] at h
  rw [if_pos (by decide)] at h
  by_cases hlen : (- (-1 : Int)).toNat > esh.stack_len
  · rw [if_pos hlen] at h
    simp at h
  · rw [if_neg hlen] at h
    have h1 : (- (-1 : Int)).toNat = 1 := by decide
    rw [h1] at hlen h
    have hpos : 0 < esh.stack.length := by
      unfold esh_state.stack_len at hlen
      omega
    refine ⟨hpos, ?_⟩
    simp only at h
    split at h
    · cases h
    · rw [getD_last _ hpos]
      exact h

/-- What a successful `esh_exec_fn` leaves on the stack: the closure on top is replaced by
the value that lies on top when `run_vm` returns, and nothing is added. -/
theorem exec_fn_stack (w : Nat → world) (fuel : Nat) (vm vm1 : esh_vm)
    (h : esh_exec_fn w fuel vm = some (0, vm1)) :
    ∃ entrypoint vmr, vm.thread.stack.getLast? = some entrypoint ∧
      run_vm w fuel { vm with stack_trace := none } entrypoint = some (0, vmr) ∧
      vm1.thread.stack.length = vm.thread.stack.length ∧
      0 < vm.thread.stack.length ∧
      vm1.thread.stack.getLast? = vmr.thread.stack.getLast? ∧
      vm1.thread.stack.dropLast = vmr.thread.stack.take (vm.thread.stack.length - 1) := by
  unfold esh_exec_fn at h
  simp only at h
  split at h
  · simp at h
  rename_i hasserts
  split at h
  · simp at h
  rename_i hasserts2
  split at h
  · simp at h
  rename_i entrypoint hfn
  split at h
  · simp at h
  rename_i rerr vmr hrun
  split at h
  · simp at h
  rename_i hr1
  split at h
  · simp at h
  rename_i hr2
  split at h
  · simp at h
  rename_i stack hstack
  split at h
  · simp at h
  rename_i hnonempty
  split at h
  · rename_i hzero
    subst hzero
    have hbase : vm.thread.current_frame.stack_base = 0 := by
      by_contra hb
      exact hasserts2 (Or.inr (Or.inl hb))
    obtain ⟨hpos, hlast⟩ := exec_fn_entry _ vm.heap hbase entrypoint hfn
    obtain ⟨hle, hstk⟩ := set_stack_len_some hstack
    have hle' : vm.thread.stack.length ≤ vmr.thread.stack.length := hle
    have hstk' : stack = vmr.thread.stack.take vm.thread.stack.length := hstk
    have hslen : stack.length = vm.thread.stack.length := by
      rw [hstk', List.length_take]; omega
    have hvmr : 0 < vmr.thread.stack.length := by
      have hpos' : 0 < vm.thread.stack.length := hpos
      omega
    have h1 : vm1.thread.stack =
        stack.set (stack.length - 1) (stack_at vmr.esh (vmr.stack_len - 1)) := by
      have := Option.some.inj h
      rw [← (Prod.mk.inj this).2]
    have hpos' : 0 < vm.thread.stack.length := hpos
    refine ⟨entrypoint, vmr, hlast, hrun, ?_, hpos', ?_, ?_⟩
    · rw [h1, List.length_set, hslen]
    · rw [h1, set_last _ _ (by omega), List.getLast?_concat]
      exact (getD_last vmr.thread.stack hvmr).symm
    · rw [h1, set_last _ _ (by omega), List.dropLast_concat, List.dropLast_eq_take, hslen, hstk',
        List.take_take]
      congr 1
      omega
  · simp at h

/-- C20 as stated fails: the template `PUSH_NULL; RET 1` run from the stack `[7, closure]`
succeeds and leaves `[7, NULL]`, which has as many values as before the call, not one
more. -/
theorem C20_counterexample :
    (esh_exec_fn (fun _ => sample_world) 8
        (sample_vm (sample_function [] [] [(.PUSH_NULL, 0, 0), (.RET, 1, 0)]) [7, 16])).map
      (fun r => (r.1, r.2.thread.stack)) = some (0, [7, 0]) ∧
    ¬ ([7, 0] : List esh_val).length = ([7, 16] : List esh_val).length + 1 := by
  decide

/-- C20 (amended): For every successful `esh_exec_fn` call the value stack afterwards has
the same length as before the call, the closure included: the run executes the closure
that lay on top, and that slot now holds the result, the value on top of the stack when
`run_vm` returned; the slots below are those of the stack at that return. -/
theorem C20_exec_fn_result (w : Nat → world) (fuel : Nat) (vm vm1 : esh_vm)
    (h : esh_exec_fn w fuel vm = some (0, vm1)) :
    ∃ entrypoint vmr, vm.thread.stack.getLast? = some entrypoint ∧
      run_vm w fuel { vm with stack_trace := none } entrypoint = some (0, vmr) ∧
      vm1.thread.stack.length = vm.thread.stack.length ∧
      0 < vm.thread.stack.length ∧
      vm1.thread.stack.getLast? = vmr.thread.stack.getLast? ∧
      vm1.thread.stack.dropLast = vmr.thread.stack.take (vm.thread.stack.length - 1) :=
  exec_fn_stack w fuel vm vm1 h

theorem C20_exec_fn_result_witness :
    ∃ vm1, esh_exec_fn (fun _ => sample_world) 8
        (sample_vm (sample_function [] [] [(.PUSH_NULL, 0, 0), (.RET, 1, 0)]) [7, 16]) =
        some (0, vm1) ∧ vm1.thread.stack.length = 2 := by
  have hsome : (esh_exec_fn (fun _ => sample_world) 8
      (sample_vm (sample_function [] [] [(.PUSH_NULL, 0, 0), (.RET, 1, 0)]) [7, 16])).map
      (fun r => r.1) = some 0 := by decide
  obtain ⟨r, hr, hcode⟩ := Option.map_eq_some'.mp hsome
  obtain ⟨code, vm1⟩ := r
  simp only at hcode
  subst hcode
  obtain ⟨_, _, _, _, hlen, _⟩ := C20_exec_fn_result (fun _ => sample_world) 8 _ vm1 hr
  exact ⟨vm1, hr, hlen⟩

/-- One pass of the loop in a frame of an interpreted template executes the instruction
at the instruction index. -/
theorem vm_pass_instr (w : world) (vm : esh_vm) (f : esh_function)
    (hf : vm.functions vm.thread.current_frame.fn = some f) (hc : f.c_fn = 0)
    (hi : vm.thread.current_frame.instr_index < f.instr_len) :
    vm_pass w vm = exec_instr w vm f
      (decode_instr f.instr (vm.thread.current_frame.instr_index * INSTR_SIZE)) := by
  unfold vm_pass
  simp only [hf]
  rw [if_neg (by rw [hc]; simp), if_neg (by omega)]

theorem stack_at_two (esh : esh_state) (below : List esh_val) (a b : esh_val)
    (hst : esh.stack = below ++ [a, b]) :
    stack_at esh (esh.stack_len - 2) = a ∧ stack_at esh (esh.stack_len - 1) = b ∧
      esh.stack.take (esh.stack_len - 2) = below := by
  unfold stack_at esh_state.stack_len
  rw [hst]
  refine ⟨?_, ?_, ?_⟩
  · rw [List.getD_eq_getElem?_getD,
      show (below ++ [a, b]).length - 2 = below.length by simp,
      List.getElem?_append_right (le_refl _)]
    simp
  · rw [List.getD_eq_getElem?_getD,
      show (below ++ [a, b]).length - 1 = below.length + 1 by simp,
      List.getElem?_append_right (Nat.le_add_right _ _)]
    simp
  · simp

/-- Effect of `int_binop` on two operands that read as integers. -/
theorem int_binop_ok (esh : esh_state) (opname : String) (below : List esh_val)
    (a b : esh_val) (x y : Int) (hst : esh.stack = below ++ [a, b])
    (hbase : esh.stack_base ≤ below.length)
    (hx : val_as_int esh.heap a = some x) (hy : val_as_int esh.heap b = some y) :
    int_binop esh opname = some (some (x, y), { esh with stack := below }) := by
  obtain ⟨e1, e2, e3⟩ := stack_at_two esh below a b hst
  have hlen : esh.stack_len = below.length + 2 := by
    unfold esh_state.stack_len
    rw [hst]
    simp
  unfold int_binop
  rw [opt_req_stack_ok (by omega)]
  simp only [e1, e2, e3, hx, hy]

/-- The string that `esh_push_int` pushes for a `long long` other than `LLONG_MIN` is its
decimal string. -/
theorem push_int_decimal (p : Nat) (esh : esh_state) (i : Int)
    (h1 : -9223372036854775808 < i) (h2 : i < 9223372036854775808)
    (hroom : esh.stack_len < esh.stack_cap) (hp : p ≠ 0 ∧ p % 2 = 0) :
    ∃ esh1 kv, esh_push_int p esh i = (0, esh1) ∧ esh1.stack = esh.stack ++ [kv] ∧
      esh1.stack_cap = esh.stack_cap ∧ esh1.stack_base = esh.stack_base ∧
      esh1.err = esh.err ∧ (∀ a, a ≠ p → esh1.heap a = esh.heap a) ∧
      string_value esh1.heap kv = some (decimal_string i) := by
  obtain ⟨_, d2, _⟩ := int_to_str_denotes i h1 h2
  obtain ⟨esh1, kv, e1, e2, e3, e4, e5, e6, e7, e8⟩ :=
    new_string_spec p esh (int_to_str i) hroom (fun c hc => (d2 c hc).2) (fun _ => hp)
  refine ⟨esh1, kv, e1, e2, e3, e4, e5, e6, ?_⟩
  rw [← int_to_str_decimal i h1 h2]
  unfold string_value
  by_cases hlen : (int_to_str i).length < 6
  · obtain ⟨_, _, hv⟩ := e7 hlen
    rw [hv esh1.heap, c_strlen_of_no_nul _ (fun c hc => (d2 c hc).1)]
    simp
  · obtain ⟨_, hv⟩ := e8 (by omega)
    rw [hv]
    simp

/-- The arithmetic instructions on two operands that read as integers `x` and `y`: both
are popped and the decimal string of `op x y` is pushed, when that result is a `long long`
other than `LLONG_MIN` and the allocator returns an aligned block. -/
theorem arith_instr_spec (p : Nat) (vm : esh_vm) (opname : String) (op : Int → Int → Int)
    (below : List esh_val) (a b : esh_val) (x y : Int)
    (hst : vm.thread.stack = below ++ [a, b])
    (hbase : vm.thread.current_frame.stack_base ≤ below.length)
    (hcap : below.length < vm.thread.stack_cap)
    (hx : val_as_int vm.heap a = some x) (hy : val_as_int vm.heap b = some y)
    (h1 : -9223372036854775808 < op x y) (h2 : op x y < 9223372036854775808)
    (hp : p ≠ 0 ∧ p % 2 = 0) :
    ∃ vm1 kv, arith_instr p vm opname op = some (.brk vm1) ∧
      vm1.thread.stack = below ++ [kv] ∧
      string_value vm1.heap kv = some (decimal_string (op x y)) := by
  have hb := int_binop_ok vm.esh opname below a b x y hst hbase hx hy
  obtain ⟨esh1, kv, e1, e2, _, _, _, _, e7⟩ :=
    push_int_decimal p ⟨below, vm.thread.stack_cap, vm.thread.current_frame.stack_base,
      vm.heap, vm.err⟩ (op x y) h1 h2 hcap hp
  refine ⟨vm.put esh1, kv, ?_, e2, e7⟩
  unfold arith_instr
  rw [hb]
  simp only
  have : ({ vm.esh with stack := below } : esh_state) =
      ⟨below, vm.thread.stack_cap, vm.thread.current_frame.stack_base, vm.heap, vm.err⟩ := rfl
  rw [this, e1]

/-- The arithmetic instructions jump to `PANIC` when the frame holds fewer than two
values. -/
theorem arith_instr_short (p : Nat) (vm : esh_vm) (opname : String) (op : Int → Int → Int)
    (hbase : vm.thread.current_frame.stack_base ≤ vm.thread.stack.length)
    (hshort : vm.thread.stack.length < vm.thread.current_frame.stack_base + 2) :
    arith_instr p vm opname op = some (.PANIC
      (vm.printf ("Not enough values on stack for " ++ opname ++ " operation"))) := by
  have h : opt_req_stack vm.esh 2 = some 1 := by
    unfold opt_req_stack
    have e1 : vm.esh.stack_len = vm.thread.stack.length := rfl
    have e2 : vm.esh.stack_base = vm.thread.current_frame.stack_base := rfl
    rw [if_neg (by omega), if_pos (by omega)]
  unfold arith_instr int_binop
  rw [h]
  rfl

/-- The arithmetic instructions jump to `PANIC` when one of the two operands is not
readable as a string. -/
theorem arith_instr_unreadable (p : Nat) (vm : esh_vm) (opname : String)
    (op : Int → Int → Int) (below : List esh_val) (a b : esh_val)
    (hst : vm.thread.stack = below ++ [a, b])
    (hbase : vm.thread.current_frame.stack_base ≤ below.length)
    (hbad : val_as_string vm.heap a = none ∨ val_as_string vm.heap b = none) :
    ∃ msg, arith_instr p vm opname op = some (.PANIC (vm.printf msg)) := by
  obtain ⟨e1, e2, e3⟩ := stack_at_two vm.esh below a b hst
  have hlen : vm.esh.stack_len = below.length + 2 := by
    unfold esh_state.stack_len
    rw [show vm.esh.stack = below ++ [a, b] from hst]
    simp
  have hb : vm.esh.stack_base ≤ below.length := hbase
  have hh : vm.esh.heap = vm.heap := rfl
  unfold arith_instr int_binop
  rw [opt_req_stack_ok (by omega)]
  simp only [e1, e2, hh]
  cases hx : val_as_int vm.heap a with
  | none => exact ⟨_, rfl⟩
  | some x =>
    cases hy : val_as_int vm.heap b with
    | none => exact ⟨_, rfl⟩
    | some y =>
      exfalso
      unfold val_as_int at hx hy
      rcases hbad with h | h
      · rw [h] at hx
        exact Option.noConfusion hx
      · rw [h] at hy
        exact Option.noConfusion hy

set_option maxRecDepth 100000 in
/-- C11 (code defect, evaluated at a failing input).  With the strings
`"-9223372036854775807"` and `"-1"` on the stack, which read as the integers
-9223372036854775807 and -1, `ADD` pops both and pushes one string, which is not the decimal
string of the sum -9223372036854775808: after the sign it holds the bytes that `int_to_str`
produces for `LLONG_MIN`, none of them a digit but one `'0'`. -/
theorem C11_add_llong_min :
    (sample_operands [45, 57, 50, 50, 51, 51, 55, 50, 48, 51, 54, 56, 53, 52, 55, 55, 53, 56, 48, 55] [45, 49]).thread.stack.map
        (val_as_int (sample_operands [45, 57, 50, 50, 51, 51, 55, 50, 48, 51, 54, 56, 53, 52, 55, 55, 53, 56, 48, 55] [45, 49]).heap) =
      [some (-9223372036854775807), some (-1)] ∧
    strings_left (exec_instr sample_world
        (sample_operands [45, 57, 50, 50, 51, 51, 55, 50, 48, 51, 54, 56, 53, 52, 55, 55, 53, 56, 48, 55] [45, 49])
        (sample_function [] [] []) ⟨esh_opcode.ADD.to_byte, 0, 0⟩) =
      some [some [45, 39, 46, 46, 45, 45, 41, 46, 48, 45, 42, 40, 43, 44, 41, 41, 43, 40, 48,
        40]] ∧
    decimal_string (-9223372036854775807 + -1) = [45, 57, 50, 50, 51, 51, 55, 50, 48, 51, 54, 56, 53, 52, 55, 55, 53, 56, 48, 56] := by
  refine ⟨by decide, by decide, ?_⟩
  simp [decimal_string]

set_option maxRecDepth 100000 in
/-- C12 (code defect, evaluated at a failing input).  With the strings
`"-9223372036854775808"` and `"1"` on the stack, which read as the integers -2^63 and 1,
`DIV` pops both and pushes one string, which is not the decimal string of the quotient
-9223372036854775808: after the sign it holds the bytes that `int_to_str` produces for
`LLONG_MIN`. -/
theorem C12_div_llong_min :
    (sample_operands [45, 57, 50, 50, 51, 51, 55, 50, 48, 51, 54, 56, 53, 52, 55, 55, 53, 56, 48, 56] [49]).thread.stack.map
        (val_as_int (sample_operands [45, 57, 50, 50, 51, 51, 55, 50, 48, 51, 54, 56, 53, 52, 55, 55, 53, 56, 48, 56] [49]).heap) =
      [some (-9223372036854775808), some 1] ∧
    strings_left (exec_instr sample_world
        (sample_operands [45, 57, 50, 50, 51, 51, 55, 50, 48, 51, 54, 56, 53, 52, 55, 55, 53, 56, 48, 56] [49])
        (sample_function [] [] []) ⟨esh_opcode.DIV.to_byte, 0, 0⟩) =
      some [some [45, 39, 46, 46, 45, 45, 41, 46, 48, 45, 42, 40, 43, 44, 41, 41, 43, 40, 48,
        40]] ∧
    decimal_string ((-9223372036854775808 : Int).tdiv 1) = [45, 57, 50, 50, 51, 51, 55, 50, 48, 51, 54, 56, 53, 52, 55, 55, 53, 56, 48, 56] := by
  refine ⟨by decide, by decide, ?_⟩
  simp [decimal_string]

theorem take_set_succ (l : List esh_val) (n : Nat) (a : esh_val) (h : n < l.length) :
    (l.set n a).take (n + 1) = l.take n ++ [a] := by
  induction l generalizing n with
  | nil => simp at h
  | cons x rest ih =>
    cases n with
    | zero => simp
    | succ m =>
      simp only [List.set_cons_succ, List.take_succ_cons, List.cons_append, List.cons.injEq,
        true_and]
      exact ih m (by simpa using h)

/-- The copy loop of `leave_fn` moves the first `e` of the values `R` down onto the slot of
the callee value and the slots above it. -/
theorem leave_copy_spec (cap : Nat) (lower mid R : List esh_val) (x : esh_val) (e : Nat)
    (he : e ≤ R.length) (hcap : (lower ++ x :: mid ++ R).length ≤ cap) :
    ∀ (fuel i : Nat) (stack : List esh_val), i + fuel = e →
      stack.length = (lower ++ x :: mid ++ R).length →
      (∀ k, lower.length + i ≤ k → stack[k]? = (lower ++ x :: mid ++ R)[k]?) →
      stack.take (lower.length + i) = lower ++ R.take i →
      ∃ stack1, leave_copy cap (lower.length + 1 + mid.length) fuel i (lower.length + i)
          stack = some (lower.length + e, stack1) ∧
        stack1.take (lower.length + e) = lower ++ R.take e := by
  have hlen : (lower ++ x :: mid ++ R).length = lower.length + 1 + mid.length + R.length := by
    simp only [List.length_append, List.length_cons]
    omega
  intro fuel
  induction fuel with
  | zero =>
    intro i stack hi _ _ htake
    have : i = e := by omega
    subst this
    exact ⟨stack, rfl, htake⟩
  | succ fuel ih =>
    intro i stack hi hl hk htake
    have hiR : i < R.length := by omega
    have hsrc : stack.getD (lower.length + 1 + mid.length + i) ESH_NULL = R.getD i ESH_NULL := by
      rw [List.getD_eq_getElem?_getD, hk _ (by omega), List.getD_eq_getElem?_getD]
      have hsplit : lower ++ x :: mid ++ R = (lower ++ x :: mid) ++ R := by simp
      have hpre : (lower ++ x :: mid).length = lower.length + 1 + mid.length := by
        simp only [List.length_append, List.length_cons]
        omega
      rw [hsplit, List.getElem?_append_right (by omega), hpre]
      congr 2
      omega
    unfold leave_copy
    rw [if_neg (by omega), if_neg (by omega), hsrc]
    have hstep := ih (i + 1) (stack.set (lower.length + i) (R.getD i ESH_NULL)) (by omega)
      (by rw [List.length_set]; exact hl)
      (fun k hk1 => by
        rw [List.getElem?_set_ne (by omega)]
        exact hk k (by omega))
      (by
        show (stack.set (lower.length + i) (R.getD i ESH_NULL)).take (lower.length + i + 1) = _
        rw [take_set_succ _ _ _ (by omega), htake, List.append_assoc]
        congr 1
        rw [List.take_succ, List.getD_eq_getElem?_getD]
        cases hR : R[i]? with
        | none =>
          rw [List.getElem?_eq_none_iff] at hR
          omega
        | some v => simp)
    exact hstep

/-- The end of `leave_fn` after the reconciliation has left the values `R` on top of the
callee's frame: the first `expected_returns` of them replace the callee value and all above
it, and the caller's frame is restored. -/
theorem leave_fn_finish (w : world) (vm : esh_vm) (frames : List esh_stack_frame)
    (prev : esh_stack_frame) (lower mid R : List esh_val) (callee : esh_val) (n : Nat)
    (esh1 : esh_state)
    (hframes : vm.thread.stack_frames = frames ++ [prev])
    (hbase : vm.thread.current_frame.stack_base = lower.length + 1)
    (hreq : opt_req_stack vm.esh n = some 0)
    (hadj : leave_adjust w vm.esh n prev.expected_returns = some (0, R.length, esh1))
    (hst1 : esh1.stack = lower ++ callee :: mid ++ R)
    (he : prev.expected_returns ≤ R.length)
    (hcap1 : esh1.stack.length ≤ esh1.stack_cap) :
    ∃ vm1, leave_fn w vm n = some (0, vm1) ∧
      frame_left vm1 frames prev lower (R.take prev.expected_returns) ∧
      vm1.heap = esh1.heap := by
  have hlen : (lower ++ callee :: mid ++ R).length =
      lower.length + 1 + mid.length + R.length := by
    simp only [List.length_append, List.length_cons]
    omega
  obtain ⟨stack1, c1, c2⟩ := leave_copy_spec esh1.stack_cap lower mid R callee
    prev.expected_returns he (by rw [← hst1]; exact hcap1) prev.expected_returns 0 esh1.stack
    (by omega) (by rw [hst1]) (fun k _ => by rw [hst1]) (by rw [hst1]; simp)
  have hbegin : esh1.stack_len - R.length = lower.length + 1 + mid.length := by
    unfold esh_state.stack_len
    rw [hst1, hlen]
    omega
  have hdst : vm.thread.current_frame.stack_base - 1 = lower.length + 0 := by omega
  unfold leave_fn
  rw [hframes, List.getLast?_concat]
  simp only
  rw [hreq]
  simp only
  rw [hadj]
  simp only
  rw [if_neg (by omega), if_neg (by omega), hbegin, hdst, c1]
  simp only
  refine ⟨_, rfl, ⟨?_, rfl, ?_⟩, rfl⟩
  · exact c2
  · show vm.thread.stack_frames.dropLast = frames
    rw [hframes]
    simp

/-- The keys `int_to_str` gives for two loop counters are different. -/
theorem index_key_inj {i j : Nat} (hi : i < 9223372036854775808)
    (hj : j < 9223372036854775808)
    (h : int_to_str (wrap64 i) = int_to_str (wrap64 j)) : i = j := by
  rw [wrap64_of_range (by omega) (by omega), wrap64_of_range (by omega) (by omega)] at h
  have h1 := (int_to_str_denotes (i : Int) (by omega) (by omega)).1
  have h2 := (int_to_str_denotes (j : Int) (by omega) (by omega)).1
  rw [h] at h1
  omega

theorem array_inv_init (vals : List esh_val) : array_inv vals 0 esh_object_init_entries := by
  refine ⟨wf_init, rfl, by simp [esh_object_init_entries], fun k v => ?_⟩
  constructor
  · rintro ⟨m, hm⟩
    simp [esh_object_init_entries] at hm
  · rintro ⟨j, hj, _⟩
    omega

/-- One iteration of the loop of `esh_new_array` on the table alone. -/
theorem array_step (vals : List esh_val) (hn : vals.length < 9223372036854775808) (i : Nat)
    (hi : i < vals.length) (obj : esh_object) (hinv : array_inv vals i obj) :
    ∃ r, esh_object_set true true obj (int_to_str (wrap64 i)) (vals.getD i ESH_NULL) =
        some r ∧ r.ret = 0 ∧ r.err = none ∧ array_inv vals (i + 1) r.obj := by
  obtain ⟨hw, hc, hcl, hlive⟩ := hinv
  have hvi : vals[i]? = some (vals.getD i ESH_NULL) := by
    rw [List.getD_eq_getElem?_getD, List.getElem?_eq_getElem hi]
    rfl
  have hnone : ¬ ∃ v, live_at obj.entries (int_to_str (wrap64 i)) v := by
    rintro ⟨v, hv⟩
    obtain ⟨j, hj, hk, _⟩ := (hlive _ v).mp hv
    have := index_key_inj (by omega) (by omega) hk
    omega
  by_cases hv : vals.getD i ESH_NULL = ESH_NULL
  · have hdel := ((delete_spec hw (int_to_str (wrap64 i))).2.2.2.2.2.2 hnone).2
    refine ⟨⟨0, none, obj⟩, ?_, rfl, rfl, hw, hc, hcl, fun k v => ?_⟩
    · unfold esh_object_set
      rw [if_neg (by rw [hc]; exact Bool.false_ne_true), if_pos hv, hdel]
    · rw [hlive k v]
      constructor
      · rintro ⟨j, hj, h1, h2, h3⟩
        exact ⟨j, by omega, h1, h2, h3⟩
      · rintro ⟨j, hj, h1, h2, h3⟩
        by_cases hji : j = i
        · subst hji
          rw [hvi] at h2
          cases h2
          exact absurd hv h3
        · exact ⟨j, by omega, h1, h2, h3⟩
  · obtain ⟨r, hr⟩ := set_returns_of_clean hw hcl true true (int_to_str (wrap64 i))
      (vals.getD i ESH_NULL)
    have hret := set_ret_zero hc hr
    obtain ⟨s1, s2, s3, s4, s5, _⟩ := set_spec hw hc true true _ _ hv r hr
    have hnew := (s5 hret).1
    refine ⟨r, hr, hret, s3, s1, s2, set_clean hw hcl true true _ _ hv hr, fun k v => ?_⟩
    by_cases hk : k = int_to_str (wrap64 i)
    · rw [hk]
      constructor
      · intro hl
        have := live_at_unique s1.2 hl hnew
        rw [this]
        exact ⟨i, by omega, rfl, hvi, hv⟩
      · rintro ⟨j, hj, h1, h2, h3⟩
        have hji : i = j := index_key_inj (by omega) (by omega) h1
        subst hji
        rw [hvi] at h2
        cases h2
        exact hnew
    · rw [s4 k v hk, hlive k v]
      constructor
      · rintro ⟨j, hj, h1, h2, h3⟩
        exact ⟨j, by omega, h1, h2, h3⟩
      · rintro ⟨j, hj, h1, h2, h3⟩
        by_cases hji : j = i
        · subst hji
          exact absurd h1 hk
        · exact ⟨j, by omega, h1, h2, h3⟩

/-- The loop of `esh_new_array`, with every allocation granted, runs to its end and leaves
the table described by `array_inv`; it touches nothing but the new object. -/
theorem new_array_loop_spec (alloc : Nat → Bool × Bool) (halloc : ∀ i, alloc i = (true, true))
    (p : Nat) (below vals : List esh_val) (hn : vals.length < 9223372036854775808) :
    ∀ (fuel i : Nat) (esh : esh_state) (o : heap_object), i + fuel = vals.length →
      esh.stack = below ++ vals ++ [p] → esh.heap p = some o → array_inv vals i o.obj →
      ∃ esh1 obj1, new_array_loop alloc p vals.length fuel i esh = some (0, esh1) ∧
        esh1.stack = esh.stack ∧ esh1.stack_cap = esh.stack_cap ∧
        esh1.stack_base = esh.stack_base ∧ esh1.err = esh.err ∧
        (∀ a, a ≠ p → esh1.heap a = esh.heap a) ∧
        esh1.heap p = some { o with obj := obj1 } ∧ array_inv vals vals.length obj1 := by
  intro fuel
  induction fuel with
  | zero =>
    intro i esh o hi hst hp hinv
    have : i = vals.length := by omega
    subst this
    exact ⟨esh, o.obj, rfl, rfl, rfl, rfl, rfl, fun _ _ => rfl, hp, hinv⟩
  | succ fuel ih =>
    intro i esh o hi hst hp hinv
    obtain ⟨r, hr, hret, herr, hinv1⟩ := array_step vals hn i (by omega) o.obj hinv
    have hval : stack_at esh (esh.stack_len - vals.length - 1 + i) = vals.getD i ESH_NULL := by
      unfold stack_at esh_state.stack_len
      rw [hst]
      have hidx : (below ++ vals ++ [p]).length - vals.length - 1 + i = below.length + i := by
        simp only [List.length_append, List.length_singleton]
        omega
      rw [hidx, List.getD_eq_getElem?_getD, List.getD_eq_getElem?_getD, List.append_assoc,
        List.getElem?_append_right (by omega), List.getElem?_append_left (by omega)]
      congr 2
      omega
    obtain ⟨esh1, obj1, e1, e2, e3, e4, e5, e6, e7, e8⟩ := ih (i + 1)
      { esh with heap := heap_store esh.heap p { o with obj := r.obj },
                 err := if r.err.isSome then r.err else esh.err }
      { o with obj := r.obj } (by omega) hst (by simp [heap_store]) hinv1
    refine ⟨esh1, obj1, ?_, e2, e3, e4, ?_, ?_, e7, e8⟩
    · unfold new_array_loop
      simp only [hval, hp, halloc, hr]
      rw [if_neg (by omega)]
      exact e1
    · rw [e5, herr]
      rfl
    · intro a ha
      rw [e6 a ha]
      simp only [heap_store, if_neg ha]

/-- The function `esh_new_array` on the `vals.length` values on top of the frame, with room
for one more value and every allocation granted: the values are replaced by the address of
the new object, whose table is described by `array_inv`. -/
theorem new_array_spec (alloc : Nat → Bool × Bool) (halloc : ∀ i, alloc i = (true, true))
    (p : Nat) (esh : esh_state) (below vals : List esh_val)
    (hn : vals.length < 9223372036854775808)
    (hst : esh.stack = below ++ vals) (hbase : esh.stack_base ≤ below.length)
    (hroom : esh.stack_len ≠ esh.stack_cap) (hp : p ≠ 0) :
    ∃ esh1 obj1, esh_new_array alloc p esh vals.length = some (0, esh1) ∧
      esh1.stack = below ++ [p] ∧ esh1.stack_cap = esh.stack_cap ∧
      esh1.stack_base = esh.stack_base ∧ esh1.err = esh.err ∧
      (∀ a, a ≠ p → esh1.heap a = esh.heap a) ∧
      esh1.heap p = some ⟨none, obj1, 0, []⟩ ∧ array_inv vals vals.length obj1 := by
  have hlen : esh.stack_len = below.length + vals.length := by
    unfold esh_state.stack_len
    rw [hst, List.length_append]
  obtain ⟨esh2, obj1, e1, e2, e3, e4, e5, e6, e7, e8⟩ :=
    new_array_loop_spec alloc halloc p below vals hn vals.length 0
      { esh with stack := esh.stack ++ [p],
                 heap := heap_store esh.heap p ⟨none, esh_object_init_entries, 0, []⟩ }
      ⟨none, esh_object_init_entries, 0, []⟩ (by omega) (by simp [hst])
      (by simp [heap_store]) (array_inv_init vals)
  have hs2 : esh2.stack = below ++ vals ++ [p] := by
    rw [e2]
    simp [hst]
  refine ⟨{ esh2 with stack := (List.set (esh2.stack.take (esh2.stack_len - vals.length))
      ((esh2.stack.take (esh2.stack_len - vals.length)).length - 1)
      (stack_at esh2 (esh2.stack_len - 1))) }, obj1, ?_, ?_, e3, e4, e5, ?_, e7, e8⟩
  · unfold esh_new_array
    rw [if_neg (by omega), if_neg (by unfold stack_size; omega),
      new_object_ok p esh none hroom hp]
    simp only
    rw [e1]
    rfl
  · show List.set (esh2.stack.take (esh2.stack_len - vals.length))
        ((esh2.stack.take (esh2.stack_len - vals.length)).length - 1)
        (stack_at esh2 (esh2.stack_len - 1)) = below ++ [p]
    unfold stack_at esh_state.stack_len
    rw [hs2]
    have hl : (below ++ vals ++ [p]).length = below.length + vals.length + 1 := by
      simp only [List.length_append, List.length_singleton]
    have htop : (below ++ vals ++ [p]).getD ((below ++ vals ++ [p]).length - 1) ESH_NULL = p := by
      rw [hl, List.getD_eq_getElem?_getD,
        show below.length + vals.length + 1 - 1 = (below ++ vals).length by simp,
        List.getElem?_append_right (le_refl _)]
      simp
    rw [htop, hl]
    have hk : below.length + vals.length + 1 - vals.length = below.length + 1 := by omega
    rw [hk, List.append_assoc, List.take_append_eq_append_take]
    have h1 : List.take (below.length + 1) below = below := List.take_of_length_le (by omega)
    have h2 : below.length + 1 - below.length = 1 := by omega
    rw [h1, h2]
    have h3 : ∃ x, List.take 1 (vals ++ [p]) = [x] := by
      cases hfl : vals ++ [p] with
      | nil => simp at hfl
      | cons x rest => exact ⟨x, rfl⟩
    obtain ⟨x, hx⟩ := h3
    rw [hx]
    simp
  · intro a ha
    rw [e6 a ha]
    simp only [heap_store, if_neg ha]

/-- What the array of `esh_new_array` holds: under the decimal string of `i` the `i`-th
value, and nothing under any other key. -/
theorem array_index (heap : Nat → Option heap_object) (p : Nat) (vals : List esh_val)
    (obj1 : esh_object) (hn : vals.length < 9223372036854775808)
    (hp : p ≠ 0 ∧ p % 2 = 0) (hheap : heap p = some ⟨none, obj1, 0, []⟩)
    (hinv : array_inv vals vals.length obj1) :
    (∀ i, i < vals.length →
      index_value heap p (decimal_string (i : Int)) = vals.getD i ESH_NULL) ∧
    (∀ k, (∀ i, i < vals.length → k ≠ decimal_string (i : Int)) →
      index_value heap p k = ESH_NULL) := by
  obtain ⟨hw, _, _, hlive⟩ := hinv
  have ho : val_as_object heap p none = some ⟨none, obj1, 0, []⟩ := by
    unfold val_as_object
    rw [if_neg hp.1, if_neg (by rw [hp.2]; decide), hheap]
    simp
  constructor
  · intro i hi
    have hvi : vals[i]? = some (vals.getD i ESH_NULL) := by
      rw [List.getD_eq_getElem?_getD, List.getElem?_eq_getElem hi]
      rfl
    rw [← index_key i (by omega)]
    by_cases hv : vals.getD i ESH_NULL = ESH_NULL
    · rw [hv]
      apply index_value_miss ho
      apply (get_miss_iff hw _).mpr
      intro v hl
      obtain ⟨j, hj, h1, h2, h3⟩ := (hlive _ v).mp hl
      have hji : i = j := index_key_inj (by omega) (by omega) h1
      rw [← hji, hvi] at h2
      cases h2
      exact h3 hv
    · apply index_value_hit ho
      apply (get_hit_iff hw _ _).mpr
      exact (hlive _ _).mpr ⟨i, hi, rfl, hvi, hv⟩
  · intro k hk
    apply index_value_miss ho
    apply (get_miss_iff hw _).mpr
    intro v hl
    obtain ⟨j, hj, h1, _⟩ := (hlive _ v).mp hl
    rw [index_key j (by omega)] at h1
    exact hk j hj h1

/-- C15 (amended): When a callee returns the `n` values `rets` to a caller frame whose
stored `expected_returns` is `e` (stack within its capacity, memory granted, tables well
formed), `leave_fn` removes the callee value and everything above it, restores the caller's
frame and pushes exactly `e` values: if `e = 1` and `n ≠ 1` (with room for one more value)
the address of a new object that holds, for `i < n`, the `i`-th value under the decimal
string of `i` and nothing else; if `e > 1` and `n = 1` and the value `v` is not NULL, the
values `v[str(0)] .. v[str(e-1)]`, NULL where there is no entry; if `e > n` otherwise, the
`n` values followed by `e - n` NULLs; otherwise the first `e` of the values.  If `e > 1`
and the single returned value is NULL, `leave_fn` fails with the message that NULL cannot
be unpacked and leaves stack and frames as they are. -/
theorem C15_leave_fn (w : world) (vm : esh_vm) (frames : List esh_stack_frame)
    (prev : esh_stack_frame) (lower locals rets : List esh_val) (callee : esh_val)
    (hframes : vm.thread.stack_frames = frames ++ [prev])
    (hst : vm.thread.stack = lower ++ callee :: locals ++ rets)
    (hbase : vm.thread.current_frame.stack_base = lower.length + 1)
    (hcap : vm.thread.stack.length ≤ vm.thread.stack_cap)
    (hstack : w.stack_ok = true) (hset : ∀ i, w.set i = (true, true))
    (hobj : w.obj ≠ 0 ∧ w.obj % 2 = 0)
    (hn : rets.length < 9223372036854775808)
    (he : prev.expected_returns < 9223372036854775808)
    (hwf : ∀ v o, v ∈ rets → val_as_object vm.heap v none = some o → wf o.obj) :
    (prev.expected_returns = 1 → rets.length ≠ 1 →
      vm.thread.stack.length < vm.thread.stack_cap →
      ∃ vm1, leave_fn w vm rets.length = some (0, vm1) ∧
        frame_left vm1 frames prev lower [w.obj] ∧
        (∀ a, a ≠ w.obj → vm1.heap a = vm.heap a) ∧
        (∀ i, i < rets.length →
          index_value vm1.heap w.obj (decimal_string (i : Int)) = rets.getD i ESH_NULL) ∧
        (∀ k, (∀ i, i < rets.length → k ≠ decimal_string (i : Int)) →
          index_value vm1.heap w.obj k = ESH_NULL)) ∧
    (1 < prev.expected_returns → ∀ v, rets = [v] →
      (v ≠ ESH_NULL → ∃ vm1, leave_fn w vm rets.length = some (0, vm1) ∧
        frame_left vm1 frames prev lower ((List.range prev.expected_returns).map
          (fun i : Nat => index_value vm.heap v (decimal_string (i : Int)))) ∧
        vm1.heap = vm.heap) ∧
      (v = ESH_NULL →
        leave_fn w vm rets.length = some (1, vm.printf "Cannot unpack null value"))) ∧
    (rets.length < prev.expected_returns → prev.expected_returns ≠ 1 → rets.length ≠ 1 →
      ∃ vm1, leave_fn w vm rets.length = some (0, vm1) ∧
        frame_left vm1 frames prev lower
          (rets ++ List.replicate (prev.expected_returns - rets.length) ESH_NULL) ∧
        vm1.heap = vm.heap) ∧
    (prev.expected_returns ≤ rets.length → (prev.expected_returns = 1 → rets.length = 1) →
      ∃ vm1, leave_fn w vm rets.length = some (0, vm1) ∧
        frame_left vm1 frames prev lower (rets.take prev.expected_returns) ∧
        vm1.heap = vm.heap) := by
  have hlen : vm.thread.stack.length = lower.length + 1 + locals.length + rets.length := by
    rw [hst]
    simp only [List.length_append, List.length_cons]
    omega
  have hsl : vm.esh.stack_len = vm.thread.stack.length := rfl
  have hsb : vm.esh.stack_base = vm.thread.current_frame.stack_base := rfl
  have hsc : vm.esh.stack_cap = vm.thread.stack_cap := rfl
  have hss : vm.esh.stack = lower ++ callee :: locals ++ rets := hst
  have hreq : opt_req_stack vm.esh rets.length = some 0 := opt_req_stack_ok (by omega)
  refine ⟨?_, ?_, ?_, ?_⟩
  · intro he1 hn1 hroom
    obtain ⟨esh1, obj1, a1, a2, a3, a4, a5, a6, a7, a8⟩ :=
      new_array_spec w.set hset w.obj vm.esh (lower ++ callee :: locals) rets hn hss
        (by rw [hsb, hbase]; simp) (by omega) hobj.1
    have hadj : leave_adjust w vm.esh rets.length prev.expected_returns =
        some (0, [w.obj].length, esh1) := by
      unfold leave_adjust
      rw [if_pos ⟨he1, hn1⟩, a1]
      rfl
    obtain ⟨vm1, b1, b2, b3⟩ := leave_fn_finish w vm frames prev lower locals [w.obj] callee
      rets.length esh1 hframes hbase hreq hadj a2 (by rw [he1]; simp)
      (by rw [a2, a3, hsc]; simp only [List.length_append, List.length_cons,
        List.length_singleton, List.length_nil]; omega)
    have htake : [w.obj].take prev.expected_returns = [w.obj] := by
      rw [he1]
      rfl
    rw [htake] at b2
    obtain ⟨i1, i2⟩ := array_index vm1.heap w.obj rets obj1 hn hobj (by rw [b3]; exact a7) a8
    exact ⟨vm1, b1, b2, fun a ha => by rw [b3]; exact a6 a ha, i1, i2⟩
  · intro he1 v hv
    have hrl : rets.length = 1 := by rw [hv]; rfl
    have hss1 : vm.esh.stack = (lower ++ callee :: locals) ++ [v] := by rw [hss, hv]
    constructor
    · intro hne
      obtain ⟨cap, u1, u2⟩ := unpack_obj_spec w.stack_ok vm.esh (lower ++ callee :: locals) v
        prev.expected_returns hss1 (by rw [hsb, hbase]; simp) he (by rw [hsl, hsc]; exact hcap)
        (Or.inl hstack) (fun o ho => hwf v o (by rw [hv]; simp) ho) hne
      have hadj : leave_adjust w vm.esh rets.length prev.expected_returns =
          some (0, ((List.range prev.expected_returns).map
            (fun i : Nat => index_value vm.heap v (decimal_string (i : Int)))).length,
            { vm.esh with
              stack := (lower ++ callee :: locals) ++ (List.range prev.expected_returns).map
                (fun j : Nat => index_value vm.esh.heap v (decimal_string (j : Int))),
              stack_cap := cap }) := by
        unfold leave_adjust
        rw [if_neg (by omega), if_pos ⟨hrl, he1⟩, u1]
        simp
      obtain ⟨vm1, b1, b2, b3⟩ := leave_fn_finish w vm frames prev lower locals _ callee
        rets.length _ hframes hbase hreq hadj rfl (by simp)
        (by
          simp only [List.length_append, List.length_cons, List.length_map, List.length_range]
          simp only [List.length_append, List.length_cons] at u2
          omega)
      have htake : ((List.range prev.expected_returns).map
          (fun i : Nat => index_value vm.heap v (decimal_string (i : Int)))).take
            prev.expected_returns = (List.range prev.expected_returns).map
          (fun i : Nat => index_value vm.heap v (decimal_string (i : Int))) :=
        List.take_of_length_le (by simp)
      rw [htake] at b2
      exact ⟨vm1, b1, b2, b3⟩
    · intro hnull
      have hu : unpack_obj w.stack_ok vm.esh prev.expected_returns =
          some (1, esh_err_printf vm.esh "Cannot unpack null value") := by
        unfold unpack_obj
        rw [opt_req_stack_ok (by rw [hsb, hsl]; omega)]
        simp only
        rw [stack_at_top vm.esh _ v hss1, if_pos hnull]
      unfold leave_fn
      rw [hframes, List.getLast?_concat]
      simp only
      rw [hreq]
      simp only
      unfold leave_adjust
      rw [if_neg (by omega), if_pos ⟨hrl, he1⟩, hu]
      rfl
  · intro hlt he1 hn1
    obtain ⟨cap, r1, r2⟩ := stack_resv_ok w.stack_ok vm.esh
      (prev.expected_returns - rets.length) (by rw [hsl, hsc]; exact hcap) (Or.inl hstack)
    have hadj : leave_adjust w vm.esh rets.length prev.expected_returns =
        some (0, (rets ++ List.replicate (prev.expected_returns - rets.length) ESH_NULL).length,
          { vm.esh with
            stack := vm.esh.stack ++
              List.replicate (prev.expected_returns - rets.length) ESH_NULL,
            stack_cap := cap }) := by
      unfold leave_adjust
      rw [if_neg (by omega), if_neg (by omega), if_pos (by omega), r1]
      simp only [List.length_append, List.length_replicate]
      congr 3
      omega
    obtain ⟨vm1, b1, b2, b3⟩ := leave_fn_finish w vm frames prev lower locals _ callee
      rets.length _ hframes hbase hreq hadj (by rw [hss]; simp)
      (by simp only [List.length_append, List.length_replicate]; omega)
      (by
        show (vm.esh.stack ++ List.replicate (prev.expected_returns - rets.length)
          ESH_NULL).length ≤ cap
        rw [List.length_append, List.length_replicate]
        exact r2)
    have htake : (rets ++ List.replicate (prev.expected_returns - rets.length) ESH_NULL).take
        prev.expected_returns =
        rets ++ List.replicate (prev.expected_returns - rets.length) ESH_NULL := by
      apply List.take_of_length_le
      simp only [List.length_append, List.length_replicate]
      omega
    rw [htake] at b2
    exact ⟨vm1, b1, b2, b3⟩
  · intro hle he1
    have hadj : leave_adjust w vm.esh rets.length prev.expected_returns =
        some (0, rets.length, vm.esh) := by
      unfold leave_adjust
      rw [if_neg (by omega), if_neg (by omega), if_neg (by omega)]
    obtain ⟨vm1, b1, b2, b3⟩ := leave_fn_finish w vm frames prev lower locals rets callee
      rets.length vm.esh hframes hbase hreq hadj hss hle (by rw [hsc]; exact hcap)
    exact ⟨vm1, b1, b2, b3⟩

theorem C15_leave_fn_witness :
    ∃ vm1, leave_fn sample_world (sample_callee 1 [16, 7, 9]) [7, 9].length = some (0, vm1) ∧
      frame_left vm1 [] { (sample_vm (sample_function [] [] []) [16, 7, 9]).thread.current_frame
        with expected_returns := 1 } [] [sample_world.obj] ∧
      (∀ a, a ≠ sample_world.obj → vm1.heap a = (sample_callee 1 [16, 7, 9]).heap a) ∧
      (∀ i, i < [7, 9].length →
        index_value vm1.heap sample_world.obj (decimal_string (i : Int)) =
          [7, 9].getD i ESH_NULL) ∧
      (∀ k, (∀ i, i < [7, 9].length → k ≠ decimal_string (i : Int)) →
        index_value vm1.heap sample_world.obj k = ESH_NULL) :=
  (C15_leave_fn sample_world (sample_callee 1 [16, 7, 9]) []
    { (sample_vm (sample_function [] [] []) [16, 7, 9]).thread.current_frame with
      expected_returns := 1 } [] [] [7, 9] 16 rfl rfl rfl (by decide) rfl (fun _ => rfl)
    (by decide) (by decide) (by decide)
    (by
      intro v o hv ho
      have ho1 : val_as_object sample_heap v none = some o := ho
      simp only [List.mem_cons, List.mem_singleton, List.not_mem_nil, or_false] at hv
      rcases hv with h | h
      · rw [h, show val_as_object sample_heap 7 none = none by decide] at ho1
        exact Option.noConfusion ho1
      · rw [h, show val_as_object sample_heap 9 none = none by decide] at ho1
        exact Option.noConfusion ho1)).1 rfl (by decide) (by decide)

/-- C15 as stated fails when the caller expects two values and the callee returns the
single value NULL: `leave_fn` returns 1 with the message that NULL cannot be unpacked, and
the callee value and the returned NULL are still on the stack and no two values are
pushed in their place. -/
theorem C15_counterexample :
    (leave_fn sample_world (sample_callee 2 [16, 0]) 1).map
        (fun r => (r.1, r.2.thread.stack, r.2.thread.stack_frames.length, r.2.err)) =
      some (1, [16, 0], 1, some "Cannot unpack null value") := by
  decide

/-! ### The code of a tree does not depend on the tokens that are left

In the lemmas of this section the tokens of a state are replaced: `input` by `i`, and
`pushed_token` by `none`. -/

theorem append_instr_input (ctx : compile_ctx) (i : List lex_token) (op : esh_opcode)
    (arg l : Nat) :
    esh_fn_append_instr { ctx with input := i, pushed_token := none } op arg l =
      (esh_fn_append_instr ctx op arg l).map
        (fun c => { c with input := i, pushed_token := none }) := by
  unfold esh_fn_append_instr
  simp only
  split_ifs <;> first | rfl | (cases encode_instr op.to_byte arg l <;> rfl)

theorem add_imm_input (ctx : compile_ctx) (i : List lex_token) :
    esh_fn_add_imm { ctx with input := i, pushed_token := none } =
      (esh_fn_add_imm ctx).map (fun r => (r.1, { r.2 with input := i, pushed_token := none })) := by
  unfold esh_fn_add_imm
  simp only
  split_ifs <;> rfl

theorem new_label_input (ctx : compile_ctx) (i : List lex_token) :
    esh_fn_new_label { ctx with input := i, pushed_token := none } =
      (esh_fn_new_label ctx).map
        (fun r => (r.1, { r.2 with input := i, pushed_token := none })) := by
  unfold esh_fn_new_label
  simp only
  split_ifs <;> rfl

theorem put_label_input (ctx : compile_ctx) (i : List lex_token) (label : Nat) :
    esh_fn_put_label { ctx with input := i, pushed_token := none } label =
      (esh_fn_put_label ctx label).map (fun c => { c with input := i, pushed_token := none }) := by
  unfold esh_fn_put_label
  simp only
  split_ifs <;> rfl

theorem line_directive_input (ctx : compile_ctx) (i : List lex_token) (line : Nat) :
    esh_fn_line_directive { ctx with input := i, pushed_token := none } line =
      (esh_fn_line_directive ctx line).map
        (fun c => { c with input := i, pushed_token := none }) := by
  unfold esh_fn_line_directive
  simp only
  split_ifs <;> rfl

theorem str_buff_append_input (ctx : compile_ctx) (i : List lex_token) (c : Nat) :
    str_buff_append { ctx with input := i, pushed_token := none } c =
      (str_buff_append ctx c).map (fun c => { c with input := i, pushed_token := none }) := by
  unfold str_buff_append
  simp only
  split_ifs <;> rfl

theorem bind_map_input (r : Except compile_stop compile_ctx) (i : List lex_token)
    (f : compile_ctx → Except compile_stop compile_ctx)
    (hf : ∀ c, f { c with input := i, pushed_token := none } = (f c).map
      (fun c => { c with input := i, pushed_token := none })) :
    (r.map (fun c => { c with input := i, pushed_token := none })).bind f =
      (r.bind f).map (fun c => { c with input := i, pushed_token := none }) := by
  cases r with
  | error e => rfl
  | ok c => exact hf c

theorem add_str_imm_loop_input (i : List lex_token) (str : List Nat) :
    ∀ (esc : Bool) (ctx : compile_ctx),
      add_str_imm_loop esc { ctx with input := i, pushed_token := none } str =
        (add_str_imm_loop esc ctx str).map
          (fun c => { c with input := i, pushed_token := none }) := by
  induction str with
  | nil => intro esc ctx; rfl
  | cons c rest ih =>
    intro esc ctx
    unfold add_str_imm_loop
    split_ifs
    all_goals first
      | rfl
      | exact ih _ ctx
      | (rw [str_buff_append_input]; exact bind_map_input _ i _ (ih false))

theorem add_str_imm_input (ctx : compile_ctx) (i : List lex_token) (word : lex_token) :
    add_str_imm { ctx with input := i, pushed_token := none } word =
      (add_str_imm ctx word).map
        (fun r => (r.1, { r.2 with input := i, pushed_token := none })) := by
  unfold add_str_imm
  by_cases hw : ¬ (word.type = .TOK_WORD ∨ word.type = .TOK_STR_INTERP)
  · rw [if_pos hw, if_pos hw]
    rfl
  · rw [if_neg hw, if_neg hw]
    have h := add_str_imm_loop_input i word.str false { ctx with str_buff := [] }
    have h1 :
        ({ ({ ctx with input := i, pushed_token := none } : compile_ctx) with
          str_buff := [] } : compile_ctx) =
        { ({ ctx with str_buff := [] } : compile_ctx) with input := i, pushed_token := none } := rfl
    rw [h1, h]
    cases add_str_imm_loop false { ctx with str_buff := [] } word.str with
    | error e => rfl
    | ok ctx1 =>
      simp only [Except.map]
      cases hs : esh_new_string (ctx1.new_ptr ctx1.fn.imms.length) ctx1.esh ctx1.str_buff with
      | mk code esh1 =>
        cases code with
        | zero => exact add_imm_input { ctx1 with esh := esh1 } i
        | succ n => rfl

theorem compile_word_input (ctx : compile_ctx) (i : List lex_token) (word : lex_token) :
    compile_word { ctx with input := i, pushed_token := none } word =
      (compile_word ctx word).map (fun c => { c with input := i, pushed_token := none }) := by
  unfold compile_word
  rw [add_str_imm_input]
  cases add_str_imm ctx word with
  | error e => rfl
  | ok r => exact append_instr_input r.2 i .IMM r.1 0

theorem index_local_blocks_input (ctx : compile_ctx) (i : List lex_token) (name : List Nat)
    (cbo : Bool) :
    ∀ fuel j top,
      index_local_blocks { ctx with input := i, pushed_token := none } name cbo fuel j top =
      index_local_blocks ctx name cbo fuel j top := by
  intro fuel
  induction fuel with
  | zero => intro j top; rfl
  | succ fuel ih =>
    intro j top
    unfold index_local_blocks
    simp only [ih]

theorem index_local_fns_input (ctx : compile_ctx) (i : List lex_token) (name : List Nat)
    (cbo : Bool) :
    ∀ n top btop up,
      index_local_fns { ctx with input := i, pushed_token := none } name cbo n top btop up =
      index_local_fns ctx name cbo n top btop up := by
  intro n
  induction n with
  | zero => intro top btop up; rfl
  | succ n ih =>
    intro top btop up
    unfold index_local_fns
    simp only [index_local_blocks_input, ih]

theorem find_local_input (ctx : compile_ctx) (i : List lex_token) (word : lex_token) :
    find_local { ctx with input := i, pushed_token := none } word = find_local ctx word := by
  unfold find_local index_local
  simp only [index_local_fns_input]

theorem upval_locals_input (ctx : compile_ctx) (i : List lex_token) (n : Nat) :
    upval_locals { ctx with input := i, pushed_token := none } n =
      (upval_locals ctx n).map (fun c => { c with input := i, pushed_token := none }) := by
  unfold upval_locals
  simp only
  split_ifs <;> rfl

theorem local_var_load_input (ctx : compile_ctx) (i : List lex_token) (word : lex_token) :
    compile_local_var_load { ctx with input := i, pushed_token := none } word =
      (compile_local_var_load ctx word).map
        (fun r => (r.1, { r.2 with input := i, pushed_token := none })) := by
  unfold compile_local_var_load
  rw [find_local_input]
  cases find_local ctx word with
  | error e => rfl
  | ok found =>
    cases found with
    | none => rfl
    | some lv =>
      simp only
      rw [upval_locals_input]
      cases upval_locals ctx lv.2 with
      | error e => rfl
      | ok ctx1 =>
        simp only [Except.map]
        rw [append_instr_input]
        cases esh_fn_append_instr ctx1 .LOAD lv.1.index lv.2 <;> rfl

theorem var_load_input (ctx : compile_ctx) (i : List lex_token) (word : lex_token) :
    compile_var_load { ctx with input := i, pushed_token := none } word =
      (compile_var_load ctx word).map (fun c => { c with input := i, pushed_token := none }) := by
  unfold compile_var_load
  rw [local_var_load_input]
  cases compile_local_var_load ctx word with
  | error e => rfl
  | ok r =>
    obtain ⟨b, ctx1⟩ := r
    cases b with
    | true => rfl
    | false =>
      simp only [Except.map]
      rw [add_str_imm_input]
      cases add_str_imm ctx1 word with
      | error e => rfl
      | ok r => exact append_instr_input r.2 i .LOAD_G r.1 0

theorem operator_begin_input (op : binop) (tok : lex_token) (ctx : compile_ctx)
    (i : List lex_token) :
    operator_begin op tok { ctx with input := i, pushed_token := none } =
      (operator_begin op tok ctx).map
        (fun r => (r.1, { r.2 with input := i, pushed_token := none })) := by
  unfold operator_begin
  rw [line_directive_input]
  cases esh_fn_line_directive ctx tok.line with
  | error e => rfl
  | ok ctx1 =>
    simp only [Except.map]
    generalize (if op = .and then esh_opcode.JMP_IFN else esh_opcode.JMP_IF) = jop
    split_ifs
    · rw [new_label_input]
      cases esh_fn_new_label ctx1 with
      | error e => rfl
      | ok r =>
        obtain ⟨label, ctx2⟩ := r
        simp only [Except.map]
        rw [append_instr_input]
        cases esh_fn_append_instr ctx2 .DUP 0 0 with
        | error e => rfl
        | ok ctx3 =>
          simp only [Except.map]
          rw [append_instr_input]
          cases esh_fn_append_instr ctx3 jop label 0 with
          | error e => rfl
          | ok ctx4 =>
            simp only [Except.map]
            rw [append_instr_input]
            cases esh_fn_append_instr ctx4 .POP 0 0 <;> rfl
    · rfl

theorem operator_end_input (op : binop) (label : Nat) (ctx : compile_ctx)
    (i : List lex_token) :
    operator_end op label { ctx with input := i, pushed_token := none } =
      (operator_end op label ctx).map (fun c => { c with input := i, pushed_token := none }) := by
  cases op <;> first
    | exact put_label_input ctx i label
    | exact append_instr_input ctx i _ 0 0

theorem emit_input (e : expr) :
    ∀ (ctx : compile_ctx) (i : List lex_token),
      emit e { ctx with input := i, pushed_token := none } = (emit e ctx).map
        (fun c => { c with input := i, pushed_token := none }) := by
  induction e with
  | word tok =>
    intro ctx i
    unfold emit
    rw [local_var_load_input]
    cases compile_local_var_load ctx { tok with type := .TOK_WORD } with
    | error e => rfl
    | ok r =>
      obtain ⟨b, ctx1⟩ := r
      cases b with
      | true => rfl
      | false => exact compile_word_input ctx1 i _
  | null tok =>
    intro ctx i
    unfold emit
    rw [line_directive_input]
    cases esh_fn_line_directive ctx tok.line with
    | error e => rfl
    | ok ctx1 => exact append_instr_input ctx1 i _ 0 0
  | var sigil tok =>
    intro ctx i
    unfold emit
    rw [line_directive_input]
    cases esh_fn_line_directive ctx sigil.line with
    | error e => rfl
    | ok ctx1 => exact var_load_input ctx1 i _
  | bracket opening closing e ih =>
    intro ctx i
    unfold emit
    rw [line_directive_input]
    cases esh_fn_line_directive ctx opening.line with
    | error e => rfl
    | ok ctx1 => exact ih ctx1 i
  | binary op tok a b iha ihb =>
    intro ctx i
    unfold emit
    rw [iha]
    cases emit a ctx with
    | error e => rfl
    | ok ctx1 =>
      simp only [Except.map]
      rw [operator_begin_input]
      cases operator_begin op tok ctx1 with
      | error e => rfl
      | ok r =>
        obtain ⟨label, ctx2⟩ := r
        simp only [Except.map]
        rw [ihb]
        cases emit b ctx2 with
        | error e => rfl
        | ok ctx3 => exact operator_end_input op label ctx3 i

/-- The code of a tree on a state with other tokens left. -/
theorem emit_ok_input {e : expr} {ctx ctx1 : compile_ctx} (h : emit e ctx = .ok ctx1)
    (i : List lex_token) :
    emit e { ctx with input := i, pushed_token := none } =
      .ok { ctx1 with input := i, pushed_token := none } := by
  rw [emit_input, h]
  rfl

/-! ### The compiling functions by level -/

theorem generate_stack_trace_fields {ok : Bool} {vm vm1 : esh_vm}
    (h : generate_stack_trace ok vm = some vm1) :
    vm1.err = vm.err ∧ vm1.thread = vm.thread ∧ vm1.current_thread = vm.current_thread ∧
      vm1.threads = vm.threads ∧ vm1.panic_caught = vm.panic_caught ∧
      vm1.co_threads = vm.co_threads ∧ vm1.freed_locals = vm.freed_locals := by
  unfold generate_stack_trace at h
  split at h
  · cases h
  · simp only at h
    split at h
    · cases h
    · cases h
      exact ⟨rfl, rfl, rfl, rfl, rfl, rfl, rfl⟩

/-- What the code at `PANIC` leaves when it makes `run_vm` return: the code is 1, no frame
of the running thread had `catch_panic` set, the frame stack of that thread is empty, and
the message, the running thread, the parent stack, the other threads and the flag
`panic_caught` are as at the jump to `PANIC`. -/
theorem panic_unwind_returned {w : world} {vm vm1 : esh_vm} {code : Nat}
    (h : panic_unwind w vm = some (.returned code vm1)) :
    code = 1 ∧ find_catch vm.thread.stack_frames vm.thread.stack_frames.length = none ∧
      vm1.thread.stack_frames = [] ∧ vm1.err = vm.err ∧
      vm1.current_thread = vm.current_thread ∧ vm1.threads = vm.threads ∧
      vm1.co_threads = vm.co_threads ∧ vm1.panic_caught = vm.panic_caught := by
  unfold panic_unwind at h
  simp only at h
  cases hfound : find_catch vm.thread.stack_frames vm.thread.stack_frames.length with
  | some r =>
    rw [hfound] at h
    simp only [Option.isNone_some, Option.isSome_some, if_true, Bool.false_eq_true, if_false] at h
    split at h
    · cases h
    · split at h
      · cases h
      · cases h
  | none =>
    rw [hfound] at h
    simp only [Option.isNone_none, Option.isSome_none, if_true, Bool.false_eq_true, if_false,
      Option.getD_none] at h
    split at h
    · cases h
    · rename_i vm2 htr
      obtain ⟨he, ht, hc, hts, hp, hco, _⟩ := generate_stack_trace_fields htr
      split at h
      · cases h
      · cases h
        refine ⟨rfl, rfl, ?_, ?_, ?_, ?_, ?_, ?_⟩
        · simp
        · exact he
        · exact hc
        · exact hts
        · exact hco
        · exact hp

/-- What the code at `PANIC` leaves when a frame catches: the flag `panic_caught` is set,
and the message and the running thread are as at the jump to `PANIC`. -/
theorem panic_unwind_running {w : world} {vm vm1 : esh_vm}
    (h : panic_unwind w vm = some (.running vm1)) :
    vm1.panic_caught = true ∧ vm1.err = vm.err ∧ vm1.current_thread = vm.current_thread ∧
      (∃ r, find_catch vm.thread.stack_frames vm.thread.stack_frames.length = some r) := by
  unfold panic_unwind at h
  simp only at h
  cases hfound : find_catch vm.thread.stack_frames vm.thread.stack_frames.length with
  | none =>
    rw [hfound] at h
    simp only [Option.isNone_none, Option.isSome_none, if_true, Bool.false_eq_true, if_false,
      Option.getD_none] at h
    split at h
    · cases h
    · split at h
      · cases h
      · cases h
  | some r =>
    rw [hfound] at h
    simp only [Option.isNone_some, Option.isSome_some, if_true, Bool.false_eq_true, if_false] at h
    split at h
    · cases h
    · split at h
      · cases h
      · cases h
        exact ⟨rfl, rfl, rfl, r, rfl⟩

/-- What a failed run leaves behind `esh_exec_fn`: the run of the closure that lay on top
returned a code other than 0, the frame of the caller is current again over an empty frame
stack, and the stack is cut to the values below the closure. -/
theorem exec_fn_failed (w : Nat → world) (fuel : Nat) (vm vm1 : esh_vm)
    (h : esh_exec_fn w fuel vm = some (2, vm1)) :
    ∃ entrypoint rerr vmr, vm.thread.stack.getLast? = some entrypoint ∧
      run_vm w fuel { vm with stack_trace := none } entrypoint = some (rerr, vmr) ∧ rerr ≠ 0 ∧
      vm1.thread.stack_frames = [] ∧
      vm1.thread.current_frame = vm.thread.current_frame ∧
      vm1.thread.stack.length + 1 = vm.thread.stack.length ∧
      vm1.thread.stack = vmr.thread.stack.take (vm.thread.stack.length - 1) ∧
      vm1.err = vmr.err ∧ vm1.stack_trace = vmr.stack_trace ∧
      vm1.current_thread = vmr.current_thread := by
  unfold esh_exec_fn at h
  simp only at h
  split at h
  · simp at h
  rename_i hasserts
  split at h
  · simp at h
  rename_i hasserts2
  split at h
  · simp at h
  rename_i entrypoint hfn
  split at h
  · simp at h
  rename_i rerr vmr hrun
  split at h
  · simp at h
  rename_i hr1
  split at h
  · simp at h
  rename_i hr2
  split at h
  · simp at h
  rename_i stack hstack
  split at h
  · simp at h
  rename_i hnonempty
  split at h
  · simp at h
  rename_i hrerr
  have hbase : vm.thread.current_frame.stack_base = 0 := by
    by_contra hb
    exact hasserts2 (Or.inr (Or.inl hb))
  obtain ⟨hpos, hlast⟩ := exec_fn_entry _ vm.heap hbase entrypoint hfn
  obtain ⟨hle, hstk⟩ := set_stack_len_some hstack
  have hle' : vm.thread.stack.length ≤ vmr.thread.stack.length := hle
  have hstk' : stack = vmr.thread.stack.take vm.thread.stack.length := hstk
  have hpos' : 0 < vm.thread.stack.length := hpos
  have hslen : stack.length = vm.thread.stack.length := by
    rw [hstk', List.length_take]; omega
  have hframes : vmr.thread.stack_frames = [] := by
    have : ¬ vmr.thread.stack_frames_len ≠ 0 := fun hne => hr1 (Or.inl hne)
    have hz : vmr.thread.stack_frames.length = 0 := by
      unfold esh_co_thread.stack_frames_len at this
      omega
    exact List.length_eq_zero.mp hz
  have h2 := (Prod.mk.inj (Option.some.inj h)).2
  have hlen2 : (0 : Nat) < stack.length := by omega
  have hvm1 : vm1 = { vmr with thread := { vmr.thread with
      current_frame := vm.thread.current_frame,
      stack := stack.take (stack.length - 1) } } := by
    rw [← h2]
    unfold esh_vm.stack_len
    simp only
    rw [if_pos hlen2]
  refine ⟨entrypoint, rerr, vmr, hlast, hrun, hrerr, ?_, ?_, ?_, ?_, ?_, ?_, ?_⟩
  · rw [hvm1]; exact hframes
  · rw [hvm1]
  · rw [hvm1]
    simp only [List.length_take]
    omega
  · rw [hvm1]
    simp only
    rw [hslen, hstk', List.take_take]
    congr 1
    omega
  · rw [hvm1]
  · rw [hvm1]
  · rw [hvm1]

/-- C21 as stated fails.  The template that reads an unset global, run by `esh_exec_fn`
from the stack `[7, closure]`, panics uncaught: the call returns 2 and leaves the stack
`[7]`, one value, where the length recorded at entry is two.  And when the uncaught panic
is raised inside a coroutine (here resumed by `next_fn` under `try_fn`), `run_vm` returns 1
while the coroutine at 160 is the running thread, with an empty stack: the calling thread
8 keeps its two frames and its three values, so the stack and the frame that
`esh_exec_fn` then restores are those of the coroutine. -/
theorem C21_counterexample :
    run_summary (esh_exec_fn (fun _ => sample_world) 8 (sample_vm failing_function [7, 16])) =
      some (2, 8, false, some "Unknown global variable", [7]) ∧
    ¬ ([7] : List esh_val).length = ([7, 16] : List esh_val).length ∧
    thread_summary (run_vm stdlib_world 20
        (stdlib_vm
          (sample_function [try_closure, next_closure, sample_coroutine] []
            [(.IMM, 0, 0), (.IMM, 1, 0), (.IMM, 2, 0), (.CALL, 2, 0), (.RET, 1, 0)])
          failing_function failing_function failing_function) 16) 160 =
      some (1, 160, [], []) ∧
    thread_summary (run_vm stdlib_world 20
        (stdlib_vm
          (sample_function [try_closure, next_closure, sample_coroutine] []
            [(.IMM, 0, 0), (.IMM, 1, 0), (.IMM, 2, 0), (.CALL, 2, 0), (.RET, 1, 0)])
          failing_function failing_function failing_function) 16) 8 =
      some (1, 160, [16, 112, 80], [false, true]) := by
  refine ⟨by decide, by decide, by decide, by decide⟩

theorem find_catch_none (frames : List esh_stack_frame)
    (hno : ∀ frame ∈ frames, frame.catch_panic = false) (i : Nat) :
    find_catch frames i = none := by
  induction i with
  | zero => rfl
  | succ i ih =>
    unfold find_catch
    cases hget : frames[i]? with
    | none => exact ih
    | some frame =>
      have hmem : frame ∈ frames := by
        obtain ⟨hi, heq⟩ := List.getElem?_eq_some_iff.mp hget
        rw [← heq]
        exact List.getElem_mem hi
      simp only [hno frame hmem, Bool.false_eq_true, if_false]
      exact ih

/-- The code at `PANIC` looks for a catching frame in the frame stack of the running thread
only: when none of its frames has `catch_panic` set, `run_vm` returns 1 with the same
thread running, whatever frames the threads on the parent stack hold; the parent stack,
the records of the other threads and the flag `panic_caught` stay as they are. -/
theorem panic_unwind_own_frames (w : world) (vm : esh_vm) (s : vm_status)
    (hno : ∀ frame ∈ vm.thread.stack_frames, frame.catch_panic = false)
    (h : panic_unwind w vm = some s) :
    ∃ vm1, s = .returned 1 vm1 ∧ vm1.current_thread = vm.current_thread ∧
      vm1.threads = vm.threads ∧ vm1.co_threads = vm.co_threads ∧
      vm1.panic_caught = vm.panic_caught := by
  cases s with
  | running vm1 =>
    obtain ⟨_, _, _, r, hr⟩ := panic_unwind_running h
    rw [find_catch_none _ hno] at hr
    cases hr
  | returned code vm1 =>
    obtain ⟨hcode, _, _, _, hc, ht, hco, hp⟩ := panic_unwind_returned h
    subst hcode
    exact ⟨vm1, rfl, hc, ht, hco, hp⟩

/-- C22 (code defect, evaluated at a failing input).  The main template calls `try_fn` on
a function that itself calls `try_fn` on a failing function, drops the outcome and returns
`"ok"`.  After 12 passes that function stands before its `RET 1` with `"ok"` on top; the
13th pass is an ordinary return (`continue`, no jump to `PANIC`) that re-enters the outer
`try_fn` at index 1, and there `panic_caught` is still true from the inner catch.  So the
outer `try_fn` returns NULL and the stale message "Unknown global variable" where a callee
that returns `"ok"` without an inner catch gives `"ok"` and NULL with the flag false. -/
theorem C22_stale_panic_flag :
    status_summary (vm_steps stdlib_world 12 1 (started
        (stdlib_vm (try_caller inner_closure) recovering_function failing_function
          failing_function))) =
      some (none, 256, 5, true, [16, try_closure, inner_closure, sample_ok]) ∧
    pass_summary (stdlib_world 13) (vm_steps stdlib_world 12 1 (started
        (stdlib_vm (try_caller inner_closure) recovering_function failing_function
          failing_function))) = some "continue" ∧
    status_summary (vm_steps stdlib_world 13 1 (started
        (stdlib_vm (try_caller inner_closure) recovering_function failing_function
          failing_function))) =
      some (none, 240, 1, true, [16, try_closure, sample_ok]) ∧
    result_pair (esh_exec_fn stdlib_world 20
        (stdlib_vm (try_caller inner_closure) recovering_function failing_function
          failing_function)) =
      some (0, true, none,
        some [85, 110, 107, 110, 111, 119, 110, 32, 103, 108, 111, 98, 97, 108, 32, 118, 97,
          114, 105, 97, 98, 108, 101]) ∧
    result_pair (esh_exec_fn stdlib_world 20
        (stdlib_vm (try_caller inner_closure) ok_function failing_function
          failing_function)) = some (0, false, some [111, 107], none) := by
  refine ⟨by decide, by decide, by decide, by decide, by decide⟩

/-- C23 (code defect, evaluated at a failing input).  The main template calls `try_fn` on
`next_fn` and a coroutine whose body reads an unset global.  After 6 passes the coroutine
at 160 runs, resumed by the thread 8 whose frame of `try_fn` has `catch_panic` set.  The
panic of the body is not carried over to that frame: `run_vm` returns 1 with the coroutine
still the running thread, `panic_caught` false, and the frames of the thread 8 untouched.
The same failing function called under `try_fn` on the main thread is caught: the run
returns 0 with `panic_caught` true. -/
theorem C23_coroutine_panic_unhandled :
    thread_summary (running_state (vm_steps stdlib_world 6 1 (started
        (stdlib_vm try_resume failing_function failing_function failing_function)))) 8 =
      some (0, 160, [16, try_closure, next_closure], [false, true]) ∧
    pass_summary (stdlib_world 7) (vm_steps stdlib_world 6 1 (started
        (stdlib_vm try_resume failing_function failing_function failing_function))) =
      some "PANIC" ∧
    run_summary (run_vm stdlib_world 20
        (stdlib_vm try_resume failing_function failing_function failing_function) 16) =
      some (1, 160, false, some "Unknown global variable", []) ∧
    thread_summary (run_vm stdlib_world 20
        (stdlib_vm try_resume failing_function failing_function failing_function) 16) 8 =
      some (1, 160, [16, try_closure, next_closure], [false, true]) ∧
    run_summary (run_vm stdlib_world 20
        (stdlib_vm (try_caller failing_closure) failing_function failing_function
          failing_function) 16) =
      some (0, 8, true, some "Unknown global variable", [16, 1408]) := by
  refine ⟨by decide, by decide, by decide, by decide, by decide⟩

/-- C24 (code defect, evaluated at a failing input).  The main template resumes a
coroutine three times with `next_fn`; the body yields `"a"` and then leaves through `PROP`
on a NULL value.  The first resume delivers `"a"` (after 8 passes the resumer has it on
top).  The second resume runs the body to its `PROP` (pass 18), which makes `run_vm`
return 0 while the coroutine is the running thread: the coroutine is not marked done, the
resumer is never re-entered and receives no NULL, and `esh_exec_fn` reports success on the
coroutine thread.  With `RET` in place of `PROP` the second and the third resume deliver
NULL to the resumer and the coroutine is done. -/
theorem C24_prop_leaves_coroutine :
    coroutine_summary (vm_steps stdlib_world 8 1 (started
        (stdlib_vm resume_thrice failing_function failing_function body_yield_prop))) 160 =
      some (none, 8, [16, next_closure, sample_a], false) ∧
    pass_summary (stdlib_world 18) (vm_steps stdlib_world 17 1 (started
        (stdlib_vm resume_thrice failing_function failing_function body_yield_prop))) =
      some "return" ∧
    coroutine_summary (vm_steps stdlib_world 18 1 (started
        (stdlib_vm resume_thrice failing_function failing_function body_yield_prop))) 160 =
      some (some 0, 160, [ESH_NULL], false) ∧
    run_summary (esh_exec_fn stdlib_world 40
        (stdlib_vm resume_thrice failing_function failing_function body_yield_prop)) =
      some (0, 160, false, none, [ESH_NULL]) ∧
    coroutine_summary (vm_steps stdlib_world 18 1 (started
        (stdlib_vm resume_thrice failing_function failing_function body_yield_return))) 160 =
      some (none, 8, [16, next_closure, ESH_NULL], true) ∧
    coroutine_summary (vm_steps stdlib_world 24 1 (started
        (stdlib_vm resume_thrice failing_function failing_function body_yield_return))) 160 =
      some (none, 8, [16, next_closure, ESH_NULL], true) := by
  refine ⟨by decide, by decide, by decide, by decide, by decide, by decide⟩

theorem stack_pop_top (esh : esh_state) (below : List esh_val) (v : esh_val)
    (hstack : esh.stack = below ++ [v]) (hbase : esh.stack_base ≤ below.length) :
    stack_pop esh 1 = some (v, { esh with stack := below }) := by
  have hlen : esh.stack_len = below.length + 1 := by
    unfold esh_state.stack_len
    rw [hstack]
    simp
  unfold stack_pop
  rw [if_neg (by decide), if_neg (by rw [hlen]; omega), if_neg (by rw [hlen]; omega)]
  have h1 : stack_at esh (esh.stack_len - 1) = v := stack_at_top esh below v hstack
  rw [h1, hlen, hstack]
  simp

/-- Resuming a coroutine that is done: with the coroutine on top of the frame of the
native function that issues `Next` (or `NextS`), and no failure to grow the parent stack,
the directive removes the coroutine, pushes NULL in its place and goes on in the same
thread; it does not jump to `PANIC` and does not run the coroutine. -/
theorem next_done_null (w : world) (vm : esh_vm) (res : esh_fn_result)
    (below : List esh_val) (c : esh_val) (obj : heap_object) (co : esh_co_thread)
    (hres : res.n_args = 0 ∧ res.n_res = 1)
    (hstack : vm.thread.stack = below ++ [c])
    (hbase : vm.thread.current_frame.stack_base ≤ below.length)
    (hcap : vm.thread.stack.length ≤ vm.thread.stack_cap)
    (hgrow : vm.threads.length = vm.threads_cap → w.threads_ok = true)
    (hobj : val_as_object vm.heap c none = some obj)
    (htype : obj.type = some esh_type_ptr.co_thread_type)
    (hco : vm.thread_at c = some co) (hdone : co.is_done = true) :
    ∃ vm1, next_directive w vm res = some (.cont vm1) ∧
      vm1.thread.stack = below ++ [ESH_NULL] ∧ vm1.current_thread = vm.current_thread ∧
      vm1.threads = vm.threads ∧ vm1.co_threads = vm.co_threads ∧ vm1.err = vm.err := by
  have hlen : vm.thread.stack.length = below.length + 1 := by rw [hstack]; simp
  unfold next_directive
  simp only
  rw [if_neg (by rw [hres.1, hres.2]; simp)]
  have hsl : vm.incr.esh.stack_len = below.length + 1 := hlen
  have hsb : vm.incr.esh.stack_base = vm.thread.current_frame.stack_base := rfl
  rw [if_neg (by rw [hsl, hsb]; omega)]
  have hsize : stack_size vm.incr.esh = below.length + 1 - vm.thread.current_frame.stack_base := by
    unfold stack_size
    rw [hsl, hsb]
  rw [if_neg (by rw [hsize, hres.1]; omega)]
  have hg : ¬ (vm.incr.threads.length = vm.incr.threads_cap ∧ w.threads_ok = false) := by
    intro hh
    have := hgrow hh.1
    rw [this] at hh
    exact Bool.noConfusion hh.2
  rw [if_neg hg]
  rw [stack_pop_top _ below c hstack hbase]
  simp only
  erw [hobj]
  simp only [htype]
  rw [show type_next w esh_type_ptr.co_thread_type = none from rfl]
  simp only [ne_eq, not_true_eq_false, if_false]
  have hthread : ∀ (vmx : esh_vm), vmx.current_thread = vm.current_thread →
      vmx.co_threads = vm.co_threads → vmx.thread.is_done = vm.thread.is_done →
      ∃ co1, vmx.thread_at c = some co1 ∧ co1.is_done = true := by
    intro vmx h1 h2 h3
    unfold esh_vm.thread_at at hco ⊢
    rw [h1, h2]
    by_cases hc : c = vm.current_thread
    · rw [if_pos hc] at hco ⊢
      refine ⟨_, rfl, ?_⟩
      rw [h3, Option.some.inj hco]
      exact hdone
    · rw [if_neg hc] at hco ⊢
      exact ⟨co, hco, hdone⟩
  generalize hx : esh_vm.thread_at _ c = x
  obtain ⟨co1, hco1, hdone1⟩ : ∃ co1, x = some co1 ∧ co1.is_done = true := by
    rw [← hx]
    exact hthread _ rfl rfl rfl
  rw [hco1]
  simp only [hdone1, if_true]
  rw [stack_push_ne]
  · refine ⟨_, rfl, rfl, rfl, rfl, rfl, rfl⟩
  · show below.length ≠ vm.thread.stack_cap
    omega

theorem switch_thread_other (vm : esh_vm) (p : Nat) (pt : esh_co_thread)
    (hp : p ≠ vm.current_thread) (hpt : vm.co_threads p = some pt) :
    switch_thread vm p = some { vm with
      co_threads := store vm.co_threads vm.current_thread vm.thread,
      thread := pt, current_thread := p } := by
  unfold switch_thread esh_vm.thread_at
  rw [if_neg hp, hpt]

/-- A yield delivers its operand: when the native function of the running coroutine issues
`Yield` or `YieldLast` with the value `v` on top of its frame, and the thread `p` on top
of the parent stack (another thread, with room for one value) is the resumer, the
directive removes `v` from the stack of the coroutine, makes `p` the running thread and
leaves `v` on top of its stack; the coroutine is marked done by `YieldLast` only. -/
theorem yield_delivers (vm : esh_vm) (res : esh_fn_result) (below : List esh_val)
    (v : esh_val) (ts : List Nat) (p : Nat) (pt : esh_co_thread)
    (hres : res.n_res = 0 ∧ res.n_args = 1)
    (hstack : vm.thread.stack = below ++ [v])
    (hbase : vm.thread.current_frame.stack_base ≤ below.length)
    (hthreads : vm.threads = ts ++ [p]) (hp : p ≠ vm.current_thread)
    (hpt : vm.co_threads p = some pt) (hroom : pt.stack.length < pt.stack_cap) :
    ∃ vm1, yield_directive vm res = some (.cont vm1) ∧
      vm1.current_thread = p ∧ vm1.thread.stack = pt.stack ++ [v] ∧ vm1.threads = ts ∧
      (vm1.co_threads vm.current_thread).map (fun t => (t.stack, t.is_done)) =
        some (below, if res.type = 7 then true else vm.thread.is_done) := by
  have hlen : vm.thread.stack.length = below.length + 1 := by rw [hstack]; simp
  unfold yield_directive
  simp only
  rw [if_neg (by rw [hres.1, hres.2]; simp)]
  rw [if_neg (by rw [show vm.incr.threads = ts ++ [p] from hthreads]; simp)]
  have hsl : vm.incr.esh.stack_len = below.length + 1 := hlen
  have hsb : vm.incr.esh.stack_base = vm.thread.current_frame.stack_base := rfl
  rw [if_neg (by rw [hsl, hsb]; omega)]
  have hsize : stack_size vm.incr.esh = below.length + 1 - vm.thread.current_frame.stack_base := by
    unfold stack_size
    rw [hsl, hsb]
  rw [if_neg (by rw [hsize, hres.2]; omega)]
  rw [stack_pop_top _ below v hstack hbase]
  simp only
  by_cases h7 : res.type = 7
  · simp only [h7, if_true]
    generalize hx : List.getLast? _ = x
    have hx1 : x = some p := by
      rw [← hx]
      show (vm.threads).getLast? = some p
      rw [hthreads, List.getLast?_concat]
    rw [hx1]
    simp only
    rw [switch_thread_other _ p pt]
    · simp only
      rw [stack_push_ne (by show pt.stack.length ≠ pt.stack_cap; omega)]
      simp only
      refine ⟨_, rfl, rfl, rfl, ?_, ?_⟩
      · show (vm.threads).dropLast = ts
        rw [hthreads, List.dropLast_concat]
      · show Option.map _ (store vm.co_threads vm.current_thread _ vm.current_thread) = _
        unfold store
        rw [if_pos rfl]
        rfl
    · exact hp
    · exact hpt
  · simp only [h7, if_false]
    generalize hx : List.getLast? _ = x
    have hx1 : x = some p := by
      rw [← hx]
      show (vm.threads).getLast? = some p
      rw [hthreads, List.getLast?_concat]
    rw [hx1]
    simp only
    rw [switch_thread_other _ p pt]
    · simp only
      rw [stack_push_ne (by show pt.stack.length ≠ pt.stack_cap; omega)]
      simp only
      refine ⟨_, rfl, rfl, rfl, ?_, ?_⟩
      · show (vm.threads).dropLast = ts
        rw [hthreads, List.dropLast_concat]
      · show Option.map _ (store vm.co_threads vm.current_thread _ vm.current_thread) = _
        unfold store
        rw [if_pos rfl]
        rfl
    · exact hp
    · exact hpt

/-- The return of the body of a coroutine: when `leave_fn` runs with an empty frame stack
in a coroutine whose resumer `p` (another thread) is on top of the parent stack, the
coroutine is marked done, `p` becomes the running thread, and as many NULL values are
left on its stack as its current frame expects (one after `Next`). -/
theorem thread_end_null (w : world) (vm : esh_vm) (n : Nat) (ts : List Nat) (p : Nat)
    (pt : esh_co_thread)
    (hframes : vm.thread.stack_frames = [])
    (hthreads : vm.threads = ts ++ [p]) (hp : p ≠ vm.current_thread)
    (hpt : vm.co_threads p = some pt) (hcap : pt.stack.length ≤ pt.stack_cap)
    (hroom : w.stack_ok = true ∨
      pt.current_frame.expected_returns ≤ pt.stack_cap - pt.stack.length) :
    ∃ vm1, leave_fn w vm n = some (0, vm1) ∧
      vm1.current_thread = p ∧
      vm1.thread.stack = pt.stack ++ List.replicate pt.current_frame.expected_returns ESH_NULL ∧
      vm1.threads = ts ∧
      vm1.co_threads vm.current_thread = some { vm.thread with is_done := true } := by
  unfold leave_fn
  rw [hframes]
  simp only [List.getLast?_nil]
  rw [hthreads, List.getLast?_concat]
  simp only
  have hst : store vm.co_threads vm.current_thread { vm.thread with is_done := true } p
      = some pt := by
    unfold store
    rw [if_neg hp]
    exact hpt
  rw [hst]
  simp only
  generalize hy : stack_resv w.stack_ok _ _ = y
  obtain ⟨cap, hresv, _⟩ := stack_resv_ok w.stack_ok
    { stack := pt.stack, stack_cap := pt.stack_cap, stack_base := pt.current_frame.stack_base,
      heap := vm.heap, err := vm.err } pt.current_frame.expected_returns hcap hroom
  erw [hresv] at hy
  rw [← hy]
  simp only
  refine ⟨_, rfl, rfl, rfl, ?_, ?_⟩
  · show (ts ++ [p]).dropLast = ts
    rw [List.dropLast_concat]
  · show store vm.co_threads vm.current_thread _ vm.current_thread = _
    unfold store
    rw [if_pos rfl]

/-- The instruction `PROP` on a NULL value in a frame with an empty frame stack makes
`run_vm` return 0 whatever the parent stack holds: in the bottom frame of a coroutine the
run ends there, with the coroutine as the running thread and its resumers suspended. -/
theorem prop_null_returns (w : world) (vm : esh_vm) (f : esh_function) (instr : instr_regs)
    (below : List esh_val)
    (hop : esh_opcode.of_byte instr.op = some .PROP)
    (hstack : vm.thread.stack = below ++ [ESH_NULL])
    (hbase : vm.thread.current_frame.stack_base ≤ below.length)
    (hframes : vm.thread.stack_frames = []) :
    exec_instr w vm f instr = some (.ret 0 vm) := by
  have hlen : vm.esh.stack_len = below.length + 1 := by
    show vm.thread.stack.length = _
    rw [hstack]; simp
  have hsb : vm.esh.stack_base = vm.thread.current_frame.stack_base := rfl
  unfold exec_instr
  simp only [hop]
  have hreq : opt_req_stack vm.esh 1 = some 0 := by
    unfold opt_req_stack
    rw [if_neg (by rw [hlen, hsb]; omega), if_neg (by rw [hlen, hsb]; omega)]
  rw [hreq]
  simp only
  rw [stack_at_top vm.esh below ESH_NULL hstack]
  simp only [if_true]
  rw [if_pos (by unfold esh_co_thread.stack_frames_len; rw [hframes]; rfl)]

theorem is_array_loop_spec (obj : esh_object) (hw : wf obj) (fuel i : Nat)
    (hrange : i + fuel ≤ 9223372036854775808) :
    ∃ b, is_array_loop obj fuel i = some b ∧
      (b = true ↔ ∀ j, i ≤ j → j < i + fuel → ∃ v, live_at obj.entries (decimal_string j) v) := by
  induction fuel generalizing i with
  | zero =>
    refine ⟨true, rfl, ?_⟩
    simp only [true_iff]
    intro j h1 h2
    omega
  | succ fuel ih =>
    unfold is_array_loop
    rw [index_key i (by omega)]
    cases hg : esh_object_get obj (decimal_string i) with
    | none => exact absurd hg (get_ne_none hw _)
    | some r =>
      cases r with
      | none =>
        refine ⟨false, rfl, ?_⟩
        simp only [Bool.false_eq_true, false_iff]
        intro hall
        obtain ⟨v, hv⟩ := hall i (le_refl i) (by omega)
        exact (get_miss_iff hw _).mp hg v hv
      | some v =>
        obtain ⟨b, hb, hiff⟩ := ih (i + 1) (by omega)
        refine ⟨b, hb, ?_⟩
        rw [hiff]
        constructor
        · intro hall j h1 h2
          by_cases hj : j = i
          · subst hj
            exact ⟨v, (get_hit_iff hw _ v).mp hg⟩
          · exact hall j (by omega) (by omega)
        · intro hall j h1 h2
          exact hall j (by omega) (by omega)

/-- What `esh_is_array` answers for an object: with a well-formed table of fewer than
2^63 entries the call returns, and it returns true exactly when the object is not empty
and is an array of the length of its size. -/
theorem is_array_object (esh : esh_state) (offset : Int) (index : Nat) (obj : heap_object)
    (hoff : (stack_offset esh offset).1 = some index)
    (hobj : val_as_object esh.heap (stack_at esh index) none = some obj)
    (hw : wf obj.obj) (hlen : obj.obj.len ≤ 9223372036854775808) :
    ∃ b, esh_is_array esh offset = some b ∧
      (b = true ↔ 0 < obj.obj.len ∧ array_of_length obj.obj obj.obj.len) := by
  unfold esh_is_array
  cases hso : stack_offset esh offset with
  | mk o e =>
  rw [hso] at hoff
  simp only at hoff
  subst hoff
  simp only [hobj]
  by_cases h0 : obj.obj.len = 0
  · rw [if_pos h0]
    refine ⟨false, rfl, ?_⟩
    simp only [Bool.false_eq_true, false_iff, not_and]
    intro hpos
    omega
  · rw [if_neg h0]
    obtain ⟨b, hb, hiff⟩ := is_array_loop_spec obj.obj hw obj.obj.len 0 (by omega)
    refine ⟨b, hb, ?_⟩
    rw [hiff]
    unfold array_of_length
    constructor
    · intro hall
      exact ⟨by omega, rfl, fun i hi => hall i (Nat.zero_le i) (by omega)⟩
    · intro hall j _ h2
      exact hall.2.2 j (by omega)

/-- What `esh_is_array` answers for a value that is no object, or for an invalid offset:
false. -/
theorem is_array_non_object (esh : esh_state) (offset : Int)
    (h : ∀ index, (stack_offset esh offset).1 = some index →
      val_as_object esh.heap (stack_at esh index) none = none) :
    esh_is_array esh offset = some false := by
  unfold esh_is_array
  cases hso : stack_offset esh offset with
  | mk o e =>
  cases o with
  | none => rfl
  | some index =>
    have := h index (by rw [hso])
    simp only [this]

/-- C26 (amended): `esh_is_array` reports true for an object if and only if the object is
not empty and, for N equal to its size, has entries for all the decimal keys "0" .. "N-1"
(tables well formed, fewer than 2^63 entries); for the empty object, for a value that is
no object and for an invalid offset it reports false. -/
theorem C26_is_array (esh : esh_state) (offset : Int) :
    (∀ index obj, (stack_offset esh offset).1 = some index →
      val_as_object esh.heap (stack_at esh index) none = some obj →
      wf obj.obj → obj.obj.len ≤ 9223372036854775808 →
      ∃ b, esh_is_array esh offset = some b ∧
        (b = true ↔ 0 < obj.obj.len ∧ array_of_length obj.obj obj.obj.len)) ∧
    ((∀ index, (stack_offset esh offset).1 = some index →
      val_as_object esh.heap (stack_at esh index) none = none) →
      esh_is_array esh offset = some false) :=
  ⟨fun index obj hoff hobj hw hlen => is_array_object esh offset index obj hoff hobj hw hlen,
    is_array_non_object esh offset⟩

theorem C26_is_array_witness :
    (∃ b, esh_is_array sample_array_state (-3) = some b ∧
      (b = true ↔ 0 < 1 ∧ array_of_length ⟨false, 1, [⟨some [48], 7, false⟩]⟩ 1)) ∧
    esh_is_array sample_array_state (-1) = some false :=
  ⟨(C26_is_array sample_array_state (-3)).1 0 ⟨none, ⟨false, 1, [⟨some [48], 7, false⟩]⟩, 0, []⟩
      (by decide) (by decide) (by decide) (by decide),
    (C26_is_array sample_array_state (-1)).2 (fun index h => by
      have h2 : index = 2 := by
        have : (stack_offset sample_array_state (-1)).1 = some 2 := by decide
        rw [this] at h
        exact (Option.some.inj h).symm
      subst h2
      decide)⟩

/-- C26 as stated fails for the empty object: it has size 0 and so is an array of length 0
in the sense of the specification (no key is required), but `esh_is_array` reports
false. -/
theorem C26_counterexample :
    val_as_object sample_array_state.heap (stack_at sample_array_state 1) none =
      some (sample_header none false) ∧
    array_of_length (sample_header none false).obj 0 ∧
    esh_is_array sample_array_state (-2) = some false := by
  refine ⟨by decide, ⟨rfl, fun i hi => absurd hi (Nat.not_lt_zero i)⟩, by decide⟩

theorem peekc_at (pre rest : List Nat) (c l : Nat) (f : Bool) :
    peekc ⟨pre ++ c :: rest, pre.length, l, f⟩ = c := by
  unfold peekc
  simp only [List.length_append, List.length_cons]
  rw [if_neg (by omega)]
  rw [List.getD_eq_getElem?_getD, List.getElem?_append_right (le_refl _)]
  simp

theorem popc_at (pre rest : List Nat) (c l : Nat) (f : Bool) :
    popc ⟨pre ++ c :: rest, pre.length, l, f⟩ =
      (c, ⟨pre ++ c :: rest, pre.length + 1, if c = 10 then l + 1 else l, f⟩) := by
  unfold popc
  simp only [List.length_append, List.length_cons]
  rw [if_neg (by omega)]
  rw [List.getD_eq_getElem?_getD, List.getElem?_append_right (le_refl _)]
  simp

/-- Inside a comment the loop of `skip_whitespace` passes over every character that is
neither `#` nor a newline. -/
theorem comment_body_skipped (fuel : Nat) (body pre rest : List Nat) (l : Nat) (f nl : Bool)
    (hbody : ∀ c ∈ body, c ≠ 35 ∧ c ≠ 10) :
    skip_whitespace_loop (fuel + body.length) ⟨pre ++ (body ++ rest), pre.length, l, f⟩ true nl =
      skip_whitespace_loop fuel ⟨pre ++ (body ++ rest), pre.length + body.length, l, f⟩ true
        nl := by
  induction body generalizing pre with
  | nil => rfl
  | cons c body ih =>
    have hc := hbody c (List.mem_cons_self c body)
    have hrest : ∀ d ∈ body, d ≠ 35 ∧ d ≠ 10 :=
      fun d hd => hbody d (List.mem_cons_of_mem c hd)
    have hsrc : pre ++ (c :: body ++ rest) = (pre ++ [c]) ++ (body ++ rest) := by simp
    have hstep : skip_whitespace_loop (fuel + body.length + 1)
        ⟨pre ++ c :: (body ++ rest), pre.length, l, f⟩ true nl =
        skip_whitespace_loop (fuel + body.length)
          ⟨pre ++ c :: (body ++ rest), pre.length + 1, l, f⟩ true nl := by
      rw [skip_whitespace_loop]
      simp only [peekc_at, popc_at, if_neg hc.2, if_neg hc.1, Bool.not_true, Bool.false_eq_true,
        if_false]
      split <;> rfl
    have := ih (pre ++ [c]) hrest
    simp only [List.length_append, List.length_cons, List.length_nil, List.append_assoc,
      List.singleton_append, Nat.zero_add] at this
    rw [List.length_cons, List.cons_append, ← Nat.add_assoc, hstep, this]
    congr 2
    omega

/-- A comment that the end of the source text cuts off: the loop of `skip_whitespace`
never leaves it, whatever the fuel. -/
theorem comment_at_end_loops (fuel : Nat) (src : List Nat) (l : Nat) (f nl : Bool) :
    skip_whitespace_loop fuel ⟨src, src.length, l, f⟩ true nl = none := by
  induction fuel with
  | zero => rfl
  | succ fuel ih =>
    rw [skip_whitespace_loop]
    have hp : peekc ⟨src, src.length, l, f⟩ = 0 := by
      unfold peekc
      rw [if_pos rfl]
    have hq : popc ⟨src, src.length, l, f⟩ = (0, ⟨src, src.length, l, f⟩) := by
      unfold popc
      rw [if_pos rfl]
    simp only [hp, hq]
    simp only [show ¬ ((0 : Nat) = 32 ∨ (0 : Nat) = 9 ∨ (0 : Nat) = 13 ∨ (0 : Nat) = 10) by decide,
      show ¬ ((0 : Nat) = 35) by decide, if_false, Bool.not_true, Bool.false_eq_true]
    exact ih

/-- The loop of `skip_whitespace` from a `#` outside a comment on: the characters up to
and including the next `#` or newline are passed over. -/
theorem comment_skipped (fuel : Nat) (pre body tail : List Nat) (t l : Nat) (f nl : Bool)
    (hbody : ∀ c ∈ body, c ≠ 35 ∧ c ≠ 10) (ht : t = 10 ∨ t = 35) :
    skip_whitespace_loop (fuel + body.length + 2)
        ⟨pre ++ 35 :: (body ++ t :: tail), pre.length, l, f⟩ false nl =
      skip_whitespace_loop fuel
        ⟨pre ++ 35 :: (body ++ t :: tail), pre.length + body.length + 2,
          if t = 10 then l + 1 else l, f⟩ false (if t = 10 then true else nl) := by
  have hfirst : skip_whitespace_loop (fuel + body.length + 2)
      ⟨pre ++ 35 :: (body ++ t :: tail), pre.length, l, f⟩ false nl =
      skip_whitespace_loop (fuel + 1 + body.length)
        ⟨pre ++ 35 :: (body ++ t :: tail), pre.length + 1, l, f⟩ true nl := by
    rw [show fuel + body.length + 2 = (fuel + 1 + body.length) + 1 by omega,
      skip_whitespace_loop]
    simp only [peekc_at, popc_at]
    rfl
  have hsrc : pre ++ 35 :: (body ++ t :: tail) = (pre ++ [35]) ++ (body ++ t :: tail) := by
    simp
  have hbody1 := comment_body_skipped (fuel + 1) body (pre ++ [35]) (t :: tail) l f nl hbody
  simp only [List.length_append, List.length_cons, List.length_nil, Nat.zero_add] at hbody1
  rw [hfirst, hsrc, hbody1]
  have hsrc2 : pre ++ [35] ++ (body ++ t :: tail) = (pre ++ [35] ++ body) ++ t :: tail := by
    simp
  have hpos : pre.length + 1 + body.length = (pre ++ [35] ++ body).length := by
    simp only [List.length_append, List.length_cons, List.length_nil]
  have hpos2 : (pre ++ [35] ++ body).length + 1 = pre.length + body.length + 2 := by
    simp only [List.length_append, List.length_cons, List.length_nil]
    omega
  rw [hsrc2, hpos, skip_whitespace_loop]
  simp only [peekc_at, popc_at]
  rw [hpos2]
  rcases ht with ht | ht
  · subst ht
    simp only [if_true, or_true]
  · subst ht
    simp only [
      show ¬ ((35 : Nat) = 32 ∨ (35 : Nat) = 9 ∨ (35 : Nat) = 13 ∨ (35 : Nat) = 10) by decide,
      show ¬ ((35 : Nat) = 10) by decide, if_false, if_true, Bool.not_true]
    rw [if_neg (by decide)]

/-- C27 (amended): In the lexer a comment starts at a `#` outside a string and runs to the
next `#` or the next newline, whichever comes first: from a `#` on, `skip_whitespace`
passes over every character up to and including that closing `#` or newline (a newline
sets the newline flag and counts a line), and `next_token` delivers the token it finds from
the character after it on. -/
theorem C27_comment (fuel : Nat) (pre body tail : List Nat) (t l : Nat) (nl : Bool)
    (hbody : ∀ c ∈ body, c ≠ 35 ∧ c ≠ 10) (ht : t = 10 ∨ t = 35) :
    skip_whitespace_loop (fuel + body.length + 2)
        ⟨pre ++ 35 :: (body ++ t :: tail), pre.length, l, false⟩ false nl =
      skip_whitespace_loop fuel
        ⟨pre ++ 35 :: (body ++ t :: tail), pre.length + body.length + 2,
          if t = 10 then l + 1 else l, false⟩ false (if t = 10 then true else nl) ∧
    next_token (fuel + body.length + 2)
        ⟨pre ++ 35 :: (body ++ t :: tail), pre.length, l, false⟩ =
      match skip_whitespace_loop fuel
        ⟨pre ++ 35 :: (body ++ t :: tail), pre.length + body.length + 2,
          if t = 10 then l + 1 else l, false⟩ false (if t = 10 then true else false) with
      | none => .error .fuel
      | some r => token_at (fuel + body.length + 2) r.1 r.2 := by
  refine ⟨comment_skipped fuel pre body tail t l false nl hbody ht, ?_⟩
  unfold next_token skip_whitespace
  simp only [Bool.false_eq_true, if_false]
  rw [comment_skipped fuel pre body tail t l false false hbody ht]
  cases skip_whitespace_loop fuel
    ⟨pre ++ 35 :: (body ++ t :: tail), pre.length + body.length + 2,
      if t = 10 then l + 1 else l, false⟩ false (if t = 10 then true else false) with
  | none => rfl
  | some r => rfl

theorem C27_comment_witness :
    skip_whitespace_loop (5 + 2 + 2) ⟨[120] ++ 35 :: ([32, 97] ++ 10 :: [121]), 1, 1, false⟩
        false false =
      some (⟨[120, 35, 32, 97, 10, 121], 5, 2, false⟩, true) ∧
    lexed (next_token (5 + 2 + 2) ⟨[120] ++ 35 :: ([32, 97] ++ 10 :: [121]), 1, 1, false⟩) =
      some (⟨.TOK_WORD, [121], true, 2⟩, ⟨[120, 35, 32, 97, 10, 121], 6, 2, false⟩) := by
  have h := C27_comment 5 [120] [32, 97] [121] 10 1 false (by decide) (by decide)
  refine ⟨h.1.trans (by decide), ?_⟩
  exact (congrArg lexed h.2).trans (by decide)

/-- C27 as stated fails: a second `#` on the line ends the comment.  In the source line
`# a # b` the lexer delivers the word `b`, a character between the first `#` and the end
of that line. -/
theorem C27_counterexample :
    lexed (next_token 20 (lexer_start sample_comment_line)) =
      some (⟨.TOK_WORD, [98], false, 1⟩, ⟨sample_comment_line, 7, 1, false⟩) ∧
    sample_comment_line.take 1 = [35] ∧ sample_comment_line.getD 6 0 = 98 ∧
    (sample_comment_line.take 7).all (fun c => c ≠ 10) = true := by
  decide

/-- A comment without a closing `#` or newline before the end of the source text:
`skip_whitespace` never returns, whatever the fuel. -/
theorem comment_unterminated_loops (fuel : Nat) (body pre : List Nat) (l : Nat) (f nl : Bool)
    (hbody : ∀ c ∈ body, c ≠ 35 ∧ c ≠ 10) :
    skip_whitespace_loop fuel ⟨pre ++ body, pre.length, l, f⟩ true nl = none := by
  induction body generalizing pre fuel with
  | nil =>
    have := comment_at_end_loops fuel (pre ++ []) l f nl
    simpa using this
  | cons c body ih =>
    cases fuel with
    | zero => rfl
    | succ fuel =>
      have hc := hbody c (List.mem_cons_self c body)
      rw [skip_whitespace_loop]
      simp only [peekc_at, popc_at, if_neg hc.2, if_neg hc.1, Bool.not_true, Bool.false_eq_true,
        if_false]
      have := ih fuel (pre ++ [c]) (fun d hd => hbody d (List.mem_cons_of_mem c hd))
      simp only [List.length_append, List.length_cons, List.length_nil, List.append_assoc,
        List.singleton_append, Nat.zero_add] at this
      split <;> exact this

/-- A source text that ends inside a comment: `next_token` does not return for any fuel.
The text `x # a` without a newline at its end is an instance. -/
theorem comment_at_end_never_returns (fuel : Nat) (pre body : List Nat) (l : Nat)
    (hbody : ∀ c ∈ body, c ≠ 35 ∧ c ≠ 10) :
    next_token fuel ⟨pre ++ 35 :: body, pre.length, l, false⟩ = .error .fuel := by
  unfold next_token skip_whitespace
  simp only [Bool.false_eq_true, if_false]
  cases fuel with
  | zero => rfl
  | succ fuel =>
    rw [skip_whitespace_loop]
    simp only [peekc_at, popc_at]
    have := comment_unterminated_loops fuel body (pre ++ [35]) l false false hbody
    simp only [List.length_append, List.length_cons, List.length_nil, List.append_assoc,
      List.singleton_append, Nat.zero_add] at this
    simp only [show ((35 : Nat) = 32 ∨ (35 : Nat) = 9 ∨ (35 : Nat) = 13 ∨ (35 : Nat) = 10) = False
      from eq_false (by decide), show ((35 : Nat) = 10) = False from eq_false (by decide),
      if_false, if_true, Bool.not_false]
    rw [this]
    rw [if_neg (by decide)]

/-- With `current_block_only` the search of `index_local` is the scan of the locals of the
innermost block, from its `locals_base` to the end of the locals array. -/
theorem index_local_current_block (ctx : compile_ctx) (name : List Nat)
    (hfn : ctx.fn_scopes ≠ [])
    (hblocks : (ctx.fn_scopes.getD (ctx.fn_scopes.length - 1) ⟨0, 0, false⟩).block_scopes_base
      < ctx.block_scopes.length) :
    index_local ctx name true =
      (index_local_scan ctx.locals name
        (ctx.block_scopes.getD (ctx.block_scopes.length - 1) ⟨0⟩).locals_base
        ctx.locals.length).map (fun l => (l, 0)) := by
  unfold index_local
  obtain ⟨n, hn⟩ : ∃ n, ctx.fn_scopes.length = n + 1 := by
    cases hl : ctx.fn_scopes with
    | nil => exact absurd hl hfn
    | cons a t => exact ⟨t.length, rfl⟩
  rw [hn] at hblocks ⊢
  simp only [Nat.add_sub_cancel] at hblocks
  rw [index_local_fns]
  obtain ⟨m, hm⟩ : ∃ m, ctx.block_scopes.length -
      (ctx.fn_scopes.getD n ⟨0, 0, false⟩).block_scopes_base = m + 1 :=
    ⟨ctx.block_scopes.length - (ctx.fn_scopes.getD n ⟨0, 0, false⟩).block_scopes_base - 1,
      by omega⟩
  rw [hm, index_local_blocks]
  simp only
  cases index_local_scan ctx.locals name
      (ctx.block_scopes.getD (ctx.block_scopes.length - 1) ⟨0⟩).locals_base
      ctx.locals.length with
  | none => rfl
  | some l => rfl

/-- The first declaration of a name in a fresh block is accepted: right after
`new_block_scope`, `new_local` succeeds for every word. -/
theorem new_local_in_new_block (ctx ctx1 : compile_ctx) (word : lex_token) (is_const : Bool)
    (hword : word.type = .TOK_WORD) (hfn : ctx.fn_scopes ≠ [])
    (hblocks : (ctx.fn_scopes.getD (ctx.fn_scopes.length - 1) ⟨0, 0, false⟩).block_scopes_base
      ≤ ctx.block_scopes.length)
    (h : new_block_scope ctx = .ok ctx1) :
    ∃ index ctx2, new_local ctx1 word is_const = .ok (index, ctx2) ∧
      ctx2.locals = ctx.locals ++ [⟨word.str, index, is_const⟩] ∧
      ctx2.block_scopes = ctx.block_scopes ++ [⟨ctx.locals.length⟩] := by
  unfold new_block_scope at h
  by_cases hg : ctx.grow = false
  · rw [if_pos hg] at h
    cases h
  rw [if_neg hg] at h
  have h1 : ctx1 = { ctx with block_scopes := ctx.block_scopes ++ [⟨ctx.locals.length⟩] } :=
    (Except.ok.inj h).symm
  have hscan : index_local ctx1 word.str true = none := by
    rw [index_local_current_block ctx1 word.str (by rw [h1]; exact hfn)
      (by rw [h1]; simp only [List.length_append, List.length_cons, List.length_nil]; omega)]
    rw [h1]
    simp only [List.length_append, List.length_cons, List.length_nil, Nat.zero_add,
      Nat.add_sub_cancel]
    rw [List.getD_eq_getElem?_getD, List.getElem?_append_right (le_refl _)]
    simp [index_local_scan]
  unfold new_local
  rw [if_neg (by rw [hword]; simp), hscan]
  simp only [Option.isSome_none, Bool.false_eq_true, if_false]
  have hlen : ¬ ctx1.fn_scopes.length = 0 := by
    rw [h1]
    exact fun h0 => hfn (List.length_eq_zero.mp h0)
  rw [if_neg hlen, if_neg (by rw [h1]; exact hg)]
  refine ⟨_, _, rfl, ?_, ?_⟩
  · rw [h1]
  · rw [h1]

/-- A second declaration in the same block is rejected: right after a successful
`new_local` for a word, `new_local` for a word of the same name throws. -/
theorem new_local_twice (ctx ctx1 : compile_ctx) (word word1 : lex_token)
    (is_const is_const1 : Bool) (index : Nat)
    (hword : word1.type = .TOK_WORD) (hname : word1.str = word.str)
    (hblocks : (ctx.fn_scopes.getD (ctx.fn_scopes.length - 1) ⟨0, 0, false⟩).block_scopes_base
      < ctx.block_scopes.length)
    (hbase : (ctx.block_scopes.getD (ctx.block_scopes.length - 1) ⟨0⟩).locals_base ≤
      ctx.locals.length)
    (h : new_local ctx word is_const = .ok (index, ctx1)) :
    new_local ctx1 word1 is_const1 = .error .thrown := by
  unfold new_local at h
  split at h
  · cases h
  split at h
  · cases h
  split at h
  · cases h
  rename_i hfn0
  split at h
  · cases h
  have h1 := (Prod.mk.inj (Except.ok.inj h)).2
  have hfn : ctx.fn_scopes ≠ [] := fun h0 => hfn0 (by rw [h0]; rfl)
  have hlocals : ctx1.locals = ctx.locals ++ [⟨word.str, index, is_const⟩] := by
    rw [← h1, ← (Prod.mk.inj (Except.ok.inj h)).1]
  have hbs : ctx1.block_scopes = ctx.block_scopes := by rw [← h1]
  have hfl : ctx1.fn_scopes.length = ctx.fn_scopes.length := by
    rw [← h1]
    simp
  have hfb : (ctx1.fn_scopes.getD (ctx1.fn_scopes.length - 1) ⟨0, 0, false⟩).block_scopes_base =
      (ctx.fn_scopes.getD (ctx.fn_scopes.length - 1) ⟨0, 0, false⟩).block_scopes_base := by
    rw [hfl, ← h1]
    simp only
    have hlt : ctx.fn_scopes.length - 1 < ctx.fn_scopes.length := by
      have : ctx.fn_scopes.length ≠ 0 := hfn0
      omega
    rw [List.getD_eq_getElem?_getD, List.getElem?_set_self hlt]
    rfl
  have hfound : (index_local ctx1 word1.str true).isSome = true := by
    rw [index_local_current_block ctx1 word1.str
      (fun h0 => hfn (List.length_eq_zero.mp (by rw [← hfl, h0]; rfl)))
      (by rw [hfb, hbs]; exact hblocks)]
    rw [hbs, hlocals, hname]
    simp only [Option.isSome_map']
    unfold index_local_scan
    simp only [List.length_append, List.length_cons, List.length_nil, Nat.zero_add]
    rw [List.take_of_length_le (by simp), List.drop_append_of_le_length hbase,
      List.find?_append]
    simp
  unfold new_local
  rw [if_neg (by rw [hword]; simp), if_pos hfound]

/-- The function `leave_block_scope` removes the block but none of the locals declared in
it: the locals array is as before. -/
theorem leave_block_keeps_locals (ctx ctx1 : compile_ctx)
    (h : leave_block_scope ctx = .ok ctx1) :
    ctx1.locals = ctx.locals ∧ ctx1.block_scopes = ctx.block_scopes.dropLast := by
  unfold leave_block_scope at h
  split at h
  · cases h
  · simp only at h
    split at h
    · cases h
    · cases h
      exact ⟨rfl, rfl⟩

/-- C28 (code defect, evaluated at a failing input).  A second `local w` in the same block
is a compile error and a `local w` in each nested block of an `if` statement is accepted,
as in the tests.  But `leave_block_scope` leaves the locals of the block it ends in the
locals array, where the scan of the enclosing block finds them: in a function body that
declares `w`, a `local w` in a nested block is rejected (the compiler throws) when an inner
block of that block has declared `w` before and ended, although the nested block itself
holds no declaration of `w`; without the inner block the same declaration is accepted.
At that point the block scopes are those of the program, of the function and of the nested
block (`locals_base` 1), the locals array still holds the inner `w` with index 1, and
`index_local` with `current_block_only` finds it. -/
theorem C28_nested_declaration_rejected :
    body_stop var_redeclaration_body = some .thrown ∧
    body_stop local_var_blocks_body = none ∧
    body_stop nested_declaration_body = some .thrown ∧
    body_stop plain_declaration_body = none ∧
    scopes_of nested_declaration_scopes =
      some ([⟨0⟩, ⟨0⟩, ⟨1⟩], [⟨[119], 0, false⟩, ⟨[119], 1, false⟩]) ∧
    (match nested_declaration_scopes with
      | .ok ctx => index_local ctx [119] true
      | .error _ => none) = some (⟨[119], 1, false⟩, 0) := by
  refine ⟨by decide!, by decide!, by decide!, by decide!, by decide!, by decide!⟩

/-- C29 (code defect, evaluated at a failing input).  In the function of
`test_block_scopes` the reads of `x` resolve as the test expects (the globals `r1` to `r6`
end as 1, 2, 3, 4, 2, 5).  But after an inner block has ended its locals stay in the
locals array: in `nested_read_body` the read of `x` in the block around the inner block,
after the inner block, compiles to `LOAD 1` (the `x` of the inner block) and not to
`LOAD 0` (the enclosing `x`), and the call of the function leaves the global `r` as "3",
not "1". -/
theorem C29_inner_local_outlives_block :
    [[49], [50], [51], [52], [53], [54]].map
        (fun i => global_after block_scopes_body (114 :: i)) =
      [some (some [49]), some (some [50]), some (some [51]), some (some [52]),
        some (some [50]), some (some [53])] ∧
    body_code nested_read_body =
      some [(some .IMM, 0, 0), (some .STORE, 0, 0), (some .IMM, 1, 0), (some .JMP_IFN, 1, 0),
        (some .IMM, 2, 0), (some .JMP_IFN, 3, 0), (some .IMM, 3, 0), (some .STORE, 1, 0),
        (some .LOAD, 1, 0), (some .STORE_G, 4, 0)] ∧
    global_after nested_read_body [114] = some (some [51]) := by
  refine ⟨by decide!, by decide!, by decide!⟩

theorem class_run_ge (cls max : Nat) (s : List Nat) (i0 : Nat) :
    i0 ≤ class_run cls max s i0 := by
  induction s generalizing i0 with
  | nil => exact le_refl _
  | cons c rest ih =>
    unfold class_run
    split
    · exact le_trans (Nat.le_succ i0) (ih (i0 + 1))
    · exact le_refl _

/-- The first loop of a repetition stops at the longest run of bytes of the class, cut at
`max`: `j` more bytes lie within it exactly when they do not exceed `max` and all belong
to the class. -/
theorem class_run_spec (cls max : Nat) (s : List Nat) (i0 j : Nat) :
    j + i0 ≤ class_run cls max s i0 ↔
      (j = 0 ∨ (j + i0 ≤ max ∧ j ≤ s.length ∧
        (s.take j).all (match_char_class cls) = true)) := by
  induction s generalizing i0 j with
  | nil =>
    unfold class_run
    constructor
    · intro h
      left
      omega
    · rintro (h | ⟨_, h, _⟩)
      · omega
      · simp only [List.length_nil, Nat.le_zero_eq] at h
        omega
  | cons c rest ih =>
    unfold class_run
    by_cases hc : i0 < max ∧ match_char_class cls c = true
    · rw [if_pos hc]
      cases j with
      | zero =>
        simp only [Nat.zero_add, true_or, iff_true]
        exact le_trans (Nat.le_succ i0) (class_run_ge cls max rest (i0 + 1))
      | succ j =>
        have := ih (i0 + 1) j
        rw [show j + 1 + i0 = j + (i0 + 1) by omega, this]
        simp only [List.take_succ_cons, List.all_cons, List.length_cons, Bool.and_eq_true,
          Nat.add_eq_zero, one_ne_zero, and_false, false_or, hc.2, true_and]
        constructor
        · rintro (h | ⟨h1, h2, h3⟩)
          · subst h
            exact ⟨by omega, by omega, by simp⟩
          · exact ⟨h1, by omega, h3⟩
        · rintro ⟨h1, h2, h3⟩
          exact Or.inr ⟨h1, by omega, h3⟩
    · rw [if_neg hc]
      constructor
      · intro h
        left
        omega
      · rintro (h | ⟨h1, h2, h3⟩)
        · omega
        · cases j with
          | zero => omega
          | succ j =>
            exfalso
            simp only [List.take_succ_cons, List.all_cons, Bool.and_eq_true] at h3
            exact hc ⟨by omega, h3.1⟩

theorem lengths_down_mem (run min i : Nat) :
    i ∈ lengths_down run min ↔ min ≤ i ∧ i ≤ run := by
  unfold lengths_down
  by_cases h : run < min
  · rw [if_pos h]
    simp only [List.not_mem_nil, false_iff, not_and, not_le]
    intro h1
    omega
  · rw [if_neg h]
    simp only [List.mem_map, List.mem_range]
    constructor
    · rintro ⟨k, hk, rfl⟩
      omega
    · rintro ⟨h1, h2⟩
      exact ⟨run - i, by omega, by omega⟩

/-- The second loop of a repetition answers 1 exactly when one of the lengths it tries
leads to a match, provided every recursive call answers 0 or 1. -/
theorem try_lengths_spec (rest : Nat → Option (Int × List Nat)) (b : Nat → Bool)
    (saved : List Nat) (lengths : List Nat)
    (h : ∀ i ∈ lengths, ∃ captures, rest i = some (if b i = true then 1 else 0, captures)) :
    ∃ captures, try_lengths rest saved lengths =
      some (if lengths.any b = true then 1 else 0, captures) := by
  induction lengths with
  | nil => exact ⟨saved, rfl⟩
  | cons i more ih =>
    obtain ⟨captures, hi⟩ := h i (List.mem_cons_self i more)
    unfold try_lengths
    rw [hi]
    simp only
    by_cases hb : b i = true
    · simp only [hb, if_true, List.any_cons, Bool.true_or]
      rw [if_neg (by decide), if_pos (by decide)]
      exact ⟨captures, rfl⟩
    · simp only [hb, if_false, List.any_cons]
      rw [if_neg (by decide), if_neg (by decide)]
      simp only [Bool.false_or]
      exact ih (fun k hk => h k (List.mem_cons_of_mem i hk))

/-- The class number `pattern_match` uses for a repetition: 0 for arbitrary bytes. -/
theorem in_class_code (cls : Option Nat) (c : Nat) :
    in_class cls c = match_char_class (cls.getD 0) c := by
  cases cls with
  | none => rfl
  | some k => rfl

theorem consumes_repetition (cls : Option Nat) (min max : Nat) (items : List pattern_item)
    (s : List Nat) :
    consumes (.repetition cls min max :: items) s =
      (List.range (s.length + 1)).any (fun i =>
        decide (min ≤ i) && decide (i ≤ max) && (s.take i).all (in_class cls) &&
          consumes items (s.drop i)) := by
  rw [consumes]

/-- The two loops of a repetition find a match exactly when the items read as the
specification has it: some count between `min` and `max` of leading bytes of the class
can be taken so that the rest consumes what is left. -/
theorem repetition_spec (cls : Option Nat) (min max : Nat) (items : List pattern_item)
    (s : List Nat) :
    (lengths_down (class_run (cls.getD 0) max s 0) min).any
        (fun i => consumes items (s.drop i)) =
      consumes (.repetition cls min max :: items) s := by
  rw [Bool.eq_iff_iff, consumes_repetition]
  simp only [List.any_eq_true, lengths_down_mem, List.mem_range, Bool.and_eq_true,
    decide_eq_true_eq]
  have hrun : ∀ i, i ≤ class_run (cls.getD 0) max s 0 ↔
      (i ≤ max ∧ i ≤ s.length ∧ (s.take i).all (in_class cls) = true) := by
    intro i
    have h := class_run_spec (cls.getD 0) max s 0 i
    simp only [Nat.add_zero] at h
    rw [h]
    have hcls : in_class cls = match_char_class (cls.getD 0) := funext (in_class_code cls)
    rw [hcls]
    constructor
    · rintro (h0 | h1)
      · subst h0
        exact ⟨Nat.zero_le _, Nat.zero_le _, by simp⟩
      · exact h1
    · intro h1
      exact Or.inr h1
  constructor
  · rintro ⟨i, ⟨hmin, hle⟩, hrest⟩
    obtain ⟨h1, h2, h3⟩ := (hrun i).mp hle
    exact ⟨i, by omega, ⟨⟨⟨hmin, h1⟩, h3⟩, hrest⟩⟩
  · rintro ⟨i, hlt, ⟨⟨⟨hmin, h1⟩, h3⟩, hrest⟩⟩
    exact ⟨i, ⟨hmin, (hrun i).mpr ⟨h1, by omega, h3⟩⟩, hrest⟩

theorem modifier_ranges_counts (c : Nat) (h : is_modifier c = true) :
    modifier_ranges c = some (modifier_counts c) := by
  unfold is_modifier at h
  simp only [decide_eq_true_eq] at h
  unfold modifier_ranges modifier_counts
  rcases h with h | h | h | h <;> subst h <;> rfl

theorem plus_ranges : modifier_ranges 43 = some (1, SIZE_MOD - 1) := rfl

theorem repetition_step (str : List Nat) (f rec : Nat) (captures : List Nat) (pos : Nat)
    (p2 : List Nat) (items1 : List pattern_item) (cls : Option Nat) (min max : Nat)
    (hpos : pos ≤ str.length)
    (hnested : ∀ i, pos + i ≤ str.length →
      ∃ caps, pattern_match f rec captures str (pos + i) p2 true =
        some (if consumes items1 (str.drop (pos + i)) = true then 1 else 0, caps)) :
    ∃ caps, try_lengths (fun i => pattern_match f rec captures str (pos + i) p2 true) captures
        (lengths_down (class_run (cls.getD 0) max (str.drop pos) 0) min) =
      some (if consumes (.repetition cls min max :: items1) (str.drop pos) = true then 1 else 0,
        caps) := by
  rw [← repetition_spec]
  apply try_lengths_spec _ (fun i => consumes items1 ((str.drop pos).drop i))
  intro i hi
  obtain ⟨_, hrun⟩ := (lengths_down_mem _ _ _).mp hi
  have h := (class_run_spec (cls.getD 0) max (str.drop pos) 0 i).mp (by simpa using hrun)
  have hle : pos + i ≤ str.length := by
    rcases h with h | ⟨_, h, _⟩
    · omega
    · rw [List.length_drop] at h
      omega
  obtain ⟨caps, hc⟩ := hnested i hle
  refine ⟨caps, ?_⟩
  rw [hc, List.drop_drop]

theorem repetitions_cons_repetition (cls : Option Nat) (min max : Nat)
    (items : List pattern_item) :
    repetitions (.repetition cls min max :: items) = repetitions items + 1 := by
  unfold repetitions
  rw [List.countP_cons_of_pos]
  rfl

theorem capture_marks_cons_repetition (cls : Option Nat) (min max : Nat)
    (items : List pattern_item) :
    capture_marks (.repetition cls min max :: items) = capture_marks items := by
  unfold capture_marks
  rw [List.countP_cons_of_neg]
  simp

/-- A recursive call of `pattern_match` for the rest of the pattern answers as the loop
does, when the recursion limit is not reached. -/
theorem pattern_match_enter (str : List Nat) (f rec : Nat) (captures : List Nat) (pos : Nat)
    (p2 : List Nat) (hrec : rec < 16) (hpos : pos ≤ str.length) :
    pattern_match (f + 1) rec captures str pos p2 true =
      pattern_loop f (rec + 1) captures str pos p2 true := by
  rw [pattern_match]
  rw [if_neg (by simpa using hpos), if_neg (by unfold RECURSION_LIMIT; omega)]

/-- The loop of `pattern_match` answers 1 or 0 as the items of the pattern consume the
rest of the string or not, as long as the recursion limit and the capture limit are not
reached. -/
theorem pattern_loop_spec (str : List Nat) (n : Nat) :
    ∀ (pattern : List Nat), pattern.length ≤ n →
    ∀ (pfuel fuel rec : Nat) (captures : List Nat) (pos : Nat) (items : List pattern_item),
      pattern_items_from pfuel pattern = some items →
      2 * pattern.length + 1 ≤ fuel → rec + repetitions items ≤ 16 →
      captures.length + capture_marks items ≤ 16 → pos ≤ str.length →
      ∃ captures1, pattern_loop fuel rec captures str pos pattern true =
        some (if consumes items (str.drop pos) = true then 1 else 0, captures1) := by
  induction n using Nat.strong_induction_on with
  | _ n ih =>
    intro pattern hlen pfuel fuel rec captures pos items hitems hfuel hrec hcap hpos
    obtain ⟨f, rfl⟩ : ∃ f, fuel = f + 1 := ⟨fuel - 1, by omega⟩
    cases pattern with
    | nil =>
      have hi : items = [] := by
        cases pfuel with
        | zero => exact (Option.some.inj hitems).symm
        | succ pf => exact (Option.some.inj hitems).symm
      subst hi
      rw [pattern_loop]
      refine ⟨captures, ?_⟩
      simp only [Bool.not_true, Bool.false_or, decide_eq_true_eq]
      rw [consumes]
      by_cases hend : pos = str.length
      · rw [if_pos hend, if_pos (by rw [hend]; simp)]
      · rw [if_neg hend, if_neg]
        simp only [List.isEmpty_eq_true, List.drop_eq_nil_iff, not_le]
        omega
    | cons c p1 =>
      cases pfuel with
      | zero => cases hitems
      | succ pf =>
        simp only [List.length_cons] at hlen hfuel
        obtain ⟨f1, rfl⟩ : ∃ f1, f = f1 + 1 := ⟨f - 1, by omega⟩
        unfold pattern_items_from at hitems
        rw [pattern_loop]
        by_cases hm : is_modifier c = true
        · rw [if_pos hm] at hitems
          obtain ⟨items1, h1, rfl⟩ := Option.map_eq_some'.mp hitems
          rw [repetitions_cons_repetition] at hrec
          rw [capture_marks_cons_repetition] at hcap
          simp only [hm, Bool.true_or, if_true]
          rw [if_neg (by decide), modifier_ranges_counts c hm]
          simp only
          apply repetition_step str (f1 + 1) rec captures pos p1 items1 none _ _ hpos
          intro i hi
          rw [pattern_match_enter str f1 rec captures (pos + i) p1 (by omega) hi]
          exact ih p1.length (by omega) p1 (le_refl _) pf f1 (rec + 1) captures (pos + i) items1
            h1 (by omega) (by omega) hcap hi
        · rw [if_neg hm] at hitems
          have hm' : is_modifier c = false := by simpa using hm
          by_cases hpc : c = 37
          · subst hpc
            rw [if_pos rfl] at hitems
            simp only [hm', Bool.false_or, decide_True, if_true, Bool.false_eq_true, if_false]
            cases p1 with
            | nil => cases hitems
            | cons c1 p2 =>
              simp only at hitems ⊢
              cases p2 with
              | nil =>
                simp only at hitems ⊢
                have hi := (Option.some.inj hitems).symm
                subst hi
                rw [plus_ranges]
                simp only
                apply repetition_step str (f1 + 1) rec captures pos [] [] (some c1) _ _ hpos
                intro i hi
                rw [repetitions_cons_repetition] at hrec
                rw [pattern_match_enter str f1 rec captures (pos + i) [] (by omega) hi]
                exact ih 0 (by omega) [] (le_refl _) 0 f1 (rec + 1) captures (pos + i) []
                  rfl (by simp only [List.length_cons] at hfuel; omega) (by omega)
                  (by simpa using Nat.le_of_add_right_le hcap) hi
              | cons m p3 =>
                simp only at hitems ⊢
                simp only [List.length_cons] at hlen hfuel
                by_cases hmm : is_modifier m = true
                · rw [if_pos hmm] at hitems
                  obtain ⟨items1, h1, rfl⟩ := Option.map_eq_some'.mp hitems
                  rw [repetitions_cons_repetition] at hrec
                  rw [capture_marks_cons_repetition] at hcap
                  simp only [hmm, if_true]
                  rw [modifier_ranges_counts m hmm]
                  simp only
                  apply repetition_step str (f1 + 1) rec captures pos p3 items1 (some c1) _ _ hpos
                  intro i hi
                  rw [pattern_match_enter str f1 rec captures (pos + i) p3 (by omega) hi]
                  exact ih p3.length (by omega) p3 (le_refl _) pf f1 (rec + 1) captures (pos + i)
                    items1 h1 (by omega) (by omega) hcap hi
                · rw [if_neg hmm] at hitems
                  obtain ⟨items1, h1, rfl⟩ := Option.map_eq_some'.mp hitems
                  rw [repetitions_cons_repetition] at hrec
                  rw [capture_marks_cons_repetition] at hcap
                  simp only [hmm, Bool.false_eq_true, if_false]
                  rw [plus_ranges]
                  simp only
                  apply repetition_step str (f1 + 1) rec captures pos (m :: p3) items1 (some c1)
                    _ _ hpos
                  intro i hi
                  rw [pattern_match_enter str f1 rec captures (pos + i) (m :: p3) (by omega) hi]
                  exact ih (m :: p3).length (by simp only [List.length_cons]; omega) (m :: p3)
                    (le_refl _) pf f1 (rec + 1) captures (pos + i) items1 h1
                    (by simp only [List.length_cons]; omega) (by omega) hcap hi
          · rw [if_neg hpc] at hitems
            simp only [hm', Bool.false_or, hpc, decide_False, Bool.false_eq_true, if_false]
            by_cases hopen : c = 40
            · subst hopen
              rw [if_pos rfl] at hitems
              obtain ⟨items1, h1, rfl⟩ := Option.map_eq_some'.mp hitems
              have hrec1 : repetitions (.capture_open :: items1) = repetitions items1 := by
                unfold repetitions
                rw [List.countP_cons_of_neg]
                simp
              have hcap1 : capture_marks (.capture_open :: items1) = capture_marks items1 + 1 := by
                unfold capture_marks
                rw [List.countP_cons_of_pos]
                rfl
              rw [hrec1] at hrec
              rw [hcap1] at hcap
              rw [if_pos rfl]
              have hcons : ∀ s, consumes (.capture_open :: items1) s = consumes items1 s := by
                intro s
                rw [consumes]
              rw [hcons]
              by_cases heven : captures.length % 2 = 0
              · rw [if_pos heven, if_neg (by unfold MAX_CAPTURES; omega)]
                exact ih p1.length (by omega) p1 (le_refl _) pf (f1 + 1) rec (captures ++ [pos])
                  pos items1 h1 (by omega) hrec
                  (by simp only [List.length_append, List.length_cons, List.length_nil]; omega)
                  hpos
              · rw [if_neg heven]
                exact ih p1.length (by omega) p1 (le_refl _) pf (f1 + 1) rec captures pos items1
                  h1 (by omega) hrec (by omega) hpos
            · rw [if_neg hopen] at hitems
              rw [if_neg hopen]
              by_cases hclose : c = 41
              · subst hclose
                rw [if_pos rfl] at hitems
                obtain ⟨items1, h1, rfl⟩ := Option.map_eq_some'.mp hitems
                have hrec1 : repetitions (.capture_close :: items1) = repetitions items1 := by
                  unfold repetitions
                  rw [List.countP_cons_of_neg]
                  simp
                have hcap1 :
                    capture_marks (.capture_close :: items1) = capture_marks items1 + 1 := by
                  unfold capture_marks
                  rw [List.countP_cons_of_pos]
                  rfl
                rw [hrec1] at hrec
                rw [hcap1] at hcap
                rw [if_pos rfl]
                have hcons : ∀ s, consumes (.capture_close :: items1) s = consumes items1 s := by
                  intro s
                  rw [consumes]
                rw [hcons]
                by_cases hodd : captures.length % 2 = 1
                · rw [if_pos hodd, if_neg (by unfold MAX_CAPTURES; omega)]
                  exact ih p1.length (by omega) p1 (le_refl _) pf (f1 + 1) rec (captures ++ [pos])
                    pos items1 h1 (by omega) hrec
                    (by simp only [List.length_append, List.length_cons, List.length_nil]; omega)
                    hpos
                · rw [if_neg hodd]
                  exact ih p1.length (by omega) p1 (le_refl _) pf (f1 + 1) rec captures pos
                    items1 h1 (by omega) hrec (by omega) hpos
              · rw [if_neg hclose] at hitems
                rw [if_neg hclose]
                obtain ⟨items1, h1, rfl⟩ := Option.map_eq_some'.mp hitems
                have hrec1 : repetitions (.literal c :: items1) = repetitions items1 := by
                  unfold repetitions
                  rw [List.countP_cons_of_neg]
                  simp
                have hcap1 : capture_marks (.literal c :: items1) = capture_marks items1 := by
                  unfold capture_marks
                  rw [List.countP_cons_of_neg]
                  simp
                rw [hrec1] at hrec
                rw [hcap1] at hcap
                by_cases hend : pos = str.length
                · rw [if_pos hend]
                  refine ⟨captures, ?_⟩
                  rw [hend, List.drop_length, consumes]
                  rfl
                · rw [if_neg hend]
                  have hlt : pos < str.length := by omega
                  have hdrop : str.drop pos = str.getD pos 0 :: str.drop (pos + 1) := by
                    rw [List.getD_eq_getElem?_getD, List.getElem?_eq_getElem hlt]
                    exact List.drop_eq_getElem_cons hlt
                  rw [hdrop, consumes]
                  by_cases hchar : str.getD pos 0 = c
                  · rw [if_neg (by simpa using hchar)]
                    simp only [hchar, decide_True, Bool.true_and]
                    exact ih p1.length (by omega) p1 (le_refl _) pf (f1 + 1) rec captures (pos + 1)
                      items1 h1 (by omega) hrec hcap (by omega)
                  · rw [if_pos (by simpa using hchar)]
                    refine ⟨captures, ?_⟩
                    simp only [hchar, decide_False, Bool.false_and, Bool.false_eq_true, if_false]

/-- C30 (amended): With `match_entire` set, for a pattern with fewer than 16 repetitions
(bare modifiers and `%` classes) and at most 16 capture brackets that does not end in a
single `%`, `esh_pattern_match` returns 1 if the whole string can be consumed by the
pattern and 0 if it cannot, where a literal character matches itself, a bare modifier
(`*` `?` `+` `!`) matches zero-or-more / zero-or-one / one-or-more / exactly-one arbitrary
bytes, `%c` with an optional modifier (default `+`) matches that many bytes of class `c`,
and a bracket matches nothing. -/
theorem C30_pattern_match (fuel : Nat) (str pattern : List Nat) (items : List pattern_item)
    (hitems : pattern_items pattern = some items)
    (hrep : repetitions items < 16) (hcap : capture_marks items ≤ 16)
    (hfuel : 2 * pattern.length + 2 ≤ fuel) :
    ∃ captures, esh_pattern_match fuel str pattern true =
      some (if consumes items str = true then 1 else 0, captures) := by
  obtain ⟨f, rfl⟩ : ∃ f, fuel = f + 1 := ⟨fuel - 1, by omega⟩
  unfold esh_pattern_match
  rw [pattern_match_enter str f 0 [] 0 pattern (by omega) (Nat.zero_le _)]
  have h := pattern_loop_spec str pattern.length pattern (le_refl _) pattern.length f 1 [] 0
    items hitems (by omega) (by omega) (by simpa using hcap) (Nat.zero_le _)
  simpa using h

theorem C30_pattern_match_witness :
    ∃ captures, esh_pattern_match 8 [102, 111, 111, 98, 97, 114, 46, 99] [42, 46, 99] true =
      some (if consumes [.repetition none 0 (SIZE_MOD - 1), .literal 46, .literal 99]
        [102, 111, 111, 98, 97, 114, 46, 99] = true then 1 else 0, captures) :=
  C30_pattern_match 8 [102, 111, 111, 98, 97, 114, 46, 99] [42, 46, 99]
    [.repetition none 0 (SIZE_MOD - 1), .literal 46, .literal 99] (by decide) (by decide)
    (by decide) (by decide)

/-- C30 as stated fails for a pattern with 16 repetitions: the empty string can be consumed
by sixteen `*`, but the 17th nested call of `pattern_match` finds the recursion limit
reached and `esh_pattern_match` returns -1, not 1.  With fifteen `*` it returns 1. -/
theorem C30_counterexample :
    (pattern_items (List.replicate 16 42)).map (fun items => consumes items []) = some true ∧
    esh_pattern_match 40 [] (List.replicate 16 42) true = some (-1, []) ∧
    esh_pattern_match 40 [] (List.replicate 15 42) true = some (1, []) := by
  refine ⟨by decide!, by decide!, by decide!⟩

/-- One call of `gc_mark_to_visit` for a value that, if it is an object, is reachable:
the invariant is kept, no mark is taken back, no object becomes visited, and the value is
marked afterwards. -/
theorem gc_mark_to_visit_spec (vm : esh_vm) (all : List Nat) (g : gc_state)
    (pending : Option Nat) (v : esh_val) (hinv : gc_inv vm all g pending)
    (hreach : is_object vm v = true → gc_reachable vm v) :
    ∃ g1, gc_mark_to_visit vm.heap g v = some g1 ∧ gc_inv vm all g1 pending ∧
      (∀ a, g.gc_tag a ≠ 0 → g1.gc_tag a = g.gc_tag a) ∧
      (∀ a, g1.gc_tag a = 2 ↔ g.gc_tag a = 2) ∧
      (is_object vm v = true → g1.gc_tag v ≠ 0) ∧ g1.visited = g.visited := by
  obtain ⟨hnd, ho, hv, hv2, hb, ht, hh, hr, hc, hvn, hp⟩ := hinv
  unfold gc_mark_to_visit
  cases hobj : val_as_object vm.heap v none with
  | none =>
    refine ⟨g, rfl, ⟨hnd, ho, hv, hv2, hb, ht, hh, hr, hc, hvn, hp⟩, fun _ _ => rfl,
      fun _ => Iff.rfl,
      ?_, rfl⟩
    intro h
    unfold is_object at h
    rw [hobj] at h
    cases h
  | some o =>
    have hisobj : is_object vm v = true := by
      unfold is_object
      rw [hobj]
      rfl
    have hvall : v ∈ all := hh v hisobj
    simp only
    by_cases hmarked : g.gc_tag v = 2 ∨ g.gc_tag v = 1
    · rw [if_pos hmarked]
      refine ⟨g, rfl, ⟨hnd, ho, hv, hv2, hb, ht, hh, hr, hc, hvn, hp⟩, fun _ _ => rfl,
      fun _ => Iff.rfl,
        ?_, rfl⟩
      intro _ h0
      rcases hmarked with h | h <;> omega
    · rw [if_neg hmarked]
      have htag0 : g.gc_tag v = 0 := by
        have := ht v hvall
        have h1 : ¬ g.gc_tag v = 2 := fun h => hmarked (Or.inl h)
        have h2 : ¬ g.gc_tag v = 1 := fun h => hmarked (Or.inr h)
        omega
      have hvin : v ∈ g.objects := (ho v).mpr ⟨hvall, htag0⟩
      rw [if_pos hvin]
      refine ⟨_, rfl, ⟨?_, ?_, ?_, ?_, ?_, ?_, hh, ?_, ?_, ?_, ?_⟩, ?_, ?_, ?_, rfl⟩
      · exact hnd.erase v
      · intro a
        simp only
        rw [hnd.mem_erase_iff, ho a]
        by_cases hav : a = v
        · subst hav
          simp
        · simp [hav]
      · intro a ha
        simp only at ha ⊢
        rcases List.mem_cons.mp ha with h | h
        · subst h
          exact ⟨hvall, by simp⟩
        · have := hv a h
          by_cases hav : a = v
          · subst hav
            exact ⟨hvall, by simp⟩
          · exact ⟨this.1, by simp [hav, this.2]⟩
      · intro a ha htag
        simp only at htag ⊢
        by_cases hav : a = v
        · subst hav
          exact Or.inl (List.mem_cons_self _ _)
        · rw [if_neg hav] at htag
          rcases hv2 a ha htag with h | h
          · exact Or.inl (List.mem_cons_of_mem _ h)
          · exact Or.inr h
      · intro a
        simp only
        rw [hb a]
        by_cases hav : a = v
        · subst hav
          simp [htag0]
        · simp [hav]
      · intro a ha
        simp only
        by_cases hav : a = v
        · simp [hav]
        · rw [if_neg hav]
          exact ht a ha
      · intro a ha htag
        simp only at htag
        by_cases hav : a = v
        · subst hav
          exact hreach hisobj
        · rw [if_neg hav] at htag
          exact hr a ha htag
      · intro a ha w hw hwobj
        simp only at ha ⊢
        by_cases hwv : w = v
        · simp [hwv]
        · rw [if_neg hwv]
          exact hc a ha w hw hwobj
      · simp only
        refine List.nodup_cons.mpr ⟨?_, hvn⟩
        intro hmem
        have := (hv v hmem).2
        omega
      · intro a ha
        simp only
        obtain ⟨h1, h2⟩ := hp a ha
        have hav : a ≠ v := by
          intro h
          rw [h] at h2
          omega
        refine ⟨?_, by rw [if_neg hav]; exact h2⟩
        intro hmem
        rcases List.mem_cons.mp hmem with h | h
        · exact hav h
        · exact h1 h
      · intro a htag
        simp only
        by_cases hav : a = v
        · subst hav
          exact absurd htag0 htag
        · rw [if_neg hav]
      · intro a
        simp only
        by_cases hav : a = v
        · subst hav
          simp [htag0]
        · rw [if_neg hav]
      · intro _
        simp

/-- The calls of `gc_mark_to_visit` for a list of values that, where they are objects, are
reachable: the invariant is kept and all of them are marked afterwards. -/
theorem gc_mark_all_spec (vm : esh_vm) (all : List Nat) (pending : Option Nat)
    (vals : List esh_val) :
    ∀ (g : gc_state), gc_inv vm all g pending →
      (∀ v, v ∈ vals → is_object vm v = true → gc_reachable vm v) →
      ∃ g1, gc_mark_all vm.heap g vals = some g1 ∧ gc_inv vm all g1 pending ∧
        (∀ a, g.gc_tag a ≠ 0 → g1.gc_tag a = g.gc_tag a) ∧
        (∀ a, g1.gc_tag a = 2 ↔ g.gc_tag a = 2) ∧
        (∀ v, v ∈ vals → is_object vm v = true → g1.gc_tag v ≠ 0) ∧
        g1.visited = g.visited := by
  induction vals with
  | nil =>
    intro g hinv _
    exact ⟨g, rfl, hinv, fun _ _ => rfl, fun _ => Iff.rfl, fun _ h => absurd h (List.not_mem_nil _),
      rfl⟩
  | cons v rest ih =>
    intro g hinv hreach
    obtain ⟨g1, h1, hinv1, hmono1, htwo1, hmark1, hvis1⟩ :=
      gc_mark_to_visit_spec vm all g pending v hinv (hreach v (List.mem_cons_self _ _))
    obtain ⟨g2, h2, hinv2, hmono2, htwo2, hmark2, hvis2⟩ :=
      ih g1 hinv1 (fun w hw => hreach w (List.mem_cons_of_mem _ hw))
    refine ⟨g2, ?_, hinv2, ?_, ?_, ?_, ?_⟩
    · unfold gc_mark_all
      rw [h1]
      exact h2
    · intro a ha
      rw [hmono2 a (by rw [hmono1 a ha]; exact ha), hmono1 a ha]
    · intro a
      rw [htwo2 a, htwo1 a]
    · intro w hw hwobj
      rcases List.mem_cons.mp hw with h | h
      · subst h
        have := hmark1 hwobj
        rw [hmono2 w this]
        exact this
      · exact hmark2 w h hwobj
    · rw [hvis2, hvis1]

theorem countP_lt_of_imp (l : List Nat) (p q : Nat → Bool) (x : Nat)
    (himp : ∀ a, q a = true → p a = true) (hx : x ∈ l) (hpx : p x = true)
    (hqx : q x = false) : l.countP q < l.countP p := by
  induction l with
  | nil => cases hx
  | cons a rest ih =>
    have hle : rest.countP q ≤ rest.countP p := List.countP_mono_left (fun b _ => himp b)
    rcases List.mem_cons.mp hx with h | h
    · subst h
      rw [List.countP_cons_of_pos _ _ hpx, List.countP_cons_of_neg _ _ (by simp [hqx])]
      omega
    · have := ih h
      by_cases hqa : q a = true
      · rw [List.countP_cons_of_pos _ _ hqa, List.countP_cons_of_pos _ _ (himp a hqa)]
        omega
      · rw [List.countP_cons_of_neg _ _ hqa]
        by_cases hpa : p a = true
        · rw [List.countP_cons_of_pos _ _ hpa]
          omega
        · rw [List.countP_cons_of_neg _ _ hpa]
          exact this

/-- The loop of a full collection: with fuel for every object that is not yet visited it
ends with an empty list `to_visit`, and the invariant holds at its end. -/
theorem gc_visit_loop_spec (vm : esh_vm) (all : List Nat) :
    ∀ (fuel : Nat) (g : gc_state) (n : Nat), gc_inv vm all g none →
      (∀ v, v ∈ gc_roots vm → is_object vm v = true → g.gc_tag v ≠ 0) →
      all.countP (fun a => decide (g.gc_tag a ≠ 2)) < fuel →
      ∃ g1, gc_visit_loop vm true fuel g n = some (g1, false) ∧ gc_inv vm all g1 none ∧
        g1.to_visit = [] ∧
        (∀ v, v ∈ gc_roots vm → is_object vm v = true → g1.gc_tag v ≠ 0) := by
  intro fuel
  induction fuel with
  | zero =>
    intro g n _ _ h
    omega
  | succ fuel ih =>
    intro g n hinv hroots hfuel
    unfold gc_visit_loop
    cases htv : g.to_visit with
    | nil => exact ⟨g, rfl, hinv, htv, hroots⟩
    | cons obj rest =>
      simp only
      rw [if_neg (by simp)]
      obtain ⟨hnd, ho, hv, hv2, hb, ht, hh, hr, hc, hvn, hp⟩ := hinv
      have hobj_in : obj ∈ g.to_visit := by rw [htv]; exact List.mem_cons_self _ _
      obtain ⟨hobj_all, hobj_tag⟩ := hv obj hobj_in
      have hnd_tv : (obj :: rest).Nodup := by rw [← htv]; exact hvn
      have hinv0 : gc_inv vm all { g with to_visit := rest } (some obj) := by
        refine ⟨hnd, ho, ?_, ?_, hb, ht, hh, hr, hc, ?_, ?_⟩
        · intro a ha
          exact hv a (by rw [htv]; exact List.mem_cons_of_mem _ ha)
        · intro a ha htag
          rcases hv2 a ha htag with h | h
          · rw [htv] at h
            rcases List.mem_cons.mp h with h1 | h1
            · exact Or.inr (by rw [h1])
            · exact Or.inl h1
          · cases h
        · exact (List.nodup_cons.mp hnd_tv).2
        · intro a ha
          have : a = obj := (Option.some.inj ha).symm
          subst this
          exact ⟨(List.nodup_cons.mp hnd_tv).1, hobj_tag⟩
      have hobj_reach : gc_reachable vm obj := hr obj hobj_all (by omega)
      obtain ⟨g1, h1, hinv1, hmono1, htwo1, hmark1, hvis1⟩ :=
        gc_mark_all_spec vm all (some obj) (gc_children vm obj) { g with to_visit := rest } hinv0
          (fun w hw hwobj => gc_reachable.child obj w hobj_reach hw hwobj)
      have htrace : gc_trace_obj vm { g with to_visit := rest } obj = some g1 := by
        unfold gc_trace_obj
        rw [if_neg (by simpa using hobj_tag)]
        exact h1
      rw [htrace]
      simp only [if_true]
      obtain ⟨hnd1, ho1, hv1, hv21, hb1, ht1, _, hr1, hc1, hvn1, hp1⟩ := hinv1
      have htag1 : g1.gc_tag obj = 1 := by
        rw [hmono1 obj (by simp only; omega)]
        exact hobj_tag
      apply ih
      · refine ⟨hnd1, ?_, ?_, ?_, ?_, ?_, hh, ?_, ?_, hvn1, ?_⟩
        · intro a
          simp only
          rw [ho1 a]
          by_cases hao : a = obj
          · subst hao
            simp [htag1]
          · simp [hao]
        · intro a ha
          simp only at ha ⊢
          have hao : a ≠ obj := by
            intro h
            subst h
            exact (hp1 a rfl).1 ha
          rw [if_neg hao]
          exact hv1 a ha
        · intro a ha htag
          simp only at htag ⊢
          by_cases hao : a = obj
          · rw [if_pos hao] at htag
            omega
          · rw [if_neg hao] at htag
            rcases hv21 a ha htag with h | h
            · exact Or.inl h
            · exact absurd (Option.some.inj h).symm hao
        · intro a
          simp only [List.mem_cons]
          by_cases hao : a = obj
          · subst hao
            simp [hobj_all]
          · simp only [hao, false_or, if_false]
            exact hb1 a
        · intro a ha
          simp only
          by_cases hao : a = obj
          · simp [hao]
          · rw [if_neg hao]
            exact ht1 a ha
        · intro a ha htag
          simp only at htag
          by_cases hao : a = obj
          · subst hao
            exact hobj_reach
          · rw [if_neg hao] at htag
            exact hr1 a ha htag
        · intro a ha w hw hwobj
          simp only at ha ⊢
          by_cases hwo : w = obj
          · simp [hwo]
          · rw [if_neg hwo]
            rcases List.mem_cons.mp ha with h | h
            · subst h
              exact hmark1 w hw hwobj
            · exact hc1 a h w hw hwobj
        · intro a ha
          cases ha
      · intro w hw hwobj
        simp only
        by_cases hwo : w = obj
        · simp [hwo]
        · rw [if_neg hwo, hmono1 w (hroots w hw hwobj)]
          exact hroots w hw hwobj
      · have hlt : all.countP (fun a => decide ((if a = obj then 2 else g1.gc_tag a) ≠ 2)) <
            all.countP (fun a => decide (g.gc_tag a ≠ 2)) := by
          apply countP_lt_of_imp all _ _ obj
          · intro a ha
            simp only [decide_eq_true_eq] at ha ⊢
            by_cases hao : a = obj
            · rw [if_pos hao] at ha
              exact absurd rfl ha
            · rw [if_neg hao] at ha
              intro h
              exact ha ((htwo1 a).mpr h)
          · exact hobj_all
          · simp only [decide_eq_true_eq]
            omega
          · simp
        simp only
        omega

/-- At the end of the loop of a full collection the visited objects are the reachable
ones. -/
theorem gc_visited_reachable (vm : esh_vm) (all : List Nat) (g : gc_state)
    (hinv : gc_inv vm all g none) (hempty : g.to_visit = [])
    (hroots : ∀ v, v ∈ gc_roots vm → is_object vm v = true → g.gc_tag v ≠ 0) (a : Nat) :
    gc_reachable vm a ↔ a ∈ all ∧ g.gc_tag a = 2 := by
  obtain ⟨_, _, _, hv2, hb, ht, hh, hr, hc, _, _⟩ := hinv
  have hnot1 : ∀ x, x ∈ all → g.gc_tag x ≠ 1 := by
    intro x hx h1
    rcases hv2 x hx h1 with h | h
    · rw [hempty] at h
      cases h
    · cases h
  constructor
  · intro h
    induction h with
    | root v hv hobj =>
      have hall := hh v hobj
      have h0 := hroots v hv hobj
      have h1 := hnot1 v hall
      have h2 := ht v hall
      exact ⟨hall, by omega⟩
    | child x v _ hv hobj ih =>
      have hall := hh v hobj
      have h0 := hc x ((hb x).mpr ih) v hv hobj
      have h1 := hnot1 v hall
      have h2 := ht v hall
      exact ⟨hall, by omega⟩
  · rintro ⟨hall, h2⟩
    exact hr a hall (by omega)

/-- A full collection that starts while no collection is in progress: `esh_gc(0)` returns;
it frees exactly the objects that cannot be reached from the roots and leaves the heap
entry of every reachable object as it is; afterwards the list `objects` holds exactly the
reachable objects, all with tag 0, and the lists `to_visit` and `visited` are empty. -/
theorem gc_full_spec (fuel : Nat) (vm : esh_vm) (g : gc_state) (hidle : gc_idle vm g)
    (hfuel : g.objects.length < fuel) :
    ∃ vm1 g1 freed, esh_gc fuel vm g 0 = some (vm1, g1, freed) ∧
      g1.to_visit = [] ∧ g1.visited = [] ∧
      (∀ a, a ∈ g1.objects ↔ a ∈ g.objects ∧ gc_reachable vm a) ∧
      (∀ a, a ∈ g1.objects → g1.gc_tag a = 0) ∧
      (∀ a, a ∈ freed ↔ a ∈ g.objects ∧ ¬ gc_reachable vm a) ∧
      (∀ a, gc_reachable vm a → vm1.heap a = vm.heap a) ∧
      (∀ a, a ∈ freed → vm1.heap a = none) := by
  obtain ⟨htv, hvis, hnd, htags, hheap⟩ := hidle
  have hinv0 : gc_inv vm g.objects g none := by
    refine ⟨hnd, ?_, ?_, ?_, ?_, ?_, hheap, ?_, ?_, ?_, ?_⟩
    · intro a
      exact ⟨fun h => ⟨h, htags a h⟩, fun h => h.1⟩
    · intro a ha
      rw [htv] at ha
      cases ha
    · intro a ha h1
      have := htags a ha
      omega
    · intro a
      rw [hvis]
      constructor
      · intro h
        cases h
      · rintro ⟨ha, h2⟩
        have := htags a ha
        omega
    · intro a ha
      have := htags a ha
      omega
    · intro a ha h0
      exact absurd (htags a ha) h0
    · intro a ha
      rw [hvis] at ha
      cases ha
    · rw [htv]
      exact List.nodup_nil
    · intro a ha
      cases ha
  obtain ⟨g1, h1, hinv1, _, _, hmark1, _⟩ :=
    gc_mark_all_spec vm g.objects none (gc_roots vm) g hinv0
      (fun v hv hobj => gc_reachable.root v hv hobj)
  obtain ⟨g2, h2, hinv2, hempty2, hroots2⟩ :=
    gc_visit_loop_spec vm g.objects fuel g1 0 hinv1 hmark1
      (lt_of_le_of_lt (List.countP_le_length _) hfuel)
  have hreach := gc_visited_reachable vm g.objects g2 hinv2 hempty2 hroots2
  obtain ⟨_, ho2, _, hv22, hb2, ht2, _, _, _, _, _⟩ := hinv2
  have hfreed : ∀ a, a ∈ g2.objects ↔ a ∈ g.objects ∧ ¬ gc_reachable vm a := by
    intro a
    rw [ho2 a, hreach a]
    constructor
    · rintro ⟨ha, h0⟩
      exact ⟨ha, fun h => by omega⟩
    · rintro ⟨ha, hn⟩
      refine ⟨ha, ?_⟩
      have h2' := ht2 a ha
      have h1' : g2.gc_tag a ≠ 1 := by
        intro h
        rcases hv22 a ha h with h | h
        · rw [hempty2] at h
          cases h
        · cases h
      have : g2.gc_tag a ≠ 2 := fun h => hn ⟨ha, h⟩
      omega
  refine ⟨free_objects vm g2.objects,
    { objects := g2.visited, to_visit := g2.to_visit, visited := [],
      gc_tag := fun a => if a ∈ g2.visited then 0 else g2.gc_tag a }, g2.objects, ?_, hempty2,
    rfl, ?_, ?_, hfreed, ?_, ?_⟩
  · unfold esh_gc
    rw [h1]
    simp only [decide_True]
    rw [h2]
  · intro a
    simp only
    rw [hb2 a, hreach a]
    constructor
    · rintro ⟨ha, h⟩
      exact ⟨ha, ha, h⟩
    · rintro ⟨_, h⟩
      exact h
  · intro a ha
    simp only at ha ⊢
    rw [if_pos ha]
  · intro a ha
    unfold free_objects
    simp only
    rw [if_neg]
    intro hmem
    exact ((hfreed a).mp hmem).2 ha
  · intro a ha
    unfold free_objects
    simp only
    rw [if_pos ha]

theorem sample_objects (stack : List esh_val) (v : esh_val)
    (h : is_object (sample_gc_vm stack) v = true) : v ∈ [64, 48, 32, 16] := by
  unfold is_object val_as_object at h
  by_cases h0 : v = ESH_NULL
  · rw [if_pos h0] at h
    cases h
  rw [if_neg h0] at h
  by_cases h1 : v % 2 = 1
  · rw [if_pos h1] at h
    cases h
  rw [if_neg h1] at h
  have hheap : (sample_gc_vm stack).heap = sample_heap := rfl
  rw [hheap] at h
  unfold sample_heap at h
  by_cases h16 : v = 16
  · simp [h16]
  by_cases h32 : v = 32
  · simp [h32]
  by_cases h48 : v = 48
  · simp [h48]
  by_cases h64 : v = 64
  · simp [h64]
  simp [h16, h32, h48, h64] at h

theorem sample_gc_idle (stack : List esh_val) : gc_idle (sample_gc_vm stack) sample_gc :=
  ⟨rfl, rfl, by decide, fun _ _ => rfl, sample_objects stack⟩

/-- In the sample state with only the closure on the stack, the object at 64 cannot be
reached: the reachable objects are the closure, its template and the globals object. -/
theorem sample_unreachable : ¬ gc_reachable (sample_gc_vm [16]) 64 := by
  have key : ∀ a, gc_reachable (sample_gc_vm [16]) a → a = 16 ∨ a = 32 ∨ a = 48 := by
    intro a h
    induction h with
    | root v hv hobj =>
      have hmem : v ∈ [16, 0, 0, 48, 0, 8] := hv
      have hall := sample_objects [16] v hobj
      simp only [List.mem_cons, List.mem_singleton, List.not_mem_nil, or_false] at hall
      rcases hall with h | h | h | h <;> subst h <;> revert hmem <;> decide
    | child x v _ hv hobj ih =>
      have hall := sample_objects [16] v hobj
      simp only [List.mem_cons, List.mem_singleton, List.not_mem_nil, or_false] at hall
      rcases ih with h | h | h
      · subst h
        have hmem : v ∈ [32, 0] := hv
        rcases hall with h | h | h | h <;> subst h <;> revert hmem <;> decide
      · subst h
        have hmem : v ∈ ([] : List Nat) := hv
        cases hmem
      · subst h
        have hmem : v ∈ ([] : List Nat) := hv
        cases hmem
  intro h
  have := key 64 h
  omega

/-- C25 (amended): A full collection `esh_gc(0)` that starts while no collection is in
progress (every heap object white on the unvisited list, the to-visit and visited lists
empty) returns, frees exactly the heap objects that are not reachable from the roots (the
running thread with its stack and frames, the parent-stack threads, the globals object
and the command dispatcher) and keeps every reachable object intact; afterwards the
surviving objects, exactly the reachable ones, are white on the unvisited list and the
to-visit and visited lists are empty. -/
theorem C25_full_collection (fuel : Nat) (vm : esh_vm) (g : gc_state) (hidle : gc_idle vm g)
    (hfuel : g.objects.length < fuel) :
    ∃ vm1 g1 freed, esh_gc fuel vm g 0 = some (vm1, g1, freed) ∧
      g1.to_visit = [] ∧ g1.visited = [] ∧
      (∀ a, a ∈ g1.objects ↔ a ∈ g.objects ∧ gc_reachable vm a) ∧
      (∀ a, a ∈ g1.objects → g1.gc_tag a = 0) ∧
      (∀ a, a ∈ freed ↔ a ∈ g.objects ∧ ¬ gc_reachable vm a) ∧
      (∀ a, gc_reachable vm a → vm1.heap a = vm.heap a) ∧
      (∀ a, a ∈ freed → vm1.heap a = none) :=
  gc_full_spec fuel vm g hidle hfuel

theorem C25_full_collection_witness :
    ∃ vm1 g1 freed, esh_gc 8 (sample_gc_vm [16]) sample_gc 0 = some (vm1, g1, freed) ∧
      g1.to_visit = [] ∧ g1.visited = [] ∧
      (∀ a, a ∈ g1.objects ↔ a ∈ sample_gc.objects ∧ gc_reachable (sample_gc_vm [16]) a) ∧
      (∀ a, a ∈ g1.objects → g1.gc_tag a = 0) ∧
      (∀ a, a ∈ freed ↔ a ∈ sample_gc.objects ∧ ¬ gc_reachable (sample_gc_vm [16]) a) ∧
      (∀ a, gc_reachable (sample_gc_vm [16]) a → vm1.heap a = (sample_gc_vm [16]).heap a) ∧
      (∀ a, a ∈ freed → vm1.heap a = none) :=
  C25_full_collection 8 (sample_gc_vm [16]) sample_gc (sample_gc_idle [16]) (by decide)

/-- C25 as stated fails when a collection is in progress.  From the idle sample state with
the closure and the object at 64 on the stack, one incremental step `esh_gc(1)` marks both
(64 is on the to-visit list).  After the object at 64 has been popped from the stack it
cannot be reached, but the full collection `esh_gc(0)` that follows frees nothing and
leaves it on the unvisited list; only the next full collection frees it. -/
theorem C25_counterexample :
    gc_summary (esh_gc 8 (sample_gc_vm [16, 64]) sample_gc 1) =
      some ([32], [64, 16], [48], []) ∧
    ¬ gc_reachable (sample_gc_vm [16]) 64 ∧
    gc_summary ((esh_gc 8 (sample_gc_vm [16, 64]) sample_gc 1).bind
        (fun r => esh_gc 8 (sample_gc_vm [16]) r.2.1 0)) =
      some ([32, 16, 64, 48], [], [], []) ∧
    gc_summary ((esh_gc 8 (sample_gc_vm [16, 64]) sample_gc 1).bind
        (fun r => (esh_gc 8 (sample_gc_vm [16]) r.2.1 0).bind
          (fun r2 => esh_gc 8 (sample_gc_vm [16]) r2.2.1 0))) =
      some ([32, 16, 48], [], [], [64]) := by
  refine ⟨by decide, sample_unreachable, by decide, by decide⟩

/-! ## Stack offsets and conditional jumps -/

/-- The negation of a negative `long long` offset, wrapped to 64 bits where the offset is
`LLONG_MIN`, converts to the `size_t` value the embedding of `stack_offset` uses. -/
theorem neg_offset_cast (offset : Int) (hlo : -9223372036854775808 ≤ offset)
    (hneg : offset < 0) : size_t_of (wrap64 (-offset)) = (-offset).toNat := by
  unfold size_t_of wrap64 SIZE_MOD
  have h1 : (0 : Int) ≤ -offset + 9223372036854775808 := by omega
  by_cases hmin : offset = -9223372036854775808
  · subst hmin
    decide
  · have h2 : -offset + 9223372036854775808 < 18446744073709551616 := by omega
    rw [Int.emod_eq_of_lt h1 h2]
    have h3 : -offset + 9223372036854775808 - 9223372036854775808 = -offset := by omega
    rw [h3]
    have h4 : (0 : Int) ≤ -offset := by omega
    have h5 : -offset < ((2 ^ 64 : Nat) : Int) := by
      have : ((2 ^ 64 : Nat) : Int) = 18446744073709551616 := by norm_num
      omega
    rw [Int.emod_eq_of_lt h4 h5]

/-- The unsigned sum `stack_len + offset` for a negative offset within the stack is the
difference the embedding of `stack_offset` uses. -/
theorem add_offset_cast (n : Nat) (offset : Int) (hn : n < SIZE_MOD)
    (hlo : -9223372036854775808 ≤ offset) (hneg : offset < 0)
    (hle : (-offset).toNat ≤ n) :
    (n + size_t_of offset) % SIZE_MOD = n - (-offset).toNat := by
  unfold size_t_of
  have hS : ((SIZE_MOD : Nat) : Int) = 18446744073709551616 := by
    unfold SIZE_MOD; norm_num
  have h1 : offset % (SIZE_MOD : Int) = offset + (SIZE_MOD : Int) := by
    rw [← Int.add_emod_self]
    apply Int.emod_eq_of_lt <;> omega
  rw [h1]
  have h2 : (offset + (SIZE_MOD : Int)).toNat = SIZE_MOD - (-offset).toNat := by omega
  rw [h2]
  have h3 : n + (SIZE_MOD - (-offset).toNat) = (n - (-offset).toNat) + SIZE_MOD := by
    have : (-offset).toNat ≤ SIZE_MOD := by omega
    omega
  rw [h3, Nat.add_mod_right]
  apply Nat.mod_eq_of_lt
  omega

/-- The function `stack_offset` in a frame whose base does not exceed the stack length. -/
theorem stack_offset_spec (esh : esh_state) (offset : Int)
    (hbase : esh.stack_base ≤ esh.stack_len) :
    ((-((esh.stack_len - esh.stack_base : Nat) : Int) ≤ offset ∧
        offset < ((esh.stack_len - esh.stack_base : Nat) : Int)) →
      ∃ index, stack_offset esh offset = (some index, esh) ∧
        esh.stack_base ≤ index ∧ index < esh.stack_len ∧
        (0 ≤ offset → (index : Int) = (esh.stack_base : Int) + offset) ∧
        (offset < 0 → (index : Int) = (esh.stack_len : Int) + offset)) ∧
    (¬ (-((esh.stack_len - esh.stack_base : Nat) : Int) ≤ offset ∧
        offset < ((esh.stack_len - esh.stack_base : Nat) : Int)) →
      stack_offset esh offset = (none, esh_err_printf esh "Invalid stack offset")) := by
  unfold stack_offset
  simp only [if_pos hbase]
  refine ⟨?_, ?_⟩
  · rintro ⟨hlo, hhi⟩
    by_cases hneg : offset < 0
    · rw [if_pos hneg, if_neg (by omega)]
      exact ⟨_, rfl, by omega, by omega, by omega, by omega⟩
    · rw [if_neg hneg, if_neg (by omega)]
      exact ⟨_, rfl, by omega, by omega, by omega, by omega⟩
  · intro hnot
    by_cases hneg : offset < 0
    · rw [if_pos hneg, if_pos (by omega)]
    · rw [if_neg hneg, if_pos (by omega)]

/-- C39: With items = stack_len - base for the current frame (base not above stack_len),
`stack_offset(offset)` succeeds if and only if -items <= offset < items; on success the
state is untouched, a non-negative offset maps to the index base + offset and a negative
offset to stack_len + offset, and the index lies in [base, stack_len); for every other
offset (this holds for every integer, so for every 64-bit value) it fails with the
invalid-offset message and changes nothing else. -/
theorem C39_stack_offset (esh : esh_state) (offset : Int)
    (hbase : esh.stack_base ≤ esh.stack_len) :
    ((stack_offset esh offset).1.isSome = true ↔
      (-((esh.stack_len - esh.stack_base : Nat) : Int) ≤ offset ∧
        offset < ((esh.stack_len - esh.stack_base : Nat) : Int))) ∧
    (∀ index, (stack_offset esh offset).1 = some index →
      (stack_offset esh offset).2 = esh ∧ esh.stack_base ≤ index ∧ index < esh.stack_len ∧
      (0 ≤ offset → (index : Int) = (esh.stack_base : Int) + offset) ∧
      (offset < 0 → (index : Int) = (esh.stack_len : Int) + offset)) ∧
    ((stack_offset esh offset).1 = none →
      (stack_offset esh offset).2 = esh_err_printf esh "Invalid stack offset" ∧
      (stack_offset esh offset).2.stack = esh.stack) := by
  obtain ⟨hin, hout⟩ := stack_offset_spec esh offset hbase
  by_cases hr : -((esh.stack_len - esh.stack_base : Nat) : Int) ≤ offset ∧
      offset < ((esh.stack_len - esh.stack_base : Nat) : Int)
  · obtain ⟨index, heq, h1, h2, h3, h4⟩ := hin hr
    rw [heq]
    refine ⟨⟨fun _ => hr, fun _ => rfl⟩, ?_, ?_⟩
    · intro i hi
      have : index = i := Option.some.inj hi
      subst this
      exact ⟨rfl, h1, h2, h3, h4⟩
    · intro h
      cases h
  · rw [hout hr]
    refine ⟨⟨fun h => (by cases h), fun h => absurd h hr⟩, ?_, ?_⟩
    · intro i hi
      cases hi
    · intro _
      exact ⟨rfl, rfl⟩

theorem C39_stack_offset_witness :
    offset_state.stack_base ≤ offset_state.stack_len ∧
    ((stack_offset offset_state (-2)).1.isSome = true ↔
      (-((offset_state.stack_len - offset_state.stack_base : Nat) : Int) ≤ -2 ∧
        (-2 : Int) < ((offset_state.stack_len - offset_state.stack_base : Nat) : Int))) ∧
    (stack_offset offset_state (-2)).1 = some 2 ∧
    (stack_offset offset_state (-4)).1 = none :=
  ⟨by decide, (C39_stack_offset offset_state (-2) (by decide)).1, by decide, by decide⟩

/-- C40 (code defect, evaluated at failing inputs).  `JMP_IF` pops the top value and then
tests the value that now lies on top, the one below the popped value, where `JMP_IFN`
tests the popped value.  On the operand stack NULL, "a" (top) `JMP_IF` pops "a" and does
not branch (the loop goes on at instruction 1); on "a", NULL (top) it pops NULL and
branches (to instruction 2).  `JMP_IFN` on the same stacks does not branch and branches,
as the popped value demands.  With NULL as the only value of a frame whose base is 1,
`JMP_IF` branches on the slot 0 below the frame (the closure at 16); with one value on a
stack whose frame starts at slot 0 the tested slot lies below the stack array. -/
theorem C40_jmp_if_tests_value_below :
    status_summary (vm_step sample_world
        (sample_running jmp_if_function [ESH_NULL, sample_a] 0)) =
      some (none, 32, 1, false, [ESH_NULL]) ∧
    status_summary (vm_step sample_world
        (sample_running jmp_if_function [sample_a, ESH_NULL] 0)) =
      some (none, 32, 2, false, [sample_a]) ∧
    status_summary (vm_step sample_world
        (sample_running jmp_ifn_function [ESH_NULL, sample_a] 0)) =
      some (none, 32, 1, false, [ESH_NULL]) ∧
    status_summary (vm_step sample_world
        (sample_running jmp_ifn_function [sample_a, ESH_NULL] 0)) =
      some (none, 32, 2, false, [sample_a]) ∧
    (started (sample_vm jmp_if_function [16])).thread.current_frame.stack_base = 1 ∧
    status_summary (vm_step sample_world
        ((started (sample_vm jmp_if_function [16])).moved [16, ESH_NULL] 0)) =
      some (none, 32, 2, false, [16]) ∧
    status_summary (vm_step sample_world (sample_running jmp_if_function [sample_a] 0)) =
      none := by
  refine ⟨by decide, by decide, by decide, by decide, by decide, by decide, by decide⟩

/-- The two conditional jumps on a stack with the values `u` and `v` (top) in the frame:
both pop `v`; `JMP_IFN` (`negated`) branches iff `v` is NULL, `JMP_IF` branches iff `u`,
the value below, is not NULL. -/
theorem jmp_cond_step (w : world) (vm : esh_vm) (f : esh_function) (below : List esh_val)
    (u v : esh_val) (negated : Bool) (dest : Nat)
    (hf : vm.functions vm.thread.current_frame.fn = some f) (hc : f.c_fn = 0)
    (hi : vm.thread.current_frame.instr_index < f.instr_len)
    (hop : esh_opcode.of_byte (decode_instr f.instr
      (vm.thread.current_frame.instr_index * INSTR_SIZE)).op =
        some (if negated then esh_opcode.JMP_IFN else esh_opcode.JMP_IF))
    (hlabel : f.jmps[(decode_instr f.instr
      (vm.thread.current_frame.instr_index * INSTR_SIZE)).arg]? = some dest)
    (hdest : dest < f.instr_len)
    (hst : vm.thread.stack = below ++ [u, v])
    (hbase : vm.thread.current_frame.stack_base ≤ below.length) :
    vm_step w vm = some (.running
      (vm.moved (below ++ [u])
        (if (if negated then v = ESH_NULL else u ≠ ESH_NULL) then dest
          else vm.thread.current_frame.instr_index + 1))) := by
  unfold vm_step
  rw [vm_pass_instr w vm f hf hc hi]
  have hlen : vm.esh.stack_len = below.length + 2 := by
    show vm.thread.stack.length = _
    rw [hst]; simp
  have hb : vm.esh.stack_base ≤ below.length := hbase
  have htake : vm.esh.stack.take (vm.esh.stack_len - 1) = below ++ [u] := by
    rw [hlen]
    show vm.thread.stack.take _ = _
    rw [hst]
    have : below.length + 2 - 1 = (below ++ [u]).length := by simp
    rw [this, show below ++ [u, v] = (below ++ [u]) ++ [v] by simp, List.take_left']
    rfl
  have htop : stack_at vm.esh (vm.esh.stack_len - 1) = v := by
    unfold stack_at
    rw [hlen]
    show vm.thread.stack.getD _ _ = _
    rw [hst, List.getD_eq_getElem?_getD]
    have : below.length + 2 - 1 = (below ++ [u]).length := by simp
    rw [this, show below ++ [u, v] = (below ++ [u]) ++ [v] by simp,
      List.getElem?_append_right (le_refl _)]
    simp
  have hjl : (decode_instr f.instr (vm.thread.current_frame.instr_index * INSTR_SIZE)).arg <
      f.jmps.length := by
    by_contra hge
    rw [List.getElem?_eq_none (by omega)] at hlabel
    cases hlabel
  have hgetD : f.jmps.getD (decode_instr f.instr
      (vm.thread.current_frame.instr_index * INSTR_SIZE)).arg 0 = dest := by
    rw [List.getD_eq_getElem?_getD, hlabel]
    rfl
  have hreq : opt_req_stack vm.esh 1 = some 0 := by
    unfold opt_req_stack
    rw [if_neg (by omega), if_neg (by omega)]
  cases negated with
  | true =>
    simp only [if_true] at hop ⊢
    unfold exec_instr
    simp only [hop, hreq, htake, htop]
    by_cases hv : v = ESH_NULL
    · simp only [hv, val_as_bool, ne_eq, not_true_eq_false, decide_False, Bool.false_eq_true,
        not_false_eq_true, if_true]
      unfold branch_instr
      rw [if_neg (by omega), hgetD, if_neg (by omega)]
      rfl
    · simp only [hv, val_as_bool, ne_eq, not_false_eq_true, decide_True, not_true_eq_false,
        if_false]
      rfl
  | false =>
    simp only [Bool.false_eq_true, if_false] at hop ⊢
    unfold exec_instr
    simp only [hop, hreq, htake]
    have hl1 : (vm.put { vm.esh with stack := below ++ [u] }).stack_len = below.length + 1 := by
      show (below ++ [u]).length = _
      simp
    have htop1 : stack_at (vm.put { vm.esh with stack := below ++ [u] }).esh
        ((vm.put { vm.esh with stack := below ++ [u] }).stack_len - 1) = u := by
      rw [hl1]
      unfold stack_at
      show (below ++ [u]).getD _ _ = _
      rw [List.getD_eq_getElem?_getD]
      simp
    rw [if_neg (by rw [hl1]; omega), htop1]
    by_cases hu : u = ESH_NULL
    · simp only [hu, val_as_bool, ne_eq, not_true_eq_false, decide_False, Bool.false_eq_true,
        if_false]
      rfl
    · simp only [hu, val_as_bool, ne_eq, not_false_eq_true, decide_True, if_true]
      unfold branch_instr
      rw [if_neg (by omega), hgetD, if_neg (by omega)]
      rfl

/-! ## Growth and tombstones of the table, locals of closed blocks -/

/-- The grow check of `esh_object_set` with a non-NULL value on a non-const object that
satisfies the invariant, the allocation of the new array granted: with
`len >= cap / 3 * 2` the table is rehashed into `2 * cap + 1` fresh slots and the write
goes to that array; otherwise the write goes to the old array. -/
theorem set_grow_check {obj : esh_object} (hw : wf obj) (hc : obj.is_const = false)
    (ak : Bool) (k : List Nat) (v : esh_val) (hv : v ≠ ESH_NULL) :
    (obj.len ≥ obj.cap / 3 * 2 →
      ∃ grown r, rehash obj.entries (new_entries (obj.cap * 2 + 1)) = some grown ∧
        grown.length = obj.cap * 2 + 1 ∧ (∀ e ∈ grown, e.deleted = false) ∧
        (∀ k1 v1, live_at grown k1 v1 ↔ live_at obj.entries k1 v1) ∧
        esh_object_set true ak obj k v = some r ∧
        set_slot ak { obj with entries := grown } k v = some r ∧
        r.obj.cap = obj.cap * 2 + 1 ∧ (∀ e ∈ r.obj.entries, e.deleted = false)) ∧
    (obj.len < obj.cap / 3 * 2 →
      esh_object_set true ak obj k v = set_slot ak obj k v ∧
      ∀ r, set_slot ak obj k v = some r → r.obj.cap = obj.cap) := by
  have hcb : ¬ obj.is_const = true := by rw [hc]; decide
  refine ⟨?_, ?_⟩
  · intro hgrow
    obtain ⟨grown, hg1, hg2, hg3, hg4, hg5⟩ := grow_spec hw
    have hfac : GROW_FACTOR obj.cap = obj.cap * 2 + 1 := rfl
    rw [hfac] at hg1 hg3
    have hle := live_count_le obj.entries
    have hroom : obj.len < grown.length := by
      rw [hg3, hw.1]; unfold esh_object.cap; omega
    have hlc : live_count grown = obj.len := hg2.1.symm
    obtain ⟨m, e, hm, hk⟩ := exists_empty_slot hg4 (by rw [hlc]; exact hroom)
    obtain ⟨r, hr⟩ := @set_slot_returns { obj with entries := grown } hroom ak k v
      ⟨m, e, hm, key_hit_of_none hk k⟩
    have hset : esh_object_set true ak obj k v = some r := by
      unfold esh_object_set
      rw [if_neg hcb, if_neg hv, if_pos (show obj.len ≥ GROW_THRESHOLD obj.cap from hgrow),
        if_neg (by decide), hfac, hg1]
      exact hr
    obtain ⟨_, _, hcap, _⟩ := set_slot_spec hg2 ak k v r hr
    refine ⟨grown, r, hg1, hg3, hg4, hg5, hset, hr, ?_, ?_⟩
    · rw [hcap]; exact hg3
    · exact @set_slot_clean { obj with entries := grown } hg4 ak k v r hr
  · intro hno
    refine ⟨?_, ?_⟩
    · unfold esh_object_set
      rw [if_neg hcb, if_neg hv,
        if_neg (show ¬ obj.len ≥ GROW_THRESHOLD obj.cap by unfold GROW_THRESHOLD; omega)]
    · intro r hr
      exact (set_slot_spec hw ak k v r hr).2.2.1

/-- C36 (amended): `esh_object_set` (non-NULL value, non-const object, allocation of the
new array granted) grows the table exactly when `len >= cap / 3 * 2` in the integer
arithmetic of the source; the new capacity is `2 * cap + 1`, and on a grow every tombstone
is dropped while every live entry is re-inserted, before the write itself is done in the
new array.  Otherwise the capacity stays. -/
theorem C36_grow (obj : esh_object) (hw : wf obj) (hc : obj.is_const = false)
    (ak : Bool) (k : List Nat) (v : esh_val) (hv : v ≠ ESH_NULL) :
    (obj.len ≥ obj.cap / 3 * 2 →
      ∃ grown r, rehash obj.entries (new_entries (obj.cap * 2 + 1)) = some grown ∧
        grown.length = obj.cap * 2 + 1 ∧ (∀ e ∈ grown, e.deleted = false) ∧
        (∀ k1 v1, live_at grown k1 v1 ↔ live_at obj.entries k1 v1) ∧
        esh_object_set true ak obj k v = some r ∧
        set_slot ak { obj with entries := grown } k v = some r ∧
        r.obj.cap = obj.cap * 2 + 1 ∧ (∀ e ∈ r.obj.entries, e.deleted = false)) ∧
    (obj.len < obj.cap / 3 * 2 →
      esh_object_set true ak obj k v = set_slot ak obj k v ∧
      ∀ r, set_slot ak obj k v = some r → r.obj.cap = obj.cap) :=
  set_grow_check hw hc ak k v hv

theorem C36_grow_witness :
    ∃ grown r, rehash two_entry_object.entries (new_entries (two_entry_object.cap * 2 + 1)) =
        some grown ∧
      grown.length = two_entry_object.cap * 2 + 1 ∧ (∀ e ∈ grown, e.deleted = false) ∧
      (∀ k1 v1, live_at grown k1 v1 ↔ live_at two_entry_object.entries k1 v1) ∧
      esh_object_set true true two_entry_object [99] 7 = some r ∧
      set_slot true { two_entry_object with entries := grown } [99] 7 = some r ∧
      r.obj.cap = two_entry_object.cap * 2 + 1 ∧ (∀ e ∈ r.obj.entries, e.deleted = false) :=
  (C36_grow two_entry_object (by decide) (by decide) true [99] 7 (by decide)).1 (by decide)

/-- C36 as stated fails: the table that four writes of new keys leave of the empty table
has 4 live entries in 7 slots, so `3 * len >= 2 * cap` is false, yet the next write of a
new key grows it to 15 slots (`cap / 3 * 2` is 4).  A table with 3 entries in 7 slots is
not grown. -/
theorem C36_counterexample :
    table_size (run_calls four_sets esh_object_init_entries) = some (4, 7) ∧
    ¬ 3 * 4 ≥ 2 * 7 ∧
    table_size (run_calls (four_sets ++ [.set [101] 7]) esh_object_init_entries) =
      some (5, 15) ∧
    table_size (run_calls [.set [97] 7, .set [98] 7, .set [99] 7] esh_object_init_entries) =
      some (3, 7) ∧
    table_size (run_calls [.set [97] 7, .set [98] 7, .set [99] 7, .set [100] 7]
      esh_object_init_entries) = some (4, 7) := by
  refine ⟨by decide, by decide, by decide, by decide, by decide⟩

/-- A write of a new key to a table that is not due to grow and in which every slot
carries another key (live or tombstone) fails the assertion `entry != NULL`. -/
theorem set_fails_on_full_table (obj : esh_object) (ae ak : Bool) (k : List Nat) (v : esh_val)
    (hc : obj.is_const = false) (hv : v ≠ ESH_NULL)
    (hno : obj.len < obj.cap / 3 * 2)
    (hfull : ∀ e ∈ obj.entries, ∃ k1, e.key = some k1 ∧ k1 ≠ k) :
    object_find obj.entries k = none ∧ esh_object_set ae ak obj k v = none := by
  have hcb : ¬ obj.is_const = true := by rw [hc]; decide
  have hfind : object_find obj.entries k = none := by
    rw [object_find_eq_none]
    intro m hm
    have he : obj.entries[m]? = some obj.entries[m] := List.getElem?_eq_getElem hm
    rw [slot_hit_of_key he k]
    obtain ⟨k1, hk1, hne⟩ := hfull _ (List.getElem_mem hm)
    unfold key_hit
    rw [hk1]
    simp [hne]
  refine ⟨hfind, ?_⟩
  unfold esh_object_set
  rw [if_neg hcb, if_neg hv,
    if_neg (show ¬ obj.len ≥ GROW_THRESHOLD obj.cap by unfold GROW_THRESHOLD; omega)]
  unfold set_slot
  rw [if_neg (by omega), hfind]

/-- C37 (code defect, evaluated at a failing input).  The calls `set a; set b; delete b;
set c; delete c` on the empty table leave a table of three slots that all carry a key (two
of them tombstones) with one live entry: it satisfies the representation invariant, is not
due to grow (`1 < 3 / 3 * 2`) and passes the assertion `len < cap`, but holds neither a
never-used slot nor the key `d`, so `object_find` returns NULL for `d` and the call
`set d` fails the assertion `entry != NULL`. -/
theorem C37_tombstones_fill_table :
    run_calls tombstone_calls esh_object_init_entries = some tombstone_table ∧
    wf tombstone_table ∧
    tombstone_table.len < tombstone_table.cap ∧
    ¬ tombstone_table.len ≥ GROW_THRESHOLD tombstone_table.cap ∧
    (∀ e ∈ tombstone_table.entries, e.key ≠ none ∧ e.key ≠ some [100]) ∧
    object_find tombstone_table.entries [100] = none ∧
    esh_object_set true true tombstone_table [100] 7 = none ∧
    run_calls (tombstone_calls ++ [.set [100] 7]) esh_object_init_entries = none := by
  refine ⟨by decide, by decide, by decide, by decide, by decide, by decide, by decide,
    by decide⟩

/-- C38 (code defect, evaluated at failing inputs).  `leave_block_scope` leaves the locals
of the block it ends in the locals array.  In a function body that declares `y` only
inside an `if` block, the read of `y` after the block compiles to `LOAD 0`, the local of
the closed block (without the block it compiles to `LOAD_G`, a global read), and running
the function leaves the global `r` as "1".  And a declaration of `w` in the function body
after a block that declared `w` is reported as a redeclaration (the compiler throws),
while the same declaration without the block compiles. -/
theorem C38_closed_block_local_visible :
    body_code closed_block_read_body =
      some [(some .IMM, 0, 0), (some .JMP_IFN, 1, 0), (some .IMM, 1, 0), (some .STORE, 0, 0),
        (some .LOAD, 0, 0), (some .STORE_G, 2, 0)] ∧
    body_code plain_read_body = some [(some .LOAD_G, 0, 0), (some .STORE_G, 1, 0)] ∧
    global_after closed_block_read_body [114] = some (some [49]) ∧
    body_stop closed_block_declaration_body = some .thrown ∧
    body_stop single_declaration_body = none ∧
    body_code single_declaration_body = some [(some .IMM, 0, 0), (some .STORE, 0, 0)] := by
  refine ⟨by decide!, by decide!, by decide!, by decide!, by decide!, by decide!⟩

/-! ## Calls with a folded `UNPACK` -/

/-- The fold of a following `UNPACK`: after the increment of the instruction index,
`fold_next_unpack_instr` returns the argument of the following instruction and skips it
if there is a following instruction and it is `UNPACK`, and returns 1 and skips nothing
otherwise. -/
theorem fold_unpack_spec (vm : esh_vm) (f : esh_function) :
    fold_next_unpack_instr vm.incr f =
      (if unpack_follows vm f = true then ((following_instr vm f).arg, vm.incr.incr)
        else (1, vm.incr)) := by
  unfold fold_next_unpack_instr unpack_follows following_instr
  have hidx : vm.incr.thread.current_frame.instr_index =
      vm.thread.current_frame.instr_index + 1 := rfl
  rw [hidx]
  by_cases h1 : vm.thread.current_frame.instr_index + 1 < f.instr_len
  · by_cases h2 : esh_opcode.of_byte (decode_instr f.instr
        ((vm.thread.current_frame.instr_index + 1) * INSTR_SIZE)).op = some esh_opcode.UNPACK
    · simp [h1, h2]
    · simp [h1, h2]
  · simp [h1]

/-- C32: When the VM executes `CALL` or `CMD` it increments the instruction index and
then folds the following instruction: if there is one and it is `UNPACK N`, the expected
return count is N and the instruction index is incremented once more (the `UNPACK` is
skipped); in every other case the count is 1 and nothing is skipped.  `CALL` and `CMD`
(for a command bound in the globals) call `enter_fn` with that count, and a successful
call of a closure that is no coroutine pushes the frame of the caller, with the folded
instruction index, marked with that count. -/
theorem C32_call_folds_unpack (w : world) (vm : esh_vm) (f : esh_function)
    (instr : instr_regs) :
    fold_next_unpack_instr vm.incr f =
      (if unpack_follows vm f = true then ((following_instr vm f).arg, vm.incr.incr)
        else (1, vm.incr)) ∧
    (esh_opcode.of_byte instr.op = some esh_opcode.CALL →
      exec_instr w vm f instr =
        call_signal (enter_fn w (fold_next_unpack_instr vm.incr f).2 instr.arg
          (fold_next_unpack_instr vm.incr f).1 none false)) ∧
    (esh_opcode.of_byte instr.op = some esh_opcode.CMD →
      ∀ (cmd : List Nat) (cmdlen : Nat) (globals : heap_object) (g : esh_val),
      vm.thread.current_frame.stack_base + (instr.arg + 1) ≤ vm.thread.stack.length →
      val_as_string vm.heap (stack_at vm.esh (vm.stack_len - instr.arg - 1)) =
        some (cmd, cmdlen) →
      vm.heap vm.globals = some globals →
      esh_object_get globals.obj (cmd.take cmdlen) = some (some g) →
      exec_instr w vm f instr =
        call_signal (enter_fn w (fold_next_unpack_instr vm.incr f).2 instr.arg
          (fold_next_unpack_instr vm.incr f).1 (some g) false)) ∧
    (esh_opcode.of_byte instr.op = some esh_opcode.CALL →
      ∀ (callee : esh_val) (cl : esh_closure) (g : esh_function),
      instr.arg + 1 < SIZE_MOD →
      vm.thread.current_frame.stack_base + (instr.arg + 1) ≤ vm.thread.stack.length →
      stack_at vm.esh (vm.stack_len - instr.arg - 1) = callee →
      val_as_object vm.heap callee (some esh_type_ptr.closure_type) ≠ none →
      vm.closures callee = some cl → vm.functions cl.fn = some g →
      g.n_args + g.opt_args < SIZE_MOD →
      (g.n_args ≤ instr.arg ∧ (instr.arg ≤ g.n_args + g.opt_args ∨ g.variadic = true)) →
      cl.is_coroutine = false → vm.thread.stack.length ≤ vm.thread.stack_cap →
      w.frames_ok = true → w.stack_ok = true → w.obj ≠ 0 →
      (g.c_fn = 0 → instr.arg ≤ g.n_locals) →
      ∃ vm1, exec_instr w vm f instr = some (.cont vm1) ∧
        frame_pushed (fold_next_unpack_instr vm.incr f).2 vm1 cl instr.arg
          (fold_next_unpack_instr vm.incr f).1 false) := by
  have hcall : esh_opcode.of_byte instr.op = some esh_opcode.CALL →
      exec_instr w vm f instr =
        call_signal (enter_fn w (fold_next_unpack_instr vm.incr f).2 instr.arg
          (fold_next_unpack_instr vm.incr f).1 none false) := by
    intro hop
    unfold exec_instr
    simp only [hop]
  refine ⟨fold_unpack_spec vm f, hcall, ?_, ?_⟩
  · intro hop cmd cmdlen globals g hitems hname hglobals hget
    have hexec : exec_instr w vm f instr = cmd_instr w vm f instr := by
      unfold exec_instr
      simp only [hop]
    rw [hexec]
    exact (cmd_instr_lookup w vm f instr cmd cmdlen globals hitems hname hglobals).1 g hget
  · intro hop callee cl g hk hstack hcallee hobj hcl hf hsum harity hnoco hcap hfr hst hob hloc
    rw [hcall hop]
    obtain ⟨e1, e2, e3, e4, e5⟩ := fold_fields vm.incr f
    generalize hx : fold_next_unpack_instr vm.incr f = x at e1 e2 e3 e4 e5 ⊢
    obtain ⟨n, vm0⟩ := x
    simp only at e1 e2 e3 e4 e5 ⊢
    have hesh : vm0.esh = vm.esh := e1
    have hstk : vm0.thread.stack = vm.thread.stack := congrArg esh_state.stack hesh
    have hbs : vm0.thread.current_frame.stack_base = vm.thread.current_frame.stack_base :=
      congrArg esh_state.stack_base hesh
    have hcp : vm0.thread.stack_cap = vm.thread.stack_cap := congrArg esh_state.stack_cap hesh
    have hhp : vm0.heap = vm.heap := congrArg esh_state.heap hesh
    have hsl : vm0.stack_len = vm.stack_len := by
      unfold esh_vm.stack_len
      rw [hstk]
    obtain ⟨_, _, a3⟩ := enter_fn_arity w vm0 instr.arg n none false callee cl g hk
      (by rw [hbs, hstk]; exact hstack)
      (by rw [hesh, hsl]; exact hcallee)
      (by rw [hhp]; exact hobj)
      (by rw [e4]; exact hcl) (by rw [e5]; exact hf) hsum
    obtain ⟨vm1, r1, r2, _⟩ := enter_frame_ok w vm0 instr.arg n cl g false
      (by rw [hstk, hcp]; exact hcap) hfr hst (fun _ _ => hob) hloc
    refine ⟨vm1, ?_, r2⟩
    rw [a3 harity.1 harity.2, hnoco]
    simp only [Bool.false_eq_true, if_false]
    rw [r1]
    rfl

theorem C32_call_folds_unpack_witness :
    fold_next_unpack_instr (sample_running call_unpack_function [16] 0).incr
        call_unpack_function =
      (2, (sample_running call_unpack_function [16] 0).incr.incr) ∧
    fold_next_unpack_instr (sample_running call_plain_function [16] 0).incr
        call_plain_function =
      (1, (sample_running call_plain_function [16] 0).incr) ∧
    fold_next_unpack_instr (sample_running call_plain_function [16] 1).incr
        call_plain_function =
      (1, (sample_running call_plain_function [16] 1).incr) ∧
    (∃ vm1, exec_instr sample_world (sample_running call_unpack_function [16] 0)
        call_unpack_function ⟨11, 0, 0⟩ = some (.cont vm1) ∧
      frame_pushed
        (fold_next_unpack_instr (sample_running call_unpack_function [16] 0).incr
          call_unpack_function).2 vm1 ⟨false, 32, 0⟩ 0
        (fold_next_unpack_instr (sample_running call_unpack_function [16] 0).incr
          call_unpack_function).1 false) ∧
    frames_summary (exec_instr sample_world (sample_running call_unpack_function [16] 0)
      call_unpack_function ⟨11, 0, 0⟩) = some ([(2, 2)], 0) ∧
    frames_summary (exec_instr sample_world (sample_running call_plain_function [16] 0)
      call_plain_function ⟨11, 0, 0⟩) = some ([(1, 1)], 0) :=
  ⟨(C32_call_folds_unpack sample_world (sample_running call_unpack_function [16] 0)
      call_unpack_function ⟨11, 0, 0⟩).1.trans rfl,
    (C32_call_folds_unpack sample_world (sample_running call_plain_function [16] 0)
      call_plain_function ⟨11, 0, 0⟩).1.trans rfl,
    (C32_call_folds_unpack sample_world (sample_running call_plain_function [16] 1)
      call_plain_function ⟨11, 0, 0⟩).1.trans rfl,
    (C32_call_folds_unpack sample_world (sample_running call_unpack_function [16] 0)
      call_unpack_function ⟨11, 0, 0⟩).2.2.2 (by decide) 16 ⟨false, 32, 0⟩ call_unpack_function
      (by decide) (by decide) (by decide) (by decide) rfl rfl (by decide)
      ⟨by decide, Or.inl (by decide)⟩ rfl (by decide) rfl rfl (by decide) (fun _ => by decide),
    by decide, by decide⟩

/-! ## Caught panics and resumed threads -/

/-- The search loop at `PANIC` finds the topmost frame with `catch_panic` set. -/
theorem find_catch_topmost (lower upper : List esh_stack_frame) (catcher : esh_stack_frame)
    (hcatch : catcher.catch_panic = true)
    (hupper : ∀ frame ∈ upper, frame.catch_panic = false) :
    find_catch (lower ++ catcher :: upper) (lower ++ catcher :: upper).length =
      some (lower.length + 1) := by
  have key : ∀ n, n ≤ upper.length →
      find_catch (lower ++ catcher :: upper) (lower.length + 1 + n) =
        some (lower.length + 1) := by
    intro n
    induction n with
    | zero =>
      intro _
      show find_catch _ (lower.length + 1) = _
      unfold find_catch
      rw [List.getElem?_append_right (le_refl _)]
      simp [hcatch]
    | succ n ih =>
      intro hn
      show find_catch _ (lower.length + 1 + n + 1) = _
      unfold find_catch
      have hget : (lower ++ catcher :: upper)[lower.length + 1 + n]? = upper[n]? := by
        rw [List.getElem?_append_right (by omega)]
        have : lower.length + 1 + n - lower.length = n + 1 := by omega
        rw [this, List.getElem?_cons_succ]
      rw [hget]
      have hlt : n < upper.length := by omega
      rw [List.getElem?_eq_getElem hlt]
      simp only
      rw [hupper _ (List.getElem_mem hlt)]
      simp only [Bool.false_eq_true, if_false]
      exact ih (by omega)
  have hlen : (lower ++ catcher :: upper).length = lower.length + 1 + upper.length := by
    simp
    omega
  rw [hlen]
  exact key upper.length (le_refl _)

/-- The code at `PANIC` when a frame of the frame stack has `catch_panic` set: `catcher`
is the topmost such frame, `lower` are the frames below it and `upper` the frames above
it. -/
theorem panic_unwind_catch (w : world) (vm : esh_vm) (lower upper : List esh_stack_frame)
    (catcher : esh_stack_frame)
    (hframes : vm.thread.stack_frames = lower ++ catcher :: upper)
    (hcatch : catcher.catch_panic = true)
    (hupper : ∀ frame ∈ upper, frame.catch_panic = false)
    (hstack : base_above upper vm.thread.current_frame ≤ vm.thread.stack.length) :
    panic_unwind w vm = some (.running
      { vm with
        panic_caught := true,
        freed_locals :=
          (vm.thread.current_frame :: upper).foldl
            (fun log frame => (free_stack_frame log frame).1) vm.freed_locals,
        thread := { vm.thread with
          current_frame := catcher,
          stack_frames := lower,
          stack := vm.thread.stack.take (base_above upper vm.thread.current_frame) } }) := by
  have hfind := find_catch_topmost lower upper catcher hcatch hupper
  unfold panic_unwind
  simp only [hframes, hfind, Option.getD_some, Option.isNone_some, Bool.false_eq_true,
    if_false, Option.isSome_some, if_true]
  have hdrop : (lower ++ catcher :: upper).drop (lower.length + 1) = upper := by
    rw [show lower ++ catcher :: upper = (lower ++ [catcher]) ++ upper by simp]
    rw [List.drop_left' (by simp)]
  have htake : (lower ++ catcher :: upper).take (lower.length + 1) = lower ++ [catcher] := by
    rw [show lower ++ catcher :: upper = (lower ++ [catcher]) ++ upper by simp]
    rw [List.take_left' (by simp)]
  rw [hdrop, htake]
  have hbase : (if lower.length + 1 = (lower ++ catcher :: upper).length then
        (free_stack_frame vm.freed_locals vm.thread.current_frame).2.stack_base
      else ((lower ++ catcher :: upper).getD (lower.length + 1)
        (free_stack_frame vm.freed_locals vm.thread.current_frame).2).stack_base) =
      base_above upper vm.thread.current_frame := by
    unfold base_above frames_above
    cases upper with
    | nil => simp [free_stack_frame]
    | cons u rest =>
      have hne : ¬ lower.length + 1 = (lower ++ catcher :: u :: rest).length := by
        simp
      rw [if_neg hne, List.getD_eq_getElem?_getD,
        List.getElem?_append_right (by omega)]
      have : lower.length + 1 - lower.length = 1 := by omega
      rw [this]
      simp
  rw [hbase]
  unfold set_stack_len
  rw [if_pos hstack]
  simp only [List.getLast?_concat, List.dropLast_concat]
  rfl

/-- C33 (amended): When a panic finds a frame with `catch_panic` set, the VM destroys the
native locals of the panicking frame and of every frame above the catching frame (the
topmost frame with the flag), cuts the stack to the base of the frame directly above the
catching frame (the frame it had called; the panicking frame itself if none lies between),
makes the catching frame current with the frames below it as the frame stack, sets
`panic_caught` to true and resumes it.  The operand stack of the catching frame keeps the
values below that base: the callee and whatever lay below it. -/
theorem C33_panic_caught (w : world) (vm : esh_vm) (lower upper : List esh_stack_frame)
    (catcher : esh_stack_frame)
    (hframes : vm.thread.stack_frames = lower ++ catcher :: upper)
    (hcatch : catcher.catch_panic = true)
    (hupper : ∀ frame ∈ upper, frame.catch_panic = false)
    (hstack : base_above upper vm.thread.current_frame ≤ vm.thread.stack.length) :
    panic_unwind w vm = some (.running
      { vm with
        panic_caught := true,
        freed_locals :=
          (vm.thread.current_frame :: upper).foldl
            (fun log frame => (free_stack_frame log frame).1) vm.freed_locals,
        thread := { vm.thread with
          current_frame := catcher,
          stack_frames := lower,
          stack := vm.thread.stack.take (base_above upper vm.thread.current_frame) } }) :=
  panic_unwind_catch w vm lower upper catcher hframes hcatch hupper hstack

theorem C33_panic_caught_witness :
    frame_summary (panic_unwind sample_world catch_state) =
      some (32, 2, true, [16, 112, 144]) ∧
    unwound_summary (panic_unwind sample_world catch_state) =
      some ([(9, 800), (9, 900)], [1]) :=
  ⟨(congrArg frame_summary
      (C33_panic_caught sample_world catch_state [sample_frame 32 1 0 0 false]
        [sample_frame 32 3 9 900 false] (sample_frame 32 2 0 0 true) rfl rfl
        (by decide) (by decide))).trans (by decide),
    by decide⟩

/-- C33 as stated fails: the stack is not cut to the base of the catching frame.  When the
function called by `try_fn` panics (pass 5 of the run), the frame of `try_fn` becomes
current with `panic_caught` set; its base is 2, and the stack keeps 3 values, so its
operand stack holds the callee at 144 and is not empty. -/
theorem C33_counterexample :
    frame_summary (vm_steps stdlib_world 4 1 (started
        (stdlib_vm (try_caller failing_closure) failing_function failing_function
          failing_function))) =
      some (272, 3, false, [16, try_closure, failing_closure]) ∧
    pass_summary (stdlib_world 5) (vm_steps stdlib_world 4 1 (started
        (stdlib_vm (try_caller failing_closure) failing_function failing_function
          failing_function))) = some "PANIC" ∧
    frame_summary (vm_steps stdlib_world 5 1 (started
        (stdlib_vm (try_caller failing_closure) failing_function failing_function
          failing_function))) =
      some (240, 2, true, [16, try_closure, failing_closure]) ∧
    ¬ ([16, try_closure, failing_closure] : List esh_val).length = 2 := by
  refine ⟨by decide, by decide, by decide, by decide⟩

/-- Resuming a coroutine that is not done: with the coroutine `c` on top of the frame of
the native function that issues `Next` (or `NextS`), and no failure to grow the parent
stack, the directive pushes the running thread on the parent stack and makes `c` the
running thread, whether or not `c` is the running thread itself or already lies on the
parent stack. -/
theorem next_resumes (w : world) (vm : esh_vm) (res : esh_fn_result)
    (below : List esh_val) (c : esh_val) (obj : heap_object) (co : esh_co_thread)
    (hres : res.n_args = 0 ∧ res.n_res = 1)
    (hstack : vm.thread.stack = below ++ [c])
    (hbase : vm.thread.current_frame.stack_base ≤ below.length)
    (hgrow : vm.threads.length = vm.threads_cap → w.threads_ok = true)
    (hobj : val_as_object vm.heap c none = some obj)
    (htype : obj.type = some esh_type_ptr.co_thread_type)
    (hco : vm.thread_at c = some co) (hrun : co.is_done = false) :
    ∃ vm1, next_directive w vm res = some (.cont vm1) ∧
      vm1.current_thread = c ∧ vm1.threads = vm.threads ++ [vm.current_thread] := by
  have hlen : vm.thread.stack.length = below.length + 1 := by rw [hstack]; simp
  unfold next_directive
  simp only
  rw [if_neg (by rw [hres.1, hres.2]; simp)]
  have hsl : vm.incr.esh.stack_len = below.length + 1 := hlen
  have hsb : vm.incr.esh.stack_base = vm.thread.current_frame.stack_base := rfl
  rw [if_neg (by rw [hsl, hsb]; omega)]
  have hsize : stack_size vm.incr.esh = below.length + 1 - vm.thread.current_frame.stack_base := by
    unfold stack_size
    rw [hsl, hsb]
  rw [if_neg (by rw [hsize, hres.1]; omega)]
  have hg : ¬ (vm.incr.threads.length = vm.incr.threads_cap ∧ w.threads_ok = false) := by
    intro hh
    have := hgrow hh.1
    rw [this] at hh
    exact Bool.noConfusion hh.2
  rw [if_neg hg]
  rw [stack_pop_top _ below c hstack hbase]
  simp only
  erw [hobj]
  simp only [htype]
  rw [show type_next w esh_type_ptr.co_thread_type = none from rfl]
  simp only [ne_eq, not_true_eq_false, if_false]
  have hthread : ∀ (vmx : esh_vm), vmx.current_thread = vm.current_thread →
      vmx.co_threads = vm.co_threads → vmx.thread.is_done = vm.thread.is_done →
      ∃ co1, vmx.thread_at c = some co1 ∧ co1.is_done = false := by
    intro vmx h1 h2 h3
    unfold esh_vm.thread_at at hco ⊢
    rw [h1, h2]
    by_cases hc : c = vm.current_thread
    · rw [if_pos hc] at hco ⊢
      refine ⟨_, rfl, ?_⟩
      rw [h3, Option.some.inj hco]
      exact hrun
    · rw [if_neg hc] at hco ⊢
      exact ⟨co, hco, hrun⟩
  generalize hx : esh_vm.thread_at _ c = x
  obtain ⟨co1, hco1, hrun1⟩ : ∃ co1, x = some co1 ∧ co1.is_done = false := by
    rw [← hx]
    exact hthread _ rfl rfl rfl
  rw [hco1]
  simp only [hrun1, Bool.false_eq_true, if_false]
  have hthread2 : ∀ (vmx : esh_vm), vmx.current_thread = vm.current_thread →
      vmx.co_threads = vm.co_threads → ∃ co2, vmx.thread_at c = some co2 := by
    intro vmx h1 h2
    unfold esh_vm.thread_at at hco ⊢
    rw [h1, h2]
    by_cases hc : c = vm.current_thread
    · rw [if_pos hc]
      exact ⟨_, rfl⟩
    · rw [if_neg hc] at hco ⊢
      exact ⟨co, hco⟩
  unfold switch_thread
  generalize hy : esh_vm.thread_at _ c = y
  obtain ⟨co2, hco2⟩ : ∃ co2, y = some co2 := by
    rw [← hy]
    exact hthread2 _ rfl rfl
  rw [hco2]
  exact ⟨_, rfl, rfl, rfl⟩

/-- C34 (code defect, evaluated at a failing input).  The main template resumes the
coroutine at 160 with `next_fn`, and the body of the coroutine resumes the same coroutine
with `next_fn`.  After 4 passes the coroutine runs with the main thread 8 as the parent
stack.  Pass 8 is the `Next` directive of the body (an ordinary `continue`): it pushes the
running thread 160 on the parent stack and makes 160 the running thread, so the running
thread is an element of the parent stack. -/
theorem C34_running_thread_on_parent_stack :
    parents_summary (vm_steps stdlib_world 4 1 (started
        (stdlib_vm resume_thrice failing_function failing_function self_resume_body))) =
      some (none, 160, [8], 288, 0) ∧
    parents_summary (vm_steps stdlib_world 7 1 (started
        (stdlib_vm resume_thrice failing_function failing_function self_resume_body))) =
      some (none, 160, [8], 208, 0) ∧
    pass_summary (stdlib_world 8) (vm_steps stdlib_world 7 1 (started
        (stdlib_vm resume_thrice failing_function failing_function self_resume_body))) =
      some "continue" ∧
    parents_summary (vm_steps stdlib_world 8 1 (started
        (stdlib_vm resume_thrice failing_function failing_function self_resume_body))) =
      some (none, 160, [8, 160], 208, 1) ∧
    (160 : Nat) ∈ [8, 160] ∧
    run_summary (run_vm stdlib_world 40
        (stdlib_vm resume_thrice failing_function failing_function self_resume_body) 16) =
      some (1, 160, false, some "Unable to execute return; not enough values on stack",
        []) := by
  refine ⟨by decide, by decide, by decide, by decide, by decide, by decide⟩

/-! ## The native function `replace` -/

/-- The inner loop of `replace` at a position with room for `a` compares the bytes of `a`
with the bytes of `s` from that position on. -/
theorem replace_match_iff (s a : List Nat) (i : Nat) (hroom : i + a.length ≤ s.length) :
    replace_match s a i = true ↔ (s.drop i).take a.length = a := by
  unfold replace_match
  rw [List.all_eq_true]
  constructor
  · intro h
    apply List.ext_getElem
    · rw [List.length_take, List.length_drop]
      omega
    · intro j h1 h2
      have hj := h j (List.mem_range.mpr h2)
      rw [decide_eq_true_eq] at hj
      rw [List.getElem_take, List.getElem_drop]
      rw [List.getD_eq_getElem?_getD, List.getD_eq_getElem?_getD,
        List.getElem?_eq_getElem (show i + j < s.length by omega),
        List.getElem?_eq_getElem h2] at hj
      exact hj
  · intro h j hj
    have hj2 : j < a.length := List.mem_range.mp hj
    rw [decide_eq_true_eq]
    rw [List.getD_eq_getElem?_getD, List.getD_eq_getElem?_getD,
      List.getElem?_eq_getElem (show i + j < s.length by omega),
      List.getElem?_eq_getElem hj2]
    show s[i + j] = a[j]
    have hlen : j < ((s.drop i).take a.length).length := by
      rw [List.length_take, List.length_drop]
      omega
    have : ((s.drop i).take a.length)[j] = a[j] := by
      simp only [h]
    rw [← this, List.getElem_take, List.getElem_drop]

/-- A string shorter than `a` holds no occurrence of `a`. -/
theorem replace_all_short (a b : List Nat) (fuel : Nat) (t : List Nat)
    (hshort : t.length < a.length) : replace_all a b fuel t = t := by
  induction fuel generalizing t with
  | zero => rfl
  | succ fuel ih =>
    cases t with
    | nil => rfl
    | cons c rest =>
      unfold replace_all
      have hno : ¬ (a ≠ [] ∧ (c :: rest).take a.length = a) := by
        rintro ⟨_, h⟩
        have := congrArg List.length h
        rw [List.length_take] at this
        simp only [List.length_cons] at this hshort
        omega
      rw [if_neg hno, ih rest (by simp only [List.length_cons] at hshort; omega)]

/-- The counter of the loop of `replace` ends between `sl - al + 1` and `sl`. -/
theorem replace_scan_end (s a b : List Nat) (h1 : 1 ≤ a.length) (h2 : a.length ≤ s.length) :
    ∀ fuel i, i ≤ s.length → s.length + 1 ≤ fuel + i →
      s.length - a.length + 1 ≤ (replace_scan s a b fuel i).2 ∧
        (replace_scan s a b fuel i).2 ≤ s.length := by
  intro fuel
  induction fuel with
  | zero =>
    intro i hi hf
    omega
  | succ fuel ih =>
    intro i hi hf
    unfold replace_scan
    by_cases hlt : i < s.length - a.length + 1
    · rw [if_pos hlt]
      by_cases hm : replace_match s a i = true
      · rw [if_pos hm]
        exact ih _ (by omega) (by omega)
      · rw [if_neg hm]
        exact ih _ (by omega) (by omega)
    · rw [if_neg hlt]
      exact ⟨by omega, hi⟩

/-- The bytes the loop of `replace` appends are the replacement the doc comment describes,
up to the position where the loop stops: the replacement of the whole rest of `s` is what
the loop appends followed by the bytes of `s` from that position on. -/
theorem replace_scan_spec (s a b : List Nat) (h1 : 1 ≤ a.length) (h2 : a.length ≤ s.length) :
    ∀ fuel i fuel2, i ≤ s.length → s.length + 1 ≤ fuel + i → s.length - i ≤ fuel2 →
      replace_all a b fuel2 (s.drop i) =
        (replace_scan s a b fuel i).1 ++ s.drop (replace_scan s a b fuel i).2 := by
  intro fuel
  induction fuel with
  | zero =>
    intro i fuel2 hi hf _
    omega
  | succ fuel ih =>
    intro i fuel2 hi hf hf2
    unfold replace_scan
    by_cases hlt : i < s.length - a.length + 1
    · rw [if_pos hlt]
      have hil : i < s.length := by omega
      have hdrop : s.drop i = s[i] :: s.drop (i + 1) := by
        rw [List.drop_eq_getElem_cons hil]
      obtain ⟨n, rfl⟩ : ∃ n, fuel2 = n + 1 := ⟨fuel2 - 1, by omega⟩
      have hane : a ≠ [] := by
        intro h
        rw [h] at h1
        simp at h1
      rw [hdrop]
      unfold replace_all
      rw [← hdrop]
      by_cases hm : replace_match s a i = true
      · rw [if_pos hm]
        have htake := (replace_match_iff s a i (by omega)).mp hm
        rw [if_pos ⟨hane, htake⟩]
        simp only
        rw [List.drop_drop, List.append_assoc]
        have hidx : i + a.length = i + (a.length - 1) + 1 := by omega
        rw [hidx]
        rw [ih _ n (by omega) (by omega) (by omega)]
      · rw [if_neg hm]
        have hno : ¬ (a ≠ [] ∧ (s.drop i).take a.length = a) := by
          rintro ⟨_, h⟩
          exact hm ((replace_match_iff s a i (by omega)).mpr h)
        rw [if_neg hno]
        simp only [List.cons_append]
        rw [ih _ n (by omega) (by omega) (by omega)]
        congr 1
        rw [List.getD_eq_getElem?_getD, List.getElem?_eq_getElem hil]
        rfl
    · rw [if_neg hlt]
      simp only [List.nil_append]
      exact replace_all_short a b fuel2 _ (by rw [List.length_drop]; omega)

/-- With memory granted, `esh_str_buff_appends` appends the bytes and changes nothing but
the buffer and its capacity. -/
theorem str_buff_appends_ok (vm : esh_vm) (str : List Nat) :
    ∃ cap, esh_str_buff_appends true vm str =
      (0, { vm with str_buff := vm.str_buff ++ str, str_buff_cap := cap }) := by
  unfold esh_str_buff_appends
  by_cases h0 : str.length = 0
  · rw [if_pos h0]
    have : str = [] := List.length_eq_zero.mp h0
    subst this
    refine ⟨vm.str_buff_cap, ?_⟩
    rw [List.append_nil]
  · rw [if_neg h0]
    unfold str_buff_resv
    by_cases hg : vm.str_buff.length + str.length > vm.str_buff_cap
    · rw [if_pos hg, if_neg (by decide)]
      exact ⟨_, rfl⟩
    · rw [if_neg hg]
      exact ⟨_, rfl⟩

/-- With memory granted, `esh_str_buff_appendc` appends the byte and changes nothing but
the buffer and its capacity. -/
theorem str_buff_appendc_ok (vm : esh_vm) (c : Nat) :
    ∃ cap, esh_str_buff_appendc true vm c =
      (0, { vm with str_buff := vm.str_buff ++ [c], str_buff_cap := cap }) := by
  unfold esh_str_buff_appendc str_buff_resv
  by_cases hg : vm.str_buff.length + 1 > vm.str_buff_cap
  · rw [if_pos hg, if_neg (by decide)]
    exact ⟨_, rfl⟩
  · rw [if_neg hg]
    exact ⟨_, rfl⟩

/-- With memory granted and fuel for every position of `s`, the outer loop of `replace` comes
to its end and has appended the bytes of `replace_scan` to the buffer. -/
theorem replace_loop_spec (s a b : List Nat) :
    ∀ fuel i (vm : esh_vm), s.length + 1 ≤ fuel + i →
      ∃ cap, replace_loop true s a b fuel i vm =
        some (0, { vm with
          str_buff := vm.str_buff ++ (replace_scan s a b fuel i).1, str_buff_cap := cap }) := by
  intro fuel
  induction fuel with
  | zero =>
    intro i vm hf
    unfold replace_loop replace_scan
    rw [if_neg (by omega)]
    refine ⟨vm.str_buff_cap, ?_⟩
    rw [List.append_nil]
  | succ fuel ih =>
    intro i vm hf
    unfold replace_loop replace_scan
    by_cases hlt : i < s.length - a.length + 1
    · rw [if_pos hlt, if_pos hlt]
      by_cases hm : replace_match s a i = true
      · rw [if_pos hm, if_pos hm]
        obtain ⟨cap1, h1⟩ := str_buff_appends_ok vm b
        rw [h1]
        simp only
        obtain ⟨cap2, h2⟩ := ih (i + (a.length - 1) + 1)
          { vm with str_buff := vm.str_buff ++ b, str_buff_cap := cap1 } (by omega)
        rw [h2]
        refine ⟨cap2, ?_⟩
        simp only [List.append_assoc]
      · rw [if_neg hm, if_neg hm]
        obtain ⟨cap1, h1⟩ := str_buff_appendc_ok vm (s.getD i 0)
        rw [h1]
        simp only
        obtain ⟨cap2, h2⟩ := ih (i + 1)
          { vm with str_buff := vm.str_buff ++ [s.getD i 0], str_buff_cap := cap1 } (by omega)
        rw [h2]
        refine ⟨cap2, ?_⟩
        simp only [List.append_assoc, List.singleton_append]
    · rw [if_neg hlt, if_neg hlt]
      refine ⟨vm.str_buff_cap, ?_⟩
      rw [List.append_nil]

/-- What `replace` hands to `esh_new_string` for three string arguments with `a` not empty
and not longer than `s`, memory for the buffer granted: the bytes `out` the loop has
appended followed by the last `al - 1` bytes of `s`, where the replacement the doc comment
describes is `out` followed by the bytes of `s` from the end position `i` of the loop on,
and `i` lies between `sl - al + 1` and `sl`. -/
theorem replace_returns (p : Nat) (vm : esh_vm) (s_mem a_mem b_mem : List Nat)
    (sl al bl : Nat)
    (hs : esh_as_string vm.esh 0 = (some (s_mem, sl), vm.esh))
    (ha : esh_as_string vm.esh 1 = (some (a_mem, al), vm.esh))
    (hb : esh_as_string vm.esh 2 = (some (b_mem, bl), vm.esh))
    (hsl : sl ≤ s_mem.length) (hal : al ≤ a_mem.length)
    (h1 : 1 ≤ al) (h2 : al ≤ sl) :
    ∃ (out : List Nat) (i cap : Nat),
      replaced (s_mem.take sl) (a_mem.take al) (b_mem.take bl) =
        out ++ (s_mem.take sl).drop i ∧
      sl - al + 1 ≤ i ∧ i ≤ sl ∧
      replace p true vm 3 0 =
        some (replace_finish p { vm with
          str_buff := out ++ (s_mem.take sl).drop (sl - al + 1), str_buff_cap := cap }) := by
  have hls : (s_mem.take sl).length = sl := by
    rw [List.length_take]; omega
  have hla : (a_mem.take al).length = al := by
    rw [List.length_take]; omega
  have hspec := replace_scan_spec (s_mem.take sl) (a_mem.take al) (b_mem.take bl)
    (by rw [hla]; exact h1) (by rw [hla, hls]; exact h2) (sl + 1) 0 sl (by omega)
    (by omega) (by omega)
  have hend := replace_scan_end (s_mem.take sl) (a_mem.take al) (b_mem.take bl)
    (by rw [hla]; exact h1) (by rw [hla, hls]; exact h2) (sl + 1) 0 (by omega)
    (by omega)
  rw [hls, hla] at hend
  obtain ⟨cap1, hloop⟩ := replace_loop_spec (s_mem.take sl) (a_mem.take al) (b_mem.take bl)
    (sl + 1) 0 (esh_str_buff_begin vm) (by omega)
  obtain ⟨cap2, happ⟩ := str_buff_appends_ok
    { esh_str_buff_begin vm with
      str_buff := (esh_str_buff_begin vm).str_buff ++
        (replace_scan (s_mem.take sl) (a_mem.take al) (b_mem.take bl) (sl + 1) 0).1,
      str_buff_cap := cap1 }
    (((s_mem.take sl).drop (sl - al + 1)).take (al - 1))
  have htail : ((s_mem.take sl).drop (sl - al + 1)).take (al - 1) =
      (s_mem.take sl).drop (sl - al + 1) := by
    apply List.take_of_length_le
    rw [List.length_drop, hls]
    omega
  refine ⟨(replace_scan (s_mem.take sl) (a_mem.take al) (b_mem.take bl) (sl + 1) 0).1,
    (replace_scan (s_mem.take sl) (a_mem.take al) (b_mem.take bl) (sl + 1) 0).2, cap2,
    ?_, hend.1, hend.2, ?_⟩
  · unfold replaced
    rw [hls]
    exact hspec
  · unfold replace
    rw [if_neg (by decide), hs, ha, hb]
    simp only
    rw [if_neg (by omega), hloop]
    simp only
    rw [happ]
    simp only
    rw [htail]
    rfl

/-- For an empty `a`, and for an `a` longer than `s`, `replace` returns `s` itself: it
pushes the first argument again. -/
theorem replace_unchanged (p : Nat) (ok : Bool) (vm : esh_vm) (s_mem a_mem b_mem : List Nat)
    (sl al bl : Nat)
    (hs : esh_as_string vm.esh 0 = (some (s_mem, sl), vm.esh))
    (ha : esh_as_string vm.esh 1 = (some (a_mem, al), vm.esh))
    (hb : esh_as_string vm.esh 2 = (some (b_mem, bl), vm.esh))
    (hcase : al > sl ∨ al = 0)
    (hroom : vm.thread.stack.length < vm.thread.stack_cap) :
    replace p ok vm 3 0 =
      some (⟨0, 1, 0⟩, vm.put { vm.esh with
        stack := vm.thread.stack ++ [stack_at vm.esh vm.thread.current_frame.stack_base] }) ∧
    (al = 0 → replaced (s_mem.take sl) (a_mem.take al) (b_mem.take bl) = s_mem.take sl) := by
  refine ⟨?_, ?_⟩
  · have hoff : ∃ index, stack_offset vm.esh 0 = (some index, vm.esh) ∧
        index = vm.thread.current_frame.stack_base := by
      unfold esh_as_string at hs
      cases hso : stack_offset vm.esh 0 with
      | mk o e =>
        rw [hso] at hs
        cases o with
        | none =>
          simp only at hs
          cases hs
        | some index =>
          have h1 := stack_offset_some (show (stack_offset vm.esh 0).1 = some index by rw [hso])
          rw [hso] at h1
          refine ⟨index, h1, ?_⟩
          unfold stack_offset at hso
          simp only at hso
          rw [if_neg (by decide)] at hso
          split_ifs at hso <;>
            first
            | (have h3 := Option.some.inj (Prod.mk.inj hso).1
               rw [← h3]
               rfl)
            | (exact Option.noConfusion (Prod.mk.inj hso).1)
    obtain ⟨index, hoff1, hidx⟩ := hoff
    unfold replace
    rw [if_neg (by decide), hs, ha, hb]
    simp only
    rw [if_pos hcase]
    unfold esh_dup
    rw [hoff1]
    simp only
    rw [stack_push_ok (show vm.esh.stack_len < vm.esh.stack_cap from hroom), hidx]
    rfl
  · intro h0
    unfold replaced
    have hnil : a_mem.take al = [] := by rw [h0]; rfl
    rw [hnil]
    generalize (s_mem.take sl).length = n
    generalize s_mem.take sl = t
    induction n generalizing t with
    | zero => rfl
    | succ n ih =>
      cases t with
      | nil => rfl
      | cons c rest =>
        unfold replace_all
        rw [if_neg (by simp), ih rest]

/-- C31 (code defect, evaluated at failing inputs).  After its loop `replace` appends the
last `al - 1` bytes of `s` whether or not the loop has already passed them as part of an
occurrence of `a`.  `replace "ab" "ab" "x"` returns "xb" where the replacement is "x",
`replace "xab" "ab" "-"` returns "x-b" (not "x-") and `replace "abcab" "ab" ""` returns
"cb" (not "c").  When no occurrence reaches into the last `al - 1` bytes the result is
the replacement: `replace "abcd" "bc" "-"` is "a-d" and `replace "aXbXc" "X" ""` is "abc";
with an empty `a` the string comes back unchanged. -/
theorem C31_replace_repeats_tail :
    replace_result (replace 128 true (replace_call [97, 98] [97, 98] [120]) 3 0) =
      some (0, 1, some [120, 98]) ∧
    replaced [97, 98] [97, 98] [120] = [120] ∧
    replace_result (replace 128 true (replace_call [120, 97, 98] [97, 98] [45]) 3 0) =
      some (0, 1, some [120, 45, 98]) ∧
    replaced [120, 97, 98] [97, 98] [45] = [120, 45] ∧
    replace_result (replace 128 true (replace_call [97, 98, 99, 97, 98] [97, 98] []) 3 0) =
      some (0, 1, some [99, 98]) ∧
    replaced [97, 98, 99, 97, 98] [97, 98] [] = [99] ∧
    replace_result (replace 128 true (replace_call [97, 98, 99, 100] [98, 99] [45]) 3 0) =
      some (0, 1, some [97, 45, 100]) ∧
    replaced [97, 98, 99, 100] [98, 99] [45] = [97, 45, 100] ∧
    replace_result (replace 128 true (replace_call [97, 88, 98, 88, 99] [88] []) 3 0) =
      some (0, 1, some [97, 98, 99]) ∧
    replaced [97, 88, 98, 88, 99] [88] [] = [97, 98, 99] ∧
    replace_result (replace 128 true (replace_call [97, 98, 99] [] [122]) 3 0) =
      some (0, 1, some [97, 98, 99]) := by
  refine ⟨by decide, by decide, by decide, by decide, by decide, by decide, by decide,
    by decide, by decide, by decide, by decide⟩

/-! ## The write barrier -/

/-- The barrier on an object with tag 2 gives it tag 1, takes it from the list `visited`
and puts it at the head of `to_visit`; on any other object it changes nothing. -/
theorem write_barrier_regreys (g : gc_state) (a : Nat) :
    (g.gc_tag a = 2 →
      (gc_obj_write_barrier g a).gc_tag a = 1 ∧
      (gc_obj_write_barrier g a).to_visit = a :: g.to_visit ∧
      (gc_obj_write_barrier g a).visited = g.visited.erase a ∧
      (gc_obj_write_barrier g a).objects = g.objects ∧
      ∀ b, b ≠ a → (gc_obj_write_barrier g a).gc_tag b = g.gc_tag b) ∧
    (g.gc_tag a ≠ 2 → gc_obj_write_barrier g a = g) := by
  constructor
  · intro h
    unfold gc_obj_write_barrier
    rw [if_pos h]
    exact ⟨if_pos rfl, rfl, rfl, rfl, fun b hb => if_neg hb⟩
  · intro h
    unfold gc_obj_write_barrier
    rw [if_neg h]

/-- Where the barrier is called for the object that is written, the invariant survives
the write: if the objects on `visited` are there once and have tag 2, and the write
changes the values of the object at `a` only, the barrier for `a` leaves no object on
`visited` that points to an object with tag 0. -/
theorem write_barrier_keeps_tri_color (vm vm1 : esh_vm) (g : gc_state) (a : Nat)
    (hnodup : g.visited.Nodup) (htag : ∀ b ∈ g.visited, g.gc_tag b = 2)
    (htri : tri_color vm g)
    (hother : ∀ b, b ≠ a → gc_children vm1 b = gc_children vm b)
    (hobj : ∀ v, is_object vm1 v = is_object vm v) :
    tri_color vm1 (gc_obj_write_barrier g a) := by
  intro b hb v hv hvo
  by_cases h : g.gc_tag a = 2
  · obtain ⟨_, _, hvis, _, hothers⟩ := (write_barrier_regreys g a).1 h
    rw [hvis] at hb
    have hba : b ≠ a := fun e => by
      rw [e] at hb
      exact (List.Nodup.not_mem_erase hnodup) hb
    have hb1 : b ∈ g.visited := List.mem_of_mem_erase hb
    rw [hother b hba] at hv
    rw [hobj] at hvo
    by_cases hva : v = a
    · rw [hva, ((write_barrier_regreys g a).1 h).1]; decide
    · rw [hothers v hva]; exact htri b hb1 v hv hvo
  · rw [(write_barrier_regreys g a).2 h] at hb ⊢
    have hba : b ≠ a := fun e => h (e ▸ htag b hb)
    rw [hother b hba] at hv
    rw [hobj] at hvo
    exact htri b hb v hv hvo

/-- Without collection steps the array function of this section leaves the stack and the
table that `esh_new_array` leaves. -/
theorem new_array_gc_agrees :
    (esh_new_array_gc 16 (fun _ => (true, true)) 96 (open_state 0 0) 2).map
        (fun r => (r.1, r.2.vm.esh.stack, (r.2.vm.esh.heap 96).map (fun h => h.obj))) =
      (esh_new_array (fun _ => (true, true)) 96 (open_state 0 0).vm.esh 2).map
        (fun r => (r.1, r.2.stack, (r.2.heap 96).map (fun h => h.obj))) := by
  decide

/-- C35 (violated by the code): `esh_new_c_fn` stores the template in its closure without
a call of the barrier.  With a collection step every second allocation and three objects
per step, the step inside the call visits the closure (tag 2, on `visited`); the template
is allocated afterwards (tag 0) and stored in the closure, so that an object on `visited`
points to an object with tag 0.  The barrier for the closure would have restored the
invariant.  The next full collection frees the template while the closure, which stays on
the stack, still points to it.  In `esh_new_array` the barrier is called for the globals
object and not for the array: the array is written while it is on `visited` and stays
there. -/
theorem C35_closure_written_without_barrier :
    lists_summary (esh_new_c_fn_gc 16 96 112 true (open_state 2 3) 7 0 0 false) =
      some (0, [64, 80, 96], [112], [80, 64], [96, 48, 8]) ∧
    (∃ s, state_of (esh_new_c_fn_gc 16 96 112 true (open_state 2 3) 7 0 0 false) = some s ∧
      s.g.gc_tag 96 = 2 ∧ s.g.gc_tag 112 = 0 ∧ gc_children s.vm 96 = [112, 0] ∧
      is_object s.vm 112 = true ∧
      ¬ tri_color s.vm s.g ∧
      tri_color s.vm (gc_obj_write_barrier s.g 96) ∧
      gc_summary (esh_gc 16 s.vm s.g 0) = some ([64, 80, 96, 48, 8], [], [], [112]) ∧
      ∃ r, esh_gc 16 s.vm s.g 0 = some r ∧ 96 ∈ r.1.thread.stack ∧ r.1.heap 112 = none ∧
        dangling r.1 96) ∧
    lists_summary (esh_new_c_fn_gc 16 96 112 true (open_state 256 64) 7 0 0 false) =
      some (0, [64, 80, 96], [112, 96, 80, 64, 48, 8], [], []) ∧
    lists_summary (esh_new_array_gc 16 (fun _ => (true, true)) 96 (open_state 2 3) 1) =
      some (0, [64, 96], [], [80, 64], [96, 48, 8]) ∧
    (∃ s, state_of (esh_new_array_gc 16 (fun _ => (true, true)) 96 (open_state 2 3) 1) =
        some s ∧
      s.g.gc_tag 96 = 2 ∧ gc_children s.vm 96 = [80] ∧ s.g.gc_tag 80 = 1 ∧
      s.g.gc_tag s.vm.globals = 2) := by
  refine ⟨by decide, ⟨_, rfl, by decide, by decide, by decide, by decide, by decide,
    by decide, by decide, ⟨_, rfl, by decide, by decide, by decide⟩⟩, by decide, by decide,
    ⟨_, rfl, by decide, by decide, by decide, by decide⟩⟩

/-! ## Iteration over keys with a NUL byte -/

/-- C7 (code defect, evaluated at a failing input).  `esh_iter_next` delivers the key of an
entry as the string value `esh_new_string` builds, and a key shorter than six bytes becomes
an inline string, which is read back up to its first NUL byte.  The table with the two live
entries `a\0b` -> 5 and `a\0c` -> 7 (as two calls of `esh_set_s` with key length 3 leave
it) satisfies the table invariant and has `len` 2; the caller's loop over it reads two
pairs, in slot order, with the values 7 and 5, but both with the key `a`: neither key of
the table is produced, and the keys produced are not distinct. -/
theorem C7_inline_keys_cut :
    run_calls nul_key_calls esh_object_init_entries = some nul_key_object ∧
    wf nul_key_object ∧ nul_key_object.len = 2 ∧
    (nul_key_object.entries.filter is_live).map (fun e => (e.key, e.val)) =
      [(some [97, 0, 99], 7), (some [97, 0, 98], 5)] ∧
    pairs_read (iterate (fun _ => 16) 0 (nul_key_object.cap + 1) 0 nul_key_state
        esh_iter_begin []) = some [([97], 7), ([97], 5)] ∧
    ¬ (((pairs_read (iterate (fun _ => 16) 0 (nul_key_object.cap + 1) 0 nul_key_state
        esh_iter_begin [])).getD []).map (fun kv => kv.1)).Nodup ∧
    (∀ kv ∈ (pairs_read (iterate (fun _ => 16) 0 (nul_key_object.cap + 1) 0 nul_key_state
        esh_iter_begin [])).getD [],
      ∀ e ∈ nul_key_object.entries, e.key ≠ some kv.1) := by
  refine ⟨by decide, by decide, by decide, by decide, by decide, by decide, by decide⟩

/-! ## Uncaught panics under `esh_exec_fn` -/

/-- The function `run_vm` runs its loop from the state `loop_entry` gives. -/
theorem run_vm_loop_entry (w : Nat → world) (fuel : Nat) (vm vms : esh_vm) (entrypoint : Nat)
    (h : loop_entry (w 0) vm entrypoint = some vms) :
    run_vm w fuel vm entrypoint = vm_loop w fuel 1 vms := by
  unfold loop_entry at h
  unfold run_vm
  by_cases henv : vm.thread.current_frame.env ≠ 0
  · rw [if_pos henv] at h; cases h
  rw [if_neg henv] at h ⊢
  cases hcl : vm.closures entrypoint with
  | none => simp only [hcl] at h; cases h
  | some cl =>
    simp only [hcl] at h ⊢
    cases hf : vm.functions cl.fn with
    | none => simp only [hf] at h; cases h
    | some f =>
      simp only [hf] at h ⊢
      cases hreq : esh_req_stack (w 0).stack_ok vm.esh 64 with
      | mk code esh1 =>
        simp only [hreq] at h ⊢
        cases code with
        | succ c => simp only at h; cases h
        | zero =>
          simp only at h ⊢
          by_cases hup : f.upval_locals = true ∧ (f.n_locals ≠ 0 ∨ cl.env ≠ 0)
          · simp only [if_pos hup] at h ⊢
            cases henvo : new_env_object (w 0).obj (vm.put esh1) f.n_locals with
            | mk o vm2 =>
              simp only [henvo] at h ⊢
              cases o with
              | none => simp only at h; cases h
              | some new_env =>
                simp only [hup.1, Bool.true_eq_false, if_false] at h ⊢
                cases h
                rfl
          · simp only [if_neg hup] at h ⊢
            by_cases hup2 : f.upval_locals = false
            · simp only [hup2, if_true] at h ⊢
              cases hresv : stack_resv (w 0).stack_ok
                  ({ vm.put esh1 with thread := { (vm.put esh1).thread with
                    current_frame :=
                      { stack_base := (vm.put esh1).stack_len, fn := cl.fn, env := 0,
                        instr_index := 0, n_args := 0, expected_returns := 0, c_locals := 0,
                        c_locals_free := 0, catch_panic := false } } } : esh_vm).esh f.n_locals with
              | mk c esh2 =>
                simp only [hresv] at h ⊢
                cases c with
                | succ c => simp only at h; cases h
                | zero =>
                  simp only at h ⊢
                  cases h
                  rfl
            · simp only [if_neg hup2] at h ⊢
              cases h
              rfl

/-- A return of the loop in pass `n + 1` is the result of `run_vm`'s loop with fuel for
that many passes. -/
theorem vm_loop_of_steps (w : Nat → world) (code : Nat) (vmr : esh_vm) :
    ∀ (n t fuel : Nat) (vm vmp : esh_vm), vm_steps w n t vm = some (.running vmp) →
      vm_step (w (t + n)) vmp = some (.returned code vmr) → n + 1 ≤ fuel →
      vm_loop w fuel t vm = some (code, vmr) := by
  intro n
  induction n with
  | zero =>
    intro t fuel vm vmp hs hr hf
    unfold vm_steps at hs
    cases hs
    obtain ⟨F, rfl⟩ : ∃ F, fuel = F + 1 := ⟨fuel - 1, by omega⟩
    unfold vm_loop
    rw [Nat.add_zero] at hr
    rw [hr]
  | succ n ih =>
    intro t fuel vm vmp hs hr hf
    obtain ⟨F, rfl⟩ : ∃ F, fuel = F + 1 := ⟨fuel - 1, by omega⟩
    unfold vm_steps at hs
    unfold vm_loop
    cases hstep : vm_step (w t) vm with
    | none => rw [hstep] at hs; cases hs
    | some st =>
      rw [hstep] at hs
      cases st with
      | returned c v => cases hs
      | running v =>
        simp only at hs ⊢
        exact ih (t + 1) F v vmp hs (by rw [show t + 1 + n = t + (n + 1) by omega]; exact hr)
          (by omega)

/-- The code at `PANIC` when no frame of the running thread catches: the locals of the
frames are freed, the stack is cut to the base of the lowest frame of the thread, the frame
stack is emptied, and `run_vm` returns 1. -/
theorem panic_unwind_uncaught (w : world) (vm : esh_vm) (s : vm_status)
    (hno : ∀ frame ∈ vm.thread.stack_frames, frame.catch_panic = false)
    (h : panic_unwind w vm = some s) :
    ∃ vm1, s = .returned 1 vm1 ∧
      base_above vm.thread.stack_frames vm.thread.current_frame ≤ vm.thread.stack.length ∧
      vm1.thread.stack =
        vm.thread.stack.take (base_above vm.thread.stack_frames vm.thread.current_frame) ∧
      vm1.thread.stack_frames = [] ∧
      vm1.thread.current_frame =
        { vm.thread.current_frame with c_locals := 0, c_locals_free := 0 } ∧
      vm1.err = vm.err ∧ vm1.current_thread = vm.current_thread := by
  unfold panic_unwind at h
  simp only at h
  rw [find_catch_none _ hno] at h
  simp only [Option.isNone_none, Option.isSome_none, if_true, Bool.false_eq_true, if_false,
    Option.getD_none] at h
  split at h
  · cases h
  rename_i vm2 htr
  obtain ⟨he, ht, hc, _, _, _, _⟩ := generate_stack_trace_fields htr
  have hbase : (if 0 = vm.thread.stack_frames.length then vm2.thread.current_frame.stack_base
      else (vm.thread.stack_frames.getD 0 vm2.thread.current_frame).stack_base) =
      base_above vm.thread.stack_frames vm.thread.current_frame := by
    rw [ht]
    unfold base_above frames_above free_stack_frame
    cases vm.thread.stack_frames with
    | nil => rfl
    | cons x xs => rfl
  rw [hbase] at h
  split at h
  · cases h
  rename_i stack hstack
  obtain ⟨hle, hstk⟩ := set_stack_len_some hstack
  rw [ht] at hle hstk
  cases h
  refine ⟨_, rfl, hle, hstk, by simp, ?_, he, hc⟩
  show vm2.thread.current_frame = _
  rw [ht]
  rfl

/-- C21 (amended): When the closure that `esh_exec_fn` executes panics on the thread that
called `esh_exec_fn` and no frame of that thread catches the panic, `esh_exec_fn` returns
the failure code 2 and leaves the value stack one value below the length recorded at
entry (the closure is removed, the slots below it are as the run left them), the frame
stack empty, the frame of the caller current again, and the error message as the panic
left it.  The run is given pass by pass: after `t` passes the loop of `run_vm` is in the
state `vmp`, the next pass jumps to `PANIC` with the state `vmq`, no frame of the running
thread has `catch_panic` set, the lowest frame of that thread lies above the recorded
stack, as the frame of the executed closure does, and the assertions of the code at `PANIC`
hold. -/
theorem C21_exec_fn_panic (w : Nat → world) (fuel t : Nat) (vm vms vmp vmq : esh_vm)
    (below : List esh_val) (entrypoint : Nat)
    (hfn : vm.thread.current_frame.fn = 0) (henv : vm.thread.current_frame.env = 0)
    (hbase : vm.thread.current_frame.stack_base = 0)
    (hloc : vm.thread.current_frame.c_locals = 0)
    (hstack : vm.thread.stack = below ++ [entrypoint])
    (hobj : val_as_object vm.heap entrypoint (some esh_type_ptr.closure_type) ≠ none)
    (hentry : loop_entry (w 0) { vm with stack_trace := none } entrypoint = some vms)
    (hsteps : vm_steps w t 1 vms = some (.running vmp))
    (hpanic : vm_pass (w (1 + t)) vmp = some (.PANIC vmq))
    (hno : ∀ frame ∈ vmq.thread.stack_frames, frame.catch_panic = false)
    (hthread : vm.thread.stack.length ≤
      base_above vmq.thread.stack_frames vmq.thread.current_frame)
    (hassert : (panic_unwind (w (1 + t)) vmq).isSome = true)
    (hfuel : t + 1 ≤ fuel) :
    ∃ vm1, esh_exec_fn w fuel vm = some (2, vm1) ∧
      vm1.thread.stack = vmq.thread.stack.take below.length ∧
      vm1.thread.stack.length + 1 = vm.thread.stack.length ∧
      vm1.thread.stack_frames = [] ∧
      vm1.thread.current_frame = vm.thread.current_frame ∧
      vm1.err = vmq.err ∧ vm1.current_thread = vmq.current_thread := by
  cases hpu : panic_unwind (w (1 + t)) vmq with
  | none => rw [hpu] at hassert; cases hassert
  | some s =>
    obtain ⟨vmr, hs, hle, hstk, hframes, hcur, herr, hct⟩ :=
      panic_unwind_uncaught (w (1 + t)) vmq s hno hpu
    subst hs
    have hstep : vm_step (w (1 + t)) vmp = some (.returned 1 vmr) := by
      unfold vm_step
      rw [hpanic]
      exact hpu
    have hloop := vm_loop_of_steps w 1 vmr t 1 fuel vms vmp hsteps hstep hfuel
    have hrun := run_vm_loop_entry w fuel _ vms entrypoint hentry
    rw [hloop] at hrun
    have hlen : vm.thread.stack.length = below.length + 1 := by rw [hstack]; simp
    have htop := stack_offset_top ({ vm with stack_trace := none } : esh_vm).esh below entrypoint
      hstack (by show vm.thread.current_frame.stack_base ≤ _; omega)
    cases ho : val_as_object vm.heap entrypoint (some esh_type_ptr.closure_type) with
    | none => exact absurd ho hobj
    | some o =>
      have hrlen : vmr.thread.stack.length =
          base_above vmq.thread.stack_frames vmq.thread.current_frame := by
        rw [hstk, List.length_take]; omega
      have hset : set_stack_len vmr.thread.stack (below.length + 1) =
          some (vmr.thread.stack.take (below.length + 1)) := by
        unfold set_stack_len
        rw [if_pos (by omega)]
      refine ⟨{ vmr with thread := { vmr.thread with
        current_frame := vm.thread.current_frame,
        stack := (vmr.thread.stack.take (below.length + 1)).take below.length } }, ?_, ?_, ?_,
        hframes, rfl, herr, hct⟩
      · unfold esh_exec_fn
        simp only
        rw [if_neg (by simp [hfn])]
        rw [if_neg (by simp [henv, hbase, hloc])]
        rw [htop.1]
        simp only
        rw [htop.2]
        have ho' : val_as_object ({ vm with stack_trace := none } : esh_vm).heap entrypoint
            (some esh_type_ptr.closure_type) = some o := ho
        rw [ho']
        simp only
        rw [hrun]
        simp only
        rw [if_neg (by
          simp [esh_co_thread.stack_frames_len, hframes, hcur])]
        rw [if_neg (by simp)]
        have hsl : ({ vm with stack_trace := none } : esh_vm).stack_len = below.length + 1 := hlen
        rw [hsl, hset]
        simp only
        have hpos : (vmr.thread.stack.take (below.length + 1)).length = below.length + 1 := by
          rw [List.length_take]; omega
        rw [if_neg (by rw [hpos]; exact not_not.mpr (Nat.succ_pos _))]
        rw [if_neg (by decide)]
        simp only [esh_vm.stack_len]
        rw [if_pos (by rw [hpos]; exact Nat.succ_pos _), hpos]
        rfl
      · show (vmr.thread.stack.take (below.length + 1)).take below.length = _
        rw [List.take_take, hstk, List.take_take]
        congr 1
        omega
      · show ((vmr.thread.stack.take (below.length + 1)).take below.length).length + 1 = _
        rw [List.take_take, List.length_take, hlen]
        omega

theorem C21_exec_fn_panic_witness :
    ∃ vm1, esh_exec_fn (fun _ => sample_world) 8 (sample_vm failing_function [7, 16]) =
        some (2, vm1) ∧
      vm1.thread.stack = [7] ∧ vm1.thread.stack.length + 1 = 2 ∧
      vm1.thread.stack_frames = [] ∧ vm1.err = some "Unknown global variable" := by
  obtain ⟨vm1, h1, h2, h3, h4, _, h6, _⟩ :=
    C21_exec_fn_panic (fun _ => sample_world) 8 0 (sample_vm failing_function [7, 16]) _ _ _
      [7] 16 rfl rfl rfl rfl rfl (by decide) rfl rfl rfl (by decide) (by decide) rfl
      (by decide)
  exact ⟨vm1, h1, h2.trans rfl, h3, h4, h6.trans rfl⟩

/-! ## The arguments of the command dispatcher -/

theorem top_slots (l : List esh_val) (k : Nat) (hk : k ≤ l.length) :
    (List.range k).map (fun i => l.getD (l.length - k + i) ESH_NULL) = l.drop (l.length - k) := by
  apply List.ext_getElem
  · simp; omega
  · intro i h1 h2
    simp only [List.getElem_map, List.getElem_range, List.getElem_drop]
    rw [List.getD_eq_getElem?_getD, List.getElem?_eq_getElem (by simp at h1; omega)]
    rfl

theorem pop_pushed (e : esh_state) (st : List esh_val) (p : esh_val)
    (he : e.stack = st ++ [p]) (hb : e.stack_base ≤ st.length) : (esh_pop e 1).stack = st := by
  unfold esh_pop
  simp only [esh_state.stack_len, he, List.length_append, List.length_singleton]
  rw [if_pos (by omega)]
  simp

/-- With memory granted, `enter_fn` past the arity check pushes the frame, and the `k`
arguments are where the callee reads them: from the base of the frame on for a native
function, as the first locals on the stack (followed by NULL up to `n_locals`) for a
template that keeps its locals there, and as the first locals of the new environment for a
template with captured locals. -/
theorem enter_frame_locals (w : world) (vm : esh_vm) (k er : Nat) (cl : esh_closure)
    (f : esh_function) (cp : Bool)
    (hcap : vm.thread.stack.length ≤ vm.thread.stack_cap)
    (hk : k ≤ vm.thread.stack.length)
    (hbase : vm.thread.current_frame.stack_base ≤ vm.thread.stack.length)
    (hframes : w.frames_ok = true) (hstk : w.stack_ok = true)
    (hobj : f.c_fn = 0 → f.upval_locals = true → w.obj ≠ 0)
    (hlocals : f.c_fn = 0 → k ≤ f.n_locals) :
    ∃ vm1, enter_frame w vm k er cl f cp = some (0, vm1) ∧ frame_pushed vm vm1 cl k er cp ∧
      vm1.thread.current_frame.stack_base = vm.thread.stack.length - k ∧
      (f.c_fn ≠ 0 → vm1.thread.stack = vm.thread.stack) ∧
      (f.c_fn = 0 → f.upval_locals = false →
        vm1.thread.stack = vm.thread.stack ++ List.replicate (f.n_locals - k) ESH_NULL ∧
        vm1.thread.current_frame.env = cl.env) ∧
      (f.c_fn = 0 → f.upval_locals = true →
        vm1.thread.stack = vm.thread.stack.take (vm.thread.stack.length - k) ∧
        vm1.thread.current_frame.env = w.obj ∧
        vm1.envs w.obj = some ⟨cl.env, vm.thread.stack.drop (vm.thread.stack.length - k) ++
          List.replicate (f.n_locals - k) ESH_NULL⟩) := by
  have key : ∀ vm0 : esh_vm, vm0.thread.stack = vm.thread.stack →
      vm0.thread.stack_cap = vm.thread.stack_cap →
      vm0.thread.current_frame = vm.thread.current_frame →
      vm0.thread.stack_frames = vm.thread.stack_frames → vm0.heap = vm.heap →
      ∃ vm1,
        (if f.c_fn = 0 then
          if f.upval_locals then
            match esh_req_stack w.stack_ok vm0.esh (k + ESH_FN_DEFAULT_STACK_CAP) with
            | (0, esh1) =>
              match new_env_object w.obj (vm0.put esh1) f.n_locals with
              | (none, vm2) => some (1, vm2)
              | (some new_env, vm2) =>
                if k > f.n_locals then none
                else
                  let args :=
                    (List.range k).map (fun i => stack_at vm2.esh (vm2.stack_len - k + i))
                  let locals := args ++ List.replicate (f.n_locals - k) ESH_NULL
                  let vm3 : esh_vm :=
                    { vm2 with
                      envs := store vm2.envs new_env ⟨cl.env, locals⟩,
                      thread := { vm2.thread with
                        stack := vm2.thread.stack.take (vm2.stack_len - k) } }
                  some (0, push_frame vm3 vm3.stack_len new_env cl.fn k er cp)
            | (_, esh1) => some (1, vm0.put esh1)
          else
            match esh_req_stack w.stack_ok vm0.esh (f.n_locals + ESH_FN_DEFAULT_STACK_CAP) with
            | (0, esh1) =>
              if ¬ f.n_locals ≥ k then none
              else
                let esh2 := (stack_resv w.stack_ok esh1 (f.n_locals - k)).2
                some (0, push_frame (vm0.put esh2) (vm0.stack_len - k) cl.env cl.fn k er cp)
            | (_, esh1) => some (1, vm0.put esh1)
        else
          match esh_req_stack w.stack_ok vm0.esh (k + C_FN_DEFAULT_STACK_CAP) with
          | (0, esh1) => some (0, push_frame (vm0.put esh1) (vm0.stack_len - k) 0 cl.fn k er cp)
          | (_, esh1) => some (1, vm0.put esh1)) = some (0, vm1) ∧
        frame_pushed vm vm1 cl k er cp ∧
        vm1.thread.current_frame.stack_base = vm.thread.stack.length - k ∧
        (f.c_fn ≠ 0 → vm1.thread.stack = vm.thread.stack) ∧
        (f.c_fn = 0 → f.upval_locals = false →
          vm1.thread.stack = vm.thread.stack ++ List.replicate (f.n_locals - k) ESH_NULL ∧
          vm1.thread.current_frame.env = cl.env) ∧
        (f.c_fn = 0 → f.upval_locals = true →
          vm1.thread.stack = vm.thread.stack.take (vm.thread.stack.length - k) ∧
          vm1.thread.current_frame.env = w.obj ∧
          vm1.envs w.obj = some ⟨cl.env, vm.thread.stack.drop (vm.thread.stack.length - k) ++
            List.replicate (f.n_locals - k) ESH_NULL⟩) := by
    intro vm0 e1 e2 e3 e4 e5
    have hcap0 : vm0.esh.stack_len ≤ vm0.esh.stack_cap := by
      show vm0.thread.stack.length ≤ vm0.thread.stack_cap
      rw [e1, e2]; exact hcap
    by_cases hc : f.c_fn = 0
    · rw [if_pos hc]
      by_cases hup : f.upval_locals = true
      · rw [if_pos hup]
        obtain ⟨cap, h1, h2, _⟩ := req_stack_ok w.stack_ok vm0.esh
          (k + ESH_FN_DEFAULT_STACK_CAP) hcap0 (Or.inl hstk)
        rw [h1]
        simp only
        unfold new_env_object
        rw [new_object_ok w.obj _ _ (by
          show vm0.thread.stack.length ≠ cap
          have : vm0.thread.stack.length + (k + ESH_FN_DEFAULT_STACK_CAP) ≤ cap := h2
          unfold ESH_FN_DEFAULT_STACK_CAP at this
          omega) (hobj hc hup)]
        simp only
        rw [if_neg (by have := hlocals hc; omega)]
        have hpop : ∀ e : esh_state, e.stack = vm0.thread.stack ++ [w.obj] →
            e.stack_base = vm0.thread.current_frame.stack_base →
            (esh_pop e 1).stack = vm.thread.stack := by
          intro e he
          intro hb
          rw [pop_pushed e _ _ he (by rw [hb, e3, e1]; exact hbase), e1]
        refine ⟨_, rfl, ?_, ?_, fun h => absurd hc h, fun _ h => ?_, fun _ _ => ⟨?_, rfl, ?_⟩⟩
        · unfold frame_pushed push_frame
          simp [esh_vm.put, (esh_pop_fields _ _).1, esh_vm.esh, e3, e4]
        · show (List.take _ _).length = _
          simp only [esh_vm.stack_len, esh_vm.put]
          rw [hpop _ rfl rfl, List.length_take]
          omega
        · rw [hup] at h; cases h
        · show List.take _ _ = _
          simp only [esh_vm.stack_len, esh_vm.put]
          rw [hpop _ rfl rfl]
        · show store _ _ _ _ = _
          unfold store
          rw [if_pos rfl]
          simp only [esh_vm.stack_len, esh_vm.put, stack_at, esh_vm.esh]
          rw [hpop _ rfl rfl, top_slots _ _ hk]
      · rw [if_neg hup]
        obtain ⟨cap, h1, h2, _⟩ := req_stack_ok w.stack_ok vm0.esh
          (f.n_locals + ESH_FN_DEFAULT_STACK_CAP) hcap0 (Or.inl hstk)
        rw [h1]
        simp only
        rw [if_neg (by have := hlocals hc; omega)]
        obtain ⟨cap2, r1, _⟩ := stack_resv_ok w.stack_ok
          ({ vm0.esh with stack_cap := cap } : esh_state) (f.n_locals - k)
          (by show vm0.esh.stack_len ≤ cap; omega) (Or.inl hstk)
        rw [r1]
        refine ⟨_, rfl, ?_, ?_, fun h => absurd hc h, fun _ _ => ⟨?_, rfl⟩,
          fun _ h => absurd h hup⟩
        · unfold frame_pushed push_frame
          simp [esh_vm.put, esh_vm.esh, e3, e4]
        · show vm0.thread.stack.length - k = _
          rw [e1]
        · show vm0.thread.stack ++ _ = _
          rw [e1]
    · rw [if_neg hc]
      obtain ⟨cap, h1, h2, _⟩ := req_stack_ok w.stack_ok vm0.esh
        (k + C_FN_DEFAULT_STACK_CAP) hcap0 (Or.inl hstk)
      rw [h1]
      refine ⟨_, rfl, ?_, ?_, fun _ => ?_, fun h => absurd h hc, fun h => absurd h hc⟩
      · unfold frame_pushed push_frame
        simp [esh_vm.put, esh_vm.esh, e3, e4]
      · show vm0.thread.stack.length - k = _
        rw [e1]
      · show vm0.thread.stack = _
        rw [e1]
  unfold enter_frame
  rw [if_neg (by rw [hframes]; simp)]
  simp only
  by_cases hfull : vm.thread.stack_frames_len = vm.thread.stack_frames_cap
  · simp only [if_pos hfull]
    exact key _ rfl rfl rfl rfl rfl
  · simp only [if_neg hfull]
    exact key vm rfl rfl rfl rfl rfl

/-- C19: When `CMD` with `n` arguments and flag byte `l` finds no global of the command's
name and a dispatcher is registered, whatever value that is, it pushes the command name,
the pipe-in flag (`"true"` iff bit 1 of `l` is set, else NULL) and the capture flag
(`"true"` iff bit 0 of `l` is set, else NULL) and calls the dispatcher through `enter_fn`
with `n + 3` arguments, which are the `n` command arguments in order, then the name and
the two flags.  For a dispatcher that is a closure accepting that count: a coroutine
closure gets its coroutine created from these arguments; any other closure is entered,
with memory granted, and its frame holds the `n + 3` arguments in that order from its base
on (native function), as its first locals on the stack, followed by NULL up to `n_locals`
(template with its locals on the stack), or as the first locals of its new environment
(template with captured locals). -/
theorem C19_dispatcher_arguments (w : world) (vm : esh_vm) (f : esh_function)
    (instr : instr_regs) (below args : List esh_val) (name : esh_val) (cmd : List Nat)
    (cmdlen : Nat) (globals : heap_object)
    (hop : esh_opcode.of_byte instr.op = some esh_opcode.CMD)
    (hst : vm.thread.stack = below ++ [name] ++ args) (hargs : args.length = instr.arg)
    (hbase : vm.thread.current_frame.stack_base ≤ below.length)
    (hname : val_as_string vm.heap name = some (cmd, cmdlen))
    (hglobals : vm.heap vm.globals = some globals)
    (hmiss : esh_object_get globals.obj (cmd.take cmdlen) = some none)
    (hcmd : vm.cmd ≠ ESH_NULL)
    (hroom : vm.thread.stack.length + 3 ≤ vm.thread.stack_cap)
    (hsmall : instr.arg + 4 < SIZE_MOD) :
    ∃ vmx,
      exec_instr w vm f instr =
        call_signal (enter_fn w vmx (instr.arg + 3) (fold_next_unpack_instr vm.incr f).1
          (some vm.cmd) false) ∧
      vmx.thread.stack = vm.thread.stack ++ dispatcher_flags name instr.l ∧
      vmx.thread.stack.drop (vmx.thread.stack.length - (instr.arg + 3)) =
        args ++ dispatcher_flags name instr.l ∧
      ∀ (cl : esh_closure) (d : esh_function),
        val_as_object vm.heap vm.cmd (some esh_type_ptr.closure_type) ≠ none →
        vm.closures vm.cmd = some cl → vm.functions cl.fn = some d →
        d.n_args ≤ instr.arg + 3 →
        (instr.arg + 3 ≤ d.n_args + d.opt_args ∨ d.variadic = true) →
        d.n_args + d.opt_args < SIZE_MOD →
        (cl.is_coroutine = true →
          exec_instr w vm f instr =
            call_signal (create_coroutine w vmx (instr.arg + 3)
              (fold_next_unpack_instr vm.incr f).1 cl d)) ∧
        (cl.is_coroutine = false → w.frames_ok = true → w.stack_ok = true →
          (d.c_fn = 0 → d.upval_locals = true → w.obj ≠ 0) →
          (d.c_fn = 0 → instr.arg + 3 ≤ d.n_locals) →
          ∃ vm1, exec_instr w vm f instr = some (.cont vm1) ∧
            frame_pushed (fold_next_unpack_instr vm.incr f).2 vm1 cl (instr.arg + 3)
              (fold_next_unpack_instr vm.incr f).1 false ∧
            (d.c_fn ≠ 0 →
              vm1.thread.stack.drop vm1.thread.current_frame.stack_base =
                args ++ dispatcher_flags name instr.l) ∧
            (d.c_fn = 0 → d.upval_locals = false →
              vm1.thread.stack.drop vm1.thread.current_frame.stack_base =
                args ++ dispatcher_flags name instr.l ++
                  List.replicate (d.n_locals - (instr.arg + 3)) ESH_NULL) ∧
            (d.c_fn = 0 → d.upval_locals = true →
              vm1.envs vm1.thread.current_frame.env =
                some ⟨cl.env, args ++ dispatcher_flags name instr.l ++
                  List.replicate (d.n_locals - (instr.arg + 3)) ESH_NULL⟩)) := by
  have hlen : vm.thread.stack.length = below.length + 1 + instr.arg := by
    rw [hst]; simp [hargs]; omega
  have hslot : stack_at vm.esh (vm.stack_len - instr.arg - 1) = name := by
    show vm.thread.stack.getD (vm.thread.stack.length - instr.arg - 1) ESH_NULL = name
    rw [hlen, hst, List.getD_eq_getElem?_getD]
    have : below.length + 1 + instr.arg - instr.arg - 1 = below.length := by omega
    rw [this, List.append_assoc, List.getElem?_append_right (le_refl _)]
    simp
  have hx : exec_instr w vm f instr = cmd_instr w vm f instr := by
    unfold exec_instr
    simp only [hop]
  have hlook := (cmd_instr_lookup w vm f instr cmd cmdlen globals (by omega)
    (by rw [hslot]; exact hname) hglobals).2.2 hmiss hcmd hroom
  rw [hslot] at hlook
  have hp : (if instr.l &&& 2 ≠ 0 then true_value else ESH_NULL) =
      if instr.l.testBit 1 then true_value else ESH_NULL := by
    rw [← bit1_flag]; simp
  have hc : (if instr.l &&& 1 ≠ 0 then true_value else ESH_NULL) =
      if instr.l.testBit 0 then true_value else ESH_NULL := by
    rw [← bit0_flag]; simp
  rw [hp, hc] at hlook
  obtain ⟨e1, _, _, e4, e5⟩ := fold_fields vm.incr f
  have e1' : (fold_next_unpack_instr vm.incr f).2.esh = vm.esh := e1
  have ebase : (fold_next_unpack_instr vm.incr f).2.thread.current_frame.stack_base =
      vm.thread.current_frame.stack_base := congrArg esh_state.stack_base e1'
  have ecap : (fold_next_unpack_instr vm.incr f).2.thread.stack_cap = vm.thread.stack_cap :=
    congrArg esh_state.stack_cap e1'
  have eheap : (fold_next_unpack_instr vm.incr f).2.heap = vm.heap :=
    congrArg esh_state.heap e1'
  generalize hvx : (fold_next_unpack_instr vm.incr f).2.put { vm.esh with
      stack := vm.thread.stack ++ [name,
        if instr.l.testBit 1 then true_value else ESH_NULL,
        if instr.l.testBit 0 then true_value else ESH_NULL] } = vmx at hlook
  have x1 : vmx.thread.stack = vm.thread.stack ++ dispatcher_flags name instr.l := by
    rw [← hvx]; rfl
  have x2 : vmx.thread.current_frame =
      (fold_next_unpack_instr vm.incr f).2.thread.current_frame := by
    rw [← hvx]
    show ({ (fold_next_unpack_instr vm.incr f).2.thread.current_frame with
      stack_base := vm.thread.current_frame.stack_base } : esh_stack_frame) = _
    rw [← ebase]
  have x3 : vmx.thread.stack_frames =
      (fold_next_unpack_instr vm.incr f).2.thread.stack_frames := by
    rw [← hvx]; rfl
  have x4 : vmx.heap = vm.heap := by rw [← hvx]; rfl
  have x5 : vmx.closures = vm.closures := by rw [← hvx]; exact e4
  have x6 : vmx.functions = vm.functions := by rw [← hvx]; exact e5
  have x7 : vmx.thread.stack_cap = vm.thread.stack_cap := by rw [← hvx]; rfl
  have hflen : (dispatcher_flags name instr.l).length = 3 := rfl
  have hxlen : vmx.thread.stack.length = below.length + 1 + instr.arg + 3 := by
    rw [x1, List.length_append, hflen, hlen]
  have hdrop : vmx.thread.stack.drop (vmx.thread.stack.length - (instr.arg + 3)) =
      args ++ dispatcher_flags name instr.l := by
    rw [hxlen, x1, hst]
    have : below.length + 1 + instr.arg + 3 - (instr.arg + 3) = (below ++ [name]).length := by
      simp
    rw [this, List.append_assoc (below ++ [name]), List.drop_left]
  refine ⟨vmx, by rw [hx, hlook], x1, hdrop, ?_⟩
  intro cl d hobj hcl hd har1 har2 hsum
  have har := (enter_fn_arity w vmx (instr.arg + 3) (fold_next_unpack_instr vm.incr f).1
    (some vm.cmd) false vm.cmd cl d (by omega)
    (by rw [x2, ebase, hxlen]; omega) rfl (by rw [x4]; exact hobj) (by rw [x5]; exact hcl)
    (by rw [x6]; exact hd) hsum).2.2 har1 har2
  constructor
  · intro hco
    rw [hx, hlook, har, if_pos hco]
  · intro hnoco hframes hstk hobjw hlocals
    rw [hnoco] at har
    simp only [Bool.false_eq_true, if_false] at har
    obtain ⟨vm1, f1, f2, f3, f4, f5, f6⟩ := enter_frame_locals w vmx (instr.arg + 3)
      (fold_next_unpack_instr vm.incr f).1 cl d false (by rw [x7, hxlen]; omega)
      (by rw [hxlen]; omega) (by rw [x2, ebase, hxlen]; omega) hframes hstk hobjw hlocals
    refine ⟨vm1, ?_, ?_, fun hn => ?_, fun h0 hup => ?_, fun h0 hup => ?_⟩
    · rw [hx, hlook, har, f1]; rfl
    · unfold frame_pushed at f2 ⊢
      rw [x2, x3] at f2
      exact f2
    · rw [f3, f4 hn]
      exact hdrop
    · rw [f3, (f5 h0 hup).1, List.drop_append_of_le_length (by omega), hdrop]
    · obtain ⟨_, g2, g3⟩ := f6 h0 hup
      rw [g2, g3, hdrop]

theorem C19_dispatcher_arguments_witness :
    ∃ vm1, exec_instr sample_world (dispatcher_state (sample_dispatcher false))
        (sample_dispatcher false) ⟨14, 1, 3⟩ = some (.cont vm1) ∧
      vm1.thread.stack.drop vm1.thread.current_frame.stack_base =
        [5] ++ dispatcher_flags sample_name 3 ++ List.replicate (5 - (1 + 3)) ESH_NULL := by
  obtain ⟨_, _, _, _, h⟩ := C19_dispatcher_arguments sample_world
    (dispatcher_state (sample_dispatcher false)) (sample_dispatcher false) ⟨14, 1, 3⟩
    [] [5] sample_name [102, 0, 0, 0, 0, 0, 0] 1 (sample_header none false)
    (by decide) rfl rfl (by decide) (by decide) (by decide) (by decide) (by decide)
    (by decide) (by decide)
  obtain ⟨vm1, h1, _, _, h4, _⟩ := (h ⟨false, 32, 0⟩ (sample_dispatcher false) (by decide) rfl
    rfl (by decide) (Or.inl (by decide)) (by decide)).2 rfl rfl rfl
    (fun _ h => absurd h (by decide)) (fun _ => by decide)
  exact ⟨vm1, h1, h4 rfl rfl⟩

/-! ## The compiler only appends to the function under construction -/

end Esh
